import Mathlib

/-!
# ArrayStorage (include/hermes/VM/ArrayStorage.h)

A shallow embedding of the GC-managed resizable vector `ArrayStorage` and the
properties of its inline operations.

Conventions of the embedding:

* `uint32_t` quantities are natural numbers, reduced `% 2 ^ 32` wherever the C++
  arithmetic is carried out in, or converted to, 32 bits;
* an `assert` of the source is a check whose failure is the result `none`;
* a `CallResult` is either `EXCEPTION` (the thrown value is then recorded in the
  runtime) or a value;
* the trailing objects of a cell are a function from slot index to value; the
  memory handed out by the allocator has unspecified content, which is a field
  of the runtime.
-/

namespace Hermes

/-! ## Values -/

/-- Modelled from the spec: `HermesValue` (HermesValue.h is not part of the sources
at hand) is the fixed-width tagged value; it distinguishes number, boolean, null,
undefined, empty, object reference and string reference. Payloads are kept as raw
bit patterns / addresses. -/
inductive HermesValue where
  | empty
  | undefined
  | null
  | bool (b : Bool)
  | number (bits : Nat)
  | object (address : Nat)
  | string (address : Nat)
deriving DecidableEq, Repr, Inhabited

/-- The value `HermesValue::encodeEmptyValue()`. -/
def HermesValue.encodeEmptyValue : HermesValue := HermesValue.empty

/-- The two values of `ExecutionStatus`. -/
inductive ExecutionStatus where
  | EXCEPTION
  | RETURNED
deriving DecidableEq, Repr

/-- A `CallResult<T>`: the status `EXCEPTION`, or a value of `T`. -/
inductive CallResult (α : Type) where
  | EXCEPTION
  | value (v : α)
deriving DecidableEq, Repr

/-- Values a native function can leave in the runtime as the thrown value. -/
inductive Thrown where
  /-- The RangeError of `throwExcessiveCapacityError`: the attempted capacity
  and the maximum that is allowed. -/
  | RangeErrorExcessiveCapacity (capacity maxAllowed : Nat)
deriving DecidableEq, Repr

/-! ## Build constants -/

/-- Constants the header uses and does not define. `headerSize` is
`sizeof(ArrayStorage)` as `totalSizeToAlloc<GCHermesValue>(0)` reports it,
`valueSize` is `sizeof(GCHermesValue)`, `maxAllocationSize` is
`GC::maxAllocationSize()`, `heapAlign` is `HeapAlign`. -/
structure Layout where
  headerSize : Nat
  valueSize : Nat
  maxAllocationSize : Nat
  heapAlign : Nat
deriving DecidableEq, Repr

/-- A 64-bit build with a collector that does not limit single allocations:
a 24 byte header, 8 byte values, `maxAllocationSize() = UINT32_MAX`, 8 byte heap
alignment. -/
def Layout.malloc64 : Layout :=
  { headerSize := 24, valueSize := 8, maxAllocationSize := 4294967295, heapAlign := 8 }

/-- A 64-bit build with a segmented heap whose largest allocation is 4 MiB. -/
def Layout.segment64 : Layout :=
  { headerSize := 24, valueSize := 8, maxAllocationSize := 4194304, heapAlign := 8 }

/-- The number of values of `uint32_t`. -/
def UINT32 : Nat := 2 ^ 32

/-- The untruncated `size_t` sum `totalSizeToAlloc<GCHermesValue>(capacity)`:
`sizeof(ArrayStorage) + capacity * sizeof(GCHermesValue)`. -/
def totalSizeToAlloc (L : Layout) (capacity : Nat) : Nat :=
  L.headerSize + capacity * L.valueSize

/-- `ArrayStorage::allocationSize`: the `size_t` sum returned as `uint32_t`. -/
def allocationSize (L : Layout) (capacity : Nat) : Nat :=
  totalSizeToAlloc L capacity % UINT32

/-- `ArrayStorage::maxElements`:
`(GC::maxAllocationSize() - allocationSize(0)) / sizeof(GCHermesValue)`, the
subtraction in unsigned 32-bit arithmetic, the quotient returned as `size_type`. -/
def maxElements (L : Layout) : Nat :=
  ((L.maxAllocationSize + UINT32 - allocationSize L 0) % UINT32 / L.valueSize) % UINT32

/-- The two `static_assert`s that close the header: "maxElements() is too big" and
"maxElements() is too small" (the subtraction is an unsigned 32-bit one). A layout
the header compiles for satisfies both. -/
def staticAsserts (L : Layout) : Prop :=
  allocationSize L (maxElements L) ≤ L.maxAllocationSize ∧
  (L.maxAllocationSize + UINT32 - allocationSize L (maxElements L)) % UINT32 < L.heapAlign

instance (L : Layout) : Decidable (staticAsserts L) := by
  unfold staticAsserts
  infer_instance

/-- Sanity of a layout: the header alone fits a single allocation, the maximum
allocation size is a `uint32_t`, and a value takes at least one byte. -/
def Layout.sane (L : Layout) : Prop :=
  L.headerSize ≤ L.maxAllocationSize ∧ L.maxAllocationSize < UINT32 ∧ 0 < L.valueSize

instance (L : Layout) : Decidable L.sane := by
  unfold Layout.sane
  infer_instance

/-! ## Runtime and cells -/

/-- One request made to the allocator: which space, and how many bytes. -/
structure Allocation where
  longLived : Bool
  bytes : Nat
deriving DecidableEq, Repr

/-- The part of `Runtime` the storage code touches: the requests for cell memory
made so far through `alloc` and `allocLongLived`, the pending thrown value, and the
(unspecified) content of the memory the allocator hands out: `rawMemory k i` is what
slot `i` of the `k`-th allocation holds before anything is stored in it. -/
structure Runtime where
  allocations : List Allocation
  thrownValue : Option Thrown
  rawMemory : Nat → Nat → HermesValue

/-- `runtime->alloc</*fixedSize*/ false>(size)`: memory for a new cell. -/
def Runtime.alloc (runtime : Runtime) (size : Nat) : (Nat → HermesValue) × Runtime :=
  (runtime.rawMemory runtime.allocations.length,
   { runtime with allocations := runtime.allocations ++ [⟨false, size⟩] })

/-- `runtime->allocLongLived(size)`: memory for a new long-lived cell. -/
def Runtime.allocLongLived (runtime : Runtime) (size : Nat) : (Nat → HermesValue) × Runtime :=
  (runtime.rawMemory runtime.allocations.length,
   { runtime with allocations := runtime.allocations ++ [⟨true, size⟩] })

/-- An `ArrayStorage` cell: the fields `capacity_` and `size_`, and the trailing
`GCHermesValue` objects (`data()`), indexed by slot. -/
structure ArrayStorage where
  capacity_ : Nat
  size_ : Nat
  data : Nat → HermesValue

namespace ArrayStorage

/-- The constructor `ArrayStorage(Runtime *, size_type capacity)` placed on the
memory `mem`: it sets `capacity_`, `size_` starts at 0, no slot is written. -/
def construct (mem : Nat → HermesValue) (capacity : Nat) : ArrayStorage :=
  { capacity_ := capacity, size_ := 0, data := mem }

/-- Modelled from the spec: `throwExcessiveCapacityError` is defined in
ArrayStorage.cpp, which is not part of the sources at hand; by its declaration it
throws a RangeError describing the attempted capacity and the maximum allowed, and
returns `ExecutionStatus::EXCEPTION` always. Only the thrown value is recorded; how
the error object itself comes into being is outside the model. -/
def throwExcessiveCapacityError (L : Layout) (runtime : Runtime) (capacity : Nat) :
    ExecutionStatus × Runtime :=
  (ExecutionStatus.EXCEPTION,
   { runtime with
     thrownValue := some (Thrown.RangeErrorExcessiveCapacity capacity (maxElements L)) })

/-- `ArrayStorage::create(Runtime *, size_type capacity)`. -/
def create (L : Layout) (runtime : Runtime) (capacity : Nat) :
    CallResult ArrayStorage × Runtime :=
  if capacity > maxElements L then
    (CallResult.EXCEPTION, (throwExcessiveCapacityError L runtime capacity).2)
  else
    let (mem, runtime1) := runtime.alloc (allocationSize L capacity)
    (CallResult.value (construct mem capacity), runtime1)

/-- `ArrayStorage::createLongLived(Runtime *, size_type capacity)`. -/
def createLongLived (L : Layout) (runtime : Runtime) (capacity : Nat) :
    CallResult ArrayStorage × Runtime :=
  if capacity > maxElements L then
    (CallResult.EXCEPTION, (throwExcessiveCapacityError L runtime capacity).2)
  else
    let (mem, runtime1) := runtime.allocLongLived (allocationSize L capacity)
    (CallResult.value (construct mem capacity), runtime1)

/-- One store `data()[index].set(value, heap)`. -/
def store (data : Nat → HermesValue) (index : Nat) (value : HermesValue) :
    Nat → HermesValue :=
  fun i => if i = index then value else data i

/-- The loop of `GCHermesValue::fill`: `count` stores of `value` at consecutive
slots starting with `first`. -/
def fillLoop (data : Nat → HermesValue) (first : Nat) (value : HermesValue) :
    Nat → (Nat → HermesValue)
  | 0 => data
  | count + 1 => fillLoop (store data first value) (first + 1) value count

/-- Modelled from the spec: `GCHermesValue::fill(first, last, value)` (HermesValue.h
is not part of the sources at hand) sets every slot of `[first, last)` to `value`. -/
def fill (data : Nat → HermesValue) (first last : Nat) (value : HermesValue) :
    Nat → HermesValue :=
  fillLoop data first value (last - first)

/-- `ArrayStorage::resizeWithinCapacity(self, runtime, newSize)`; `none` when the
assertion `newSize <= capacity_` fails. -/
def resizeWithinCapacity (self : ArrayStorage) (newSize : Nat) : Option ArrayStorage :=
  if newSize ≤ self.capacity_ then
    let data1 :=
      if newSize > self.size_ then
        fill self.data self.size_ newSize HermesValue.encodeEmptyValue
      else self.data
    some { self with data := data1, size_ := newSize }
  else none

/-- `ArrayStorage::create(Runtime *, size_type capacity, size_type size)`; `none`
when the assertion inside `resizeWithinCapacity` fails. -/
def createWithSize (L : Layout) (runtime : Runtime) (capacity size : Nat) :
    Option (CallResult ArrayStorage × Runtime) :=
  match create L runtime capacity with
  | (CallResult.EXCEPTION, runtime1) => some (CallResult.EXCEPTION, runtime1)
  | (CallResult.value arr, runtime1) =>
    match resizeWithinCapacity arr size with
    | none => none
    | some arr1 => some (CallResult.value arr1, runtime1)

/-- `ArrayStorage::at(index)`; `none` when the assertion `index < size_` fails. -/
def at_ (self : ArrayStorage) (index : Nat) : Option HermesValue :=
  if index < self.size_ then some (self.data index) else none

/-- `ArrayStorage::capacity()`. -/
def capacity (self : ArrayStorage) : Nat := self.capacity_

/-- `ArrayStorage::size()`. -/
def size (self : ArrayStorage) : Nat := self.size_

/-- The type of `pushBackSlowPath`, which is declared in the header and defined
elsewhere: from the cell behind the handle, the runtime and the value to a status,
the cell behind the handle afterwards, and the runtime afterwards. -/
abbrev SlowPath : Type :=
  ArrayStorage → Runtime → HermesValue → ExecutionStatus × ArrayStorage × Runtime

/-- `ArrayStorage::push_back(selfHandle, runtime, value)`. The result is the status,
the cell `selfHandle` refers to afterwards, and the runtime. `size_++` is a 32-bit
increment. -/
def push_back (pushBackSlowPath : SlowPath) (self : ArrayStorage) (runtime : Runtime)
    (value : HermesValue) : ExecutionStatus × ArrayStorage × Runtime :=
  if self.size_ < self.capacity_ then
    (ExecutionStatus.RETURNED,
     { self with data := store self.data self.size_ value,
                 size_ := (self.size_ + 1) % UINT32 },
     runtime)
  else pushBackSlowPath self runtime value

/-- `ArrayStorage::pop_back()`: the value returned and the cell afterwards; `none`
when the assertion `size_ > 0` fails. `--size_` is a 32-bit decrement. -/
def pop_back (self : ArrayStorage) : Option (HermesValue × ArrayStorage) :=
  if self.size_ > 0 then
    let size1 := (self.size_ + UINT32 - 1) % UINT32
    some (self.data size1, { self with size_ := size1 })
  else none

/-- The type of `shift`, which is declared in the header and defined elsewhere: from
the cell behind the handle, the runtime, `fromFirst`, `toFirst` and `toLast` to a
status, the cell behind the handle afterwards, and the runtime afterwards. -/
abbrev ShiftFn : Type :=
  ArrayStorage → Runtime → Nat → Nat → Nat → ExecutionStatus × ArrayStorage × Runtime

/-- `ArrayStorage::resize(selfHandle, runtime, newSize)`. -/
def resize (shift : ShiftFn) (self : ArrayStorage) (runtime : Runtime) (newSize : Nat) :
    ExecutionStatus × ArrayStorage × Runtime :=
  shift self runtime 0 0 newSize

/-- The argument `newSize - selfHandle->size_` that `resizeLeft` passes as `toFirst`:
a subtraction of two `uint32_t`. -/
def resizeLeftToFirst (self : ArrayStorage) (newSize : Nat) : Nat :=
  (newSize + UINT32 - self.size_) % UINT32

/-- `ArrayStorage::resizeLeft(selfHandle, runtime, newSize)`. -/
def resizeLeft (shift : ShiftFn) (self : ArrayStorage) (runtime : Runtime) (newSize : Nat) :
    ExecutionStatus × ArrayStorage × Runtime :=
  shift self runtime 0 (resizeLeftToFirst self newSize) newSize

/-- The `toFirst` of `resizeLeft` in the words of the specification: the integer
`newSize - size`. -/
def resizeLeftToFirstSpec (self : ArrayStorage) (newSize : Nat) : Int :=
  (newSize : Int) - (self.size_ : Int)

/-- Modelled from the spec: the copy of `count` values inside one cell towards lower
indices (part of `shift`, ArrayStorage.cpp is not part of the sources at hand), slot
by slot from the first one: `data[result + k] = data[first + k]` for
`k = 0, 1, ...`. -/
def copyLoop (data : Nat → HermesValue) (first result : Nat) : Nat → (Nat → HermesValue)
  | 0 => data
  | count + 1 => copyLoop (store data result (data first)) (first + 1) (result + 1) count

/-- Modelled from the spec: the copy of `count` values inside one cell towards higher
indices, the "in-place rightward copy" of `shift` (ArrayStorage.cpp is not part of
the sources at hand), slot by slot from the last one:
`data[result + k] = data[first + k]` for `k = count - 1, ..., 0`. -/
def copyBackwardLoop (data : Nat → HermesValue) (first result : Nat) :
    Nat → (Nat → HermesValue)
  | 0 => data
  | count + 1 =>
    copyBackwardLoop (store data (result + count) (data (first + count))) first result count

/-- Modelled from the spec: the copy of `count` values from one cell into the fresh
memory of another (part of `reallocateToLarger`, ArrayStorage.cpp is not part of the
sources at hand): `target[result + k] = source[first + k]`. -/
def uninitializedCopyLoop (source : Nat → HermesValue) (target : Nat → HermesValue)
    (first result : Nat) : Nat → (Nat → HermesValue)
  | 0 => target
  | count + 1 =>
    uninitializedCopyLoop source (store target result (source first)) (first + 1)
      (result + 1) count

/-- Modelled from the spec: the length of the data `shift` and `reallocateToLarger`
copy, `min(size - fromFirst, toLast - toFirst)`. -/
def copyLength (self : ArrayStorage) (fromFirst toFirst toLast : Nat) : Nat :=
  min (self.size_ - fromFirst) (toLast - toFirst)

/-- Modelled from the spec: the capacity chosen when a cell has to grow to hold
`request` elements (ArrayStorage.cpp is not part of the sources at hand): a geometric
factor, not less than doubling, capped at `maxElements()`. -/
def growthCapacity (L : Layout) (capacity request : Nat) : Nat :=
  min (max (capacity * 2) request) (maxElements L)

/-- Modelled from the spec: `reallocateToLarger` (declared in the header, defined in
ArrayStorage.cpp, which is not part of the sources at hand) creates a cell of the
given capacity, copies `length = min(size - fromFirst, toLast - toFirst)` elements
from `fromFirst` to `toFirst`, sets the slots before and after them up to `toLast` to
empty, sets the size to `toLast` and makes the handle refer to the new cell. -/
def reallocateToLarger (L : Layout) (self : ArrayStorage) (runtime : Runtime)
    (capacity fromFirst toFirst toLast : Nat) : ExecutionStatus × ArrayStorage × Runtime :=
  match create L runtime capacity with
  | (CallResult.EXCEPTION, runtime1) => (ExecutionStatus.EXCEPTION, self, runtime1)
  | (CallResult.value newSelf, runtime1) =>
    let length := copyLength self fromFirst toFirst toLast
    let data1 := uninitializedCopyLoop self.data newSelf.data fromFirst toFirst length
    let data2 := fill data1 0 toFirst HermesValue.encodeEmptyValue
    let data3 := fill data2 (toFirst + length) toLast HermesValue.encodeEmptyValue
    (ExecutionStatus.RETURNED, { newSelf with data := data3, size_ := toLast }, runtime1)

/-- Modelled from the spec: `shift` (declared in the header, defined in
ArrayStorage.cpp, which is not part of the sources at hand): (a) ensure a (possibly
new) cell with capacity at least `toLast`, which fails with the capacity-exceeded
error when `toLast` is above `maxElements()`; (b) copy
`length = min(size - fromFirst, toLast - toFirst)` elements from `fromFirst` to
`toFirst`; (c) set the size to `toLast`; (d) set all slots of `[0, toLast)` outside
`[toFirst, toFirst + length)` to empty. When the capacity suffices the copy is made
in place. -/
def shift (L : Layout) : ShiftFn := fun self runtime fromFirst toFirst toLast =>
  if toLast ≤ self.capacity_ then
    let length := copyLength self fromFirst toFirst toLast
    let data1 :=
      if fromFirst > toFirst then copyLoop self.data fromFirst toFirst length
      else if fromFirst < toFirst then copyBackwardLoop self.data fromFirst toFirst length
      else self.data
    let data2 := fill data1 0 toFirst HermesValue.encodeEmptyValue
    let data3 := fill data2 (toFirst + length) toLast HermesValue.encodeEmptyValue
    (ExecutionStatus.RETURNED, { self with data := data3, size_ := toLast }, runtime)
  else if toLast > maxElements L then
    ((throwExcessiveCapacityError L runtime toLast).1, self,
     (throwExcessiveCapacityError L runtime toLast).2)
  else
    reallocateToLarger L self runtime (growthCapacity L self.capacity_ toLast)
      fromFirst toFirst toLast

/-- Modelled from the spec: `pushBackSlowPath` (declared in the header, defined in
ArrayStorage.cpp, which is not part of the sources at hand), the slow growth path of
`push_back`: the cell grows by one element through `resize`, under the growth policy
of `shift`, and the value is stored in the new last slot. `size + 1` is a 32-bit
sum. -/
def pushBackSlowPath (L : Layout) : SlowPath := fun self runtime value =>
  match resize (shift L) self runtime ((self.size_ + 1) % UINT32) with
  | (ExecutionStatus.EXCEPTION, self1, runtime1) =>
    (ExecutionStatus.EXCEPTION, self1, runtime1)
  | (ExecutionStatus.RETURNED, self1, runtime1) =>
    (ExecutionStatus.RETURNED,
     { self1 with data := store self1.data self.size_ value }, runtime1)

/-- The values of a list pushed one after the other with `push_back`, up to the
first push that fails. -/
def pushAll (slow : SlowPath) :
    ArrayStorage → Runtime → List HermesValue → ExecutionStatus × ArrayStorage × Runtime
  | self, runtime, [] => (ExecutionStatus.RETURNED, self, runtime)
  | self, runtime, value :: values =>
    match push_back slow self runtime value with
    | (ExecutionStatus.EXCEPTION, self1, runtime1) =>
      (ExecutionStatus.EXCEPTION, self1, runtime1)
    | (ExecutionStatus.RETURNED, self1, runtime1) => pushAll slow self1 runtime1 values

/-- The cell of size 3 and capacity 3 holding `[a, b, c]`, as three strings. -/
def abcCell : ArrayStorage :=
  { capacity_ := 3, size_ := 3,
    data := fun i => HermesValue.string (100 + i) }

/-- The cell of size 3 and capacity 8 holding `[a, b, c]`, as three strings, with raw
memory behind them. -/
def abcCellRoomy : ArrayStorage :=
  { capacity_ := 8, size_ := 3,
    data := fun i => HermesValue.string (100 + i) }

/-- The cell of capacity 4 holding the two values `number 7`, `number 8`; the other
slots hold what a pop left behind (`number 9`) and raw memory. -/
def sampleCell : ArrayStorage :=
  { capacity_ := 4, size_ := 2,
    data := fun i => HermesValue.number (7 + i) }

/-- A slow path that fails without doing anything; used to evaluate `push_back`. -/
def failingSlowPath : SlowPath :=
  fun self runtime _ => (ExecutionStatus.EXCEPTION, self, runtime)

/-- The operations a client applies to a cell it holds, as far as the header
defines them. -/
inductive Op where
  | push_back (value : HermesValue)
  | pop_back
  | resizeWithinCapacity (newSize : Nat)
deriving DecidableEq, Repr

/-- The precondition under which an operation is applied: `push_back` on its fast
path (`size < capacity`), `pop_back` on a non-empty cell, `resizeWithinCapacity`
within the capacity. -/
def Op.admissible (self : ArrayStorage) : Op → Prop
  | Op.push_back _ => self.size_ < self.capacity_
  | Op.pop_back => self.size_ > 0
  | Op.resizeWithinCapacity newSize => newSize ≤ self.capacity_

instance (self : ArrayStorage) (op : Op) : Decidable (op.admissible self) := by
  cases op <;> simp only [Op.admissible] <;> infer_instance

/-- One operation applied to a cell: the cell afterwards, or `none` when the
operation is not admissible. `push_back` is restricted to its fast path here; the
other two fail through their own assertions. -/
def applyOp (slow : SlowPath) (runtime : Runtime) (self : ArrayStorage) :
    Op → Option ArrayStorage
  | Op.push_back value =>
    if self.size_ < self.capacity_ then some (push_back slow self runtime value).2.1
    else none
  | Op.pop_back => (pop_back self).map Prod.snd
  | Op.resizeWithinCapacity newSize => resizeWithinCapacity self newSize

/-- A sequence of operations applied from left to right; `none` as soon as one of
them is not admissible. -/
def applyOps (slow : SlowPath) (runtime : Runtime) :
    ArrayStorage → List Op → Option ArrayStorage
  | self, [] => some self
  | self, op :: ops =>
    match applyOp slow runtime self op with
    | none => none
    | some self1 => applyOps slow runtime self1 ops

/-- The cells a sequence of operations goes through: the cell it starts from and the
cell after every step, up to the first operation that is not admissible. -/
def trace (slow : SlowPath) (runtime : Runtime) :
    ArrayStorage → List Op → List ArrayStorage
  | self, [] => [self]
  | self, op :: ops =>
    self :: (match applyOp slow runtime self op with
             | none => []
             | some self1 => trace slow runtime self1 ops)

/-- What the operations keep true of a cell: the size is at most the capacity, and
the capacity is a `uint32_t`. -/
def WellSized (self : ArrayStorage) : Prop :=
  self.size_ ≤ self.capacity_ ∧ self.capacity_ < UINT32

instance (self : ArrayStorage) : Decidable (WellSized self) := by
  unfold WellSized
  infer_instance

/-- What a client can observe of a cell without breaking a contract: the capacity,
the size, and the slots at the indices below the size. -/
def liveView (self : ArrayStorage) : Nat × Nat × List HermesValue :=
  (self.capacity_, self.size_, (List.range self.size_).map self.data)

end ArrayStorage

/-! ## Sorting through a model (lib/VM/JSLib/Array.cpp) -/

/-- Modelled from the spec: the interface `SortModel` (Sorting.h is not part of the
sources at hand), the capability contract of the sort: `swap(i, j)` gives success or
failure, `less(i, j)` gives a boolean or failure; both may change the state `σ` of
the collection and of everything else they reach. -/
structure SortModel (σ : Type) where
  swap : σ → Nat → Nat → ExecutionStatus × σ
  less : σ → Nat → Nat → CallResult Bool × σ

/-- The position of the highest bit set in `n`, for `0 < n < 2 ^ fuel`. -/
def log2Floor : Nat → Nat → Nat
  | 0, _ => 0
  | fuel + 1, n => if n < 2 then 0 else log2Floor fuel (n / 2) + 1

/-- The bits of the IEEE 754 double that equals the natural number `n`, for
`n < 2 ^ 53`: biased exponent `1023 + ⌊log₂ n⌋` and the fraction below it. -/
def doubleBits (n : Nat) : Nat :=
  if n = 0 then 0
  else (1023 + log2Floor 64 n) * 2 ^ 52 +
    (n - 2 ^ log2Floor 64 n) * 2 ^ (52 - log2Floor 64 n)

/-- The value `HermesValue::encodeDoubleValue(n)` for an unsigned integer `n`. -/
def HermesValue.encodeDoubleValue (n : Nat) : HermesValue :=
  HermesValue.number (doubleBits n)

/-- `HermesValue::isUndefined()`. -/
def HermesValue.isUndefined : HermesValue → Bool
  | HermesValue.undefined => true
  | _ => false

/-- The comparison `d < 0` of a double given by its bits: the sign bit is set and `d`
is neither a NaN nor a zero. -/
def doubleLtZero (bits : Nat) : Bool :=
  bits / 2 ^ 63 % 2 == 1 &&
  !(bits / 2 ^ 52 % 2048 == 2047 && bits % 2 ^ 52 != 0) &&
  !(bits / 2 ^ 52 % 2048 == 0 && bits % 2 ^ 52 == 0)

/-- Modelled from the spec: `ComputedPropertyDescriptor` (declared outside the
sources at hand): what a property lookup found, as flags and a slot. -/
structure ComputedPropertyDescriptor where
  flags : Nat
  slot : Nat
deriving DecidableEq, Repr, Inhabited

/-- The functions of the virtual machine that the sort code in Array.cpp calls and
that are defined outside the sources at hand, over a runtime state `R`. Objects and
callables are given by their address; every function returns the runtime state it
leaves behind.

* `getComputedPrimitiveDescriptor r obj name`: the object on the prototype chain of
  `obj` that has the property (`none` when there is none) and its descriptor;
* `getComputedPropertyValue r obj propObj desc`: the value of the property found;
* `putComputed_RJS r obj name value` and `deleteComputed r obj name`, both called
  with `PropOpFlags().plusThrowOnError()`;
* `executeCall2 r fn thisArg x y`: the call of the callable `fn`;
* `toNumber_RJS r v`: the number `v` converts to, given by its bits;
* `toString_RJS r v`: the string `v` converts to;
* `lessOp_RJS r x y`: the value that `lessOp_RJS(...).getValue()` yields;
* `makeHandle r v`: a new handle holding `v` in the topmost scope;
* `newGCScope`, `createMarker`, `flushToMarker`, `endGCScope`: the scope operations;
* `dyn_vmcast_Callable r v`: the callable `v` is, if it is one;
* `raiseTypeError r message`: the runtime with the error thrown;
* `toObject r v`: the object `v` converts to;
* `getNamed_length r obj`: `getNamed_RJS` for the property `length`;
* `toLengthU64 r v`: the length `v` converts to. -/
structure JSOps (R : Type) where
  getComputedPrimitiveDescriptor :
    R → Nat → HermesValue → Option Nat × ComputedPropertyDescriptor × R
  getComputedPropertyValue :
    R → Nat → Nat → ComputedPropertyDescriptor → CallResult HermesValue × R
  putComputed_RJS : R → Nat → HermesValue → HermesValue → CallResult Bool × R
  deleteComputed : R → Nat → HermesValue → CallResult Bool × R
  executeCall2 : R → Nat → HermesValue → HermesValue → HermesValue →
    CallResult HermesValue × R
  toNumber_RJS : R → HermesValue → CallResult Nat × R
  toString_RJS : R → HermesValue → CallResult HermesValue × R
  lessOp_RJS : R → HermesValue → HermesValue → Bool × R
  makeHandle : R → HermesValue → R
  newGCScope : R → R
  createMarker : R → Nat
  flushToMarker : R → Nat → R
  endGCScope : R → R
  dyn_vmcast_Callable : R → HermesValue → Option Nat
  raiseTypeError : R → String → R
  toObject : R → HermesValue → CallResult Nat × R
  getNamed_length : R → Nat → CallResult HermesValue × R
  toLengthU64 : R → HermesValue → CallResult Nat × R

/-- The fields of `StandardSortModel` other than the runtime and the scope, which are
part of the runtime state: the comparison function (`none` for a null handle), the
object, the values of the six preallocated handles, and the marker. -/
structure StandardSortModel where
  compareFn_ : Option Nat
  obj_ : Nat
  aHandle_ : HermesValue
  bHandle_ : HermesValue
  aValue_ : HermesValue
  bValue_ : HermesValue
  aDescObjHandle_ : Option Nat
  bDescObjHandle_ : Option Nat
  gcMarker_ : Nat
deriving DecidableEq, Repr

namespace StandardSortModel

variable {R : Type}

/-- The constructor `StandardSortModel(runtime, obj, compareFn)`: a new scope, six
handles in it (four holding undefined, two holding a null object), and the marker
taken after them. -/
def construct (ops : JSOps R) (runtime : R) (obj : Nat) (compareFn : Option Nat) :
    StandardSortModel × R :=
  let r0 := ops.newGCScope runtime
  let r1 := ops.makeHandle r0 HermesValue.undefined
  let r2 := ops.makeHandle r1 HermesValue.undefined
  let r3 := ops.makeHandle r2 HermesValue.undefined
  let r4 := ops.makeHandle r3 HermesValue.undefined
  let r5 := ops.makeHandle r4 (HermesValue.object 0)
  let r6 := ops.makeHandle r5 (HermesValue.object 0)
  ({ compareFn_ := compareFn, obj_ := obj,
     aHandle_ := HermesValue.undefined, bHandle_ := HermesValue.undefined,
     aValue_ := HermesValue.undefined, bValue_ := HermesValue.undefined,
     aDescObjHandle_ := none, bDescObjHandle_ := none,
     gcMarker_ := ops.createMarker r6 }, r6)

/-- The body of `StandardSortModel::swap(a, b)`, between the construction and the
destruction of its `GCScopeMarkerRAII`. -/
def swapBody (ops : JSOps R) (sm0 : StandardSortModel) (runtime : R) (a b : Nat) :
    ExecutionStatus × StandardSortModel × R :=
  let sm1 := { sm0 with aHandle_ := HermesValue.encodeDoubleValue a,
                        bHandle_ := HermesValue.encodeDoubleValue b }
  match ops.getComputedPrimitiveDescriptor runtime sm1.obj_ sm1.aHandle_ with
  | (aObj, aDesc, r1) =>
  let sm2 := { sm1 with aDescObjHandle_ := aObj }
  match ops.getComputedPrimitiveDescriptor r1 sm2.obj_ sm2.bHandle_ with
  | (bObj, bDesc, r2) =>
  let sm3 := { sm2 with bDescObjHandle_ := bObj }
  -- if (aDescObjHandle_) { aValue_ = getComputedPropertyValue(...) }
  let readA : ExecutionStatus × StandardSortModel × R :=
    match sm3.aDescObjHandle_ with
    | some aPropObj =>
      match ops.getComputedPropertyValue r2 sm3.obj_ aPropObj aDesc with
      | (CallResult.EXCEPTION, r) => (ExecutionStatus.EXCEPTION, sm3, r)
      | (CallResult.value v, r) => (ExecutionStatus.RETURNED, { sm3 with aValue_ := v }, r)
    | none => (ExecutionStatus.RETURNED, sm3, r2)
  match readA with
  | (ExecutionStatus.EXCEPTION, sm, r) => (ExecutionStatus.EXCEPTION, sm, r)
  | (ExecutionStatus.RETURNED, sm4, r3) =>
  -- if (bDescObjHandle_) { bValue_ = getComputedPropertyValue(...) }
  let readB : ExecutionStatus × StandardSortModel × R :=
    match sm4.bDescObjHandle_ with
    | some bPropObj =>
      match ops.getComputedPropertyValue r3 sm4.obj_ bPropObj bDesc with
      | (CallResult.EXCEPTION, r) => (ExecutionStatus.EXCEPTION, sm4, r)
      | (CallResult.value v, r) => (ExecutionStatus.RETURNED, { sm4 with bValue_ := v }, r)
    | none => (ExecutionStatus.RETURNED, sm4, r3)
  match readB with
  | (ExecutionStatus.EXCEPTION, sm, r) => (ExecutionStatus.EXCEPTION, sm, r)
  | (ExecutionStatus.RETURNED, sm5, r4) =>
  -- if (bDescObjHandle_) putComputed_RJS(obj_, aHandle_, bValue_) else deleteComputed
  let writeA : CallResult Bool × R :=
    match sm5.bDescObjHandle_ with
    | some _ => ops.putComputed_RJS r4 sm5.obj_ sm5.aHandle_ sm5.bValue_
    | none => ops.deleteComputed r4 sm5.obj_ sm5.aHandle_
  match writeA with
  | (CallResult.EXCEPTION, r) => (ExecutionStatus.EXCEPTION, sm5, r)
  | (CallResult.value _, r5) =>
  -- if (aDescObjHandle_) putComputed_RJS(obj_, bHandle_, aValue_) else deleteComputed
  let writeB : CallResult Bool × R :=
    match sm5.aDescObjHandle_ with
    | some _ => ops.putComputed_RJS r5 sm5.obj_ sm5.bHandle_ sm5.aValue_
    | none => ops.deleteComputed r5 sm5.obj_ sm5.bHandle_
  match writeB with
  | (CallResult.EXCEPTION, r) => (ExecutionStatus.EXCEPTION, sm5, r)
  | (CallResult.value _, r6) => (ExecutionStatus.RETURNED, sm5, r6)

/-- `StandardSortModel::swap(a, b)`: the body, then the destructor of the
`GCScopeMarkerRAII`, which flushes the scope to the marker on every way out. -/
def swap (ops : JSOps R) (sm : StandardSortModel) (runtime : R) (a b : Nat) :
    ExecutionStatus × StandardSortModel × R :=
  match swapBody ops sm runtime a b with
  | (status, sm1, r1) => (status, sm1, ops.flushToMarker r1 sm1.gcMarker_)

/-- The body of `StandardSortModel::less(a, b)`, between the construction and the
destruction of its `GCScopeMarkerRAII`. -/
def lessBody (ops : JSOps R) (sm0 : StandardSortModel) (runtime : R) (a b : Nat) :
    CallResult Bool × StandardSortModel × R :=
  let sm1 := { sm0 with aHandle_ := HermesValue.encodeDoubleValue a,
                        bHandle_ := HermesValue.encodeDoubleValue b }
  match ops.getComputedPrimitiveDescriptor runtime sm1.obj_ sm1.aHandle_ with
  | (none, _, r1) =>
    -- Spec defines empty as greater than everything.
    (CallResult.value false, { sm1 with aDescObjHandle_ := none }, r1)
  | (some aPropObj, aDesc, r1) =>
  let sm2 := { sm1 with aDescObjHandle_ := some aPropObj }
  match ops.getComputedPrimitiveDescriptor r1 sm2.obj_ sm2.bHandle_ with
  | (none, _, r2) =>
    -- Spec defines empty as greater than everything.
    (CallResult.value true, { sm2 with bDescObjHandle_ := none }, r2)
  | (some bPropObj, bDesc, r2) =>
  let sm3 := { sm2 with bDescObjHandle_ := some bPropObj }
  match ops.getComputedPropertyValue r2 sm3.obj_ aPropObj aDesc with
  | (CallResult.EXCEPTION, r) => (CallResult.EXCEPTION, sm3, r)
  | (CallResult.value aVal, r3) =>
  let sm4 := { sm3 with aValue_ := aVal }
  match ops.getComputedPropertyValue r3 sm4.obj_ bPropObj bDesc with
  | (CallResult.EXCEPTION, r) => (CallResult.EXCEPTION, sm4, r)
  | (CallResult.value bVal, r4) =>
  let sm5 := { sm4 with bValue_ := bVal }
  if sm5.aValue_.isUndefined then
    -- Spec defines undefined as greater than everything.
    (CallResult.value false, sm5, r4)
  else if sm5.bValue_.isUndefined then
    -- Spec defines undefined as greater than everything.
    (CallResult.value true, sm5, r4)
  else
    match sm5.compareFn_ with
    | some compareFn =>
      -- If we have a compareFn, just use that.
      match ops.executeCall2 r4 compareFn HermesValue.undefined sm5.aValue_ sm5.bValue_ with
      | (CallResult.EXCEPTION, r) => (CallResult.EXCEPTION, sm5, r)
      | (CallResult.value callRes, r5) =>
        match ops.toNumber_RJS (ops.makeHandle r5 callRes) callRes with
        | (CallResult.EXCEPTION, r) => (CallResult.EXCEPTION, sm5, r)
        | (CallResult.value intRes, r6) => (CallResult.value (doubleLtZero intRes), sm5, r6)
    | none =>
      -- Convert both arguments to strings and use the lessOp on them.
      match ops.toString_RJS r4 sm5.aValue_ with
      | (CallResult.EXCEPTION, r) => (CallResult.EXCEPTION, sm5, r)
      | (CallResult.value aStr, r5) =>
        let sm6 := { sm5 with aValue_ := aStr }
        match ops.toString_RJS r5 sm6.bValue_ with
        | (CallResult.EXCEPTION, r) => (CallResult.EXCEPTION, sm6, r)
        | (CallResult.value bStr, r6) =>
          let sm7 := { sm6 with bValue_ := bStr }
          match ops.lessOp_RJS r6 sm7.aValue_ sm7.bValue_ with
          | (result, r7) => (CallResult.value result, sm7, r7)

/-- `StandardSortModel::less(a, b)`: the body, then the destructor of the
`GCScopeMarkerRAII`, which flushes the scope to the marker on every way out. -/
def less (ops : JSOps R) (sm : StandardSortModel) (runtime : R) (a b : Nat) :
    CallResult Bool × StandardSortModel × R :=
  match lessBody ops sm runtime a b with
  | (result, sm1, r1) => (result, sm1, ops.flushToMarker r1 sm1.gcMarker_)

/-- A `StandardSortModel` seen through the interface `SortModel`: the state is the
model together with the runtime. -/
def toSortModel (ops : JSOps R) : SortModel (StandardSortModel × R) where
  swap := fun state a b =>
    match swap ops state.1 state.2 a b with
    | (status, sm1, r1) => (status, (sm1, r1))
  less := fun state a b =>
    match less ops state.1 state.2 a b with
    | (result, sm1, r1) => (result, (sm1, r1))

end StandardSortModel

/-- The arguments of a native function: the `this` value and the argument list. -/
structure NativeArgs where
  thisArg : HermesValue
  args : List HermesValue

/-- `NativeArgs::getArg(index)`: the argument, undefined when there is none. -/
def NativeArgs.getArg (args : NativeArgs) (index : Nat) : HermesValue :=
  args.args.getD index HermesValue.undefined

/-- The type of `quickSort(SortModel *sm, uint32_t begin, uint32_t end)`, which is
declared in Sorting.h and defined elsewhere. -/
abbrev QuickSortFn (σ : Type) : Type :=
  SortModel σ → σ → Nat → Nat → ExecutionStatus × σ

/-- `arrayPrototypeSort(void *, Runtime *runtime, NativeArgs args)`. The 64-bit
length is passed to `quickSort` as its 32-bit `end` parameter. -/
def arrayPrototypeSort {R : Type} (ops : JSOps R)
    (quickSort : QuickSortFn (StandardSortModel × R)) (runtime : R) (args : NativeArgs) :
    CallResult HermesValue × R :=
  let compareFn := ops.dyn_vmcast_Callable runtime (args.getArg 0)
  if !(args.getArg 0).isUndefined && compareFn.isNone then
    (CallResult.EXCEPTION, ops.raiseTypeError runtime "Array sort argument must be callable")
  else
    match ops.toObject runtime args.thisArg with
    | (CallResult.EXCEPTION, r) => (CallResult.EXCEPTION, r)
    | (CallResult.value O, r1) =>
    let r2 := ops.makeHandle r1 (HermesValue.object O)
    match ops.getNamed_length r2 O with
    | (CallResult.EXCEPTION, r) => (CallResult.EXCEPTION, r)
    | (CallResult.value propRes, r3) =>
    match ops.toLengthU64 (ops.makeHandle r3 propRes) propRes with
    | (CallResult.EXCEPTION, r) => (CallResult.EXCEPTION, r)
    | (CallResult.value len, r4) =>
    match StandardSortModel.construct ops r4 O compareFn with
    | (sm, r5) =>
    match quickSort (StandardSortModel.toSortModel ops) (sm, r5) 0 (len % UINT32) with
    | (ExecutionStatus.EXCEPTION, state) => (CallResult.EXCEPTION, ops.endGCScope state.2)
    | (ExecutionStatus.RETURNED, state) =>
      (CallResult.value (HermesValue.object O), ops.endGCScope state.2)

/-! ## The generic sort (Sorting.cpp is not part of the sources at hand) -/

namespace Sorting

variable {σ : Type}

/-- Modelled from the spec: the inner loop of the insertion sort that the generic sort
falls back to (Sorting.cpp is not part of the sources at hand): the element at
`base + k` moves down, by swaps with its predecessor, while it is less than it. Any
failure of `less` or `swap` ends the loop with that failure. -/
def insertLoop (sm : SortModel σ) (base : Nat) : Nat → σ → ExecutionStatus × σ
  | 0, s => (ExecutionStatus.RETURNED, s)
  | k + 1, s =>
    match sm.less s (base + k + 1) (base + k) with
    | (CallResult.EXCEPTION, s1) => (ExecutionStatus.EXCEPTION, s1)
    | (CallResult.value false, s1) => (ExecutionStatus.RETURNED, s1)
    | (CallResult.value true, s1) =>
      match sm.swap s1 (base + k + 1) (base + k) with
      | (ExecutionStatus.EXCEPTION, s2) => (ExecutionStatus.EXCEPTION, s2)
      | (ExecutionStatus.RETURNED, s2) => insertLoop sm base k s2

/-- Modelled from the spec: the outer loop of the insertion sort: `count` elements,
from offset `i` on, are inserted one after the other. -/
def insertionSortLoop (sm : SortModel σ) (base : Nat) : Nat → Nat → σ → ExecutionStatus × σ
  | 0, _, s => (ExecutionStatus.RETURNED, s)
  | count + 1, i, s =>
    match insertLoop sm base i s with
    | (ExecutionStatus.EXCEPTION, s1) => (ExecutionStatus.EXCEPTION, s1)
    | (ExecutionStatus.RETURNED, s1) => insertionSortLoop sm base count (i + 1) s1

/-- Modelled from the spec: the insertion sort of `[base, limit)`, the fallback of the
generic sort below a small-size threshold. -/
def insertionSort (sm : SortModel σ) (s : σ) (base limit : Nat) : ExecutionStatus × σ :=
  insertionSortLoop sm base (limit - base - 1) 1 s

/-- Modelled from the spec: the loop of the partition step of the quicksort: the
elements at `j, j + 1, ...` (`count` of them) are compared with the pivot, which sits
at index `pivot`, and those less than it are swapped down to `store`. -/
def partitionLoop (sm : SortModel σ) (pivot : Nat) :
    Nat → Nat → Nat → σ → CallResult Nat × σ
  | 0, store, _, s => (CallResult.value store, s)
  | count + 1, store, j, s =>
    match sm.less s j pivot with
    | (CallResult.EXCEPTION, s1) => (CallResult.EXCEPTION, s1)
    | (CallResult.value false, s1) => partitionLoop sm pivot count store (j + 1) s1
    | (CallResult.value true, s1) =>
      match sm.swap s1 store j with
      | (ExecutionStatus.EXCEPTION, s2) => (CallResult.EXCEPTION, s2)
      | (ExecutionStatus.RETURNED, s2) => partitionLoop sm pivot count (store + 1) (j + 1) s2

/-- Modelled from the spec: the partition step of the quicksort on `[base, limit)`
around the last element: the index where the pivot ends up. -/
def partition (sm : SortModel σ) (s : σ) (base limit : Nat) : CallResult Nat × σ :=
  match partitionLoop sm (limit - 1) (limit - 1 - base) base base s with
  | (CallResult.EXCEPTION, s1) => (CallResult.EXCEPTION, s1)
  | (CallResult.value store, s1) =>
    match sm.swap s1 store (limit - 1) with
    | (ExecutionStatus.EXCEPTION, s2) => (CallResult.EXCEPTION, s2)
    | (ExecutionStatus.RETURNED, s2) => (CallResult.value store, s2)

/-- Modelled from the spec: the recursion of the quicksort, to a depth of at most
`fuel`: ranges of at most `threshold` elements are sorted by insertion, larger ones
are partitioned and both sides sorted in turn. Any failure ends the sort with that
failure. -/
def quickSortLoop (threshold : Nat) (sm : SortModel σ) :
    Nat → σ → Nat → Nat → ExecutionStatus × σ
  | 0, s, _, _ => (ExecutionStatus.RETURNED, s)
  | fuel + 1, s, base, limit =>
    if limit - base ≤ threshold then insertionSort sm s base limit
    else
      match partition sm s base limit with
      | (CallResult.EXCEPTION, s1) => (ExecutionStatus.EXCEPTION, s1)
      | (CallResult.value p, s1) =>
        match quickSortLoop threshold sm fuel s1 base p with
        | (ExecutionStatus.EXCEPTION, s2) => (ExecutionStatus.EXCEPTION, s2)
        | (ExecutionStatus.RETURNED, s2) => quickSortLoop threshold sm fuel s2 (p + 1) limit

/-- Modelled from the spec: `quickSort(sm, begin, end)` (declared in Sorting.h,
defined in Sorting.cpp, neither part of the sources at hand): "quicksort with a
fallback (insertion sort below a small-size threshold)", working through `less` and
`swap` only; the threshold is a parameter. The depth of the recursion never exceeds
the number of elements, which is the fuel given. -/
def quickSort (threshold : Nat) : QuickSortFn σ := fun sm s base limit =>
  quickSortLoop threshold sm (limit - base) s base limit

end Sorting

/-- A collection whose positions `i` and `j` have exchanged their elements. -/
def exchange {α : Type} (f : Nat → α) (i j : Nat) : Nat → α :=
  fun k => if k = i then f j else if k = j then f i else f k

/-- A strict weak order, given as a boolean `less`: irreflexive, transitive, and with
a transitive incomparability. -/
structure StrictWeakOrder {α : Type} (lt : α → α → Bool) : Prop where
  irrefl : ∀ a, lt a a = false
  trans : ∀ a b c, lt a b = true → lt b c = true → lt a c = true
  incomp_trans : ∀ a b c, lt a b = false → lt b a = false → lt b c = false →
    lt c b = false → lt a c = false ∧ lt c a = false

/-- A sort model that behaves as a collection of `n` elements under a `less` that
never fails: on the states that satisfy `inv` (which both operations keep), seen
through `view`, `less(i, j)` returns `lt` of the two elements and leaves the elements
alone, and `swap(i, j)` succeeds and exchanges the two. -/
structure SortModel.Lawful {σ α : Type} (sm : SortModel σ) (inv : σ → Prop)
    (view : σ → Nat → α) (lt : α → α → Bool) (n : Nat) : Prop where
  less : ∀ s i j, inv s → i < n → j < n →
    ∃ s1, sm.less s i j = (CallResult.value (lt (view s i) (view s j)), s1) ∧
      view s1 = view s ∧ inv s1
  swap : ∀ s i j, inv s → i < n → j < n →
    ∃ s1, sm.swap s i j = (ExecutionStatus.RETURNED, s1) ∧
      view s1 = exchange (view s) i j ∧ inv s1

/-- The collection itself as a sort model: the state is the sequence of elements,
`less` compares two of them and `swap` exchanges them. -/
def collectionModel {α : Type} (lt : α → α → Bool) : SortModel (Nat → α) where
  swap := fun f i j => (ExecutionStatus.RETURNED, exchange f i j)
  less := fun f i j => (CallResult.value (lt (f i) (f j)), f)

/-- The elements of `[base, limit)` are those of `f` in another order, and
everything else is as in `f`. -/
def PermutedOn {α : Type} (base limit : Nat) (f g : Nat → α) : Prop :=
  ∃ π : Equiv.Perm Nat, (∀ k, k < base ∨ limit ≤ k → π k = k) ∧ g = f ∘ π

/-- No element of `[base, limit)` is less than an element before it. -/
def SortedOn {α : Type} (lt : α → α → Bool) (base limit : Nat) (f : Nat → α) : Prop :=
  ∀ i j, base ≤ i → i < j → j < limit → lt (f j) (f i) = false

/-- The states that calls of `less` and `swap` of the model lead to from `s`, and no
others. -/
inductive SortModel.Reaches {σ : Type} (sm : SortModel σ) (s : σ) : σ → Prop where
  | start : SortModel.Reaches sm s s
  | less (t : σ) (i j : Nat) :
    SortModel.Reaches sm s t → SortModel.Reaches sm s (sm.less t i j).2
  | swap (t : σ) (i j : Nat) :
    SortModel.Reaches sm s t → SortModel.Reaches sm s (sm.swap t i j).2

/-- What an observer of the calls of a sort model records: whether a call has failed,
how many calls were made after a failure, and the state that the first failed call
left. -/
structure Monitor (σ : Type) where
  state : σ
  failed : Bool
  callsAfterFailure : Nat
  calls : Nat
  atFailure : Option σ

/-- A sort model under observation: every call of `less` and `swap` is passed on, and
recorded. -/
def SortModel.monitored {σ : Type} (sm : SortModel σ) : SortModel (Monitor σ) where
  swap := fun m i j =>
    match sm.swap m.state i j with
    | (status, s1) =>
      (status,
       { state := s1,
         failed := m.failed || decide (status = ExecutionStatus.EXCEPTION),
         callsAfterFailure := m.callsAfterFailure + (if m.failed then 1 else 0),
         calls := m.calls + 1,
         atFailure :=
           if m.failed then m.atFailure
           else if status = ExecutionStatus.EXCEPTION then some s1 else none })
  less := fun m i j =>
    match sm.less m.state i j with
    | (result, s1) =>
      (result,
       { state := s1,
         failed := m.failed || decide (result = CallResult.EXCEPTION),
         callsAfterFailure := m.callsAfterFailure + (if m.failed then 1 else 0),
         calls := m.calls + 1,
         atFailure :=
           if m.failed then m.atFailure
           else
             match result with
             | CallResult.EXCEPTION => some s1
             | CallResult.value _ => none })

/-- An observer that has seen no failure and no call after a failure. -/
def Monitor.Clean {σ : Type} (m : Monitor σ) : Prop :=
  m.failed = false ∧ m.callsAfterFailure = 0

/-- The observer at the start of a sort: nothing has been called. -/
def Monitor.start {σ : Type} (s : σ) : Monitor σ :=
  { state := s, failed := false, callsAfterFailure := 0, calls := 0, atFailure := none }

/-- What the observer records of a run that ended with `status` in state `actual`:
the same status and state as without observation, no call after a failure, a
failure if and only if the run ended with `EXCEPTION`, and after a failure the state
that the failed call left as the state of the end. -/
def Monitor.Observes {σ : Type} (actual : ExecutionStatus × σ)
    (observed : ExecutionStatus × Monitor σ) : Prop :=
  observed.1 = actual.1 ∧ observed.2.state = actual.2 ∧
  observed.2.callsAfterFailure = 0 ∧
  (observed.2.failed = true ↔ observed.1 = ExecutionStatus.EXCEPTION) ∧
  (observed.2.failed = true → observed.2.atFailure = some observed.2.state)

/-- The same for a run that ends with a `CallResult`. -/
def Monitor.ObservesResult {σ β : Type} (actual : CallResult β × σ)
    (observed : CallResult β × Monitor σ) : Prop :=
  observed.1 = actual.1 ∧ observed.2.state = actual.2 ∧
  observed.2.callsAfterFailure = 0 ∧
  (observed.2.failed = true ↔ observed.1 = CallResult.EXCEPTION) ∧
  (observed.2.failed = true → observed.2.atFailure = some observed.2.state)

/-- What an observer of the virtual machine records during the sort: the calls of
the comparison function (callable, `this`, the two arguments) in order, whether one
of the operations that can fail has failed, and how many such operations were started
after a failure. -/
structure OpsRecord where
  comparatorCalls : List (Nat × HermesValue × HermesValue × HermesValue)
  failed : Bool
  callsAfterFailure : Nat
deriving DecidableEq, Repr

/-- The record after one more operation that can fail, which failed or not. -/
def OpsRecord.note {β : Type} (record : OpsRecord) (result : CallResult β) : OpsRecord :=
  { record with
    failed := record.failed ||
      (match result with
       | CallResult.EXCEPTION => true
       | CallResult.value _ => false),
    callsAfterFailure := record.callsAfterFailure + (if record.failed then 1 else 0) }

/-- The record with nothing observed. -/
def OpsRecord.empty : OpsRecord :=
  { comparatorCalls := [], failed := false, callsAfterFailure := 0 }

/-- The functions of the virtual machine under observation: each one is passed on
unchanged; the outcome of each one that can fail is noted, and each call of a
callable is recorded. -/
def JSOps.recording {R : Type} (ops : JSOps R) : JSOps (R × OpsRecord) where
  getComputedPrimitiveDescriptor := fun r obj name =>
    match ops.getComputedPrimitiveDescriptor r.1 obj name with
    | (propObj, desc, r1) => (propObj, desc, (r1, r.2))
  getComputedPropertyValue := fun r obj propObj desc =>
    match ops.getComputedPropertyValue r.1 obj propObj desc with
    | (result, r1) => (result, (r1, r.2.note result))
  putComputed_RJS := fun r obj name value =>
    match ops.putComputed_RJS r.1 obj name value with
    | (result, r1) => (result, (r1, r.2.note result))
  deleteComputed := fun r obj name =>
    match ops.deleteComputed r.1 obj name with
    | (result, r1) => (result, (r1, r.2.note result))
  executeCall2 := fun r fn thisArg x y =>
    match ops.executeCall2 r.1 fn thisArg x y with
    | (result, r1) =>
      (result,
       (r1, { r.2.note result with
              comparatorCalls := r.2.comparatorCalls ++ [(fn, thisArg, x, y)] }))
  toNumber_RJS := fun r v =>
    match ops.toNumber_RJS r.1 v with
    | (result, r1) => (result, (r1, r.2.note result))
  toString_RJS := fun r v =>
    match ops.toString_RJS r.1 v with
    | (result, r1) => (result, (r1, r.2.note result))
  lessOp_RJS := fun r x y =>
    match ops.lessOp_RJS r.1 x y with
    | (result, r1) => (result, (r1, r.2))
  makeHandle := fun r v => (ops.makeHandle r.1 v, r.2)
  newGCScope := fun r => (ops.newGCScope r.1, r.2)
  createMarker := fun r => ops.createMarker r.1
  flushToMarker := fun r marker => (ops.flushToMarker r.1 marker, r.2)
  endGCScope := fun r => (ops.endGCScope r.1, r.2)
  dyn_vmcast_Callable := fun r v => ops.dyn_vmcast_Callable r.1 v
  raiseTypeError := fun r message => (ops.raiseTypeError r.1 message, r.2)
  toObject := fun r v =>
    match ops.toObject r.1 v with
    | (result, r1) => (result, (r1, r.2.note result))
  getNamed_length := fun r obj =>
    match ops.getNamed_length r.1 obj with
    | (result, r1) => (result, (r1, r.2.note result))
  toLengthU64 := fun r v =>
    match ops.toLengthU64 r.1 v with
    | (result, r1) => (result, (r1, r.2.note result))

/-- Modelled from the spec: a runtime that holds one object whose indexed elements
are plain own data properties (the object model is outside the sources at hand):
the element at a numeric property name, keyed by the bits of the name, or `none`
where the object has a hole; the `length` of the object; the handles of the topmost
scope; and the message of a thrown error. -/
structure PlainHeap where
  properties : Nat → Option HermesValue
  length : Nat
  handles : List HermesValue
  thrown : Option String

/-- The element of the object at index `i`. -/
def PlainHeap.element (heap : PlainHeap) (i : Nat) : Option HermesValue :=
  heap.properties (doubleBits i)

/-- The heap with the property of the given name set (`some`) or removed (`none`). -/
def PlainHeap.setProperty (heap : PlainHeap) (name : HermesValue)
    (value : Option HermesValue) : PlainHeap :=
  match name with
  | HermesValue.number bits =>
    { heap with properties := fun k => if k = bits then value else heap.properties k }
  | _ => heap

/-- The strings of the sample runtime, by address, as their code units: `"10"` at 1,
`"9"` at 2, the empty string elsewhere. -/
def sampleString (address : Nat) : List Nat :=
  if address = 1 then [49, 48] else if address = 2 then [57] else []

/-- The order of two strings under the less-than operator of the language: the
lexicographic order of their code units. -/
def codeUnitsLess : List Nat → List Nat → Bool
  | [], [] => false
  | [], _ :: _ => true
  | _ :: _, [] => false
  | x :: xs, y :: ys => if x < y then true else if y < x then false else codeUnitsLess xs ys

/-- Modelled from the spec: the functions of the virtual machine over a `PlainHeap`.
The property functions are those of an object with plain own data properties: a
lookup finds the element or the hole, a read returns the element, a put stores it, a
delete removes it, and none of them fails. The rest is a fragment of the language,
enough to evaluate the sort on numbers and strings: callable 1 compares two
non-negative numbers and returns `-1`, `0` or `1`; every other callable throws;
`ToNumber` is the identity on numbers and NaN elsewhere; `ToString` is the identity
on strings, maps the numbers 10 and 9 to the strings `"10"` and `"9"` and fails
elsewhere; `<` compares two strings by their code units and two non-negative numbers
by their value. -/
def plainOps : JSOps PlainHeap where
  getComputedPrimitiveDescriptor := fun heap obj name =>
    match name with
    | HermesValue.number bits =>
      (if (heap.properties bits).isSome then some obj else none,
       { flags := 0, slot := bits }, heap)
    | _ => (none, default, heap)
  getComputedPropertyValue := fun heap _ _ desc =>
    (CallResult.value ((heap.properties desc.slot).getD HermesValue.undefined), heap)
  putComputed_RJS := fun heap _ name value =>
    (CallResult.value true, heap.setProperty name (some value))
  deleteComputed := fun heap _ name =>
    (CallResult.value true, heap.setProperty name none)
  executeCall2 := fun heap fn _ x y =>
    match fn, x, y with
    | 1, HermesValue.number xBits, HermesValue.number yBits =>
      (CallResult.value
        (HermesValue.number
          (if xBits < yBits then 13830554455654793216
           else if yBits < xBits then 4607182418800017408 else 0)), heap)
    | _, _, _ => (CallResult.EXCEPTION, { heap with thrown := some "comparator" })
  toNumber_RJS := fun heap v =>
    match v with
    | HermesValue.number bits => (CallResult.value bits, heap)
    | _ => (CallResult.value 9221120237041090560, heap)
  toString_RJS := fun heap v =>
    match v with
    | HermesValue.string address => (CallResult.value (HermesValue.string address), heap)
    | HermesValue.number 4621819117588971520 => (CallResult.value (HermesValue.string 1), heap)
    | HermesValue.number 4621256167635550208 => (CallResult.value (HermesValue.string 2), heap)
    | _ => (CallResult.EXCEPTION, { heap with thrown := some "ToString" })
  lessOp_RJS := fun heap x y =>
    match x, y with
    | HermesValue.string xAddress, HermesValue.string yAddress =>
      (codeUnitsLess (sampleString xAddress) (sampleString yAddress), heap)
    | HermesValue.number xBits, HermesValue.number yBits => (decide (xBits < yBits), heap)
    | _, _ => (false, heap)
  makeHandle := fun heap v => { heap with handles := heap.handles ++ [v] }
  newGCScope := fun heap => heap
  createMarker := fun heap => heap.handles.length
  flushToMarker := fun heap marker => { heap with handles := heap.handles.take marker }
  endGCScope := fun heap => heap
  dyn_vmcast_Callable := fun _ v =>
    match v with
    | HermesValue.object address => if address = 1 ∨ address = 2 then some address else none
    | _ => none
  raiseTypeError := fun heap message => { heap with thrown := some message }
  toObject := fun heap v =>
    match v with
    | HermesValue.object address => (CallResult.value address, heap)
    | _ => (CallResult.EXCEPTION, { heap with thrown := some "ToObject" })
  getNamed_length := fun heap _ =>
    (CallResult.value (HermesValue.encodeDoubleValue heap.length), heap)
  toLengthU64 := fun heap _ => (CallResult.value heap.length, heap)

/-- The object `[10, 9]` of the sample runtime: the numbers 10 and 9 at the indices 0
and 1, given by their bits. -/
def tenNineHeap : PlainHeap :=
  { properties := fun k =>
      if k = doubleBits 0 then some (HermesValue.number 4621819117588971520)
      else if k = doubleBits 1 then some (HermesValue.number 4621256167635550208)
      else none,
    length := 2, handles := [], thrown := none }

/-- A sort model of the object at address 7 whose handles hold what the constructor
puts in them, with the given comparison function. -/
def sampleSortModel (compareFn : Option Nat) : StandardSortModel :=
  { compareFn_ := compareFn, obj_ := 7,
    aHandle_ := HermesValue.undefined, bHandle_ := HermesValue.undefined,
    aValue_ := HermesValue.undefined, bValue_ := HermesValue.undefined,
    aDescObjHandle_ := none, bDescObjHandle_ := none, gcMarker_ := 0 }

/-- The rank of an element under callable 1 of the sample runtime: numbers first, by
their bits, then the other values, then undefined, then the holes. -/
def sortRank : Option HermesValue → Nat × Nat
  | none => (3, 0)
  | some HermesValue.undefined => (2, 0)
  | some (HermesValue.number bits) => (0, bits)
  | some _ => (1, 0)

/-- The order of the elements that `less` follows with callable 1 of the sample
runtime as comparison function: the order of the ranks. -/
def numbersFirst (x y : Option HermesValue) : Bool :=
  decide ((sortRank x).1 < (sortRank y).1 ∨
    ((sortRank x).1 = (sortRank y).1 ∧ (sortRank x).2 < (sortRank y).2))

/-- The states of a sort of the plain object with callable 1 as comparison function:
every element is a number, undefined or a hole. -/
def plainSortInv (state : StandardSortModel × PlainHeap) : Prop :=
  state.1.compareFn_ = some 1 ∧
  ∀ i, i < UINT32 →
    state.2.element i = none ∨ state.2.element i = some HermesValue.undefined ∨
    ∃ bits, state.2.element i = some (HermesValue.number bits)

/-- The elements of the plain object at the 32-bit indices. -/
def plainSortView (state : StandardSortModel × PlainHeap) : Nat → Option HermesValue :=
  fun i => if i < UINT32 then state.2.element i else none

/-- The object `[3, 1, hole, 2, undefined]` of the sample runtime, the numbers given
by their bits. -/
def unsortedHeap : PlainHeap :=
  { properties := fun k =>
      if k = doubleBits 0 then some (HermesValue.encodeDoubleValue 3)
      else if k = doubleBits 1 then some (HermesValue.encodeDoubleValue 1)
      else if k = doubleBits 3 then some (HermesValue.encodeDoubleValue 2)
      else if k = doubleBits 4 then some HermesValue.undefined
      else none,
    length := 5, handles := [], thrown := none }

/-- The call `obj.sort(compareFn)` on the object at address 7 of the sample runtime,
with the callable at address `compareFn` as comparison function. -/
def sortCall (compareFn : Nat) : NativeArgs :=
  { thisArg := HermesValue.object 7, args := [HermesValue.object compareFn] }

/-! ## Root scopes (the scope classes are not part of the sources at hand) -/

/-- Modelled from the spec: a root scope, "a LIFO region associated with a call
frame" that "holds the registered handles created during that frame's execution"
(`GCScope` is declared outside the sources at hand): the values of the registered
handles, oldest first. -/
structure GCScope where
  handles : List HermesValue
deriving DecidableEq, Repr

namespace GCScope

/-- Modelled from the spec: `newHandle(value)`, which "registers a slot in the current
region holding `value`": the position of the handle, and the scope with it. -/
def newHandle (scope : GCScope) (value : HermesValue) : Nat × GCScope :=
  (scope.handles.length, { handles := scope.handles ++ [value] })

/-- Modelled from the spec: `mark()`, which "returns an opaque position in the current
region's handle list": the number of handles registered so far. -/
def createMarker (scope : GCScope) : Nat :=
  scope.handles.length

/-- Modelled from the spec: `flushTo(marker)`, which "deregisters every handle created
after `marker`, restoring the region to that size". -/
def flushToMarker (scope : GCScope) (marker : Nat) : GCScope :=
  { handles := scope.handles.take marker }

/-- The number of handles registered in the scope. -/
def getHandleCount (scope : GCScope) : Nat :=
  scope.handles.length

/-- The value of the handle at a position, `none` when no handle is registered
there. -/
def handleAt (scope : GCScope) (position : Nat) : Option HermesValue :=
  scope.handles.get? position

/-- The scope after one `newHandle` for each of the values, in order. -/
def newHandles : GCScope → List HermesValue → GCScope
  | scope, [] => scope
  | scope, value :: values => newHandles (scope.newHandle value).2 values

end GCScope

/-- The scope operations among the functions of the virtual machine follow the root
scope protocol, `scopeOf` giving the topmost scope of a runtime state: `makeHandle`,
`createMarker` and `flushToMarker` are `newHandle`, `mark` and `flushTo` on it, and
the other functions that `StandardSortModel` calls register handles in it at most. -/
structure JSOps.ScopeDiscipline {R : Type} (ops : JSOps R) (scopeOf : R → GCScope) :
    Prop where
  getComputedPrimitiveDescriptor : ∀ r obj name,
    (scopeOf r).handles <+: (scopeOf (ops.getComputedPrimitiveDescriptor r obj name).2.2).handles
  getComputedPropertyValue : ∀ r obj propObj desc,
    (scopeOf r).handles <+: (scopeOf (ops.getComputedPropertyValue r obj propObj desc).2).handles
  putComputed_RJS : ∀ r obj name value,
    (scopeOf r).handles <+: (scopeOf (ops.putComputed_RJS r obj name value).2).handles
  deleteComputed : ∀ r obj name,
    (scopeOf r).handles <+: (scopeOf (ops.deleteComputed r obj name).2).handles
  executeCall2 : ∀ r fn thisArg x y,
    (scopeOf r).handles <+: (scopeOf (ops.executeCall2 r fn thisArg x y).2).handles
  toNumber_RJS : ∀ r v, (scopeOf r).handles <+: (scopeOf (ops.toNumber_RJS r v).2).handles
  toString_RJS : ∀ r v, (scopeOf r).handles <+: (scopeOf (ops.toString_RJS r v).2).handles
  lessOp_RJS : ∀ r x y, (scopeOf r).handles <+: (scopeOf (ops.lessOp_RJS r x y).2).handles
  makeHandle : ∀ r v, scopeOf (ops.makeHandle r v) = ((scopeOf r).newHandle v).2
  createMarker : ∀ r, ops.createMarker r = (scopeOf r).createMarker
  flushToMarker : ∀ r marker,
    scopeOf (ops.flushToMarker r marker) = (scopeOf r).flushToMarker marker

/-- The topmost scope of the sample runtime. -/
def PlainHeap.scope (heap : PlainHeap) : GCScope :=
  { handles := heap.handles }

/-! ## The source map generator (include/hermes/SourceMap/SourceMapGenerator.h) -/

/-- The part of `SourceMapGenerator` that `addMappingsLine` and `getMappingsLines`
touch: `lines_`, a `std::vector` of segment lists. The type of a segment is declared
outside the sources at hand and is a parameter. -/
structure SourceMapGenerator (Segment : Type) where
  lines_ : List (List Segment)
deriving DecidableEq, Repr

namespace SourceMapGenerator

variable {Segment : Type}

/-- `std::vector::resize(count)` on a vector of segment lists: the first `count`
elements, followed by empty segment lists up to the length `count`. -/
def vectorResize (lines : List (List Segment)) (count : Nat) : List (List Segment) :=
  lines.take count ++ List.replicate (count - lines.length) []

/-- The first statement of `addMappingsLine`:
`if (lines_.size() <= cjsModuleOffset) lines_.resize(cjsModuleOffset + 1);`, where
`cjsModuleOffset + 1` is computed in `uint32_t`. -/
def resizeStep (lines : List (List Segment)) (cjsModuleOffset : Nat) :
    List (List Segment) :=
  if lines.length ≤ cjsModuleOffset then vectorResize lines ((cjsModuleOffset + 1) % UINT32)
  else lines

/-- `SourceMapGenerator::addMappingsLine(line, cjsModuleOffset)`; `none` when the
write `lines_[cjsModuleOffset] = ...` is outside the vector. -/
def addMappingsLine (self : SourceMapGenerator Segment) (line : List Segment)
    (cjsModuleOffset : Nat) : Option (SourceMapGenerator Segment) :=
  let lines1 := resizeStep self.lines_ cjsModuleOffset
  if cjsModuleOffset < lines1.length then
    some { lines_ := lines1.set cjsModuleOffset line }
  else none

/-- `SourceMapGenerator::getMappingsLines()`. -/
def getMappingsLines (self : SourceMapGenerator Segment) : List (List Segment) :=
  self.lines_

end SourceMapGenerator

/-! ## Array builtins over array-like objects (lib/VM/JSLib/Array.cpp) -/

/-- The result of `toInteger`: a double that holds an integer or an infinity. -/
inductive IntegerOrInfinity where
  | negInfinity
  | finite (value : Int)
  | posInfinity
deriving DecidableEq, Repr

/-- `2^64`, the number of values of `uint64_t`. -/
def UINT64 : Nat := 2 ^ 64

/-- The value `HermesValue::encodeNumberValue(k)` for a double that holds the integer
`k`: for a negative `k` the bits of `-k` with the sign bit set. -/
def HermesValue.encodeNumberValue (k : Int) : HermesValue :=
  if 0 ≤ k then HermesValue.encodeDoubleValue k.toNat
  else HermesValue.number (2 ^ 63 + doubleBits (-k).toNat)

/-- The idiom `relative < 0 ? std::max(len + relative, 0) : std::min(relative, len)`
on doubles that hold integers or infinities, `len` being a length (below `2^53`). The
sum `len + relative` is exact when `relative ≥ -2^53` and negative otherwise, so the
result is the one of the integers. -/
def relativeToAbsolute (len : Nat) : IntegerOrInfinity → Nat
  | IntegerOrInfinity.negInfinity => 0
  | IntegerOrInfinity.finite k =>
    if k < 0 then (max ((len : Int) + k) 0).toNat else (min k (len : Int)).toNat
  | IntegerOrInfinity.posInfinity => len

/-- The functions of the virtual machine that the array builtins call beyond those in
`JSOps`, all defined outside the sources at hand:

* `getComputedDescriptor r obj name`: as `getComputedPrimitiveDescriptor`, but can
  fail;
* `putNamed_length r obj value`: `putNamed_RJS` for the property `length`, with
  `PropOpFlags().plusThrowOnError()`;
* `toInteger r v`: the integer or infinity `v` converts to;
* `toUInt32_RJS r v`: the 32-bit unsigned integer `v` converts to;
* `executeCall4 r fn thisArg a b c d`: the call of the callable `fn`;
* `raiseRangeError r message`: the runtime with the error thrown;
* `arrayCreate r capacity length`: `JSArray::create`, the address of the new array;
* `arraySetElementAt r array index value`: `JSArray::setElementAt`;
* `arraySetLengthProperty r array length`: `JSArray::setLengthProperty`. -/
structure ArrayOps (R : Type) extends JSOps R where
  getComputedDescriptor :
    R → Nat → HermesValue → CallResult (Option Nat × ComputedPropertyDescriptor) × R
  putNamed_length : R → Nat → HermesValue → CallResult Bool × R
  toInteger : R → HermesValue → CallResult IntegerOrInfinity × R
  toUInt32_RJS : R → HermesValue → CallResult Nat × R
  executeCall4 : R → Nat → HermesValue → HermesValue → HermesValue → HermesValue →
    HermesValue → CallResult HermesValue × R
  raiseRangeError : R → String → R
  arrayCreate : R → Nat → Nat → CallResult Nat × R
  arraySetElementAt : R → Nat → Nat → HermesValue → R
  arraySetLengthProperty : R → Nat → Nat → CallResult Bool × R

namespace ArrayBuiltins

variable {R : Type}

/-- The handles that a run of declarations `MutableHandle<> h{runtime, value}`
registers, one after the other. -/
def makeHandles (ops : ArrayOps R) : R → List HermesValue → R
  | r, [] => r
  | r, value :: values => makeHandles ops (ops.makeHandle r value) values

/-- The statements that the builtins start with, after `GCScope gcScope(runtime)`:
`toObject` of the `this` value, a handle for the object, `getNamed_RJS` of `length`,
and the conversion of the length (`toLengthU64`, for `reverse` `toUInt32_RJS`), each
returning `ExecutionStatus::EXCEPTION` at once on failure. The result is the object
and the length. -/
def objectAndLength (ops : ArrayOps R) (convert : R → HermesValue → CallResult Nat × R)
    (runtime : R) (args : NativeArgs) : CallResult (Nat × Nat) × R :=
  match ops.toObject runtime args.thisArg with
  | (CallResult.EXCEPTION, r) => (CallResult.EXCEPTION, r)
  | (CallResult.value O, r1) =>
  let r2 := ops.makeHandle r1 (HermesValue.object O)
  match ops.getNamed_length r2 O with
  | (CallResult.EXCEPTION, r) => (CallResult.EXCEPTION, r)
  | (CallResult.value propRes, r3) =>
  match convert (ops.makeHandle r3 propRes) propRes with
  | (CallResult.EXCEPTION, r) => (CallResult.EXCEPTION, r)
  | (CallResult.value len, r4) => (CallResult.value (O, len), r4)

/-- The block that `unshift` and `splice` repeat in their loops: look up `from`; if
the property is there, read it and put the value at `to`, else delete the property at
`to`, returning `ExecutionStatus::EXCEPTION` when the read, the put or the delete
fails. -/
def moveElement (ops : ArrayOps R) (O : Nat) (source target : HermesValue) (r : R) :
    ExecutionStatus × R :=
  match ops.getComputedPrimitiveDescriptor r O source with
  | (some fromDescObj, fromDesc, r1) =>
    -- fromPresent is true
    match ops.getComputedPropertyValue r1 O fromDescObj fromDesc with
    | (CallResult.EXCEPTION, r2) => (ExecutionStatus.EXCEPTION, r2)
    | (CallResult.value fromValue, r2) =>
      match ops.putComputed_RJS r2 O target fromValue with
      | (CallResult.EXCEPTION, r3) => (ExecutionStatus.EXCEPTION, r3)
      | (CallResult.value _, r3) => (ExecutionStatus.RETURNED, r3)
  | (none, _, r1) =>
    -- fromPresent is false
    match ops.deleteComputed r1 O target with
    | (CallResult.EXCEPTION, r2) => (ExecutionStatus.EXCEPTION, r2)
    | (CallResult.value _, r2) => (ExecutionStatus.RETURNED, r2)

/-! ### Array.prototype.unshift -/

/-- The loop `while (k->getDouble() > 0)` of `unshift`, for the current `k`: it moves
the element at `k - 1` to `k + argCount - 1` and goes on with `k - 1`. -/
def unshiftMoveLoop (ops : ArrayOps R) (O argCount marker : Nat) : Nat → R → ExecutionStatus × R
  | 0, r => (ExecutionStatus.RETURNED, r)
  | k + 1, r =>
    let r1 := ops.flushToMarker r marker
    match moveElement ops O (HermesValue.encodeDoubleValue (k + 1 - 1))
        (HermesValue.encodeDoubleValue (k + 1 + argCount - 1)) r1 with
    | (ExecutionStatus.EXCEPTION, r2) => (ExecutionStatus.EXCEPTION, r2)
    | (ExecutionStatus.RETURNED, r2) => unshiftMoveLoop ops O argCount marker k r2

/-- The loop `for (auto arg : args.handles())` of `unshift`, for the current `j`. -/
def unshiftPutLoop (ops : ArrayOps R) (O marker : Nat) :
    Nat → List HermesValue → R → ExecutionStatus × R
  | _, [], r => (ExecutionStatus.RETURNED, r)
  | j, arg :: rest, r =>
    match ops.putComputed_RJS r O (HermesValue.encodeDoubleValue j) arg with
    | (CallResult.EXCEPTION, r1) => (ExecutionStatus.EXCEPTION, r1)
    | (CallResult.value _, r1) =>
      unshiftPutLoop ops O marker (j + 1) rest (ops.flushToMarker r1 marker)

/-- `arrayPrototypeUnshift(void *, Runtime *runtime, NativeArgs args)`. The sum
`len + argCount` is one of `uint64_t`; the scope is ended on every way out. -/
def arrayPrototypeUnshift (ops : ArrayOps R) (runtime : R) (args : NativeArgs) :
    CallResult HermesValue × R :=
  match objectAndLength ops ops.toLengthU64 (ops.newGCScope runtime) args with
  | (CallResult.EXCEPTION, r) => (CallResult.EXCEPTION, ops.endGCScope r)
  | (CallResult.value (O, len), r4) =>
  let argCount := args.args.length
  -- 4. If argCount > 0, then
  let shifted : ExecutionStatus × R :=
    if argCount > 0 then
      -- If len+ argCount > (2 ^ 53) -1, throw a TypeError exception.
      if (len + argCount) % UINT64 ≥ 2 ^ 53 - 1 then
        (ExecutionStatus.EXCEPTION,
         ops.raiseTypeError r4 "Array.prototype.unshift result out of space")
      else
        let r5 := makeHandles ops r4
          [HermesValue.encodeDoubleValue len, HermesValue.encodeDoubleValue 0,
           HermesValue.undefined, HermesValue.undefined, HermesValue.object 0,
           HermesValue.undefined]
        let marker := ops.createMarker r5
        match unshiftMoveLoop ops O argCount marker len r5 with
        | (ExecutionStatus.EXCEPTION, r) => (ExecutionStatus.EXCEPTION, r)
        | (ExecutionStatus.RETURNED, r6) => unshiftPutLoop ops O marker 0 args.args r6
    else (ExecutionStatus.RETURNED, r4)
  match shifted with
  | (ExecutionStatus.EXCEPTION, r) => (CallResult.EXCEPTION, ops.endGCScope r)
  | (ExecutionStatus.RETURNED, r7) =>
    -- Increment length by argCount.
    let newLen := HermesValue.encodeDoubleValue ((len + argCount) % UINT64)
    match ops.putNamed_length (ops.makeHandle r7 newLen) O newLen with
    | (CallResult.EXCEPTION, r) => (CallResult.EXCEPTION, ops.endGCScope r)
    | (CallResult.value _, r8) => (CallResult.value newLen, ops.endGCScope r8)

/-! ### Array.prototype.copyWithin -/

/-- The loop `for (; count > 0; marker.flush())` of `copyWithin` (step 17), for the
current `count`, `from` and `to`. -/
def copyWithinLoop (ops : ArrayOps R) (O : Nat) (direction : Int) (marker : Nat) :
    Nat → Int → Int → R → ExecutionStatus × R
  | 0, _, _, r => (ExecutionStatus.RETURNED, r)
  | count + 1, source, target, r =>
    -- c. Let fromPresent be HasProperty(O, fromKey).
    match ops.getComputedDescriptor r O (HermesValue.encodeNumberValue source) with
    | (CallResult.EXCEPTION, r1) => (ExecutionStatus.EXCEPTION, r1)
    | (CallResult.value (fromObj, fromDesc), r1) =>
      let moved : ExecutionStatus × R :=
        match fromObj with
        | some propObj =>
          -- e. If fromPresent is true, then
          match ops.getComputedPropertyValue r1 O propObj fromDesc with
          | (CallResult.EXCEPTION, r2) => (ExecutionStatus.EXCEPTION, r2)
          | (CallResult.value fromVal, r2) =>
            match ops.putComputed_RJS r2 O (HermesValue.encodeNumberValue target) fromVal with
            | (CallResult.EXCEPTION, r3) => (ExecutionStatus.EXCEPTION, r3)
            | (CallResult.value _, r3) => (ExecutionStatus.RETURNED, r3)
        | none =>
          -- f. Else fromPresent is false,
          match ops.deleteComputed r1 O (HermesValue.encodeNumberValue target) with
          | (CallResult.EXCEPTION, r2) => (ExecutionStatus.EXCEPTION, r2)
          | (CallResult.value _, r2) => (ExecutionStatus.RETURNED, r2)
      match moved with
      | (ExecutionStatus.EXCEPTION, r4) => (ExecutionStatus.EXCEPTION, r4)
      | (ExecutionStatus.RETURNED, r4) =>
        copyWithinLoop ops O direction marker count (source + direction)
          (target + direction) (ops.flushToMarker r4 marker)

/-- The conversion of the `end` argument of `copyWithin` (steps 11 and 12): the length
when the argument is undefined. -/
def copyWithinRelativeEnd (ops : ArrayOps R) (len : Nat) (r : R) (args : NativeArgs) :
    CallResult IntegerOrInfinity × R :=
  if (args.getArg 2).isUndefined then (CallResult.value (IntegerOrInfinity.finite len), r)
  else ops.toInteger r (args.getArg 2)

/-- `arrayPrototypeCopyWithin(void *, Runtime *runtime, NativeArgs args)`. Lengths and
indices are doubles that hold integers; the destructor of the `GCScopeMarkerRAII`
flushes the scope to the marker on the way out of the loop. -/
def arrayPrototypeCopyWithin (ops : ArrayOps R) (runtime : R) (args : NativeArgs) :
    CallResult HermesValue × R :=
  match objectAndLength ops ops.toLengthU64 (ops.newGCScope runtime) args with
  | (CallResult.EXCEPTION, r) => (CallResult.EXCEPTION, ops.endGCScope r)
  | (CallResult.value (O, len), r4) =>
  -- 5. Let relativeTarget be ToInteger(target).
  match ops.toInteger r4 (args.getArg 0) with
  | (CallResult.EXCEPTION, r) => (CallResult.EXCEPTION, ops.endGCScope r)
  | (CallResult.value relativeTarget, r5) =>
  let target := relativeToAbsolute len relativeTarget
  -- 8. Let relativeStart be ToInteger(start).
  match ops.toInteger r5 (args.getArg 1) with
  | (CallResult.EXCEPTION, r) => (CallResult.EXCEPTION, ops.endGCScope r)
  | (CallResult.value relativeStart, r6) =>
  let source := relativeToAbsolute len relativeStart
  match copyWithinRelativeEnd ops len r6 args with
  | (CallResult.EXCEPTION, r) => (CallResult.EXCEPTION, ops.endGCScope r)
  | (CallResult.value relativeEnd, r7) =>
  let fin := relativeToAbsolute len relativeEnd
  -- 14. Let count be min(final-from, len-to).
  let count : Int := min ((fin : Int) - source) ((len : Int) - target)
  let backward : Bool := decide (source < target) && decide ((target : Int) < source + count)
  let direction : Int := if backward then -1 else 1
  let source1 : Int := if backward then source + count - 1 else source
  let target1 : Int := if backward then target + count - 1 else target
  let r8 := makeHandles ops r7
    [HermesValue.encodeNumberValue source1, HermesValue.encodeNumberValue target1,
     HermesValue.object 0, HermesValue.undefined]
  let marker := ops.createMarker r8
  match copyWithinLoop ops O direction marker count.toNat source1 target1 r8 with
  | (ExecutionStatus.EXCEPTION, r) =>
    (CallResult.EXCEPTION, ops.endGCScope (ops.flushToMarker r marker))
  | (ExecutionStatus.RETURNED, r) =>
    -- 18. Return O.
    (CallResult.value (HermesValue.object O), ops.endGCScope (ops.flushToMarker r marker))

/-! ### Array.prototype.reverse -/

/-- The body of the loop of `reverse` after the two lookups: the four cases of the
presence of the lower and the upper element. -/
def reverseExchange (ops : ArrayOps R) (O : Nat) (lower upper : HermesValue)
    (lowerObj upperObj : Option Nat) (lowerDesc upperDesc : ComputedPropertyDescriptor)
    (r : R) : ExecutionStatus × R :=
  match lowerObj, upperObj with
  | some lowerDescObj, some upperDescObj =>
    match ops.getComputedPropertyValue r O lowerDescObj lowerDesc with
    | (CallResult.EXCEPTION, r1) => (ExecutionStatus.EXCEPTION, r1)
    | (CallResult.value lowerValue, r1) =>
    match ops.getComputedPropertyValue r1 O upperDescObj upperDesc with
    | (CallResult.EXCEPTION, r2) => (ExecutionStatus.EXCEPTION, r2)
    | (CallResult.value upperValue, r2) =>
    match ops.putComputed_RJS r2 O lower upperValue with
    | (CallResult.EXCEPTION, r3) => (ExecutionStatus.EXCEPTION, r3)
    | (CallResult.value _, r3) =>
    match ops.putComputed_RJS r3 O upper lowerValue with
    | (CallResult.EXCEPTION, r4) => (ExecutionStatus.EXCEPTION, r4)
    | (CallResult.value _, r4) => (ExecutionStatus.RETURNED, r4)
  | none, some upperDescObj =>
    match ops.getComputedPropertyValue r O upperDescObj upperDesc with
    | (CallResult.EXCEPTION, r1) => (ExecutionStatus.EXCEPTION, r1)
    | (CallResult.value upperValue, r1) =>
    match ops.putComputed_RJS r1 O lower upperValue with
    | (CallResult.EXCEPTION, r2) => (ExecutionStatus.EXCEPTION, r2)
    | (CallResult.value _, r2) =>
    match ops.deleteComputed r2 O upper with
    | (CallResult.EXCEPTION, r3) => (ExecutionStatus.EXCEPTION, r3)
    | (CallResult.value _, r3) => (ExecutionStatus.RETURNED, r3)
  | some lowerDescObj, none =>
    match ops.getComputedPropertyValue r O lowerDescObj lowerDesc with
    | (CallResult.EXCEPTION, r1) => (ExecutionStatus.EXCEPTION, r1)
    | (CallResult.value lowerValue, r1) =>
    match ops.deleteComputed r1 O lower with
    | (CallResult.EXCEPTION, r2) => (ExecutionStatus.EXCEPTION, r2)
    | (CallResult.value _, r2) =>
    match ops.putComputed_RJS r2 O upper lowerValue with
    | (CallResult.EXCEPTION, r3) => (ExecutionStatus.EXCEPTION, r3)
    | (CallResult.value _, r3) => (ExecutionStatus.RETURNED, r3)
  | none, none => (ExecutionStatus.RETURNED, r)

/-- The loop `while (lower->getDouble() != middle)` of `reverse`, for the current
`lower`; the first argument is `middle - lower`, the number of rounds left. -/
def reverseLoop (ops : ArrayOps R) (O len marker : Nat) : Nat → Nat → R → ExecutionStatus × R
  | 0, _, r => (ExecutionStatus.RETURNED, r)
  | remaining + 1, lower, r =>
    let r1 := ops.flushToMarker r marker
    let upper := len - lower - 1
    match ops.getComputedPrimitiveDescriptor r1 O (HermesValue.encodeDoubleValue lower) with
    | (lowerObj, lowerDesc, r2) =>
    match ops.getComputedPrimitiveDescriptor r2 O (HermesValue.encodeDoubleValue upper) with
    | (upperObj, upperDesc, r3) =>
    match reverseExchange ops O (HermesValue.encodeDoubleValue lower)
        (HermesValue.encodeDoubleValue upper) lowerObj upperObj lowerDesc upperDesc r3 with
    | (ExecutionStatus.EXCEPTION, r4) => (ExecutionStatus.EXCEPTION, r4)
    | (ExecutionStatus.RETURNED, r4) => reverseLoop ops O len marker remaining (lower + 1) r4

/-- `arrayPrototypeReverse(void *, Runtime *runtime, NativeArgs args)`. The length is
a `uint32_t`. -/
def arrayPrototypeReverse (ops : ArrayOps R) (runtime : R) (args : NativeArgs) :
    CallResult HermesValue × R :=
  match objectAndLength ops ops.toUInt32_RJS (ops.newGCScope runtime) args with
  | (CallResult.EXCEPTION, r) => (CallResult.EXCEPTION, ops.endGCScope r)
  | (CallResult.value (O, intRes), r4) =>
  let len := intRes % UINT32
  let middle := len / 2
  let r5 := makeHandles ops r4
    [HermesValue.encodeDoubleValue 0, HermesValue.undefined, HermesValue.object 0,
     HermesValue.undefined, HermesValue.object 0, HermesValue.undefined]
  let marker := ops.createMarker r5
  match reverseLoop ops O len marker middle 0 r5 with
  | (ExecutionStatus.EXCEPTION, r) => (CallResult.EXCEPTION, ops.endGCScope r)
  | (ExecutionStatus.RETURNED, r) =>
    (CallResult.value (HermesValue.object O), ops.endGCScope r)

/-! ### Array.prototype.reduce and Array.prototype.reduceRight -/

/-- The index `k` of a loop of `reduceHelper` when `remaining` indices are still to
be visited: `len - remaining` going up from 0, `remaining - 1` going down from
`len - 1`. The test that ends the loops (`k >= len` going up, `k < 0` going down)
holds exactly when `remaining` is 0. -/
def reduceIndex (reverse : Bool) (len remaining : Nat) : Nat :=
  if reverse then remaining - 1 else len - remaining

/-- The loop `while (!kPresent)` of `reduceHelper`, which looks for the first element
that is present: the element and the number of indices left after it, or `none` when
the loop ends by `break`. -/
def reduceInitLoop (ops : ArrayOps R) (O marker len : Nat) (reverse : Bool) :
    Nat → R → CallResult (Option (HermesValue × Nat)) × R
  | 0, r => (CallResult.value none, ops.flushToMarker r marker)
  | remaining + 1, r =>
    let r1 := ops.flushToMarker r marker
    match ops.getComputedPrimitiveDescriptor r1 O
        (HermesValue.encodeDoubleValue (reduceIndex reverse len (remaining + 1))) with
    | (some kDescObj, kDesc, r2) =>
      match ops.getComputedPropertyValue r2 O kDescObj kDesc with
      | (CallResult.EXCEPTION, r3) => (CallResult.EXCEPTION, r3)
      | (CallResult.value accumulator, r3) =>
        (CallResult.value (some (accumulator, remaining)), r3)
    | (none, _, r2) => reduceInitLoop ops O marker len reverse remaining r2

/-- The loop `while (true)` of `reduceHelper`, which performs the reduction. -/
def reduceLoop (ops : ArrayOps R) (O marker len callbackFn : Nat) (reverse : Bool) :
    Nat → HermesValue → R → CallResult HermesValue × R
  | 0, accumulator, r => (CallResult.value accumulator, ops.flushToMarker r marker)
  | remaining + 1, accumulator, r =>
    let r1 := ops.flushToMarker r marker
    let k := HermesValue.encodeDoubleValue (reduceIndex reverse len (remaining + 1))
    match ops.getComputedPrimitiveDescriptor r1 O k with
    | (some kDescObj, kDesc, r2) =>
      -- kPresent is true, run the accumulation step.
      match ops.getComputedPropertyValue r2 O kDescObj kDesc with
      | (CallResult.EXCEPTION, r3) => (CallResult.EXCEPTION, r3)
      | (CallResult.value kValue, r3) =>
        match ops.executeCall4 r3 callbackFn HermesValue.undefined accumulator kValue k
            (HermesValue.object O) with
        | (CallResult.EXCEPTION, r4) => (CallResult.EXCEPTION, r4)
        | (CallResult.value callRes, r4) =>
          reduceLoop ops O marker len callbackFn reverse remaining callRes r4
    | (none, _, r2) => reduceLoop ops O marker len callbackFn reverse remaining accumulator r2

/-- The part of `reduceHelper` after the two checks: the handles, the marker, the
initialisation of the accumulator and the reduction. -/
def reduceFrom (ops : ArrayOps R) (O len callbackFn : Nat) (reverse : Bool) (r4 : R)
    (args : NativeArgs) : CallResult HermesValue × R :=
  let r5 := makeHandles ops r4
    [HermesValue.encodeNumberValue (if reverse then (len : Int) - 1 else 0),
     HermesValue.object 0, HermesValue.undefined]
  let marker := ops.createMarker r5
  -- Initialize the accumulator to either the intialValue arg or the first value
  -- of the array.
  if args.args.length ≥ 2 then
    reduceLoop ops O marker len callbackFn reverse len (args.getArg 1) r5
  else
    match reduceInitLoop ops O marker len reverse len r5 with
    | (CallResult.EXCEPTION, r) => (CallResult.EXCEPTION, r)
    | (CallResult.value none, r6) =>
      (CallResult.EXCEPTION,
       ops.raiseTypeError r6
         "Array.prototype.reduce() requires an intial value with empty array")
    | (CallResult.value (some (accumulator, remaining)), r6) =>
      reduceLoop ops O marker len callbackFn reverse remaining accumulator r6

/-- `reduceHelper(Runtime *runtime, NativeArgs args, const bool reverse)`. -/
def reduceHelper (ops : ArrayOps R) (runtime : R) (args : NativeArgs) (reverse : Bool) :
    CallResult HermesValue × R :=
  match objectAndLength ops ops.toLengthU64 (ops.newGCScope runtime) args with
  | (CallResult.EXCEPTION, r) => (CallResult.EXCEPTION, ops.endGCScope r)
  | (CallResult.value (O, len), r4) =>
  match ops.dyn_vmcast_Callable r4 (args.getArg 0) with
  | none =>
    (CallResult.EXCEPTION,
     ops.endGCScope
      (ops.raiseTypeError r4 "Array.prototype.reduce() requires a callable argument"))
  | some callbackFn =>
  -- Can't reduce an empty array without an initial value.
  if len = 0 ∧ args.args.length < 2 then
    (CallResult.EXCEPTION,
     ops.endGCScope
      (ops.raiseTypeError r4
        "Array.prototype.reduce() requires an intial value with empty array"))
  else
    match reduceFrom ops O len callbackFn reverse r4 args with
    | (result, r) => (result, ops.endGCScope r)

/-- `arrayPrototypeReduce`. -/
def arrayPrototypeReduce (ops : ArrayOps R) (runtime : R) (args : NativeArgs) :
    CallResult HermesValue × R :=
  reduceHelper ops runtime args false

/-- `arrayPrototypeReduceRight`. -/
def arrayPrototypeReduceRight (ops : ArrayOps R) (runtime : R) (args : NativeArgs) :
    CallResult HermesValue × R :=
  reduceHelper ops runtime args true

/-! ### Array.prototype.splice -/

/-- The count `std::min(std::max(deleteCount, 0.0), len - actualStart)` of `splice`,
converted to `uint64_t`. -/
def spliceDeleteCount (len actualStart : Nat) : IntegerOrInfinity → Nat
  | IntegerOrInfinity.negInfinity => 0
  | IntegerOrInfinity.finite k => min (max k 0).toNat (len - actualStart)
  | IntegerOrInfinity.posInfinity => len - actualStart

/-- The double that an integer `n < 2^54` rounds to: itself up to `2^53`, and above
that the nearest even integer, a tie going to the multiple of 4. -/
def roundToDouble (n : Nat) : Nat :=
  if n ≤ 2 ^ 53 then n
  else if n % 2 = 0 then n
  else if n % 4 = 1 then n - 1 else n + 1

/-- The test of `splice` for a result that is out of space:
`lenAfterInsert < len || lenAfterInsert - actualDeleteCount > (1LLU << 53) - 1`, with
`lenAfterInsert = len + insertCount` a sum of doubles. The difference is compared as
the integer it is: below `2^53` it is exact, and from there on its double is at least
`2^53`. -/
def spliceOutOfSpace (len insertCount actualDeleteCount : Nat) : Bool :=
  decide (roundToDouble (len + insertCount) < len) ||
  decide (roundToDouble (len + insertCount) - actualDeleteCount > 2 ^ 53 - 1)

/-- The `switch (argCount)` of `splice`: the insert count and the actual delete
count. -/
def spliceCounts (ops : ArrayOps R) (len actualStart argCount : Nat) (r : R)
    (args : NativeArgs) : CallResult (Nat × Nat) × R :=
  match argCount with
  | 0 => (CallResult.value (0, 0), r)
  | 1 =>
    -- If just one argument specified, delete everything until the end.
    (CallResult.value (0, len - actualStart), r)
  | _ =>
    -- Otherwise, use the specified delete count.
    match ops.toInteger r (args.getArg 1) with
    | (CallResult.EXCEPTION, r1) => (CallResult.EXCEPTION, r1)
    | (CallResult.value deleteCount, r1) =>
      (CallResult.value (argCount - 2, spliceDeleteCount len actualStart deleteCount), r1)

/-- The actual delete count of `splice` by the number of arguments and the integer
of the second argument: the second component of what `spliceCounts` gives. -/
def spliceActualDeleteCount (len actualStart argCount : Nat)
    (deleteCount : IntegerOrInfinity) : Nat :=
  match argCount with
  | 0 => 0
  | 1 => len - actualStart
  | _ => spliceDeleteCount len actualStart deleteCount

/-- The loop `for (uint32_t j = 0; j < actualDeleteCount; ++j)` of `splice`, which
copies the deleted elements to `A`, for the current `j`; the first argument is
`actualDeleteCount - j`. -/
def spliceCopyLoop (ops : ArrayOps R) (O A actualStart gcMarker : Nat) :
    Nat → Nat → R → ExecutionStatus × R
  | 0, _, r => (ExecutionStatus.RETURNED, r)
  | remaining + 1, j, r =>
    match ops.getComputedPrimitiveDescriptor r O
        (HermesValue.encodeDoubleValue (actualStart + j)) with
    | (some fromDescObj, fromDesc, r1) =>
      match ops.getComputedPropertyValue r1 O fromDescObj fromDesc with
      | (CallResult.EXCEPTION, r2) => (ExecutionStatus.EXCEPTION, r2)
      | (CallResult.value fromValue, r2) =>
        spliceCopyLoop ops O A actualStart gcMarker remaining (j + 1)
          (ops.flushToMarker (ops.arraySetElementAt r2 A j fromValue) gcMarker)
    | (none, _, r1) =>
      spliceCopyLoop ops O A actualStart gcMarker remaining (j + 1)
        (ops.flushToMarker r1 gcMarker)

/-- The loop `for (double j = actualStart; j < len - actualDeleteCount; ++j)` of
`splice` (fewer items inserted than deleted), for the current `j`; the first argument
is `len - actualDeleteCount - j`. -/
def spliceShrinkLoop (ops : ArrayOps R) (O actualDeleteCount itemCount gcMarker : Nat) :
    Nat → Nat → R → ExecutionStatus × R
  | 0, _, r => (ExecutionStatus.RETURNED, r)
  | remaining + 1, j, r =>
    match moveElement ops O (HermesValue.encodeDoubleValue (j + actualDeleteCount))
        (HermesValue.encodeDoubleValue (j + itemCount)) r with
    | (ExecutionStatus.EXCEPTION, r1) => (ExecutionStatus.EXCEPTION, r1)
    | (ExecutionStatus.RETURNED, r1) =>
      spliceShrinkLoop ops O actualDeleteCount itemCount gcMarker remaining (j + 1)
        (ops.flushToMarker r1 gcMarker)

/-- The loop `while (i->getNumber() > len - actualDeleteCount + itemCount - 1)` of
`splice`, which deletes the elements from the right that were not copied into; the
argument is `i - (len - actualDeleteCount + itemCount - 1)`, and `base` is
`len - actualDeleteCount + itemCount`, so that `i` is `base + remaining - 1`. -/
def spliceDeleteLoop (ops : ArrayOps R) (O base gcMarker : Nat) :
    Nat → R → ExecutionStatus × R
  | 0, r => (ExecutionStatus.RETURNED, r)
  | remaining + 1, r =>
    match ops.deleteComputed r O (HermesValue.encodeDoubleValue (base + (remaining + 1) - 1)) with
    | (CallResult.EXCEPTION, r1) => (ExecutionStatus.EXCEPTION, r1)
    | (CallResult.value _, r1) =>
      spliceDeleteLoop ops O base gcMarker remaining (ops.flushToMarker r1 gcMarker)

/-- The loop `for (double j = len - actualDeleteCount; j > actualStart; --j)` of
`splice` (more items inserted than deleted); the argument is `j - actualStart`, so
that `j` is `actualStart + remaining`. -/
def spliceGrowLoop (ops : ArrayOps R) (O actualStart actualDeleteCount itemCount gcMarker : Nat) :
    Nat → R → ExecutionStatus × R
  | 0, r => (ExecutionStatus.RETURNED, r)
  | remaining + 1, r =>
    match moveElement ops O
        (HermesValue.encodeDoubleValue
          (actualStart + (remaining + 1) + actualDeleteCount - 1))
        (HermesValue.encodeDoubleValue (actualStart + (remaining + 1) + itemCount - 1)) r with
    | (ExecutionStatus.EXCEPTION, r1) => (ExecutionStatus.EXCEPTION, r1)
    | (ExecutionStatus.RETURNED, r1) =>
      spliceGrowLoop ops O actualStart actualDeleteCount itemCount gcMarker remaining
        (ops.flushToMarker r1 gcMarker)

/-- The loop `for (size_t j = 2; j < argCount; ++j)` of `splice`, which copies the
items into the object, for the current `k` and the items left. -/
def spliceInsertLoop (ops : ArrayOps R) (O gcMarker : Nat) :
    Nat → List HermesValue → R → ExecutionStatus × R
  | _, [], r => (ExecutionStatus.RETURNED, r)
  | k, item :: items, r =>
    match ops.putComputed_RJS r O (HermesValue.encodeDoubleValue k) item with
    | (CallResult.EXCEPTION, r1) => (ExecutionStatus.EXCEPTION, r1)
    | (CallResult.value _, r1) =>
      spliceInsertLoop ops O gcMarker (k + 1) items (ops.flushToMarker r1 gcMarker)

/-- The part of `splice` that moves the elements of the object: the shrinking or the
growing loops, then the items. -/
def spliceMove (ops : ArrayOps R) (O len actualStart actualDeleteCount itemCount
    gcMarker : Nat) (items : List HermesValue) (r : R) : ExecutionStatus × R :=
  let moved : ExecutionStatus × R :=
    if itemCount < actualDeleteCount then
      -- Inserting less items than deleting.
      match spliceShrinkLoop ops O actualDeleteCount itemCount gcMarker
          (len - actualDeleteCount - actualStart) actualStart r with
      | (ExecutionStatus.EXCEPTION, r1) => (ExecutionStatus.EXCEPTION, r1)
      | (ExecutionStatus.RETURNED, r1) =>
        spliceDeleteLoop ops O (len - actualDeleteCount + itemCount) gcMarker
          (actualDeleteCount - itemCount) r1
    else if itemCount > actualDeleteCount then
      -- Inserting more items than deleting.
      spliceGrowLoop ops O actualStart actualDeleteCount itemCount gcMarker
        (len - actualDeleteCount - actualStart) r
    else (ExecutionStatus.RETURNED, r)
  match moved with
  | (ExecutionStatus.EXCEPTION, r2) => (ExecutionStatus.EXCEPTION, r2)
  | (ExecutionStatus.RETURNED, r2) =>
    -- Finally, just copy the elements from the args into the array.
    spliceInsertLoop ops O gcMarker actualStart items r2

/-- The part of `splice` from `JSArray::create` on. -/
def spliceFrom (ops : ArrayOps R) (O len actualStart actualDeleteCount argCount : Nat)
    (r6 : R) (args : NativeArgs) : CallResult HermesValue × R :=
  -- Let A be ? ArraySpeciesCreate(O, actualDeleteCount).
  match ops.arrayCreate r6 actualDeleteCount actualDeleteCount with
  | (CallResult.EXCEPTION, r) => (CallResult.EXCEPTION, r)
  | (CallResult.value A, r7) =>
  let r8 := makeHandles ops (ops.makeHandle r7 (HermesValue.object A))
    [HermesValue.undefined, HermesValue.undefined, HermesValue.object 0,
     HermesValue.undefined, HermesValue.undefined, HermesValue.undefined]
  let gcMarker := ops.createMarker r8
  -- Copy actualDeleteCount elements to A, starting at actualStart.
  match spliceCopyLoop ops O A actualStart gcMarker actualDeleteCount 0 r8 with
  | (ExecutionStatus.EXCEPTION, r) => (CallResult.EXCEPTION, r)
  | (ExecutionStatus.RETURNED, r9) =>
  match ops.arraySetLengthProperty r9 A actualDeleteCount with
  | (CallResult.EXCEPTION, r) => (CallResult.EXCEPTION, r)
  | (CallResult.value _, r10) =>
  -- Perform ? Set(A, "length", actualDeleteCount, true).
  match ops.putNamed_length
      (ops.makeHandle r10 (HermesValue.encodeNumberValue actualDeleteCount)) A
      (HermesValue.encodeNumberValue actualDeleteCount) with
  | (CallResult.EXCEPTION, r) => (CallResult.EXCEPTION, r)
  | (CallResult.value _, r11) =>
  -- Number of new items to add to the array.
  let itemCount := if argCount > 2 then argCount - 2 else 0
  match spliceMove ops O len actualStart actualDeleteCount itemCount gcMarker
      ((args.args.take argCount).drop 2) r11 with
  | (ExecutionStatus.EXCEPTION, r) => (CallResult.EXCEPTION, r)
  | (ExecutionStatus.RETURNED, r12) =>
  let newLength := HermesValue.encodeDoubleValue (len - actualDeleteCount + itemCount)
  match ops.putNamed_length (ops.makeHandle r12 newLength) O newLength with
  | (CallResult.EXCEPTION, r) => (CallResult.EXCEPTION, r)
  | (CallResult.value _, r13) => (CallResult.value (HermesValue.object A), r13)

/-- `arrayPrototypeSplice(void *, Runtime *runtime, NativeArgs args)`, with the layout
that gives `JSArray::StorageType::maxElements()`. `argCount` is a `uint32_t`. -/
def arrayPrototypeSplice (L : Layout) (ops : ArrayOps R) (runtime : R) (args : NativeArgs) :
    CallResult HermesValue × R :=
  match objectAndLength ops ops.toLengthU64 (ops.newGCScope runtime) args with
  | (CallResult.EXCEPTION, r) => (CallResult.EXCEPTION, ops.endGCScope r)
  | (CallResult.value (O, len), r4) =>
  match ops.toInteger r4 (args.getArg 0) with
  | (CallResult.EXCEPTION, r) => (CallResult.EXCEPTION, ops.endGCScope r)
  | (CallResult.value relativeStart, r5) =>
  -- Index to start the deletion/insertion at.
  let actualStart := relativeToAbsolute len relativeStart
  let argCount := args.args.length % UINT32
  match spliceCounts ops len actualStart argCount r5 args with
  | (CallResult.EXCEPTION, r) => (CallResult.EXCEPTION, ops.endGCScope r)
  | (CallResult.value (insertCount, actualDeleteCount), r6) =>
  -- If len+insertCount−actualDeleteCount > 2^53-1, throw a TypeError exception.
  if spliceOutOfSpace len insertCount actualDeleteCount then
    (CallResult.EXCEPTION,
     ops.endGCScope (ops.raiseTypeError r6 "Array.prototype.splice result out of space"))
  else if actualDeleteCount > maxElements L then
    (CallResult.EXCEPTION,
     ops.endGCScope (ops.raiseRangeError r6 "Out of memory for array elements."))
  else
    match spliceFrom ops O len actualStart actualDeleteCount argCount r6 args with
    | (result, r) => (result, ops.endGCScope r)

end ArrayBuiltins

/-! ## Array-like objects -/

/-- An array-like object as the builtins see it: the element at each index (`none`
for a hole), the value of `length`, and whether the object is an array created by
`JSArray::create`. -/
structure ArrayLike where
  elems : Nat → Option HermesValue
  length : Nat
  isArray : Bool

namespace ArrayLike

/-- The object with the element at `i` set (`some`) or deleted (`none`). -/
def put (o : ArrayLike) (i : Nat) (value : Option HermesValue) : ArrayLike :=
  { o with elems := fun k => if k = i then value else o.elems k }

/-- The object with `length` set. -/
def setLength (o : ArrayLike) (n : Nat) : ArrayLike :=
  { o with length := n }

/-- The array that `JSArray::create` returns: no elements, and the given length. -/
def emptyArray (length : Nat) : ArrayLike :=
  { elems := fun _ => none, length := length, isArray := true }

end ArrayLike

/-- The objects of a heap with the object at `address` replaced. -/
def setObject (objects : Nat → Option ArrayLike) (address : Nat) (o : ArrayLike) :
    Nat → Option ArrayLike :=
  fun a => if a = address then some o else objects a

/-- The functions of the virtual machine behave as on a heap of array-like objects
whose indexed elements are plain own data properties, seen through `view` (the object
at each address, if there is one): the property functions find, read, put and delete
the element at an index below `2^53` and never fail; `length` of an object that is not
an array is a plain property; arrays are created empty at an unused address and take
elements below their length; conversions, handles and scopes leave the objects
alone. -/
structure ArrayOps.Plain {R : Type} (ops : ArrayOps R) (view : R → Nat → Option ArrayLike) :
    Prop where
  makeHandle : ∀ r v, view (ops.makeHandle r v) = view r
  flushToMarker : ∀ r marker, view (ops.flushToMarker r marker) = view r
  newGCScope : ∀ r, view (ops.newGCScope r) = view r
  endGCScope : ∀ r, view (ops.endGCScope r) = view r
  toObject : ∀ r obj,
    (ops.toObject r (HermesValue.object obj)).1 = CallResult.value obj ∧
    view (ops.toObject r (HermesValue.object obj)).2 = view r
  getNamed_length : ∀ r obj o, view r obj = some o →
    (ops.getNamed_length r obj).1 = CallResult.value (HermesValue.encodeDoubleValue o.length) ∧
    view (ops.getNamed_length r obj).2 = view r
  toLengthU64 : ∀ r n, n < 2 ^ 53 →
    (ops.toLengthU64 r (HermesValue.encodeDoubleValue n)).1 = CallResult.value n ∧
    view (ops.toLengthU64 r (HermesValue.encodeDoubleValue n)).2 = view r
  toUInt32_RJS : ∀ r n, n < 2 ^ 53 →
    (ops.toUInt32_RJS r (HermesValue.encodeDoubleValue n)).1 = CallResult.value (n % UINT32) ∧
    view (ops.toUInt32_RJS r (HermesValue.encodeDoubleValue n)).2 = view r
  toInteger : ∀ r v, view (ops.toInteger r v).2 = view r
  lookup : ∀ r obj o i, view r obj = some o → i < 2 ^ 53 →
    view (ops.getComputedPrimitiveDescriptor r obj (HermesValue.encodeDoubleValue i)).2.2 =
      view r ∧
    ((ops.getComputedPrimitiveDescriptor r obj (HermesValue.encodeDoubleValue i)).1.isSome =
      (o.elems i).isSome) ∧
    ∀ propObj, (ops.getComputedPrimitiveDescriptor r obj
        (HermesValue.encodeDoubleValue i)).1 = some propObj →
      ∀ r1 o1 value, view r1 obj = some o1 → o1.elems i = some value →
        (ops.getComputedPropertyValue r1 obj propObj
          (ops.getComputedPrimitiveDescriptor r obj
            (HermesValue.encodeDoubleValue i)).2.1).1 = CallResult.value value ∧
        view (ops.getComputedPropertyValue r1 obj propObj
          (ops.getComputedPrimitiveDescriptor r obj
            (HermesValue.encodeDoubleValue i)).2.1).2 = view r1
  getComputedDescriptor : ∀ r obj name,
    ops.getComputedDescriptor r obj name =
      (CallResult.value ((ops.getComputedPrimitiveDescriptor r obj name).1,
        (ops.getComputedPrimitiveDescriptor r obj name).2.1),
       (ops.getComputedPrimitiveDescriptor r obj name).2.2)
  put : ∀ r obj o i value, view r obj = some o → o.isArray = false → i < 2 ^ 53 →
    (∃ done, (ops.putComputed_RJS r obj (HermesValue.encodeDoubleValue i) value).1 =
      CallResult.value done) ∧
    view (ops.putComputed_RJS r obj (HermesValue.encodeDoubleValue i) value).2 =
      setObject (view r) obj (o.put i (some value))
  delete : ∀ r obj o i, view r obj = some o → o.isArray = false → i < 2 ^ 53 →
    (∃ done, (ops.deleteComputed r obj (HermesValue.encodeDoubleValue i)).1 =
      CallResult.value done) ∧
    view (ops.deleteComputed r obj (HermesValue.encodeDoubleValue i)).2 =
      setObject (view r) obj (o.put i none)
  putNamed_length : ∀ r obj o n, view r obj = some o →
    (o.isArray = false ∨ n = o.length) → n < 2 ^ 53 →
    (∃ done, (ops.putNamed_length r obj (HermesValue.encodeDoubleValue n)).1 =
      CallResult.value done) ∧
    view (ops.putNamed_length r obj (HermesValue.encodeDoubleValue n)).2 =
      setObject (view r) obj (o.setLength n)
  arrayCreate : ∀ r capacity length, ∃ array,
    (ops.arrayCreate r capacity length).1 = CallResult.value array ∧
    view r array = none ∧
    view (ops.arrayCreate r capacity length).2 =
      setObject (view r) array (ArrayLike.emptyArray length)
  arraySetElementAt : ∀ r array o index value, view r array = some o → o.isArray = true →
    index < o.length → index < 2 ^ 53 →
    view (ops.arraySetElementAt r array index value) =
      setObject (view r) array (o.put index (some value))
  arraySetLengthProperty : ∀ r array o, view r array = some o → o.isArray = true →
    (∃ done, (ops.arraySetLengthProperty r array o.length).1 = CallResult.value done) ∧
    view (ops.arraySetLengthProperty r array o.length).2 = view r

/-! ## A heap of array-like objects, to evaluate the builtins on -/

/-- The integer or infinity that `ToInteger` gives for a double, by its bits: 0 for a
NaN and below 1 in magnitude, else the double without its fraction. -/
def integerOfBits (bits : Nat) : IntegerOrInfinity :=
  if bits / 2 ^ 52 % 2048 = 2047 then
    if bits % 2 ^ 52 ≠ 0 then IntegerOrInfinity.finite 0
    else if bits / 2 ^ 63 % 2 = 1 then IntegerOrInfinity.negInfinity
    else IntegerOrInfinity.posInfinity
  else if bits / 2 ^ 52 % 2048 < 1023 then IntegerOrInfinity.finite 0
  else
    let magnitude : Nat :=
      if 1075 ≤ bits / 2 ^ 52 % 2048 then
        (2 ^ 52 + bits % 2 ^ 52) * 2 ^ (bits / 2 ^ 52 % 2048 - 1075)
      else (2 ^ 52 + bits % 2 ^ 52) / 2 ^ (1075 - bits / 2 ^ 52 % 2048)
    IntegerOrInfinity.finite (if bits / 2 ^ 63 % 2 = 1 then -(magnitude : Int) else magnitude)

/-- The length that `ToLength` gives for a double, by its bits: the integer of
`ToInteger`, kept within `[0, 2^53 - 1]`. -/
def lengthOfBits (bits : Nat) : Nat :=
  match integerOfBits bits with
  | IntegerOrInfinity.negInfinity => 0
  | IntegerOrInfinity.finite k => min k.toNat (2 ^ 53 - 1)
  | IntegerOrInfinity.posInfinity => 2 ^ 53 - 1

/-- The 32-bit unsigned integer that `ToUint32` gives for a double, by its bits. -/
def uint32OfBits (bits : Nat) : Nat :=
  match integerOfBits bits with
  | IntegerOrInfinity.finite k => (k % (UINT32 : Int)).toNat
  | _ => 0

/-- Modelled from the spec: an object of the sample heap (the object model is outside
the sources at hand): its own data properties with a numeric name, keyed by the bits
of the name, the value of `length`, and whether it is an array. -/
structure HeapObject where
  properties : Nat → Option HermesValue
  length : Nat
  isArray : Bool

/-- The object with the property of the given numeric name set or removed. -/
def HeapObject.setProperty (o : HeapObject) (bits : Nat) (value : Option HermesValue) :
    HeapObject :=
  { o with properties := fun k => if k = bits then value else o.properties k }

/-- Modelled from the spec: a runtime state that holds objects by address (their
position in the list), the handles of the topmost scope, the message of a thrown
error, and the calls of callables made so far (accumulator, value, index). -/
structure ObjectHeap where
  objects : List HeapObject
  handles : List HermesValue
  thrown : Option String
  calls : List (HermesValue × HermesValue × HermesValue)

namespace ObjectHeap

/-- The heap with the object at `address` changed by `change`. -/
def modifyObject (heap : ObjectHeap) (address : Nat) (change : HeapObject → HeapObject) :
    ObjectHeap :=
  match heap.objects.get? address with
  | some o => { heap with objects := heap.objects.set address (change o) }
  | none => heap

/-- The array-like object that a heap object is: its elements at the indices below
`2^53`. -/
def arrayLike (o : HeapObject) : ArrayLike :=
  { elems := fun i => if i < 2 ^ 53 then o.properties (doubleBits i) else none,
    length := o.length, isArray := o.isArray }

/-- The objects of the heap as array-like objects. -/
def view (heap : ObjectHeap) : Nat → Option ArrayLike :=
  fun address => (heap.objects.get? address).map arrayLike

/-- The elements of the object at `address` at the indices `0, ..., count - 1`. -/
def elements (heap : ObjectHeap) (address count : Nat) : List (Option HermesValue) :=
  (List.range count).map fun i =>
    match heap.objects.get? address with
    | some o => o.properties (doubleBits i)
    | none => none

/-- The value of `length` of the object at `address`. -/
def lengthAt (heap : ObjectHeap) (address : Nat) : Option Nat :=
  (heap.objects.get? address).map fun o => o.length

end ObjectHeap

/-- Modelled from the spec: the functions of the virtual machine over an
`ObjectHeap`. The property functions are those of objects with plain own data
properties: a lookup finds the element or the hole, a read returns the element, a put
stores it, a delete removes it, `length` is read and written as a number, and none of
them fails; `JSArray::create` appends an empty array to the heap. The conversions are
those of numbers (`ToInteger`, `ToLength`, `ToUint32` by the bits of the double;
`ToObject` of an object is the object). The callable at address 101 returns its
second argument, the callable at 102 its first, every other callable throws; the
calls of `executeCall4` are recorded. The functions that only `StandardSortModel`
uses are there to complete the structure. -/
def heapOps : ArrayOps ObjectHeap where
  getComputedPrimitiveDescriptor := fun heap obj name =>
    match name, heap.objects.get? obj with
    | HermesValue.number bits, some o =>
      (if (o.properties bits).isSome then some obj else none, { flags := 0, slot := bits },
       heap)
    | _, _ => (none, default, heap)
  getComputedPropertyValue := fun heap _ propObj desc =>
    (CallResult.value
      (match heap.objects.get? propObj with
       | some o => (o.properties desc.slot).getD HermesValue.undefined
       | none => HermesValue.undefined), heap)
  putComputed_RJS := fun heap obj name value =>
    match name with
    | HermesValue.number bits =>
      (CallResult.value true, heap.modifyObject obj fun o => o.setProperty bits (some value))
    | _ => (CallResult.value true, heap)
  deleteComputed := fun heap obj name =>
    match name with
    | HermesValue.number bits =>
      (CallResult.value true, heap.modifyObject obj fun o => o.setProperty bits none)
    | _ => (CallResult.value true, heap)
  executeCall2 := fun heap _ _ _ _ =>
    (CallResult.EXCEPTION, { heap with thrown := some "callable" })
  toNumber_RJS := fun heap v =>
    match v with
    | HermesValue.number bits => (CallResult.value bits, heap)
    | _ => (CallResult.value 9221120237041090560, heap)
  toString_RJS := fun heap v => (CallResult.value v, heap)
  lessOp_RJS := fun heap _ _ => (false, heap)
  makeHandle := fun heap v => { heap with handles := heap.handles ++ [v] }
  newGCScope := fun heap => heap
  createMarker := fun heap => heap.handles.length
  flushToMarker := fun heap marker => { heap with handles := heap.handles.take marker }
  endGCScope := fun heap => heap
  dyn_vmcast_Callable := fun _ v =>
    match v with
    | HermesValue.object address => if 100 < address then some address else none
    | _ => none
  raiseTypeError := fun heap message => { heap with thrown := some message }
  toObject := fun heap v =>
    match v with
    | HermesValue.object address => (CallResult.value address, heap)
    | _ => (CallResult.EXCEPTION, { heap with thrown := some "ToObject" })
  getNamed_length := fun heap obj =>
    match heap.objects.get? obj with
    | some o => (CallResult.value (HermesValue.encodeDoubleValue o.length), heap)
    | none => (CallResult.value HermesValue.undefined, heap)
  toLengthU64 := fun heap v =>
    match v with
    | HermesValue.number bits => (CallResult.value (lengthOfBits bits), heap)
    | _ => (CallResult.value 0, heap)
  getComputedDescriptor := fun heap obj name =>
    match name, heap.objects.get? obj with
    | HermesValue.number bits, some o =>
      (CallResult.value
        (if (o.properties bits).isSome then some obj else none, { flags := 0, slot := bits }),
       heap)
    | _, _ => (CallResult.value (none, default), heap)
  putNamed_length := fun heap obj value =>
    match value with
    | HermesValue.number bits =>
      (CallResult.value true,
       heap.modifyObject obj fun o => { o with length := lengthOfBits bits })
    | _ => (CallResult.value true, heap)
  toInteger := fun heap v =>
    match v with
    | HermesValue.number bits => (CallResult.value (integerOfBits bits), heap)
    | _ => (CallResult.value (IntegerOrInfinity.finite 0), heap)
  toUInt32_RJS := fun heap v =>
    match v with
    | HermesValue.number bits => (CallResult.value (uint32OfBits bits), heap)
    | _ => (CallResult.value 0, heap)
  executeCall4 := fun heap fn _ accumulator value index _ =>
    if fn = 101 then
      (CallResult.value value, { heap with calls := heap.calls ++ [(accumulator, value, index)] })
    else if fn = 102 then
      (CallResult.value accumulator,
       { heap with calls := heap.calls ++ [(accumulator, value, index)] })
    else
      (CallResult.EXCEPTION,
       { heap with calls := heap.calls ++ [(accumulator, value, index)],
                   thrown := some "callback" })
  raiseRangeError := fun heap message => { heap with thrown := some message }
  arrayCreate := fun heap _ length =>
    (CallResult.value heap.objects.length,
     { heap with
       objects := heap.objects ++ [{ properties := fun _ => none, length := length,
                                     isArray := true }] })
  arraySetElementAt := fun heap array index value =>
    heap.modifyObject array fun o => o.setProperty (doubleBits index) (some value)
  arraySetLengthProperty := fun heap array length =>
    (CallResult.value true, heap.modifyObject array fun o => { o with length := length })

/-- The object that is not an array and has the given elements at the indices from 0
on (`none` for a hole) and the given `length`. -/
def sampleObject (elements : List (Option HermesValue)) (length : Nat) : HeapObject :=
  { properties := fun bits =>
      (elements.enum.find? fun entry => doubleBits entry.1 == bits).bind fun entry => entry.2,
    length := length, isArray := false }

/-- The heap that holds one object, at address 0: `sampleObject elements length`. -/
def sampleHeap (elements : List (Option HermesValue)) (length : Nat) : ObjectHeap :=
  { objects := [sampleObject elements length], handles := [], thrown := none, calls := [] }

/-- The call of a builtin on the object at address 0 with the given arguments. -/
def callOnObject (arguments : List HermesValue) : NativeArgs :=
  { thisArg := HermesValue.object 0, args := arguments }

/-- A runtime with no allocation made and nothing thrown, whose allocator hands out
memory full of non-empty garbage; used to evaluate the definitions. -/
def Runtime.initial : Runtime :=
  { allocations := [], thrownValue := none,
    rawMemory := fun k i => HermesValue.number (1000 * k + i + 1) }

/-! ## Arithmetic of the 32-bit quantities -/

theorem maxElements_lt (L : Layout) : maxElements L < UINT32 :=
  Nat.mod_lt _ (by decide)

theorem UINT32_eq : UINT32 = 4294967296 := by
  norm_num [UINT32]

theorem allocationSize_eq_of_lt (L : Layout) (capacity : Nat)
    (h : totalSizeToAlloc L capacity < UINT32) :
    allocationSize L capacity = totalSizeToAlloc L capacity :=
  Nat.mod_eq_of_lt h

theorem totalSizeToAlloc_mono (L : Layout) (c1 c2 : Nat) (h : c1 ≤ c2) :
    totalSizeToAlloc L c1 ≤ totalSizeToAlloc L c2 :=
  Nat.add_le_add_left (Nat.mul_le_mul_right _ h) _

/-- Without wrap-around `maxElements()` is the quotient of the room left after the
header by the size of a value. -/
theorem maxElements_eq (L : Layout) (hH : L.headerSize ≤ L.maxAllocationSize)
    (hM : L.maxAllocationSize < UINT32) :
    maxElements L = (L.maxAllocationSize - L.headerSize) / L.valueSize := by
  have h0 : allocationSize L 0 = L.headerSize := by
    simp only [allocationSize, totalSizeToAlloc, Nat.zero_mul, Nat.add_zero]
    exact Nat.mod_eq_of_lt (lt_of_le_of_lt hH hM)
  have h1 : (L.maxAllocationSize + UINT32 - L.headerSize) % UINT32 =
      L.maxAllocationSize - L.headerSize := by
    have : L.maxAllocationSize + UINT32 - L.headerSize =
        (L.maxAllocationSize - L.headerSize) + UINT32 := by omega
    rw [this, Nat.add_mod_right]
    exact Nat.mod_eq_of_lt (by omega)
  simp only [maxElements, h0, h1]
  exact Nat.mod_eq_of_lt
    (lt_of_le_of_lt (Nat.div_le_self _ _) (by omega))

theorem totalSizeToAlloc_maxElements_le (L : Layout)
    (hH : L.headerSize ≤ L.maxAllocationSize) (hM : L.maxAllocationSize < UINT32) :
    totalSizeToAlloc L (maxElements L) ≤ L.maxAllocationSize := by
  rw [maxElements_eq L hH hM]
  have := Nat.div_mul_le_self (L.maxAllocationSize - L.headerSize) L.valueSize
  simp only [totalSizeToAlloc]
  omega

theorem totalSizeToAlloc_gt_of_gt_maxElements (L : Layout) (capacity : Nat)
    (hH : L.headerSize ≤ L.maxAllocationSize) (hM : L.maxAllocationSize < UINT32)
    (hE : 0 < L.valueSize) (h : capacity > maxElements L) :
    totalSizeToAlloc L capacity > L.maxAllocationSize := by
  rw [maxElements_eq L hH hM] at h
  have := (Nat.div_lt_iff_lt_mul hE).mp h
  simp only [totalSizeToAlloc]
  omega

/-! ## Stores and fills -/

namespace ArrayStorage

theorem store_same (data : Nat → HermesValue) (index : Nat) (value : HermesValue) :
    store data index value index = value := by
  simp [store]

theorem store_other (data : Nat → HermesValue) (index : Nat) (value : HermesValue)
    (i : Nat) (h : i ≠ index) : store data index value i = data i := by
  simp [store, h]

theorem fillLoop_outside (value : HermesValue) (count : Nat) :
    ∀ (data : Nat → HermesValue) (first i : Nat), (i < first ∨ first + count ≤ i) →
      fillLoop data first value count i = data i := by
  induction count with
  | zero => intro data first i _; rfl
  | succ n ih =>
    intro data first i h
    simp only [fillLoop]
    rw [ih _ _ _ (by omega), store_other _ _ _ _ (by omega)]

theorem fillLoop_inside (value : HermesValue) (count : Nat) :
    ∀ (data : Nat → HermesValue) (first i : Nat), first ≤ i → i < first + count →
      fillLoop data first value count i = value := by
  induction count with
  | zero => intro data first i h1 h2; omega
  | succ n ih =>
    intro data first i h1 h2
    simp only [fillLoop]
    by_cases hi : i = first
    · subst hi
      rw [fillLoop_outside value n _ (i + 1) i (by omega), store_same]
    · exact ih _ _ _ (by omega) (by omega)

theorem fill_inside (data : Nat → HermesValue) (first last i : Nat) (value : HermesValue)
    (h1 : first ≤ i) (h2 : i < last) : fill data first last value i = value :=
  fillLoop_inside value _ data first i h1 (by omega)

theorem fill_outside (data : Nat → HermesValue) (first last i : Nat) (value : HermesValue)
    (h : i < first ∨ last ≤ i) : fill data first last value i = data i :=
  fillLoop_outside value _ data first i (by omega)

/-! ## Creation -/

/-- C1: for every capacity with `capacity ≤ maxElements()`, `create(capacity)` and
`createLongLived(capacity)` succeed and return a cell whose `size()` is 0 and whose
`capacity()` is the requested capacity. -/
theorem create_succeeds (L : Layout) (runtime : Runtime) (capacity : Nat)
    (h : capacity ≤ maxElements L) :
    (∃ cell, (create L runtime capacity).1 = CallResult.value cell ∧
        cell.size = 0 ∧ cell.capacity = capacity) ∧
    (∃ cell, (createLongLived L runtime capacity).1 = CallResult.value cell ∧
        cell.size = 0 ∧ cell.capacity = capacity) := by
  have hn : ¬ capacity > maxElements L := by omega
  constructor
  · exact ⟨construct (runtime.rawMemory runtime.allocations.length) capacity,
      by simp [create, hn, Runtime.alloc], rfl, rfl⟩
  · exact ⟨construct (runtime.rawMemory runtime.allocations.length) capacity,
      by simp [createLongLived, hn, Runtime.allocLongLived], rfl, rfl⟩

theorem create_succeeds_witness :
    (4 ≤ maxElements Layout.malloc64) ∧
    (∃ cell, (create Layout.malloc64 Runtime.initial 4).1 = CallResult.value cell ∧
        cell.size = 0 ∧ cell.capacity = 4) ∧
    (∃ cell, (createLongLived Layout.malloc64 Runtime.initial 4).1 = CallResult.value cell ∧
        cell.size = 0 ∧ cell.capacity = 4) :=
  ⟨by decide, create_succeeds Layout.malloc64 Runtime.initial 4 (by decide)⟩

/-- C2: `create(capacity)` and `createLongLived(capacity)` fail with the
capacity-exceeded error (status `EXCEPTION`, the RangeError left as thrown value) if
and only if `capacity > maxElements()`; `create(maxElements())` succeeds and
`create(maxElements() + 1)` fails (also with the sum computed in 32 bits, which does
not wrap in a layout with a non-empty header that fits a single allocation); on
failure neither `alloc` nor `allocLongLived` has been called, so no cell has been
allocated or constructed. -/
theorem create_fails_iff (L : Layout) (runtime : Runtime) (capacity : Nat) :
    ((create L runtime capacity).1 = CallResult.EXCEPTION ↔ capacity > maxElements L) ∧
    ((createLongLived L runtime capacity).1 = CallResult.EXCEPTION ↔
        capacity > maxElements L) ∧
    (create L runtime (maxElements L)).1 ≠ CallResult.EXCEPTION ∧
    (create L runtime (maxElements L + 1)).1 = CallResult.EXCEPTION ∧
    (L.sane → 0 < L.headerSize →
      (create L runtime ((maxElements L + 1) % UINT32)).1 = CallResult.EXCEPTION) ∧
    (capacity > maxElements L →
      create L runtime capacity =
        (CallResult.EXCEPTION,
         { runtime with
           thrownValue := some (Thrown.RangeErrorExcessiveCapacity capacity (maxElements L)) }) ∧
      createLongLived L runtime capacity = create L runtime capacity ∧
      (create L runtime capacity).2.allocations = runtime.allocations ∧
      (createLongLived L runtime capacity).2.allocations = runtime.allocations) := by
  refine ⟨?_, ?_, ?_, ?_, ?_, ?_⟩
  · by_cases h : capacity > maxElements L <;> simp [create, h, Runtime.alloc]
  · by_cases h : capacity > maxElements L <;>
      simp [createLongLived, h, Runtime.allocLongLived]
  · simp [create, Runtime.alloc]
  · simp [create]
  · intro hL hH
    have hle : maxElements L ≤ L.maxAllocationSize - L.headerSize := by
      rw [maxElements_eq L hL.1 hL.2.1]
      exact Nat.div_le_self _ _
    have hM := hL.2.1
    have hH1 := hL.1
    have hlt : maxElements L + 1 < UINT32 := by omega
    rw [Nat.mod_eq_of_lt hlt]
    simp [create]
  · intro h
    simp [create, createLongLived, h, throwExcessiveCapacityError]

theorem create_fails_iff_witness :
    536870909 > maxElements Layout.malloc64 ∧
    (create Layout.malloc64 Runtime.initial 536870909).1 = CallResult.EXCEPTION ∧
    (create Layout.malloc64 Runtime.initial 536870909).2.allocations = [] ∧
    Layout.malloc64.sane ∧ 0 < Layout.malloc64.headerSize ∧
    (create Layout.malloc64 Runtime.initial
      ((maxElements Layout.malloc64 + 1) % UINT32)).1 = CallResult.EXCEPTION := by
  have h := create_fails_iff Layout.malloc64 Runtime.initial 536870909
  have hgt : 536870909 > maxElements Layout.malloc64 := by decide
  exact ⟨hgt, h.1.2 hgt, (h.2.2.2.2.2 hgt).2.2.1, by decide, by decide,
    h.2.2.2.2.1 (by decide) (by decide)⟩

/-- C3: for every `size ≤ capacity ≤ maxElements()`, `create(capacity, size)` returns
a cell with `capacity() == capacity` and `size() == size` in which every slot at an
index below `size` holds the empty value; when `capacity > maxElements()` it returns
the failure of `create(capacity)`, whatever `size` is, the resize (and its
assertion) never being reached. -/
theorem createWithSize_spec (L : Layout) (runtime : Runtime) (capacity size : Nat) :
    (size ≤ capacity → capacity ≤ maxElements L →
      ∃ cell, createWithSize L runtime capacity size =
          some (CallResult.value cell, (create L runtime capacity).2) ∧
        cell.capacity = capacity ∧ cell.size = size ∧
        ∀ i, i < size →
          cell.data i = HermesValue.encodeEmptyValue ∧
          cell.at_ i = some HermesValue.encodeEmptyValue) ∧
    (capacity > maxElements L →
      (create L runtime capacity).1 = CallResult.EXCEPTION ∧
      createWithSize L runtime capacity size = some (create L runtime capacity)) := by
  constructor
  · intro hs hc
    have hn : ¬ capacity > maxElements L := by omega
    by_cases h0 : size > 0
    · refine ⟨{ capacity_ := capacity, size_ := size,
                data := fill (runtime.rawMemory runtime.allocations.length) 0 size
                  HermesValue.encodeEmptyValue }, ?_, rfl, rfl, ?_⟩
      · simp [createWithSize, create, hn, Runtime.alloc, resizeWithinCapacity, construct,
          hs, h0]
      · intro i hi
        have hd := fill_inside (runtime.rawMemory runtime.allocations.length) 0 size i
          HermesValue.encodeEmptyValue (by omega) hi
        exact ⟨hd, by simp [at_, hi, hd]⟩
    · refine ⟨{ capacity_ := capacity, size_ := size,
                data := runtime.rawMemory runtime.allocations.length }, ?_, rfl, rfl, ?_⟩
      · simp [createWithSize, create, hn, Runtime.alloc, resizeWithinCapacity, construct,
          hs, h0]
      · intro i hi
        omega
  · intro h
    simp [createWithSize, create, h]

theorem createWithSize_spec_witness :
    (3 ≤ 5 ∧ 5 ≤ maxElements Layout.malloc64 ∧
      ∃ cell, createWithSize Layout.malloc64 Runtime.initial 5 3 =
          some (CallResult.value cell, (create Layout.malloc64 Runtime.initial 5).2) ∧
        cell.capacity = 5 ∧ cell.size = 3 ∧
        ∀ i, i < 3 →
          cell.data i = HermesValue.encodeEmptyValue ∧
          cell.at_ i = some HermesValue.encodeEmptyValue) ∧
    (536870909 > maxElements Layout.malloc64 ∧
      createWithSize Layout.malloc64 Runtime.initial 536870909 536870910 =
        some (create Layout.malloc64 Runtime.initial 536870909)) :=
  ⟨⟨by decide, by decide,
    (createWithSize_spec Layout.malloc64 Runtime.initial 5 3).1 (by decide) (by decide)⟩,
   by decide,
   ((createWithSize_spec Layout.malloc64 Runtime.initial 536870909 536870910).2
      (by decide)).2⟩

/-! ## push_back, pop_back, resizeWithinCapacity -/

/-- C4: for every cell with `size < capacity` (the fields being `uint32_t`) and every
value `v`, `push_back(v)` returns `RETURNED` on the same cell, whatever the slow path
is (it is not taken) and without touching the runtime: afterwards the size is the old
size plus one, the slot at the old size holds `v` and `at(old size)` returns it, every
slot at an index below the old size is unchanged, and the capacity is unchanged. -/
theorem push_back_fast (slow : SlowPath) (self : ArrayStorage) (runtime : Runtime)
    (v : HermesValue) (h32 : self.capacity_ < UINT32) (h : self.size_ < self.capacity_) :
    (push_back slow self runtime v).1 = ExecutionStatus.RETURNED ∧
    (push_back slow self runtime v).2.2 = runtime ∧
    (push_back slow self runtime v).2.1.size_ = self.size_ + 1 ∧
    (push_back slow self runtime v).2.1.data self.size_ = v ∧
    (push_back slow self runtime v).2.1.at_ self.size_ = some v ∧
    (∀ i, i < self.size_ →
      (push_back slow self runtime v).2.1.data i = self.data i) ∧
    (push_back slow self runtime v).2.1.capacity_ = self.capacity_ := by
  have hsz : (self.size_ + 1) % UINT32 = self.size_ + 1 :=
    Nat.mod_eq_of_lt (by omega)
  refine ⟨?_, ?_, ?_, ?_, ?_, ?_, ?_⟩
  · simp [push_back, h]
  · simp [push_back, h]
  · simp [push_back, h, hsz]
  · simp [push_back, h, store]
  · simp [push_back, h, hsz, at_, store]
  · intro i hi
    simp only [push_back, h, if_true]
    exact store_other _ _ _ _ (by omega)
  · simp [push_back, h]

theorem push_back_fast_witness :
    sampleCell.capacity_ < UINT32 ∧ sampleCell.size_ < sampleCell.capacity_ ∧
    (push_back failingSlowPath sampleCell Runtime.initial HermesValue.null).1 =
      ExecutionStatus.RETURNED ∧
    (push_back failingSlowPath sampleCell Runtime.initial HermesValue.null).2.1.size_ = 3 ∧
    (push_back failingSlowPath sampleCell Runtime.initial HermesValue.null).2.1.at_ 2 =
      some HermesValue.null := by
  have h := push_back_fast failingSlowPath sampleCell Runtime.initial HermesValue.null
    (by decide) (by decide)
  exact ⟨by decide, by decide, h.1, h.2.2.1, h.2.2.2.2.1⟩

/-- C5: for every cell with `size > 0` (the field being `uint32_t`), `pop_back()`
returns the value stored at index `size - 1`, decrements the size by exactly one, and
leaves the capacity and every slot unchanged (in particular those below the new
size); the index read, which is the new size, is below the capacity whenever
`size ≤ capacity`. -/
theorem pop_back_spec (self : ArrayStorage) (h32 : self.size_ < UINT32)
    (h : self.size_ > 0) :
    ∃ cell, pop_back self = some (self.data (self.size_ - 1), cell) ∧
      self.at_ (self.size_ - 1) = some (self.data (self.size_ - 1)) ∧
      cell.size_ + 1 = self.size_ ∧
      cell.capacity_ = self.capacity_ ∧
      (∀ i, cell.data i = self.data i) ∧
      (self.size_ ≤ self.capacity_ → cell.size_ < self.capacity_) := by
  have hsz : (self.size_ + UINT32 - 1) % UINT32 = self.size_ - 1 := by
    have : self.size_ + UINT32 - 1 = (self.size_ - 1) + UINT32 := by omega
    rw [this, Nat.add_mod_right]
    exact Nat.mod_eq_of_lt (by omega)
  refine ⟨{ self with size_ := self.size_ - 1 }, ?_, ?_, ?_, rfl, fun _ => rfl, ?_⟩
  · simp [pop_back, h, hsz]
  · have : self.size_ - 1 < self.size_ := by omega
    simp [at_, this]
  · show self.size_ - 1 + 1 = self.size_
    omega
  · intro hle
    show self.size_ - 1 < self.capacity_
    omega

theorem pop_back_spec_witness :
    sampleCell.size_ < UINT32 ∧ sampleCell.size_ > 0 ∧
    ∃ cell, pop_back sampleCell = some (HermesValue.number 8, cell) ∧
      cell.size_ + 1 = 2 ∧ cell.capacity_ = 4 := by
  obtain ⟨cell, h1, _, h3, h4, _⟩ := pop_back_spec sampleCell (by decide) (by decide)
  exact ⟨by decide, by decide, cell, h1, h3, h4⟩

/-- C6: for every cell and every `newSize ≤ capacity`, `resizeWithinCapacity(newSize)`
sets the size to `newSize`, leaves the capacity unchanged, leaves every slot at an
index below `min(old size, newSize)` unchanged and, when `newSize > old size`, makes
every slot of `[old size, newSize)` hold the empty value; when shrinking (or keeping
the size) no slot at all is written, and in every case the slots at indices
`≥ newSize` keep their content. -/
theorem resizeWithinCapacity_spec (self : ArrayStorage) (newSize : Nat)
    (h : newSize ≤ self.capacity_) :
    ∃ cell, resizeWithinCapacity self newSize = some cell ∧
      cell.size_ = newSize ∧
      cell.capacity_ = self.capacity_ ∧
      (∀ i, i < min self.size_ newSize → cell.data i = self.data i) ∧
      (newSize > self.size_ → ∀ i, self.size_ ≤ i → i < newSize →
        cell.data i = HermesValue.encodeEmptyValue) ∧
      (newSize ≤ self.size_ → cell.data = self.data) ∧
      (∀ i, newSize ≤ i → cell.data i = self.data i) := by
  by_cases hg : newSize > self.size_
  · refine ⟨{ self with
              data := fill self.data self.size_ newSize HermesValue.encodeEmptyValue,
              size_ := newSize }, ?_, rfl, rfl, ?_, ?_, ?_, ?_⟩
    · simp [resizeWithinCapacity, h, hg]
    · intro i hi
      exact fill_outside _ _ _ _ _ (Or.inl (by omega))
    · intro _ i h1 h2
      exact fill_inside _ _ _ _ _ h1 h2
    · intro hle
      omega
    · intro i hi
      exact fill_outside _ _ _ _ _ (Or.inr hi)
  · refine ⟨{ self with size_ := newSize }, ?_, rfl, rfl, fun _ _ => rfl, ?_,
      fun _ => rfl, fun _ _ => rfl⟩
    · simp [resizeWithinCapacity, h, hg]
    · intro hgt
      omega

theorem resizeWithinCapacity_spec_witness :
    4 ≤ sampleCell.capacity_ ∧
    ∃ cell, resizeWithinCapacity sampleCell 4 = some cell ∧
      cell.size_ = 4 ∧ cell.capacity_ = 4 ∧
      cell.data 1 = HermesValue.number 8 ∧
      cell.data 2 = HermesValue.empty ∧ cell.data 3 = HermesValue.empty := by
  obtain ⟨cell, h1, h2, h3, h4, h5, _, _⟩ :=
    resizeWithinCapacity_spec sampleCell 4 (by decide)
  exact ⟨by decide, cell, h1, h2, h3, h4 1 (by decide),
    h5 (by decide) 2 (by decide) (by decide), h5 (by decide) 3 (by decide) (by decide)⟩

/-! ## Sequences of operations -/

theorem push_back_eq (slow : SlowPath) (self : ArrayStorage) (runtime : Runtime)
    (v : HermesValue) (h32 : self.capacity_ < UINT32) (h : self.size_ < self.capacity_) :
    push_back slow self runtime v =
      (ExecutionStatus.RETURNED,
       { self with data := store self.data self.size_ v, size_ := self.size_ + 1 },
       runtime) := by
  have hsz : (self.size_ + 1) % UINT32 = self.size_ + 1 :=
    Nat.mod_eq_of_lt (by omega)
  simp [push_back, h, hsz]

theorem pop_back_eq (self : ArrayStorage) (h32 : self.size_ < UINT32)
    (h : self.size_ > 0) :
    pop_back self =
      some (self.data (self.size_ - 1), { self with size_ := self.size_ - 1 }) := by
  have hsz : (self.size_ + UINT32 - 1) % UINT32 = self.size_ - 1 := by
    have : self.size_ + UINT32 - 1 = (self.size_ - 1) + UINT32 := by omega
    rw [this, Nat.add_mod_right]
    exact Nat.mod_eq_of_lt (by omega)
  simp [pop_back, h, hsz]

theorem applyOp_push_back (slow : SlowPath) (runtime : Runtime) (self cell : ArrayStorage)
    (v : HermesValue) (hw : WellSized self)
    (h : applyOp slow runtime self (Op.push_back v) = some cell) :
    self.size_ < self.capacity_ ∧
    cell = { self with data := store self.data self.size_ v, size_ := self.size_ + 1 } := by
  by_cases hlt : self.size_ < self.capacity_
  · simp only [applyOp, hlt, if_true, push_back_eq slow self runtime v hw.2 hlt,
      Option.some.injEq] at h
    exact ⟨hlt, h.symm⟩
  · simp [applyOp, hlt] at h

theorem applyOp_pop_back (slow : SlowPath) (runtime : Runtime) (self cell : ArrayStorage)
    (hw : WellSized self) (h : applyOp slow runtime self Op.pop_back = some cell) :
    self.size_ > 0 ∧ cell = { self with size_ := self.size_ - 1 } := by
  have h32 : self.size_ < UINT32 := lt_of_le_of_lt hw.1 hw.2
  by_cases hpos : self.size_ > 0
  · simp only [applyOp, pop_back_eq self h32 hpos, Option.map_some', Option.some.injEq] at h
    exact ⟨hpos, h.symm⟩
  · simp [applyOp, pop_back, hpos] at h

theorem applyOp_resizeWithinCapacity (slow : SlowPath) (runtime : Runtime)
    (self cell : ArrayStorage) (newSize : Nat)
    (h : applyOp slow runtime self (Op.resizeWithinCapacity newSize) = some cell) :
    newSize ≤ self.capacity_ ∧ cell.size_ = newSize ∧ cell.capacity_ = self.capacity_ ∧
    (∀ i, i < self.size_ → i < newSize → cell.data i = self.data i) ∧
    (∀ i, self.size_ ≤ i → i < newSize → cell.data i = HermesValue.encodeEmptyValue) := by
  by_cases hle : newSize ≤ self.capacity_
  · simp only [applyOp, resizeWithinCapacity, hle, if_true, Option.some.injEq] at h
    subst h
    refine ⟨hle, rfl, rfl, ?_, ?_⟩
    · intro i h1 h2
      show (if newSize > self.size_ then fill _ _ _ _ else self.data) i = _
      split
      · exact fill_outside _ _ _ _ _ (Or.inl h1)
      · rfl
    · intro i h1 h2
      show (if newSize > self.size_ then fill _ _ _ _ else self.data) i = _
      rw [if_pos (by omega)]
      exact fill_inside _ _ _ _ _ h1 h2
  · simp [applyOp, resizeWithinCapacity, hle] at h

theorem applyOp_wellSized (slow : SlowPath) (runtime : Runtime) (self cell : ArrayStorage)
    (op : Op) (hw : WellSized self) (h : applyOp slow runtime self op = some cell) :
    WellSized cell := by
  cases op with
  | push_back v =>
    obtain ⟨hlt, rfl⟩ := applyOp_push_back slow runtime self cell v hw h
    exact ⟨Nat.succ_le_of_lt hlt, hw.2⟩
  | pop_back =>
    obtain ⟨_, rfl⟩ := applyOp_pop_back slow runtime self cell hw h
    exact ⟨le_trans (Nat.sub_le _ _) hw.1, hw.2⟩
  | resizeWithinCapacity newSize =>
    obtain ⟨h1, h2, h3, _⟩ := applyOp_resizeWithinCapacity slow runtime self cell newSize h
    exact ⟨by rw [h2, h3]; exact h1, by rw [h3]; exact hw.2⟩

theorem applyOp_isSome_of_admissible (slow : SlowPath) (runtime : Runtime)
    (self : ArrayStorage) (op : Op) (h : op.admissible self) :
    (applyOp slow runtime self op).isSome = true := by
  cases op with
  | push_back v =>
    have h1 : self.size_ < self.capacity_ := h
    simp [applyOp, h1]
  | pop_back =>
    have h1 : self.size_ > 0 := h
    simp [applyOp, pop_back, h1]
  | resizeWithinCapacity newSize =>
    have h1 : newSize ≤ self.capacity_ := h
    simp [applyOp, resizeWithinCapacity, h1]

/-- A property that holds of the first cell and that every step of the sequence keeps
holds of every cell the sequence goes through. -/
theorem trace_forall (slow : SlowPath) (runtime : Runtime) (P : ArrayStorage → Prop)
    (ops : List Op) :
    ∀ (allOps : List Op), (∀ op, op ∈ ops → op ∈ allOps) →
      (∀ self op cell, op ∈ allOps → P self → applyOp slow runtime self op = some cell →
        P cell) →
      ∀ self, P self → ∀ cell, cell ∈ trace slow runtime self ops → P cell := by
  induction ops with
  | nil =>
    intro allOps _ _ self hP cell hmem
    simp only [trace, List.mem_singleton] at hmem
    exact hmem ▸ hP
  | cons op ops ih =>
    intro allOps hsub hstep self hP cell hmem
    simp only [trace, List.mem_cons] at hmem
    rcases hmem with rfl | hmem
    · exact hP
    · cases hop : applyOp slow runtime self op with
      | none => simp [hop] at hmem
      | some self1 =>
        simp only [hop] at hmem
        exact ih allOps (fun o ho => hsub o (List.mem_cons_of_mem _ ho)) hstep self1
          (hstep self op self1 (hsub op (List.mem_cons_self _ _)) hP hop) cell hmem

theorem wellSized_of_created (L : Layout) (runtime : Runtime) (capacity size : Nat)
    (self : ArrayStorage)
    (h : (create L runtime capacity).1 = CallResult.value self ∨
         (createLongLived L runtime capacity).1 = CallResult.value self ∨
         (createWithSize L runtime capacity size).map Prod.fst =
           some (CallResult.value self)) :
    WellSized self ∧ self.capacity_ = capacity ∧
    ∀ i, i < self.size_ → self.data i = HermesValue.encodeEmptyValue := by
  have hmax := maxElements_lt L
  by_cases hc : capacity > maxElements L
  · rcases h with h | h | h
    · simp [create, hc] at h
    · simp [createLongLived, hc] at h
    · simp [createWithSize, create, hc] at h
  · rcases h with h | h | h
    · simp only [create, hc, if_false, Runtime.alloc, CallResult.value.injEq] at h
      subst h
      exact ⟨⟨Nat.zero_le _, by show capacity < UINT32; omega⟩, rfl,
        fun i hi => absurd hi (Nat.not_lt_zero _)⟩
    · simp only [createLongLived, hc, if_false, Runtime.allocLongLived,
        CallResult.value.injEq] at h
      subst h
      exact ⟨⟨Nat.zero_le _, by show capacity < UINT32; omega⟩, rfl,
        fun i hi => absurd hi (Nat.not_lt_zero _)⟩
    · by_cases hs : size ≤ capacity
      · simp only [createWithSize, create, hc, if_false, Runtime.alloc,
          resizeWithinCapacity, construct, hs, if_true, Option.map_some',
          Option.some.injEq, CallResult.value.injEq] at h
        subst h
        refine ⟨⟨hs, by show capacity < UINT32; omega⟩, rfl, ?_⟩
        intro i hi
        have hi1 : i < size := hi
        show (if size > 0 then fill _ _ _ _ else runtime.rawMemory _) i = _
        rw [if_pos (by omega)]
        exact fill_inside _ _ _ _ _ (Nat.zero_le _) hi1
      · simp [createWithSize, create, hc, Runtime.alloc, resizeWithinCapacity,
          construct, hs] at h

theorem admissible_of_applyOp (slow : SlowPath) (runtime : Runtime)
    (self cell : ArrayStorage) (op : Op) (h : applyOp slow runtime self op = some cell) :
    op.admissible self := by
  cases op with
  | push_back v =>
    show self.size_ < self.capacity_
    by_contra hn
    simp [applyOp, hn] at h
  | pop_back =>
    show self.size_ > 0
    by_contra hn
    simp [applyOp, pop_back, hn] at h
  | resizeWithinCapacity newSize =>
    show newSize ≤ self.capacity_
    by_contra hn
    simp [applyOp, resizeWithinCapacity, hn] at h

theorem admissible_congr (c1 c2 : ArrayStorage) (op : Op)
    (hc : c1.capacity_ = c2.capacity_) (hs : c1.size_ = c2.size_)
    (h : op.admissible c1) : op.admissible c2 := by
  cases op <;> simp only [Op.admissible] at h ⊢ <;> omega

theorem liveView_eq_iff (c1 c2 : ArrayStorage) :
    liveView c1 = liveView c2 ↔
      c1.capacity_ = c2.capacity_ ∧ c1.size_ = c2.size_ ∧
      ∀ i, i < c1.size_ → c1.data i = c2.data i := by
  simp only [liveView, Prod.mk.injEq]
  constructor
  · rintro ⟨hc, hs, hd⟩
    refine ⟨hc, hs, ?_⟩
    rw [← hs] at hd
    intro i hi
    exact (List.map_inj_left.mp hd) i (List.mem_range.mpr hi)
  · rintro ⟨hc, hs, hd⟩
    refine ⟨hc, hs, ?_⟩
    rw [← hs]
    exact List.map_inj_left.mpr (fun i hi => hd i (List.mem_range.mp hi))

/-- One step on two cells with the same live view gives two cells with the same live
view (or fails on both): what the slots at and above the size hold has no influence. -/
theorem applyOp_liveView (slow1 slow2 : SlowPath) (runtime1 runtime2 : Runtime)
    (c1 c2 : ArrayStorage) (op : Op) (hw : WellSized c1)
    (hv : liveView c1 = liveView c2) :
    (applyOp slow1 runtime1 c1 op).map liveView =
      (applyOp slow2 runtime2 c2 op).map liveView := by
  obtain ⟨hc, hs, hd⟩ := (liveView_eq_iff c1 c2).mp hv
  have hw2 : WellSized c2 := ⟨by rw [← hc, ← hs]; exact hw.1, by rw [← hc]; exact hw.2⟩
  cases h1 : applyOp slow1 runtime1 c1 op with
  | none =>
    cases h2 : applyOp slow2 runtime2 c2 op with
    | none => rfl
    | some d2 =>
      have ha := admissible_congr c2 c1 op hc.symm hs.symm
        (admissible_of_applyOp slow2 runtime2 c2 d2 op h2)
      have := applyOp_isSome_of_admissible slow1 runtime1 c1 op ha
      simp [h1] at this
  | some d1 =>
    cases h2 : applyOp slow2 runtime2 c2 op with
    | none =>
      have ha := admissible_congr c1 c2 op hc hs
        (admissible_of_applyOp slow1 runtime1 c1 d1 op h1)
      have := applyOp_isSome_of_admissible slow2 runtime2 c2 op ha
      simp [h2] at this
    | some d2 =>
      simp only [Option.map_some', Option.some.injEq]
      rw [liveView_eq_iff]
      cases op with
      | push_back v =>
        obtain ⟨_, rfl⟩ := applyOp_push_back slow1 runtime1 c1 d1 v hw h1
        obtain ⟨_, rfl⟩ := applyOp_push_back slow2 runtime2 c2 d2 v hw2 h2
        refine ⟨hc, by show c1.size_ + 1 = c2.size_ + 1; omega, ?_⟩
        intro i hi
        have hi1 : i < c1.size_ + 1 := hi
        show store c1.data c1.size_ v i = store c2.data c2.size_ v i
        by_cases he : i = c1.size_
        · rw [he, store_same, hs, store_same]
        · rw [store_other _ _ _ _ he, store_other _ _ _ _ (by omega)]
          exact hd i (by omega)
      | pop_back =>
        obtain ⟨_, rfl⟩ := applyOp_pop_back slow1 runtime1 c1 d1 hw h1
        obtain ⟨_, rfl⟩ := applyOp_pop_back slow2 runtime2 c2 d2 hw2 h2
        refine ⟨hc, by show c1.size_ - 1 = c2.size_ - 1; omega, ?_⟩
        intro i hi
        have hi1 : i < c1.size_ - 1 := hi
        exact hd i (by omega)
      | resizeWithinCapacity newSize =>
        obtain ⟨_, a2, a3, a4, a5⟩ :=
          applyOp_resizeWithinCapacity slow1 runtime1 c1 d1 newSize h1
        obtain ⟨_, b2, b3, b4, b5⟩ :=
          applyOp_resizeWithinCapacity slow2 runtime2 c2 d2 newSize h2
        refine ⟨by omega, by omega, ?_⟩
        intro i hi
        by_cases hlt : i < c1.size_
        · rw [a4 i hlt (by omega), b4 i (by omega) (by omega)]
          exact hd i hlt
        · rw [a5 i (by omega) (by omega), b5 i (by omega) (by omega)]

theorem applyOps_liveView (slow1 slow2 : SlowPath) (runtime1 runtime2 : Runtime)
    (ops : List Op) :
    ∀ (c1 c2 : ArrayStorage), WellSized c1 → liveView c1 = liveView c2 →
      (applyOps slow1 runtime1 c1 ops).map liveView =
        (applyOps slow2 runtime2 c2 ops).map liveView := by
  induction ops with
  | nil =>
    intro c1 c2 _ hv
    simp [applyOps, hv]
  | cons op ops ih =>
    intro c1 c2 hw hv
    have hstep := applyOp_liveView slow1 slow2 runtime1 runtime2 c1 c2 op hw hv
    cases h1 : applyOp slow1 runtime1 c1 op with
    | none =>
      cases h2 : applyOp slow2 runtime2 c2 op with
      | none => simp [applyOps, h1, h2]
      | some d2 => simp [h1, h2] at hstep
    | some d1 =>
      cases h2 : applyOp slow2 runtime2 c2 op with
      | none => simp [h1, h2] at hstep
      | some d2 =>
        simp only [h1, h2, Option.map_some', Option.some.injEq] at hstep
        simp only [applyOps, h1, h2]
        exact ih d1 d2 (applyOp_wellSized slow1 runtime1 c1 d1 op hw h1) hstep

/-- A step keeps every live slot either empty or equal to a value that was already
live or that the step pushes. -/
theorem applyOp_provenance (slow : SlowPath) (runtime : Runtime) (Q : HermesValue → Prop)
    (self cell : ArrayStorage) (op : Op) (hw : WellSized self)
    (hQ : ∀ v, op = Op.push_back v → Q v)
    (hself : ∀ i, i < self.size_ → self.data i = HermesValue.encodeEmptyValue ∨ Q (self.data i))
    (h : applyOp slow runtime self op = some cell) :
    ∀ i, i < cell.size_ → cell.data i = HermesValue.encodeEmptyValue ∨ Q (cell.data i) := by
  cases op with
  | push_back v =>
    obtain ⟨_, rfl⟩ := applyOp_push_back slow runtime self cell v hw h
    intro i hi
    have hi1 : i < self.size_ + 1 := hi
    show store self.data self.size_ v i = _ ∨ Q (store self.data self.size_ v i)
    by_cases he : i = self.size_
    · rw [he, store_same]
      exact Or.inr (hQ v rfl)
    · rw [store_other _ _ _ _ he]
      exact hself i (by omega)
  | pop_back =>
    obtain ⟨_, rfl⟩ := applyOp_pop_back slow runtime self cell hw h
    intro i hi
    have hi1 : i < self.size_ - 1 := hi
    exact hself i (by omega)
  | resizeWithinCapacity newSize =>
    obtain ⟨_, a2, _, a4, a5⟩ := applyOp_resizeWithinCapacity slow runtime self cell newSize h
    intro i hi
    by_cases hlt : i < self.size_
    · rw [a4 i hlt (by omega)]
      exact hself i hlt
    · exact Or.inl (a5 i (by omega) (by omega))

/-- C7 (invariant I1): every cell produced by `create`, `createLongLived` or
`create(capacity, size)` and then modified by any sequence of `push_back` (when
`size < capacity`), `pop_back` (when `size > 0`) and `resizeWithinCapacity`
(`newSize ≤ capacity`) satisfies `size ≤ capacity` at the start and after every step;
and from every cell so reached each admissible operation does take a step, to a cell
that satisfies `size ≤ capacity` again. -/
theorem size_le_capacity_invariant (L : Layout) (slow : SlowPath)
    (runtime0 runtime : Runtime) (capacity size : Nat) (self : ArrayStorage)
    (ops : List Op)
    (h : (create L runtime0 capacity).1 = CallResult.value self ∨
         (createLongLived L runtime0 capacity).1 = CallResult.value self ∨
         (createWithSize L runtime0 capacity size).map Prod.fst =
           some (CallResult.value self)) :
    ∀ cell, cell ∈ trace slow runtime self ops →
      cell.size_ ≤ cell.capacity_ ∧
      ∀ op : Op, op.admissible cell →
        ∃ next, applyOp slow runtime cell op = some next ∧ next.size_ ≤ next.capacity_ := by
  intro cell hmem
  have hw : WellSized cell :=
    trace_forall slow runtime WellSized ops ops (fun _ ho => ho)
      (fun c op c1 _ hc hstep => applyOp_wellSized slow runtime c c1 op hc hstep)
      self (wellSized_of_created L runtime0 capacity size self h).1 cell hmem
  refine ⟨hw.1, ?_⟩
  intro op hadm
  have hsome := applyOp_isSome_of_admissible slow runtime cell op hadm
  obtain ⟨next, hnext⟩ := Option.isSome_iff_exists.mp hsome
  exact ⟨next, hnext, (applyOp_wellSized slow runtime cell next op hw hnext).1⟩

theorem size_le_capacity_invariant_witness :
    ((create Layout.malloc64 Runtime.initial 2).1 =
        CallResult.value (construct (Runtime.initial.rawMemory 0) 2) ∨
      (createLongLived Layout.malloc64 Runtime.initial 2).1 =
        CallResult.value (construct (Runtime.initial.rawMemory 0) 2) ∨
      (createWithSize Layout.malloc64 Runtime.initial 2 0).map Prod.fst =
        some (CallResult.value (construct (Runtime.initial.rawMemory 0) 2))) ∧
    (trace failingSlowPath Runtime.initial (construct (Runtime.initial.rawMemory 0) 2)
        [Op.push_back HermesValue.null, Op.push_back HermesValue.undefined, Op.pop_back,
         Op.resizeWithinCapacity 2, Op.resizeWithinCapacity 0]).length = 6 ∧
    ∀ cell, cell ∈ trace failingSlowPath Runtime.initial
        (construct (Runtime.initial.rawMemory 0) 2)
        [Op.push_back HermesValue.null, Op.push_back HermesValue.undefined, Op.pop_back,
         Op.resizeWithinCapacity 2, Op.resizeWithinCapacity 0] →
      cell.size_ ≤ cell.capacity_ :=
  ⟨Or.inl rfl, by decide, fun cell hmem =>
    (size_le_capacity_invariant Layout.malloc64 failingSlowPath Runtime.initial
      Runtime.initial 2 0 (construct (Runtime.initial.rawMemory 0) 2) _ (Or.inl rfl)
      cell hmem).1⟩

/-- C8 (invariant I2): in every cell reached from `create`, `createLongLived` or
`create(capacity, size)` by `push_back` (fast path), `pop_back` and
`resizeWithinCapacity` under their preconditions, every slot at an index below the
size holds the empty value or a value that one of the operations pushed; and what the
slots at and above the size hold (raw memory, or what an earlier pop or shrink left
behind) never becomes visible: replacing the reached cell by any cell with the same
capacity, size and slots below the size changes nothing of the capacity, size and
slots below the size after any further sequence of operations. -/
theorem live_slots_written (L : Layout) (slow : SlowPath)
    (runtime0 runtime : Runtime) (capacity size : Nat) (self : ArrayStorage)
    (ops : List Op)
    (h : (create L runtime0 capacity).1 = CallResult.value self ∨
         (createLongLived L runtime0 capacity).1 = CallResult.value self ∨
         (createWithSize L runtime0 capacity size).map Prod.fst =
           some (CallResult.value self)) :
    ∀ cell, cell ∈ trace slow runtime self ops →
      (∀ i, i < cell.size_ →
        cell.data i = HermesValue.encodeEmptyValue ∨ Op.push_back (cell.data i) ∈ ops) ∧
      (∀ (slow2 : SlowPath) (runtime2 : Runtime) (other : ArrayStorage) (more : List Op),
        liveView other = liveView cell →
        (applyOps slow2 runtime2 other more).map liveView =
          (applyOps slow runtime cell more).map liveView) := by
  intro cell hmem
  obtain ⟨hw0, _, hempty⟩ := wellSized_of_created L runtime0 capacity size self h
  have hP := trace_forall slow runtime
    (fun c => WellSized c ∧ ∀ i, i < c.size_ →
      c.data i = HermesValue.encodeEmptyValue ∨ Op.push_back (c.data i) ∈ ops)
    ops ops (fun _ ho => ho)
    (fun c op c1 hop hc hstep =>
      ⟨applyOp_wellSized slow runtime c c1 op hc.1 hstep,
       applyOp_provenance slow runtime (fun v => Op.push_back v ∈ ops) c c1 op hc.1
         (fun v hv => by subst hv; exact hop) hc.2 hstep⟩)
    self ⟨hw0, fun i hi => Or.inl (hempty i hi)⟩ cell hmem
  refine ⟨hP.2, ?_⟩
  intro slow2 runtime2 other more hv
  exact (applyOps_liveView slow slow2 runtime runtime2 more cell other hP.1 hv.symm).symm

theorem live_slots_written_witness :
    (create Layout.malloc64 Runtime.initial 2).1 =
        CallResult.value (construct (Runtime.initial.rawMemory 0) 2) ∧
    (applyOps failingSlowPath Runtime.initial (construct (Runtime.initial.rawMemory 0) 2)
        [Op.push_back HermesValue.null, Op.pop_back, Op.resizeWithinCapacity 2]).map
      liveView = some (2, 2, [HermesValue.empty, HermesValue.empty]) ∧
    ∀ cell, cell ∈ trace failingSlowPath Runtime.initial
        (construct (Runtime.initial.rawMemory 0) 2)
        [Op.push_back HermesValue.null, Op.pop_back, Op.resizeWithinCapacity 2] →
      ∀ i, i < cell.size_ →
        cell.data i = HermesValue.encodeEmptyValue ∨
        Op.push_back (cell.data i) ∈
          [Op.push_back HermesValue.null, Op.pop_back, Op.resizeWithinCapacity 2] :=
  ⟨rfl, by decide, fun cell hmem =>
    (live_slots_written Layout.malloc64 failingSlowPath Runtime.initial
      Runtime.initial 2 0 (construct (Runtime.initial.rawMemory 0) 2) _ (Or.inl rfl)
      cell hmem).1⟩

end ArrayStorage

/-! ## Allocation sizes -/

/-- C9 as stated fails: in both sample layouts, which pass the two `static_assert`s
of the header, the 32-bit capacity 536870909 is greater than `maxElements()` and
`allocationSize(536870909)`, the sum `24 + 536870909 * 8 = 2^32` truncated to 32
bits, is 0, which does not exceed `GC::maxAllocationSize()`. -/
theorem allocationSize_above_maxElements_counterexample :
    (staticAsserts Layout.malloc64 ∧
      536870909 > maxElements Layout.malloc64 ∧ 536870909 < UINT32 ∧
      allocationSize Layout.malloc64 536870909 = 0 ∧
      ¬ allocationSize Layout.malloc64 536870909 > Layout.malloc64.maxAllocationSize) ∧
    (staticAsserts Layout.segment64 ∧
      536870909 > maxElements Layout.segment64 ∧ 536870909 < UINT32 ∧
      allocationSize Layout.segment64 536870909 = 0 ∧
      ¬ allocationSize Layout.segment64 536870909 > Layout.segment64.maxAllocationSize) := by
  decide

/-- C9, amended: in a layout whose header fits a single allocation,
`allocationSize(maxElements()) ≤ GC::maxAllocationSize()`, and for every capacity
greater than `maxElements()` the untruncated size, header size plus capacity times
the size of a value, exceeds `GC::maxAllocationSize()`; the 32-bit value
`allocationSize(capacity)` returns exceeds it whenever that size is below `2^32`. -/
theorem maxElements_largest_fitting (L : Layout) (capacity : Nat) (hL : L.sane) :
    allocationSize L (maxElements L) ≤ L.maxAllocationSize ∧
    (capacity > maxElements L →
      totalSizeToAlloc L capacity > L.maxAllocationSize ∧
      (totalSizeToAlloc L capacity < UINT32 →
        allocationSize L capacity > L.maxAllocationSize)) := by
  obtain ⟨hH, hM, hE⟩ := hL
  have hfit := totalSizeToAlloc_maxElements_le L hH hM
  constructor
  · rw [allocationSize_eq_of_lt L _ (lt_of_le_of_lt hfit hM)]
    exact hfit
  · intro h
    have hgt := totalSizeToAlloc_gt_of_gt_maxElements L capacity hH hM hE h
    exact ⟨hgt, fun hlt => by rw [allocationSize_eq_of_lt L _ hlt]; exact hgt⟩

theorem maxElements_largest_fitting_witness :
    Layout.segment64.sane ∧
    allocationSize Layout.segment64 (maxElements Layout.segment64) ≤ 4194304 ∧
    524286 > maxElements Layout.segment64 ∧
    totalSizeToAlloc Layout.segment64 524286 < UINT32 ∧
    allocationSize Layout.segment64 524286 > 4194304 := by
  have h := maxElements_largest_fitting Layout.segment64 524286 (by decide)
  have hgt : 524286 > maxElements Layout.segment64 := by decide
  have hlt : totalSizeToAlloc Layout.segment64 524286 < UINT32 := by decide
  exact ⟨by decide, h.1, hgt, hlt, (h.2 hgt).2 hlt⟩

/-- C10 as stated fails: with a 24 byte header and 8 byte values the 32-bit
capacities `1 ≤ 536870909` have `allocationSize(1) = 32` and
`allocationSize(536870909) = 0`, the sum `2^32` truncated to 32 bits. -/
theorem allocationSize_monotone_counterexample :
    1 ≤ 536870909 ∧ 536870909 < UINT32 ∧
    allocationSize Layout.malloc64 1 = 32 ∧
    allocationSize Layout.malloc64 536870909 = 0 ∧
    ¬ allocationSize Layout.malloc64 1 ≤ allocationSize Layout.malloc64 536870909 := by
  decide

/-- C10, amended: `allocationSize` is monotonic as long as the size does not wrap:
for all capacities `c1 ≤ c2` such that header size plus `c2` times the size of a value
is below `2^32`, which includes every `c2 ≤ maxElements()` in a layout whose header
fits a single allocation, `allocationSize(c1) ≤ allocationSize(c2)`. -/
theorem allocationSize_monotone (L : Layout) (c1 c2 : Nat) (h : c1 ≤ c2)
    (hfit : totalSizeToAlloc L c2 < UINT32 ∨
      (L.headerSize ≤ L.maxAllocationSize ∧ L.maxAllocationSize < UINT32 ∧
        c2 ≤ maxElements L)) :
    allocationSize L c1 ≤ allocationSize L c2 := by
  have h2 : totalSizeToAlloc L c2 < UINT32 := by
    rcases hfit with hlt | ⟨hH, hM, hc⟩
    · exact hlt
    · exact lt_of_le_of_lt
        (le_trans (totalSizeToAlloc_mono L _ _ hc) (totalSizeToAlloc_maxElements_le L hH hM))
        hM
  have h1 : totalSizeToAlloc L c1 < UINT32 :=
    lt_of_le_of_lt (totalSizeToAlloc_mono L c1 c2 h) h2
  rw [allocationSize_eq_of_lt L c1 h1, allocationSize_eq_of_lt L c2 h2]
  exact totalSizeToAlloc_mono L c1 c2 h

theorem allocationSize_monotone_witness :
    (4 : Nat) ≤ 536870908 ∧ 536870908 ≤ maxElements Layout.malloc64 ∧
    allocationSize Layout.malloc64 4 ≤ allocationSize Layout.malloc64 536870908 :=
  ⟨by decide, by decide,
   allocationSize_monotone Layout.malloc64 4 536870908 (by decide)
     (Or.inr ⟨by decide, by decide, by decide⟩)⟩

/-! ## shift, resize, resizeLeft -/

namespace ArrayStorage

theorem copyLoop_apply (count : Nat) :
    ∀ (data : Nat → HermesValue) (first result i : Nat), result ≤ first →
      copyLoop data first result count i =
        if result ≤ i ∧ i < result + count then data (first + (i - result)) else data i := by
  induction count with
  | zero =>
    intro data first result i _
    have : ¬ (result ≤ i ∧ i < result + 0) := by omega
    simp only [copyLoop]
    rw [if_neg this]
  | succ n ih =>
    intro data first result i h
    simp only [copyLoop]
    rw [ih _ _ _ _ (by omega)]
    by_cases h1 : result + 1 ≤ i ∧ i < result + 1 + n
    · have h2 : result ≤ i ∧ i < result + (n + 1) := by omega
      rw [if_pos h1, if_pos h2, store_other _ _ _ _ (by omega)]
      congr 1
      omega
    · rw [if_neg h1]
      by_cases h3 : i = result
      · have h2 : result ≤ i ∧ i < result + (n + 1) := by omega
        rw [if_pos h2, h3, store_same]
        congr 1
        omega
      · have h2 : ¬ (result ≤ i ∧ i < result + (n + 1)) := by omega
        rw [if_neg h2, store_other _ _ _ _ h3]

theorem copyBackwardLoop_apply (count : Nat) :
    ∀ (data : Nat → HermesValue) (first result i : Nat), first ≤ result →
      copyBackwardLoop data first result count i =
        if result ≤ i ∧ i < result + count then data (first + (i - result)) else data i := by
  induction count with
  | zero =>
    intro data first result i _
    have : ¬ (result ≤ i ∧ i < result + 0) := by omega
    simp only [copyBackwardLoop]
    rw [if_neg this]
  | succ n ih =>
    intro data first result i h
    simp only [copyBackwardLoop]
    rw [ih _ _ _ _ h]
    by_cases h1 : result ≤ i ∧ i < result + n
    · have h2 : result ≤ i ∧ i < result + (n + 1) := by omega
      rw [if_pos h1, if_pos h2, store_other _ _ _ _ (by omega)]
    · rw [if_neg h1]
      by_cases h3 : i = result + n
      · have h2 : result ≤ i ∧ i < result + (n + 1) := by omega
        rw [if_pos h2, h3, store_same]
        congr 1
        omega
      · have h2 : ¬ (result ≤ i ∧ i < result + (n + 1)) := by omega
        rw [if_neg h2, store_other _ _ _ _ h3]

theorem uninitializedCopyLoop_apply (source : Nat → HermesValue) (count : Nat) :
    ∀ (target : Nat → HermesValue) (first result i : Nat),
      uninitializedCopyLoop source target first result count i =
        if result ≤ i ∧ i < result + count then source (first + (i - result))
        else target i := by
  induction count with
  | zero =>
    intro target first result i
    have : ¬ (result ≤ i ∧ i < result + 0) := by omega
    simp only [uninitializedCopyLoop]
    rw [if_neg this]
  | succ n ih =>
    intro target first result i
    simp only [uninitializedCopyLoop]
    rw [ih]
    by_cases h1 : result + 1 ≤ i ∧ i < result + 1 + n
    · have h2 : result ≤ i ∧ i < result + (n + 1) := by omega
      rw [if_pos h1, if_pos h2]
      congr 1
      omega
    · rw [if_neg h1]
      by_cases h3 : i = result
      · have h2 : result ≤ i ∧ i < result + (n + 1) := by omega
        rw [if_pos h2, h3, store_same]
        congr 1
        omega
      · have h2 : ¬ (result ≤ i ∧ i < result + (n + 1)) := by omega
        rw [if_neg h2, store_other _ _ _ _ h3]

/-- The two fills of `shift` around a copied block leave the block and make every
other slot below `toLast` empty. -/
theorem fill_around (data : Nat → HermesValue) (toFirst length toLast i : Nat)
    (hi : i < toLast) :
    fill (fill data 0 toFirst HermesValue.encodeEmptyValue) (toFirst + length) toLast
        HermesValue.encodeEmptyValue i =
      if toFirst ≤ i ∧ i < toFirst + length then data i
      else HermesValue.encodeEmptyValue := by
  by_cases h1 : toFirst + length ≤ i
  · have h2 : ¬ (toFirst ≤ i ∧ i < toFirst + length) := by omega
    rw [if_neg h2, fill_inside _ _ _ _ _ h1 hi]
  · rw [fill_outside _ _ _ _ _ (Or.inl (by omega))]
    by_cases h3 : i < toFirst
    · have h2 : ¬ (toFirst ≤ i ∧ i < toFirst + length) := by omega
      rw [if_neg h2, fill_inside _ _ _ _ _ (Nat.zero_le _) h3]
    · have h2 : toFirst ≤ i ∧ i < toFirst + length := by omega
      rw [if_pos h2, fill_outside _ _ _ _ _ (Or.inr (by omega))]

theorem create_eq_of_le (L : Layout) (runtime : Runtime) (capacity : Nat)
    (h : capacity ≤ maxElements L) :
    create L runtime capacity =
      (CallResult.value (construct (runtime.rawMemory runtime.allocations.length) capacity),
       { runtime with
         allocations := runtime.allocations ++ [⟨false, allocationSize L capacity⟩] }) := by
  have hn : ¬ capacity > maxElements L := by omega
  simp [create, hn, Runtime.alloc]

/-- What the modelled `shift` does for `toFirst ≤ toLast ≤ maxElements()`. -/
theorem shift_eq (L : Layout) (self : ArrayStorage) (runtime : Runtime)
    (fromFirst toFirst toLast : Nat)
    (ht : toFirst ≤ toLast) (hl : toLast ≤ maxElements L) :
    ∃ cell runtime1,
      shift L self runtime fromFirst toFirst toLast =
        (ExecutionStatus.RETURNED, cell, runtime1) ∧
      cell.size_ = toLast ∧ toLast ≤ cell.capacity_ ∧
      (∀ i, i < toLast →
        cell.data i =
          if toFirst ≤ i ∧ i < toFirst + copyLength self fromFirst toFirst toLast then
            self.data (fromFirst + (i - toFirst))
          else HermesValue.encodeEmptyValue) ∧
      (toLast ≤ self.capacity_ → cell.capacity_ = self.capacity_ ∧ runtime1 = runtime) ∧
      (self.capacity_ < toLast →
        cell.capacity_ = growthCapacity L self.capacity_ toLast ∧
        runtime1 = { runtime with
          allocations := runtime.allocations ++
            [⟨false, allocationSize L (growthCapacity L self.capacity_ toLast)⟩] }) := by
  have hlen : toFirst + copyLength self fromFirst toFirst toLast ≤ toLast := by
    have : copyLength self fromFirst toFirst toLast ≤ toLast - toFirst := Nat.min_le_right _ _
    omega
  by_cases hcap : toLast ≤ self.capacity_
  · refine ⟨{ self with
        data := fill (fill
            (if fromFirst > toFirst then
              copyLoop self.data fromFirst toFirst (copyLength self fromFirst toFirst toLast)
            else if fromFirst < toFirst then
              copyBackwardLoop self.data fromFirst toFirst
                (copyLength self fromFirst toFirst toLast)
            else self.data) 0 toFirst HermesValue.encodeEmptyValue)
          (toFirst + copyLength self fromFirst toFirst toLast) toLast
          HermesValue.encodeEmptyValue,
        size_ := toLast }, runtime, by simp only [shift, hcap, if_true], rfl, hcap, ?_,
      fun _ => ⟨rfl, rfl⟩, fun h => absurd hcap (by omega)⟩
    intro i hi
    show fill (fill _ 0 toFirst _) _ toLast _ i = _
    rw [fill_around _ _ _ _ _ hi]
    by_cases h1 : toFirst ≤ i ∧ i < toFirst + copyLength self fromFirst toFirst toLast
    · rw [if_pos h1, if_pos h1]
      by_cases hgt : fromFirst > toFirst
      · rw [if_pos hgt, copyLoop_apply _ _ _ _ _ (by omega), if_pos h1]
      · rw [if_neg hgt]
        by_cases hlt : fromFirst < toFirst
        · rw [if_pos hlt, copyBackwardLoop_apply _ _ _ _ _ (by omega), if_pos h1]
        · rw [if_neg hlt]
          congr 1
          omega
    · rw [if_neg h1, if_neg h1]
  · have hmax : ¬ toLast > maxElements L := by omega
    have hg : toLast ≤ growthCapacity L self.capacity_ toLast := by
      simp only [growthCapacity]
      exact Nat.le_min.mpr ⟨Nat.le_max_right _ _, hl⟩
    have hgm : growthCapacity L self.capacity_ toLast ≤ maxElements L :=
      Nat.min_le_right _ _
    refine ⟨{ capacity_ := growthCapacity L self.capacity_ toLast
              size_ := toLast
              data := fill (fill
                  (uninitializedCopyLoop self.data
                    (runtime.rawMemory runtime.allocations.length)
                    fromFirst toFirst (copyLength self fromFirst toFirst toLast))
                  0 toFirst HermesValue.encodeEmptyValue)
                (toFirst + copyLength self fromFirst toFirst toLast) toLast
                HermesValue.encodeEmptyValue },
      { runtime with
        allocations := runtime.allocations ++
          [⟨false, allocationSize L (growthCapacity L self.capacity_ toLast)⟩] }, by
        simp only [shift, hcap, hmax, if_false, reallocateToLarger,
          create_eq_of_le L runtime _ hgm, construct],
      rfl, hg, ?_, fun h => absurd h hcap, fun _ => ⟨rfl, rfl⟩⟩
    intro i hi
    show fill (fill _ 0 toFirst _) _ toLast _ i = _
    rw [fill_around _ _ _ _ _ hi]
    by_cases h1 : toFirst ≤ i ∧ i < toFirst + copyLength self fromFirst toFirst toLast
    · rw [if_pos h1, if_pos h1, uninitializedCopyLoop_apply, if_pos h1]
    · rw [if_neg h1, if_neg h1]

/-- C11: for every cell with content `s` of size `n` and all `fromFirst ≤ n`,
`toFirst ≤ toLast ≤ maxElements()`, `shift(fromFirst, toFirst, toLast)` (as the
specification describes it) succeeds and yields a cell with capacity at least
`toLast` and size `toLast` in which, with
`length = min(n - fromFirst, toLast - toFirst)`, slot `toFirst + i` equals
`s[fromFirst + i]` for every `i < length` and every other slot of `[0, toLast)` holds
the empty value. -/
theorem shift_spec (L : Layout) (self : ArrayStorage) (runtime : Runtime)
    (fromFirst toFirst toLast : Nat) (_hf : fromFirst ≤ self.size_)
    (ht : toFirst ≤ toLast) (hl : toLast ≤ maxElements L) :
    (shift L self runtime fromFirst toFirst toLast).1 = ExecutionStatus.RETURNED ∧
    (shift L self runtime fromFirst toFirst toLast).2.1.capacity_ ≥ toLast ∧
    (shift L self runtime fromFirst toFirst toLast).2.1.size_ = toLast ∧
    (∀ i, i < min (self.size_ - fromFirst) (toLast - toFirst) →
      (shift L self runtime fromFirst toFirst toLast).2.1.data (toFirst + i) =
        self.data (fromFirst + i)) ∧
    (∀ j, j < toLast →
      (j < toFirst ∨ toFirst + min (self.size_ - fromFirst) (toLast - toFirst) ≤ j) →
      (shift L self runtime fromFirst toFirst toLast).2.1.data j =
        HermesValue.encodeEmptyValue) := by
  obtain ⟨cell, runtime1, heq, hsize, hcap, hdata, _, _⟩ :=
    shift_eq L self runtime fromFirst toFirst toLast ht hl
  rw [heq]
  refine ⟨rfl, hcap, hsize, ?_, ?_⟩
  · intro i hi
    have hi1 : i < copyLength self fromFirst toFirst toLast := hi
    have hlen : copyLength self fromFirst toFirst toLast ≤ toLast - toFirst :=
      Nat.min_le_right _ _
    show cell.data (toFirst + i) = _
    rw [hdata _ (by omega), if_pos (by omega)]
    congr 1
    omega
  · intro j hj hout
    have hout1 : j < toFirst ∨ toFirst + copyLength self fromFirst toFirst toLast ≤ j := hout
    show cell.data j = _
    rw [hdata _ hj, if_neg (by omega)]

theorem shift_spec_witness :
    (0 ≤ abcCell.size_ ∧ 2 ≤ 5 ∧ 5 ≤ maxElements Layout.malloc64) ∧
    (shift Layout.malloc64 abcCell Runtime.initial 0 2 5).1 = ExecutionStatus.RETURNED ∧
    (shift Layout.malloc64 abcCell Runtime.initial 0 2 5).2.1.size_ = 5 ∧
    (shift Layout.malloc64 abcCell Runtime.initial 0 2 5).2.1.capacity_ = 6 ∧
    (List.range 5).map (shift Layout.malloc64 abcCell Runtime.initial 0 2 5).2.1.data =
      [HermesValue.empty, HermesValue.empty, HermesValue.string 100,
       HermesValue.string 101, HermesValue.string 102] ∧
    (List.range 5).map (shift Layout.malloc64 abcCellRoomy Runtime.initial 0 2 5).2.1.data =
      [HermesValue.empty, HermesValue.empty, HermesValue.string 100,
       HermesValue.string 101, HermesValue.string 102] := by
  have h := shift_spec Layout.malloc64 abcCell Runtime.initial 0 2 5 (by decide) (by decide)
    (by decide)
  exact ⟨⟨by decide, by decide, by decide⟩, h.1, h.2.2.1, by decide, by decide, by decide⟩

theorem resizeLeftToFirst_eq (self : ArrayStorage) (newSize : Nat)
    (h32 : newSize < UINT32) (h : self.size_ ≤ newSize) :
    resizeLeftToFirst self newSize = newSize - self.size_ := by
  have : newSize + UINT32 - self.size_ = (newSize - self.size_) + UINT32 := by omega
  simp only [resizeLeftToFirst]
  rw [this, Nat.add_mod_right]
  exact Nat.mod_eq_of_lt (by omega)

/-- C12: for every cell with content `s` of size `n` and every `newSize` with
`n ≤ newSize ≤ maxElements()`, `resizeLeft(newSize)` (over `shift` as the
specification describes it) yields a cell of size `newSize` whose first
`newSize - n` slots hold the empty value and whose slot `(newSize - n) + i` equals
`s[i]` for every `i < n`. -/
theorem resizeLeft_spec (L : Layout) (self : ArrayStorage) (runtime : Runtime)
    (newSize : Nat) (h : self.size_ ≤ newSize) (hl : newSize ≤ maxElements L) :
    (resizeLeft (shift L) self runtime newSize).1 = ExecutionStatus.RETURNED ∧
    (resizeLeft (shift L) self runtime newSize).2.1.size_ = newSize ∧
    (∀ i, i < newSize - self.size_ →
      (resizeLeft (shift L) self runtime newSize).2.1.data i =
        HermesValue.encodeEmptyValue) ∧
    (∀ i, i < self.size_ →
      (resizeLeft (shift L) self runtime newSize).2.1.data (newSize - self.size_ + i) =
        self.data i) := by
  have h32 : newSize < UINT32 := lt_of_le_of_lt hl (maxElements_lt L)
  obtain ⟨cell, runtime1, heq, hsize, _, hdata, _, _⟩ :=
    shift_eq L self runtime 0 (newSize - self.size_) newSize (Nat.sub_le _ _) hl
  have hlen : copyLength self 0 (newSize - self.size_) newSize = self.size_ := by
    simp only [copyLength]
    omega
  simp only [resizeLeft, resizeLeftToFirst_eq self newSize h32 h, heq]
  refine ⟨trivial, hsize, ?_, ?_⟩
  · intro i hi
    rw [hdata i (by omega), if_neg (by omega)]
  · intro i hi
    rw [hdata _ (by omega), hlen, if_pos (by omega)]
    congr 1
    omega

theorem resizeLeft_spec_witness :
    (abcCell.size_ ≤ 5 ∧ 5 ≤ maxElements Layout.malloc64) ∧
    (resizeLeft (shift Layout.malloc64) abcCell Runtime.initial 5).1 =
      ExecutionStatus.RETURNED ∧
    (resizeLeft (shift Layout.malloc64) abcCell Runtime.initial 5).2.1.size_ = 5 ∧
    (List.range 5).map
        (resizeLeft (shift Layout.malloc64) abcCell Runtime.initial 5).2.1.data =
      [HermesValue.empty, HermesValue.empty, HermesValue.string 100,
       HermesValue.string 101, HermesValue.string 102] ∧
    (List.range 5).map
        (resizeLeft (shift Layout.malloc64) abcCellRoomy Runtime.initial 5).2.1.data =
      [HermesValue.empty, HermesValue.empty, HermesValue.string 100,
       HermesValue.string 101, HermesValue.string 102] := by
  have h := resizeLeft_spec Layout.malloc64 abcCell Runtime.initial 5 (by decide) (by decide)
  exact ⟨⟨by decide, by decide⟩, h.1, h.2.1, by decide, by decide⟩

/-- C13 as stated fails: on the cell of size 2, `resizeLeft(1)` passes
`toFirst = 1 - 2` computed in 32 bits, which is `4294967295`, not the integer `-1`,
and is greater than `toLast = 1`. -/
theorem resizeLeft_toFirst_counterexample :
    sampleCell.size_ = 2 ∧
    resizeLeftToFirst sampleCell 1 = 4294967295 ∧
    resizeLeftToFirstSpec sampleCell 1 = -1 ∧
    (resizeLeftToFirst sampleCell 1 : Int) ≠ resizeLeftToFirstSpec sampleCell 1 ∧
    ¬ resizeLeftToFirst sampleCell 1 ≤ 1 := by
  decide

/-- C13, amended: for every cell and every `newSize`, `resize(newSize)` is exactly
`shift(0, 0, newSize)`; and for every `newSize` that is at least the size of the cell,
`resizeLeft(newSize)` is exactly `shift(0, newSize - size, newSize)`, where the
`toFirst` passed equals the integer `newSize - size` and satisfies
`toFirst ≤ toLast`. For a `newSize` below the size of the cell the `toFirst` passed is
`newSize - size + 2^32`, which is greater than `toLast`. -/
theorem resizeLeft_refines_shift (shift : ShiftFn) (self : ArrayStorage)
    (runtime : Runtime) (newSize : Nat) :
    resize shift self runtime newSize = shift self runtime 0 0 newSize ∧
    (newSize < UINT32 → self.size_ ≤ newSize →
      resizeLeft shift self runtime newSize =
        shift self runtime 0 (newSize - self.size_) newSize ∧
      (resizeLeftToFirst self newSize : Int) = resizeLeftToFirstSpec self newSize ∧
      resizeLeftToFirst self newSize ≤ newSize) ∧
    (newSize < self.size_ → self.size_ < UINT32 →
      resizeLeft shift self runtime newSize =
        shift self runtime 0 (newSize + UINT32 - self.size_) newSize ∧
      newSize < newSize + UINT32 - self.size_) := by
  refine ⟨rfl, ?_, ?_⟩
  · intro h32 h
    have heq := resizeLeftToFirst_eq self newSize h32 h
    refine ⟨by simp only [resizeLeft, heq], ?_, by omega⟩
    simp only [resizeLeftToFirstSpec, heq]
    omega
  · intro h hs
    have heq : resizeLeftToFirst self newSize = newSize + UINT32 - self.size_ := by
      simp only [resizeLeftToFirst]
      exact Nat.mod_eq_of_lt (by omega)
    exact ⟨by simp only [resizeLeft, heq], by omega⟩

theorem resizeLeft_refines_shift_witness :
    (5 < UINT32 ∧ abcCell.size_ ≤ 5) ∧
    resizeLeft (shift Layout.malloc64) abcCell Runtime.initial 5 =
      shift Layout.malloc64 abcCell Runtime.initial 0 (5 - abcCell.size_) 5 ∧
    (resizeLeftToFirst abcCell 5 : Int) = resizeLeftToFirstSpec abcCell 5 ∧
    resizeLeftToFirst abcCell 5 ≤ 5 :=
  ⟨⟨by decide, by decide⟩,
   (resizeLeft_refines_shift (shift Layout.malloc64) abcCell Runtime.initial 5).2.1
     (by decide) (by decide)⟩

/-- Pushes that fit the capacity all take the fast path: the result does not depend
on the slow path, the runtime is untouched, and the values follow the old content. -/
theorem pushAll_fast (values : List HermesValue) :
    ∀ (self : ArrayStorage) (runtime : Runtime), self.capacity_ < UINT32 →
      self.size_ + values.length ≤ self.capacity_ →
      ∃ cell, (∀ slow, pushAll slow self runtime values =
            (ExecutionStatus.RETURNED, cell, runtime)) ∧
        cell.size_ = self.size_ + values.length ∧
        cell.capacity_ = self.capacity_ ∧
        (∀ i, i < self.size_ → cell.data i = self.data i) ∧
        (∀ k (hk : k < values.length), cell.data (self.size_ + k) = values[k]) := by
  induction values with
  | nil =>
    intro self runtime _ _
    exact ⟨self, fun _ => rfl, rfl, rfl, fun _ _ => rfl,
      fun k hk => absurd hk (Nat.not_lt_zero _)⟩
  | cons v vs ih =>
    intro self runtime h32 hfit
    simp only [List.length_cons] at hfit
    have hlt : self.size_ < self.capacity_ := by omega
    obtain ⟨cell, hrun, hsize, hcap, hold, hnew⟩ :=
      ih { self with data := store self.data self.size_ v, size_ := self.size_ + 1 }
        runtime h32 (by show self.size_ + 1 + vs.length ≤ self.capacity_; omega)
    refine ⟨cell, ?_, ?_, hcap, ?_, ?_⟩
    · intro slow
      simp only [pushAll, push_back_eq slow self runtime v h32 hlt]
      exact hrun slow
    · rw [hsize]
      simp only [List.length_cons]
      omega
    · intro i hi
      rw [hold i (by show i < self.size_ + 1; omega)]
      exact store_other _ _ _ _ (by omega)
    · intro k hk
      cases k with
      | zero =>
        rw [Nat.add_zero, hold _ (by show self.size_ < self.size_ + 1; omega)]
        exact store_same _ _ _
      | succ k =>
        simp only [List.length_cons] at hk
        have := hnew k (by omega)
        simp only [List.getElem_cons_succ]
        rw [← this]
        congr 1
        show self.size_ + (k + 1) = self.size_ + 1 + k
        omega

theorem pushAll_append (slow : SlowPath) (front back : List HermesValue) :
    ∀ (self : ArrayStorage) (runtime : Runtime) (cell : ArrayStorage) (runtime1 : Runtime),
      pushAll slow self runtime front = (ExecutionStatus.RETURNED, cell, runtime1) →
      pushAll slow self runtime (front ++ back) = pushAll slow cell runtime1 back := by
  induction front with
  | nil =>
    intro self runtime cell runtime1 h
    simp only [pushAll, Prod.mk.injEq, true_and] at h
    rw [List.nil_append, h.1, h.2]
  | cons v vs ih =>
    intro self runtime cell runtime1 h
    simp only [pushAll, List.cons_append] at h ⊢
    rcases hp : push_back slow self runtime v with ⟨status, self1, runtime2⟩
    rw [hp] at h
    cases status with
    | EXCEPTION => simp at h
    | RETURNED => exact ih self1 runtime2 cell runtime1 h

/-- What the modelled slow path does on a full cell below `maxElements()`. -/
theorem pushBackSlowPath_eq (L : Layout) (self : ArrayStorage) (runtime : Runtime)
    (value : HermesValue) (hfull : self.size_ = self.capacity_)
    (hmax : self.capacity_ < maxElements L) :
    ∃ cell,
      pushBackSlowPath L self runtime value =
        (ExecutionStatus.RETURNED, cell,
         { runtime with
           allocations := runtime.allocations ++
             [⟨false, allocationSize L
                (growthCapacity L self.capacity_ (self.capacity_ + 1))⟩] }) ∧
      cell.size_ = self.size_ + 1 ∧
      cell.capacity_ = growthCapacity L self.capacity_ (self.capacity_ + 1) ∧
      (∀ i, i < self.size_ → cell.data i = self.data i) ∧
      cell.data self.size_ = value := by
  have h32 := maxElements_lt L
  have hmod : (self.size_ + 1) % UINT32 = self.capacity_ + 1 := by
    rw [hfull]
    exact Nat.mod_eq_of_lt (by omega)
  obtain ⟨cell, runtime1, heq, hsize, _, hdata, _, hgrow⟩ :=
    shift_eq L self runtime 0 0 (self.capacity_ + 1) (Nat.zero_le _) (by omega)
  obtain ⟨hcap, hrt⟩ := hgrow (by omega)
  have hlen : copyLength self 0 0 (self.capacity_ + 1) = self.size_ := by
    simp only [copyLength]
    omega
  refine ⟨{ cell with data := store cell.data self.size_ value }, ?_, ?_, hcap, ?_, ?_⟩
  · simp only [pushBackSlowPath, resize, hmod, heq, hrt]
  · show cell.size_ = self.size_ + 1
    omega
  · intro i hi
    show store cell.data self.size_ value i = self.data i
    rw [store_other _ _ _ _ (by omega), hdata i (by omega), hlen, if_pos (by omega)]
    congr 1
    omega
  · exact store_same _ _ _

/-- Pushing `capacity + 1` values onto an empty cell: the first `capacity` pushes take
the fast path whatever the slow path is, the last one is the slow path applied to the
full cell, and the cell grows once. -/
theorem pushAll_grow (L : Layout) (self : ArrayStorage) (runtime : Runtime)
    (front : List HermesValue) (last : HermesValue)
    (hempty : self.size_ = 0) (hc : self.capacity_ < maxElements L)
    (hlen : front.length = self.capacity_) :
    ∃ full grown,
      (∀ slow, pushAll slow self runtime front =
        (ExecutionStatus.RETURNED, full, runtime)) ∧
      full.size_ = self.capacity_ ∧ full.capacity_ = self.capacity_ ∧
      (∀ slow, push_back slow full runtime last = slow full runtime last) ∧
      pushAll (pushBackSlowPath L) self runtime (front ++ [last]) =
        (ExecutionStatus.RETURNED, grown,
         { runtime with
           allocations := runtime.allocations ++
             [⟨false, allocationSize L grown.capacity_⟩] }) ∧
      grown.size_ = self.capacity_ + 1 ∧
      grown.capacity_ = growthCapacity L self.capacity_ (self.capacity_ + 1) ∧
      ∀ i (hi : i < (front ++ [last]).length), grown.data i = (front ++ [last])[i] := by
  have h32 := maxElements_lt L
  obtain ⟨full, hrun, hsize, hcap, _, hnew⟩ :=
    pushAll_fast front self runtime (by omega) (by omega)
  have hsize1 : full.size_ = self.capacity_ := by omega
  obtain ⟨grown, hslow, hgsize, hgcap, hgold, hglast⟩ :=
    pushBackSlowPath_eq L full runtime last (by omega) (by omega)
  rw [hcap] at hslow hgcap
  have hnotlt : ¬ full.size_ < full.capacity_ := by omega
  refine ⟨full, grown, hrun, hsize1, hcap, ?_, ?_, by omega, hgcap, ?_⟩
  · intro slow
    simp only [push_back, hnotlt, if_false]
  · rw [pushAll_append _ front [last] _ _ _ _ (hrun (pushBackSlowPath L))]
    simp only [pushAll, push_back, hnotlt, if_false, hslow, hgcap]
  · intro i hi
    by_cases hlt : i < front.length
    · rw [List.getElem_append_left hlt, hgold i (by omega), ← hnew i hlt]
      congr 1
      omega
    · simp only [List.length_append, List.length_singleton] at hi
      have hi1 : i = front.length := by omega
      have hget : (front ++ [last])[i] = last := by
        simp only [hi1, List.getElem_concat_length]
      rw [hget, ← hglast]
      congr 1
      omega

/-- The growth policy of the specification, "not less than doubling, capped at
`maxElements()`", for a request of one more element. -/
theorem growthCapacity_bounds (L : Layout) (c : Nat) (hc : c < maxElements L) :
    growthCapacity L c (c + 1) ≥ c + 1 ∧
    growthCapacity L c (c + 1) ≥ min (c * 2) (maxElements L) ∧
    (c * 2 ≤ maxElements L → growthCapacity L c (c + 1) ≥ c * 2) := by
  simp only [growthCapacity]
  refine ⟨?_, ?_, ?_⟩
  · exact Nat.le_min.mpr ⟨Nat.le_max_right _ _, hc⟩
  · exact Nat.le_min.mpr
      ⟨le_trans (Nat.min_le_left _ _) (Nat.le_max_left _ _), Nat.min_le_right _ _⟩
  · intro h
    exact Nat.le_min.mpr ⟨Nat.le_max_left _ _, h⟩

/-- C14 as stated fails because of the cap at `maxElements()`: with a 4 MiB maximum
allocation `maxElements()` is 524285, and pushing 524285 values onto a fresh cell of
capacity 524284 ends with capacity 524285, which is at least `c + 1` but below `c`
times the growth factor; `create` refuses a cell of twice the capacity. -/
theorem push_back_growth_counterexample :
    maxElements Layout.segment64 = 524285 ∧
    (create Layout.segment64 Runtime.initial (524284 * 2)).1 = CallResult.EXCEPTION ∧
    (create Layout.segment64 Runtime.initial 524284).1 =
      CallResult.value (construct (Runtime.initial.rawMemory 0) 524284) ∧
    (pushAll (pushBackSlowPath Layout.segment64)
        (construct (Runtime.initial.rawMemory 0) 524284)
        (create Layout.segment64 Runtime.initial 524284).2
        (List.replicate 524284 HermesValue.undefined ++ [HermesValue.undefined])).2.1.capacity_
      = 524285 ∧
    ¬ 524285 ≥ 524284 * 2 := by
  obtain ⟨full, grown, _, _, _, _, hrun, _, hcap, _⟩ :=
    pushAll_grow Layout.segment64 (construct (Runtime.initial.rawMemory 0) 524284)
      (create Layout.segment64 Runtime.initial 524284).2
      (List.replicate 524284 HermesValue.undefined) HermesValue.undefined rfl (by decide)
      (List.length_replicate _ _)
  refine ⟨by decide, ?_, rfl, ?_, by decide⟩
  · have hbig : 524284 * 2 > maxElements Layout.segment64 := by decide
    simp only [create, if_pos hbig]
  · rw [hrun, hcap]
    decide

/-- C14, amended: for every capacity `c < maxElements()` and every sequence of
`c + 1` values pushed with `push_back` onto a cell freshly created with capacity `c`
(the slow path as the specification describes it), the first `c` pushes take the
fast path whatever the slow path is, the last push is the slow path applied to the
full cell, and exactly one allocation is added; afterwards the capacity is at least
`c + 1` and at least `min(2c, maxElements())` (so at least `c` times the growth
factor, which is not less than 2, whenever `2c ≤ maxElements()`), the size is
`c + 1`, and slot `i` holds the `i`-th pushed value for every `i ≤ c`. -/
theorem push_back_growth (L : Layout) (runtime0 : Runtime) (c : Nat)
    (front : List HermesValue) (last : HermesValue)
    (hc : c < maxElements L) (hlen : front.length = c) :
    ∃ fresh runtime full grown runtime1,
      create L runtime0 c = (CallResult.value fresh, runtime) ∧
      (∀ slow, pushAll slow fresh runtime front =
        (ExecutionStatus.RETURNED, full, runtime)) ∧
      full.size_ = c ∧ full.capacity_ = c ∧
      (∀ slow, push_back slow full runtime last = slow full runtime last) ∧
      pushAll (pushBackSlowPath L) fresh runtime (front ++ [last]) =
        (ExecutionStatus.RETURNED, grown, runtime1) ∧
      runtime1.allocations =
        runtime.allocations ++ [⟨false, allocationSize L grown.capacity_⟩] ∧
      grown.capacity_ ≥ c + 1 ∧
      grown.capacity_ ≥ min (c * 2) (maxElements L) ∧
      (c * 2 ≤ maxElements L → grown.capacity_ ≥ c * 2) ∧
      grown.size_ = c + 1 ∧
      ∀ i (hi : i < (front ++ [last]).length), grown.data i = (front ++ [last])[i] := by
  have hcreate := create_eq_of_le L runtime0 c (Nat.le_of_lt hc)
  obtain ⟨full, grown, hfast, hfsize, hfcap, hlast, hrun, hgsize, hgcap, hgdata⟩ :=
    pushAll_grow L (construct (runtime0.rawMemory runtime0.allocations.length) c)
      { runtime0 with
        allocations := runtime0.allocations ++ [⟨false, allocationSize L c⟩] }
      front last rfl hc hlen
  obtain ⟨b2, b3, b4⟩ := growthCapacity_bounds L c hc
  have hgcap1 : grown.capacity_ = growthCapacity L c (c + 1) := hgcap
  exact ⟨_, _, full, grown, _, hcreate, hfast, hfsize, hfcap, hlast, hrun, rfl,
    by rw [hgcap1]; exact b2, by rw [hgcap1]; exact b3,
    fun h => by rw [hgcap1]; exact b4 h, hgsize, hgdata⟩

theorem push_back_growth_witness :
    (4 < maxElements Layout.malloc64 ∧
      [HermesValue.number 1, HermesValue.number 2, HermesValue.number 3,
        HermesValue.number 4].length = 4) ∧
    (pushAll (pushBackSlowPath Layout.malloc64)
        (construct (Runtime.initial.rawMemory 0) 4)
        (create Layout.malloc64 Runtime.initial 4).2
        [HermesValue.number 1, HermesValue.number 2, HermesValue.number 3,
          HermesValue.number 4, HermesValue.number 5]).2.1.capacity_ = 8 ∧
    (List.range 5).map (pushAll (pushBackSlowPath Layout.malloc64)
        (construct (Runtime.initial.rawMemory 0) 4)
        (create Layout.malloc64 Runtime.initial 4).2
        [HermesValue.number 1, HermesValue.number 2, HermesValue.number 3,
          HermesValue.number 4, HermesValue.number 5]).2.1.data =
      [HermesValue.number 1, HermesValue.number 2, HermesValue.number 3,
        HermesValue.number 4, HermesValue.number 5] ∧
    ∃ fresh runtime grown runtime1,
      create Layout.malloc64 Runtime.initial 4 = (CallResult.value fresh, runtime) ∧
      pushAll (pushBackSlowPath Layout.malloc64) fresh runtime
          ([HermesValue.number 1, HermesValue.number 2, HermesValue.number 3,
            HermesValue.number 4] ++ [HermesValue.number 5]) =
        (ExecutionStatus.RETURNED, grown, runtime1) ∧
      grown.capacity_ ≥ 4 * 2 ∧ grown.size_ = 4 + 1 := by
  obtain ⟨fresh, runtime, _, grown, runtime1, h1, _, _, _, _, h6, _, _, _, h11, h12, _⟩ :=
    push_back_growth Layout.malloc64 Runtime.initial 4
      [HermesValue.number 1, HermesValue.number 2, HermesValue.number 3,
        HermesValue.number 4] (HermesValue.number 5) (by decide) (by decide)
  exact ⟨⟨by decide, by decide⟩, by decide, by decide,
    fresh, runtime, grown, runtime1, h1, h6, h11 (by decide), h12⟩

end ArrayStorage

/-! ## Orders, exchanges and permutations -/

theorem StrictWeakOrder.asymm {α : Type} {lt : α → α → Bool} (h : StrictWeakOrder lt)
    (a b : α) (hab : lt a b = true) : lt b a = false := by
  cases hba : lt b a with
  | false => rfl
  | true =>
    have := h.trans a b a hab hba
    rw [h.irrefl a] at this
    exact absurd this (by decide)

/-- The order "not greater than" of a strict weak order is transitive. -/
theorem StrictWeakOrder.negTrans {α : Type} {lt : α → α → Bool} (h : StrictWeakOrder lt)
    (a b c : α) (hba : lt b a = false) (hcb : lt c b = false) : lt c a = false := by
  cases hca : lt c a with
  | false => rfl
  | true =>
    cases hab : lt a b with
    | true =>
      have := h.trans c a b hca hab
      rw [hcb] at this
      exact absurd this (by decide)
    | false =>
      cases hbc : lt b c with
      | true =>
        have := h.trans b c a hbc hca
        rw [hba] at this
        exact absurd this (by decide)
      | false =>
        have := (h.incomp_trans a b c hab hba hbc hcb).2
        rw [hca] at this
        exact absurd this (by decide)

theorem exchange_left {α : Type} (f : Nat → α) (i j : Nat) : exchange f i j i = f j := by
  simp [exchange]

theorem exchange_right {α : Type} (f : Nat → α) (i j : Nat) : exchange f i j j = f i := by
  by_cases h : j = i
  · simp [exchange, h]
  · simp [exchange, h]

theorem exchange_other {α : Type} (f : Nat → α) (i j k : Nat) (hi : k ≠ i) (hj : k ≠ j) :
    exchange f i j k = f k := by
  simp [exchange, hi, hj]

theorem exchange_eq_comp_swap {α : Type} (f : Nat → α) (i j : Nat) :
    exchange f i j = f ∘ Equiv.swap i j := by
  funext k
  by_cases hi : k = i
  · subst hi
    simp [exchange]
  · by_cases hj : k = j
    · subst hj
      simp [exchange, hi]
    · simp [exchange, hi, hj, Equiv.swap_apply_of_ne_of_ne hi hj]

theorem PermutedOn.refl {α : Type} (base limit : Nat) (f : Nat → α) :
    PermutedOn base limit f f :=
  ⟨Equiv.refl Nat, fun _ _ => rfl, rfl⟩

theorem PermutedOn.trans {α : Type} {base limit : Nat} {f g h : Nat → α}
    (h1 : PermutedOn base limit f g) (h2 : PermutedOn base limit g h) :
    PermutedOn base limit f h := by
  obtain ⟨π1, hfix1, rfl⟩ := h1
  obtain ⟨π2, hfix2, rfl⟩ := h2
  refine ⟨π2.trans π1, ?_, rfl⟩
  intro k hk
  simp only [Equiv.trans_apply]
  rw [hfix2 k hk, hfix1 k hk]

theorem PermutedOn.mono {α : Type} {base limit base1 limit1 : Nat} {f g : Nat → α}
    (h : PermutedOn base limit f g) (hb : base1 ≤ base) (hl : limit ≤ limit1) :
    PermutedOn base1 limit1 f g := by
  obtain ⟨π, hfix, rfl⟩ := h
  exact ⟨π, fun k hk => hfix k (by omega), rfl⟩

theorem PermutedOn.exchange {α : Type} (base limit : Nat) (f : Nat → α) (i j : Nat)
    (hi : base ≤ i ∧ i < limit) (hj : base ≤ j ∧ j < limit) :
    PermutedOn base limit f (exchange f i j) := by
  refine ⟨Equiv.swap i j, ?_, exchange_eq_comp_swap f i j⟩
  intro k hk
  exact Equiv.swap_apply_of_ne_of_ne (by omega) (by omega)

theorem PermutedOn.eq_outside {α : Type} {base limit : Nat} {f g : Nat → α}
    (h : PermutedOn base limit f g) (k : Nat) (hk : k < base ∨ limit ≤ k) : g k = f k := by
  obtain ⟨π, hfix, rfl⟩ := h
  simp only [Function.comp_apply, hfix k hk]

/-- A permutation that fixes everything outside a range maps the range into itself. -/
theorem perm_maps_range (π : Equiv.Perm Nat) (base limit : Nat)
    (hfix : ∀ k, k < base ∨ limit ≤ k → π k = k) (k : Nat)
    (hk : base ≤ k ∧ k < limit) : base ≤ π k ∧ π k < limit := by
  by_contra hout
  have h1 : π (π k) = π k := hfix (π k) (by omega)
  have h2 : π k = k := π.injective h1
  omega

theorem PermutedOn.forall_range {α : Type} {base limit : Nat} {f g : Nat → α}
    (h : PermutedOn base limit f g) (P : α → Prop)
    (hP : ∀ k, base ≤ k → k < limit → P (f k)) :
    ∀ k, base ≤ k → k < limit → P (g k) := by
  obtain ⟨π, hfix, rfl⟩ := h
  intro k hb hl
  have := perm_maps_range π base limit hfix k ⟨hb, hl⟩
  exact hP (π k) this.1 this.2

/-! ## The generic sort sorts -/

namespace Sorting

variable {σ α : Type}

theorem insertLoop_sorts {sm : SortModel σ} {inv : σ → Prop} {view : σ → Nat → α}
    {lt : α → α → Bool} {n : Nat} (hswo : StrictWeakOrder lt) (hlaw : sm.Lawful inv view lt n)
    (base top : Nat) (htop : top < n) :
    ∀ (k : Nat) (s : σ), inv s → base + k ≤ top →
      (∀ p q, base ≤ p → p < q → q ≤ top → p ≠ base + k → q ≠ base + k →
        lt (view s q) (view s p) = false) →
      (∀ q, base + k < q → q ≤ top → lt (view s q) (view s (base + k)) = false) →
      ∃ s1, insertLoop sm base k s = (ExecutionStatus.RETURNED, s1) ∧
        SortedOn lt base (top + 1) (view s1) ∧
        PermutedOn base (top + 1) (view s) (view s1) ∧ inv s1 := by
  intro k
  induction k with
  | zero =>
    intro s hinv _ hA hB
    refine ⟨s, rfl, ?_, PermutedOn.refl _ _ _, hinv⟩
    intro i j hi hij hj
    by_cases hib : i = base + 0
    · rw [hib]
      exact hB j (by omega) (by omega)
    · exact hA i j hi hij (by omega) hib (by omega)
  | succ k ih =>
    intro s hinv hk hA hB
    obtain ⟨s1, hless, hview1, hinv1⟩ :=
      hlaw.less s (base + k + 1) (base + k) hinv (by omega) (by omega)
    simp only [insertLoop, hless]
    cases hlt : lt (view s (base + k + 1)) (view s (base + k)) with
    | false =>
      refine ⟨s1, rfl, ?_, by rw [hview1]; exact PermutedOn.refl _ _ _, hinv1⟩
      rw [hview1]
      intro i j hi hij hj
      by_cases hjk : j = base + (k + 1)
      · by_cases hik : i = base + k
        · rw [hjk, hik]
          exact hlt
        · have h1 := hA i (base + k) hi (by omega) (by omega) (by omega) (by omega)
          rw [hjk]
          exact hswo.negTrans _ _ _ h1 hlt
      · by_cases hik : i = base + (k + 1)
        · rw [hik]
          exact hB j (by omega) (by omega)
        · exact hA i j hi hij (by omega) hik hjk
    | true =>
      obtain ⟨s2, hswap, hview2, hinv2⟩ :=
        hlaw.swap s1 (base + k + 1) (base + k) hinv1 (by omega) (by omega)
      simp only [hswap]
      rw [hview1] at hview2
      have hasym := hswo.asymm _ _ hlt
      obtain ⟨s3, hrun, hsorted, hperm, hinv3⟩ := ih s2 hinv2 (by omega)
        (by
          intro p q hp hpq hq hpk hqk
          rw [hview2]
          by_cases hq1 : q = base + k + 1
          · rw [hq1, exchange_left, exchange_other _ _ _ _ (by omega) (by omega)]
            exact hA p (base + k) hp (by omega) (by omega) (by omega) (by omega)
          · by_cases hp1 : p = base + k + 1
            · rw [hp1, exchange_left, exchange_other _ _ _ _ (by omega) (by omega)]
              exact hA (base + k) q (by omega) (by omega) hq (by omega) (by omega)
            · rw [exchange_other _ _ _ _ hq1 hqk, exchange_other _ _ _ _ hp1 hpk]
              exact hA p q hp hpq hq (by omega) (by omega))
        (by
          intro q hq1 hq2
          rw [hview2, exchange_right]
          by_cases hq3 : q = base + k + 1
          · rw [hq3, exchange_left]
            exact hasym
          · rw [exchange_other _ _ _ _ hq3 (by omega)]
            exact hB q (by omega) hq2)
      refine ⟨s3, hrun, hsorted, PermutedOn.trans ?_ hperm, hinv3⟩
      rw [hview2]
      exact PermutedOn.exchange _ _ _ _ _ (by omega) (by omega)

theorem insertionSortLoop_sorts {sm : SortModel σ} {inv : σ → Prop}
    {view : σ → Nat → α} {lt : α → α → Bool} {n : Nat} (hswo : StrictWeakOrder lt)
    (hlaw : sm.Lawful inv view lt n) (base : Nat) :
    ∀ (count i : Nat) (s : σ), inv s → base + i + count ≤ n →
      SortedOn lt base (base + i) (view s) →
      ∃ s1, insertionSortLoop sm base count i s = (ExecutionStatus.RETURNED, s1) ∧
        SortedOn lt base (base + i + count) (view s1) ∧
        PermutedOn base (base + i + count) (view s) (view s1) ∧ inv s1 := by
  intro count
  induction count with
  | zero =>
    intro i s hinv _ hsorted
    exact ⟨s, rfl, hsorted, PermutedOn.refl _ _ _, hinv⟩
  | succ count ih =>
    intro i s hinv hn hsorted
    obtain ⟨s1, hrun, hsorted1, hperm1, hinv1⟩ :=
      insertLoop_sorts hswo hlaw base (base + i) (by omega) i s hinv (Nat.le_refl _)
        (fun p q hp hpq hq _ hqi => hsorted p q hp hpq (by omega))
        (fun q h1 h2 => absurd h1 (by omega))
    obtain ⟨s2, hrun2, hsorted2, hperm2, hinv2⟩ := ih (i + 1) s1 hinv1 (by omega) hsorted1
    refine ⟨s2, ?_, ?_, ?_, hinv2⟩
    · simp only [insertionSortLoop, hrun]
      exact hrun2
    · have : base + i + (count + 1) = base + (i + 1) + count := by omega
      rw [this]
      exact hsorted2
    · have : base + i + (count + 1) = base + (i + 1) + count := by omega
      rw [this]
      exact PermutedOn.trans (hperm1.mono (Nat.le_refl _) (by omega)) hperm2

theorem insertionSort_sorts {sm : SortModel σ} {inv : σ → Prop}
    {view : σ → Nat → α} {lt : α → α → Bool} {n : Nat} (hswo : StrictWeakOrder lt)
    (hlaw : sm.Lawful inv view lt n) (base limit : Nat) (s : σ) (hinv : inv s)
    (hn : limit ≤ n) :
    ∃ s1, insertionSort sm s base limit = (ExecutionStatus.RETURNED, s1) ∧
      SortedOn lt base limit (view s1) ∧
      PermutedOn base limit (view s) (view s1) ∧ inv s1 := by
  by_cases hempty : limit ≤ base
  · have hcount : limit - base - 1 = 0 := by omega
    refine ⟨s, by simp only [insertionSort, hcount, insertionSortLoop], ?_,
      PermutedOn.refl _ _ _, hinv⟩
    intro i j hi hij hj
    omega
  · obtain ⟨s1, hrun, hsorted, hperm, hinv1⟩ :=
      insertionSortLoop_sorts hswo hlaw base (limit - base - 1) 1 s hinv (by omega)
        (fun i j hi hij hj => absurd hj (by omega))
    have hlim : base + 1 + (limit - base - 1) = limit := by omega
    rw [hlim] at hsorted hperm
    exact ⟨s1, hrun, hsorted, hperm, hinv1⟩

theorem partitionLoop_spec {sm : SortModel σ} {inv : σ → Prop}
    {view : σ → Nat → α} {lt : α → α → Bool} {n : Nat} (hlaw : sm.Lawful inv view lt n)
    (base pivot : Nat) (hpivot : pivot < n) :
    ∀ (count store j : Nat) (s : σ), inv s → base ≤ store → store ≤ j →
      j + count = pivot →
      (∀ k, base ≤ k → k < store → lt (view s k) (view s pivot) = true) →
      (∀ k, store ≤ k → k < j → lt (view s k) (view s pivot) = false) →
      ∃ p s1, partitionLoop sm pivot count store j s = (CallResult.value p, s1) ∧
        base ≤ p ∧ p ≤ pivot ∧
        PermutedOn base pivot (view s) (view s1) ∧
        (∀ k, base ≤ k → k < p → lt (view s1 k) (view s1 pivot) = true) ∧
        (∀ k, p ≤ k → k < pivot → lt (view s1 k) (view s1 pivot) = false) ∧ inv s1 := by
  intro count
  induction count with
  | zero =>
    intro store j s hinv hb hsj hj hlow hhigh
    refine ⟨store, s, rfl, hb, by omega, PermutedOn.refl _ _ _, hlow, ?_, hinv⟩
    intro k h1 h2
    exact hhigh k h1 (by omega)
  | succ count ih =>
    intro store j s hinv hb hsj hj hlow hhigh
    obtain ⟨s1, hless, hview1, hinv1⟩ := hlaw.less s j pivot hinv (by omega) hpivot
    simp only [partitionLoop, hless]
    cases hlt : lt (view s j) (view s pivot) with
    | false =>
      obtain ⟨p, s2, hrun, hp1, hp2, hperm, hl, hh, hinv2⟩ :=
        ih store (j + 1) s1 hinv1 hb (by omega) (by omega)
          (by rw [hview1]; exact hlow)
          (by
            rw [hview1]
            intro k h1 h2
            by_cases hkj : k = j
            · rw [hkj]
              exact hlt
            · exact hhigh k h1 (by omega))
      rw [hview1] at hperm
      exact ⟨p, s2, hrun, hp1, hp2, hperm, hl, hh, hinv2⟩
    | true =>
      obtain ⟨s2, hswap, hview2, hinv2⟩ := hlaw.swap s1 store j hinv1 (by omega) (by omega)
      simp only [hswap]
      rw [hview1] at hview2
      have hpv : view s2 pivot = view s pivot := by
        rw [hview2]
        exact exchange_other _ _ _ _ (by omega) (by omega)
      obtain ⟨p, s3, hrun, hp1, hp2, hperm, hl, hh, hinv3⟩ :=
        ih (store + 1) (j + 1) s2 hinv2 (by omega) (by omega) (by omega)
          (by
            intro k h1 h2
            rw [hpv, hview2]
            by_cases hks : k = store
            · rw [hks, exchange_left]
              exact hlt
            · rw [exchange_other _ _ _ _ hks (by omega)]
              exact hlow k h1 (by omega))
          (by
            intro k h1 h2
            rw [hpv, hview2]
            by_cases hkj : k = j
            · rw [hkj, exchange_right]
              exact hhigh store (Nat.le_refl _) (by omega)
            · rw [exchange_other _ _ _ _ (by omega) hkj]
              exact hhigh k (by omega) (by omega))
      refine ⟨p, s3, hrun, by omega, hp2, PermutedOn.trans ?_ hperm, hl, hh, hinv3⟩
      rw [hview2]
      exact PermutedOn.exchange _ _ _ _ _ (by omega) (by omega)

theorem partition_spec {sm : SortModel σ} {inv : σ → Prop}
    {view : σ → Nat → α} {lt : α → α → Bool} {n : Nat} (hlaw : sm.Lawful inv view lt n)
    (base limit : Nat) (s : σ) (hinv : inv s) (hne : base < limit) (hn : limit ≤ n) :
    ∃ p s1, partition sm s base limit = (CallResult.value p, s1) ∧
      base ≤ p ∧ p < limit ∧
      PermutedOn base limit (view s) (view s1) ∧
      (∀ k, base ≤ k → k < p → lt (view s1 k) (view s1 p) = true) ∧
      (∀ k, p < k → k < limit → lt (view s1 k) (view s1 p) = false) ∧ inv s1 := by
  obtain ⟨p, s1, hrun, hp1, hp2, hperm, hl, hh, hinv1⟩ :=
    partitionLoop_spec hlaw base (limit - 1) (by omega) (limit - 1 - base) base base s hinv
      (Nat.le_refl _) (Nat.le_refl _) (by omega)
      (fun k h1 h2 => absurd h2 (by omega)) (fun k h1 h2 => absurd h2 (by omega))
  obtain ⟨s2, hswap, hview2, hinv2⟩ :=
    hlaw.swap s1 p (limit - 1) hinv1 (by omega) (by omega)
  refine ⟨p, s2, by simp only [partition, hrun, hswap], hp1, by omega, ?_, ?_, ?_, hinv2⟩
  · refine PermutedOn.trans (hperm.mono (Nat.le_refl _) (by omega)) ?_
    rw [hview2]
    exact PermutedOn.exchange _ _ _ _ _ (by omega) (by omega)
  · intro k h1 h2
    rw [hview2, exchange_left, exchange_other _ _ _ _ (by omega) (by omega)]
    exact hl k h1 h2
  · intro k h1 h2
    rw [hview2, exchange_left]
    by_cases hk : k = limit - 1
    · rw [hk, exchange_right]
      exact hh p (Nat.le_refl _) (by omega)
    · rw [exchange_other _ _ _ _ (by omega) hk]
      exact hh k (by omega) (by omega)

theorem quickSortLoop_sorts {sm : SortModel σ} {inv : σ → Prop}
    {view : σ → Nat → α} {lt : α → α → Bool} {n : Nat} (hswo : StrictWeakOrder lt)
    (hlaw : sm.Lawful inv view lt n) (threshold : Nat) :
    ∀ (fuel : Nat) (s : σ) (base limit : Nat), inv s → limit - base ≤ fuel → limit ≤ n →
      ∃ s1, quickSortLoop threshold sm fuel s base limit = (ExecutionStatus.RETURNED, s1) ∧
        SortedOn lt base limit (view s1) ∧
        PermutedOn base limit (view s) (view s1) ∧ inv s1 := by
  intro fuel
  induction fuel with
  | zero =>
    intro s base limit hinv hfuel _
    refine ⟨s, rfl, ?_, PermutedOn.refl _ _ _, hinv⟩
    intro i j hi hij hj
    omega
  | succ fuel ih =>
    intro s base limit hinv hfuel hn
    by_cases hsmall : limit - base ≤ threshold
    · simp only [quickSortLoop, hsmall, if_true]
      exact insertionSort_sorts hswo hlaw base limit s hinv hn
    · have hne : base < limit := by omega
      obtain ⟨p, s1, hpart, hp1, hp2, hperm1, hlow, hhigh, hinv1⟩ :=
        partition_spec hlaw base limit s hinv hne hn
      obtain ⟨s2, hrun2, hsorted2, hperm2, hinv2⟩ := ih s1 base p hinv1 (by omega) (by omega)
      obtain ⟨s3, hrun3, hsorted3, hperm3, hinv3⟩ := ih s2 (p + 1) limit hinv2 (by omega) hn
      refine ⟨s3, by simp only [quickSortLoop, hsmall, if_false, hpart, hrun2, hrun3], ?_,
        PermutedOn.trans hperm1 (PermutedOn.trans (hperm2.mono (Nat.le_refl _) (by omega))
          (hperm3.mono (by omega) (Nat.le_refl _))), hinv3⟩
      -- the pivot stays where the partition put it
      have hpivot2 : view s2 p = view s1 p := hperm2.eq_outside p (Or.inr (Nat.le_refl _))
      have hpivot3 : view s3 p = view s1 p := by
        rw [hperm3.eq_outside p (Or.inl (by omega))]
        exact hpivot2
      -- the elements before the pivot are less than it
      have hlow2 : ∀ k, base ≤ k → k < p → lt (view s2 k) (view s1 p) = true :=
        hperm2.forall_range (fun x => lt x (view s1 p) = true) hlow
      have hlow3 : ∀ k, base ≤ k → k < p → lt (view s3 k) (view s1 p) = true := by
        intro k h1 h2
        rw [hperm3.eq_outside k (Or.inl (by omega))]
        exact hlow2 k h1 h2
      -- the elements after the pivot are not less than it
      have hhigh2 : ∀ k, p + 1 ≤ k → k < limit → lt (view s2 k) (view s1 p) = false := by
        intro k h1 h2
        rw [hperm2.eq_outside k (Or.inr (by omega))]
        exact hhigh k (by omega) h2
      have hhigh3 : ∀ k, p + 1 ≤ k → k < limit → lt (view s3 k) (view s1 p) = false :=
        hperm3.forall_range (fun x => lt x (view s1 p) = false) hhigh2
      intro i j hi hij hj
      by_cases hjp : j < p
      · rw [hperm3.eq_outside j (Or.inl (by omega)), hperm3.eq_outside i (Or.inl (by omega))]
        exact hsorted2 i j hi hij hjp
      · by_cases hjeq : j = p
        · rw [hjeq, hpivot3]
          exact hswo.asymm _ _ (hlow3 i hi (by omega))
        · by_cases hip : i < p
          · cases hji : lt (view s3 j) (view s3 i) with
            | false => rfl
            | true =>
              have h1 := hswo.trans _ _ _ hji (hlow3 i hi hip)
              rw [hhigh3 j (by omega) hj] at h1
              exact absurd h1 (by decide)
          · by_cases hieq : i = p
            · rw [hieq, hpivot3]
              exact hhigh3 j (by omega) hj
            · exact hsorted3 i j (by omega) hij hj

/-- Over a lawful model the modelled `quickSort` of `[0, n)` returns, with the
elements permuted and in order. -/
theorem quickSort_sorts_lawful {sm : SortModel σ} {inv : σ → Prop}
    {view : σ → Nat → α} {lt : α → α → Bool} {n : Nat} (hswo : StrictWeakOrder lt)
    (hlaw : sm.Lawful inv view lt n) (threshold : Nat) (s : σ) (hinv : inv s) :
    ∃ s1, quickSort threshold sm s 0 n = (ExecutionStatus.RETURNED, s1) ∧
      SortedOn lt 0 n (view s1) ∧ PermutedOn 0 n (view s) (view s1) ∧ inv s1 :=
  quickSortLoop_sorts hswo hlaw threshold (n - 0) s 0 n hinv (Nat.le_refl _) (Nat.le_refl _)

theorem collectionModel_lawful (lt : α → α → Bool) (n : Nat) :
    (collectionModel lt).Lawful (fun _ => True) (fun f => f) lt n :=
  { less := fun f _ _ _ _ _ => ⟨f, rfl, rfl, trivial⟩
    swap := fun f i j _ _ _ => ⟨exchange f i j, rfl, rfl, trivial⟩ }

/-! ## Failures end the sort -/

theorem monitored_less (sm : SortModel σ) (m : Monitor σ) (hm : m.Clean) (i j : Nat) :
    Monitor.ObservesResult (sm.less m.state i j) (sm.monitored.less m i j) ∧
    ((sm.monitored.less m i j).1 ≠ CallResult.EXCEPTION →
      (sm.monitored.less m i j).2.Clean) := by
  obtain ⟨hf, hc⟩ := hm
  rcases h : sm.less m.state i j with ⟨result, s1⟩
  cases result <;>
    simp [SortModel.monitored, h, Monitor.ObservesResult, Monitor.Clean, hf, hc]

theorem monitored_swap (sm : SortModel σ) (m : Monitor σ) (hm : m.Clean) (i j : Nat) :
    Monitor.Observes (sm.swap m.state i j) (sm.monitored.swap m i j) ∧
    ((sm.monitored.swap m i j).1 ≠ ExecutionStatus.EXCEPTION →
      (sm.monitored.swap m i j).2.Clean) := by
  obtain ⟨hf, hc⟩ := hm
  rcases h : sm.swap m.state i j with ⟨status, s1⟩
  cases status <;>
    simp [SortModel.monitored, h, Monitor.Observes, Monitor.Clean, hf, hc]

theorem observes_cases {actual : ExecutionStatus × σ}
    {observed : ExecutionStatus × Monitor σ} (h : Monitor.Observes actual observed) :
    ∃ status m1, actual = (status, m1.state) ∧ observed = (status, m1) ∧
      ((status = ExecutionStatus.EXCEPTION ∧ m1.failed = true ∧ m1.callsAfterFailure = 0 ∧
          m1.atFailure = some m1.state) ∨
       (status = ExecutionStatus.RETURNED ∧ m1.Clean)) := by
  obtain ⟨st0, s1⟩ := actual
  obtain ⟨st, m1⟩ := observed
  obtain ⟨h1, h2, h3, h4, h5⟩ := h
  simp only at h1 h2 h3 h4 h5
  subst h1
  subst h2
  refine ⟨st, m1, rfl, rfl, ?_⟩
  cases st with
  | EXCEPTION =>
    have hf : m1.failed = true := by simpa using h4
    exact Or.inl ⟨rfl, hf, h3, h5 hf⟩
  | RETURNED =>
    refine Or.inr ⟨rfl, ?_, h3⟩
    cases hf : m1.failed with
    | false => rfl
    | true => exact absurd (h4.mp hf) (by decide)

theorem observesResult_cases {β : Type} {actual : CallResult β × σ}
    {observed : CallResult β × Monitor σ} (h : Monitor.ObservesResult actual observed) :
    ∃ result m1, actual = (result, m1.state) ∧ observed = (result, m1) ∧
      ((result = CallResult.EXCEPTION ∧ m1.failed = true ∧ m1.callsAfterFailure = 0 ∧
          m1.atFailure = some m1.state) ∨
       ((∃ v, result = CallResult.value v) ∧ m1.Clean)) := by
  obtain ⟨r0, s1⟩ := actual
  obtain ⟨r, m1⟩ := observed
  obtain ⟨h1, h2, h3, h4, h5⟩ := h
  simp only at h1 h2 h3 h4 h5
  subst h1
  subst h2
  refine ⟨r, m1, rfl, rfl, ?_⟩
  cases r with
  | EXCEPTION =>
    have hf : m1.failed = true := by simpa using h4
    exact Or.inl ⟨rfl, hf, h3, h5 hf⟩
  | value v =>
    refine Or.inr ⟨⟨v, rfl⟩, ?_, h3⟩
    cases hf : m1.failed with
    | false => rfl
    | true => exact absurd (h4.mp hf) (by simp)

theorem observes_of_exception (status : ExecutionStatus) (m1 : Monitor σ)
    (hs : status = ExecutionStatus.EXCEPTION) (hf : m1.failed = true)
    (hc : m1.callsAfterFailure = 0) (ha : m1.atFailure = some m1.state) :
    Monitor.Observes (status, m1.state) (status, m1) :=
  ⟨rfl, rfl, hc, by simp [hs, hf], fun _ => ha⟩

theorem observesResult_of_exception {β : Type} (m1 : Monitor σ)
    (hf : m1.failed = true) (hc : m1.callsAfterFailure = 0)
    (ha : m1.atFailure = some m1.state) :
    Monitor.ObservesResult (CallResult.EXCEPTION, m1.state)
      ((CallResult.EXCEPTION : CallResult β), m1) :=
  ⟨rfl, rfl, hc, by simp [hf], fun _ => ha⟩

theorem observes_of_returned (m1 : Monitor σ) (hm : m1.Clean) :
    Monitor.Observes (ExecutionStatus.RETURNED, m1.state) (ExecutionStatus.RETURNED, m1) :=
  ⟨rfl, rfl, hm.2, by simp [hm.1], by simp [hm.1]⟩

theorem observesResult_of_value {β : Type} (v : β) (m1 : Monitor σ) (hm : m1.Clean) :
    Monitor.ObservesResult (CallResult.value v, m1.state) (CallResult.value v, m1) :=
  ⟨rfl, rfl, hm.2, by simp [hm.1], by simp [hm.1]⟩

theorem insertLoop_observed (sm : SortModel σ) (base : Nat) :
    ∀ (k : Nat) (m : Monitor σ), m.Clean →
      Monitor.Observes (insertLoop sm base k m.state)
        (insertLoop sm.monitored base k m) := by
  intro k
  induction k with
  | zero =>
    intro m hm
    exact observes_of_returned m hm
  | succ k ih =>
    intro m hm
    obtain ⟨result, m1, hact, hobs, hcase⟩ :=
      observesResult_cases (monitored_less sm m hm (base + k + 1) (base + k)).1
    simp only [insertLoop, hact, hobs]
    rcases hcase with ⟨rfl, hf, hc, ha⟩ | ⟨⟨b, rfl⟩, hclean⟩
    · exact observes_of_exception _ m1 rfl hf hc ha
    · cases b with
      | false => exact observes_of_returned m1 hclean
      | true =>
        obtain ⟨status, m2, hact2, hobs2, hcase2⟩ :=
          observes_cases (monitored_swap sm m1 hclean (base + k + 1) (base + k)).1
        simp only [hact2, hobs2]
        rcases hcase2 with ⟨rfl, hf2, hc2, ha2⟩ | ⟨rfl, hclean2⟩
        · exact observes_of_exception _ m2 rfl hf2 hc2 ha2
        · exact ih m2 hclean2

theorem insertionSortLoop_observed (sm : SortModel σ) (base : Nat) :
    ∀ (count i : Nat) (m : Monitor σ), m.Clean →
      Monitor.Observes (insertionSortLoop sm base count i m.state)
        (insertionSortLoop sm.monitored base count i m) := by
  intro count
  induction count with
  | zero =>
    intro i m hm
    exact observes_of_returned m hm
  | succ count ih =>
    intro i m hm
    obtain ⟨status, m1, hact, hobs, hcase⟩ := observes_cases (insertLoop_observed sm base i m hm)
    simp only [insertionSortLoop, hact, hobs]
    rcases hcase with ⟨rfl, hf, hc, ha⟩ | ⟨rfl, hclean⟩
    · exact observes_of_exception _ m1 rfl hf hc ha
    · exact ih (i + 1) m1 hclean

theorem insertionSort_observed (sm : SortModel σ) (base limit : Nat) (m : Monitor σ)
    (hm : m.Clean) :
    Monitor.Observes (insertionSort sm m.state base limit)
      (insertionSort sm.monitored m base limit) :=
  insertionSortLoop_observed sm base _ 1 m hm

theorem partitionLoop_observed (sm : SortModel σ) (pivot : Nat) :
    ∀ (count store j : Nat) (m : Monitor σ), m.Clean →
      Monitor.ObservesResult (partitionLoop sm pivot count store j m.state)
        (partitionLoop sm.monitored pivot count store j m) := by
  intro count
  induction count with
  | zero =>
    intro store j m hm
    exact observesResult_of_value store m hm
  | succ count ih =>
    intro store j m hm
    obtain ⟨result, m1, hact, hobs, hcase⟩ :=
      observesResult_cases (monitored_less sm m hm j pivot).1
    simp only [partitionLoop, hact, hobs]
    rcases hcase with ⟨rfl, hf, hc, ha⟩ | ⟨⟨b, rfl⟩, hclean⟩
    · exact observesResult_of_exception m1 hf hc ha
    · cases b with
      | false => exact ih store (j + 1) m1 hclean
      | true =>
        obtain ⟨status, m2, hact2, hobs2, hcase2⟩ :=
          observes_cases (monitored_swap sm m1 hclean store j).1
        simp only [hact2, hobs2]
        rcases hcase2 with ⟨rfl, hf2, hc2, ha2⟩ | ⟨rfl, hclean2⟩
        · exact observesResult_of_exception m2 hf2 hc2 ha2
        · exact ih (store + 1) (j + 1) m2 hclean2

theorem partition_observed (sm : SortModel σ) (base limit : Nat) (m : Monitor σ)
    (hm : m.Clean) :
    Monitor.ObservesResult (partition sm m.state base limit)
      (partition sm.monitored m base limit) := by
  obtain ⟨result, m1, hact, hobs, hcase⟩ :=
    observesResult_cases
      (partitionLoop_observed sm (limit - 1) (limit - 1 - base) base base m hm)
  simp only [partition, hact, hobs]
  rcases hcase with ⟨rfl, hf, hc, ha⟩ | ⟨⟨p, rfl⟩, hclean⟩
  · exact observesResult_of_exception m1 hf hc ha
  · obtain ⟨status, m2, hact2, hobs2, hcase2⟩ :=
      observes_cases (monitored_swap sm m1 hclean p (limit - 1)).1
    simp only [hact2, hobs2]
    rcases hcase2 with ⟨rfl, hf2, hc2, ha2⟩ | ⟨rfl, hclean2⟩
    · exact observesResult_of_exception m2 hf2 hc2 ha2
    · exact observesResult_of_value p m2 hclean2

theorem quickSortLoop_observed (threshold : Nat) (sm : SortModel σ) :
    ∀ (fuel : Nat) (m : Monitor σ) (base limit : Nat), m.Clean →
      Monitor.Observes (quickSortLoop threshold sm fuel m.state base limit)
        (quickSortLoop threshold sm.monitored fuel m base limit) := by
  intro fuel
  induction fuel with
  | zero =>
    intro m base limit hm
    exact observes_of_returned m hm
  | succ fuel ih =>
    intro m base limit hm
    by_cases hsmall : limit - base ≤ threshold
    · simp only [quickSortLoop, hsmall, if_true]
      exact insertionSort_observed sm base limit m hm
    · obtain ⟨result, m1, hact, hobs, hcase⟩ :=
        observesResult_cases (partition_observed sm base limit m hm)
      simp only [quickSortLoop, hsmall, if_false, hact, hobs]
      rcases hcase with ⟨rfl, hf, hc, ha⟩ | ⟨⟨p, rfl⟩, hclean⟩
      · exact observes_of_exception _ m1 rfl hf hc ha
      · obtain ⟨status, m2, hact2, hobs2, hcase2⟩ := observes_cases (ih m1 base p hclean)
        simp only [hact2, hobs2]
        rcases hcase2 with ⟨rfl, hf2, hc2, ha2⟩ | ⟨rfl, hclean2⟩
        · exact observes_of_exception _ m2 rfl hf2 hc2 ha2
        · exact ih m2 (p + 1) limit hclean2

theorem quickSort_observed (threshold : Nat) (sm : SortModel σ) (s : σ) (base limit : Nat) :
    Monitor.Observes (quickSort threshold sm s base limit)
      (quickSort threshold sm.monitored (Monitor.start s) base limit) :=
  quickSortLoop_observed threshold sm (limit - base) (Monitor.start s) base limit ⟨rfl, rfl⟩

/-! ## The sort goes through less and swap only -/

theorem insertLoop_reaches (sm : SortModel σ) (s0 : σ) (base : Nat) :
    ∀ (k : Nat) (s : σ), sm.Reaches s0 s → sm.Reaches s0 (insertLoop sm base k s).2 := by
  intro k
  induction k with
  | zero =>
    intro s h
    exact h
  | succ k ih =>
    intro s h
    have h1 := SortModel.Reaches.less s (base + k + 1) (base + k) h
    rcases hl : sm.less s (base + k + 1) (base + k) with ⟨result, s1⟩
    rw [hl] at h1
    simp only [insertLoop, hl]
    cases result with
    | EXCEPTION => exact h1
    | value b =>
      cases b with
      | false => exact h1
      | true =>
        have h2 := SortModel.Reaches.swap s1 (base + k + 1) (base + k) h1
        rcases hs : sm.swap s1 (base + k + 1) (base + k) with ⟨status, s2⟩
        rw [hs] at h2
        simp only [hs]
        cases status with
        | EXCEPTION => exact h2
        | RETURNED => exact ih s2 h2

theorem insertionSortLoop_reaches (sm : SortModel σ) (s0 : σ) (base : Nat) :
    ∀ (count i : Nat) (s : σ), sm.Reaches s0 s →
      sm.Reaches s0 (insertionSortLoop sm base count i s).2 := by
  intro count
  induction count with
  | zero =>
    intro i s h
    exact h
  | succ count ih =>
    intro i s h
    have h1 := insertLoop_reaches sm s0 base i s h
    rcases hl : insertLoop sm base i s with ⟨status, s1⟩
    rw [hl] at h1
    simp only [insertionSortLoop, hl]
    cases status with
    | EXCEPTION => exact h1
    | RETURNED => exact ih (i + 1) s1 h1

theorem partitionLoop_reaches (sm : SortModel σ) (s0 : σ) (pivot : Nat) :
    ∀ (count store j : Nat) (s : σ), sm.Reaches s0 s →
      sm.Reaches s0 (partitionLoop sm pivot count store j s).2 := by
  intro count
  induction count with
  | zero =>
    intro store j s h
    exact h
  | succ count ih =>
    intro store j s h
    have h1 := SortModel.Reaches.less s j pivot h
    rcases hl : sm.less s j pivot with ⟨result, s1⟩
    rw [hl] at h1
    simp only [partitionLoop, hl]
    cases result with
    | EXCEPTION => exact h1
    | value b =>
      cases b with
      | false => exact ih store (j + 1) s1 h1
      | true =>
        have h2 := SortModel.Reaches.swap s1 store j h1
        rcases hs : sm.swap s1 store j with ⟨status, s2⟩
        rw [hs] at h2
        simp only [hs]
        cases status with
        | EXCEPTION => exact h2
        | RETURNED => exact ih (store + 1) (j + 1) s2 h2

theorem partition_reaches (sm : SortModel σ) (s0 s : σ) (base limit : Nat)
    (h : sm.Reaches s0 s) : sm.Reaches s0 (partition sm s base limit).2 := by
  have h1 := partitionLoop_reaches sm s0 (limit - 1) (limit - 1 - base) base base s h
  rcases hl : partitionLoop sm (limit - 1) (limit - 1 - base) base base s with ⟨result, s1⟩
  rw [hl] at h1
  simp only [partition, hl]
  cases result with
  | EXCEPTION => exact h1
  | value store =>
    have h2 := SortModel.Reaches.swap s1 store (limit - 1) h1
    rcases hs : sm.swap s1 store (limit - 1) with ⟨status, s2⟩
    rw [hs] at h2
    simp only [hs]
    cases status with
    | EXCEPTION => exact h2
    | RETURNED => exact h2

theorem quickSortLoop_reaches (threshold : Nat) (sm : SortModel σ) (s0 : σ) :
    ∀ (fuel : Nat) (s : σ) (base limit : Nat), sm.Reaches s0 s →
      sm.Reaches s0 (quickSortLoop threshold sm fuel s base limit).2 := by
  intro fuel
  induction fuel with
  | zero =>
    intro s base limit h
    exact h
  | succ fuel ih =>
    intro s base limit h
    by_cases hsmall : limit - base ≤ threshold
    · simp only [quickSortLoop, hsmall, if_true]
      exact insertionSortLoop_reaches sm s0 base _ 1 s h
    · have h1 := partition_reaches sm s0 s base limit h
      rcases hl : partition sm s base limit with ⟨result, s1⟩
      rw [hl] at h1
      simp only [quickSortLoop, hsmall, if_false, hl]
      cases result with
      | EXCEPTION => exact h1
      | value p =>
        have h2 := ih s1 base p h1
        rcases hq : quickSortLoop threshold sm fuel s1 base p with ⟨status, s2⟩
        rw [hq] at h2
        simp only [hq]
        cases status with
        | EXCEPTION => exact h2
        | RETURNED => exact ih s2 (p + 1) limit h2

theorem quickSort_reaches (threshold : Nat) (sm : SortModel σ) (s : σ) (base limit : Nat) :
    sm.Reaches s (quickSort threshold sm s base limit).2 :=
  quickSortLoop_reaches threshold sm s (limit - base) s base limit SortModel.Reaches.start

end Sorting

/-! ## StandardSortModel::less and StandardSortModel::swap -/

theorem log2Floor_spec : ∀ (fuel n : Nat), 0 < n → n < 2 ^ fuel →
    2 ^ log2Floor fuel n ≤ n ∧ n < 2 ^ (log2Floor fuel n + 1) := by
  intro fuel
  induction fuel with
  | zero =>
    intro n h0 h1
    simp at h1
    omega
  | succ fuel ih =>
    intro n h0 h1
    by_cases h2 : n < 2
    · simp only [log2Floor, h2, if_true]
      have : n = 1 := by omega
      subst this
      decide
    · simp only [log2Floor, h2, if_false]
      have hpow : 2 ^ (fuel + 1) = 2 * 2 ^ fuel := by rw [pow_succ, mul_comm]
      obtain ⟨i1, i2⟩ := ih (n / 2) (by omega) (by omega)
      have e1 : 2 ^ (log2Floor fuel (n / 2) + 1) = 2 * 2 ^ log2Floor fuel (n / 2) := by
        rw [pow_succ, mul_comm]
      have e2 : 2 ^ (log2Floor fuel (n / 2) + 1 + 1) = 2 * 2 ^ (log2Floor fuel (n / 2) + 1) := by
        rw [pow_succ, mul_comm]
      constructor
      · rw [e1]; omega
      · rw [e2]; omega

theorem doubleBits_parts (n : Nat) (h0 : n ≠ 0) (h53 : n < 2 ^ 53) :
    ∃ e m, e ≤ 52 ∧ 2 ^ e ≤ n ∧ n < 2 ^ (e + 1) ∧ m = (n - 2 ^ e) * 2 ^ (52 - e) ∧
      m < 2 ^ 52 ∧ doubleBits n = (1023 + e) * 2 ^ 52 + m := by
  obtain ⟨h1, h2⟩ := log2Floor_spec 64 n (by omega) (by
    have : (2:Nat) ^ 53 ≤ 2 ^ 64 := Nat.pow_le_pow_right (by decide) (by decide)
    omega)
  have he : log2Floor 64 n ≤ 52 := by
    by_contra hgt
    have : (2:Nat) ^ 53 ≤ 2 ^ log2Floor 64 n := Nat.pow_le_pow_right (by decide) (by omega)
    omega
  refine ⟨log2Floor 64 n, _, he, h1, h2, rfl, ?_, by simp [doubleBits, h0]⟩
  have hsplit : (2:Nat) ^ 52 = 2 ^ log2Floor 64 n * 2 ^ (52 - log2Floor 64 n) := by
    rw [← pow_add]
    congr 1
    omega
  have hlt : n - 2 ^ log2Floor 64 n < 2 ^ log2Floor 64 n := by
    have : 2 ^ (log2Floor 64 n + 1) = 2 * 2 ^ log2Floor 64 n := by rw [pow_succ, mul_comm]
    omega
  rw [hsplit]
  exact Nat.mul_lt_mul_of_pos_right hlt (Nat.pow_pos (by decide))

theorem doubleBits_injective (a b : Nat) (ha : a < 2 ^ 53) (hb : b < 2 ^ 53)
    (h : doubleBits a = doubleBits b) : a = b := by
  by_cases ha0 : a = 0
  · by_cases hb0 : b = 0
    · omega
    · obtain ⟨e, m, _, _, _, _, _, hbits⟩ := doubleBits_parts b hb0 hb
      rw [ha0] at h
      have h0 : doubleBits 0 = 0 := by decide
      rw [h0, hbits] at h
      have : 0 < 2 ^ 52 := Nat.pow_pos (by decide)
      have : (1023 + e) * 2 ^ 52 ≥ 1 * 2 ^ 52 := Nat.mul_le_mul_right _ (by omega)
      omega
  · by_cases hb0 : b = 0
    · obtain ⟨e, m, _, _, _, _, _, hbits⟩ := doubleBits_parts a ha0 ha
      rw [hb0] at h
      have h0 : doubleBits 0 = 0 := by decide
      rw [h0, hbits] at h
      have : (1023 + e) * 2 ^ 52 ≥ 1 * 2 ^ 52 := Nat.mul_le_mul_right _ (by omega)
      have : 0 < 2 ^ 52 := Nat.pow_pos (by decide)
      omega
    · obtain ⟨e1, m1, he1, l1, u1, hm1, hlt1, hbits1⟩ := doubleBits_parts a ha0 ha
      obtain ⟨e2, m2, he2, l2, u2, hm2, hlt2, hbits2⟩ := doubleBits_parts b hb0 hb
      rw [hbits1, hbits2] at h
      have hdiv1 : ((1023 + e1) * 2 ^ 52 + m1) / 2 ^ 52 = 1023 + e1 := by
        rw [Nat.add_comm, Nat.add_mul_div_right _ _ (Nat.pow_pos (by decide)),
          Nat.div_eq_of_lt hlt1, Nat.zero_add]
      have hdiv2 : ((1023 + e2) * 2 ^ 52 + m2) / 2 ^ 52 = 1023 + e2 := by
        rw [Nat.add_comm, Nat.add_mul_div_right _ _ (Nat.pow_pos (by decide)),
          Nat.div_eq_of_lt hlt2, Nat.zero_add]
      have he : e1 = e2 := by
        have := congrArg (· / 2 ^ 52) h
        simp only [hdiv1, hdiv2] at this
        omega
      subst he
      have hm : m1 = m2 := by omega
      rw [hm1, hm2] at hm
      have := Nat.eq_of_mul_eq_mul_right (Nat.pow_pos (by decide : 0 < 2)) hm
      omega

namespace StandardSortModel

variable {R : Type}

/-- C17: for all indices `a` and `b`, `StandardSortModel::less(a, b)` returns false
when `a` is a hole, true when `a` is present and `b` is a hole, and, when both are
present and read as `x` and `y`, false when `x` is undefined and true when `x` is not
undefined and `y` is; so it returns true whenever `a` holds a present, non-undefined
value and `b` is a hole or holds undefined, and false whenever `a` is a hole or holds
undefined and `b` holds a present, non-undefined value. In all these cases no call of
the comparison function is recorded. -/
theorem less_holes_and_undefined (ops : JSOps R) (sm : StandardSortModel) (runtime : R)
    (record : OpsRecord) (a b : Nat) :
    (∀ aDesc r1,
      ops.getComputedPrimitiveDescriptor runtime sm.obj_ (HermesValue.encodeDoubleValue a) =
        (none, aDesc, r1) →
      (less ops sm runtime a b).1 = CallResult.value false ∧
      (less ops.recording sm (runtime, record) a b).2.2.2.comparatorCalls =
        record.comparatorCalls) ∧
    (∀ aPropObj aDesc r1 bDesc r2,
      ops.getComputedPrimitiveDescriptor runtime sm.obj_ (HermesValue.encodeDoubleValue a) =
        (some aPropObj, aDesc, r1) →
      ops.getComputedPrimitiveDescriptor r1 sm.obj_ (HermesValue.encodeDoubleValue b) =
        (none, bDesc, r2) →
      (less ops sm runtime a b).1 = CallResult.value true ∧
      (less ops.recording sm (runtime, record) a b).2.2.2.comparatorCalls =
        record.comparatorCalls) ∧
    (∀ aPropObj aDesc r1 bPropObj bDesc r2 x r3 y r4,
      ops.getComputedPrimitiveDescriptor runtime sm.obj_ (HermesValue.encodeDoubleValue a) =
        (some aPropObj, aDesc, r1) →
      ops.getComputedPrimitiveDescriptor r1 sm.obj_ (HermesValue.encodeDoubleValue b) =
        (some bPropObj, bDesc, r2) →
      ops.getComputedPropertyValue r2 sm.obj_ aPropObj aDesc = (CallResult.value x, r3) →
      ops.getComputedPropertyValue r3 sm.obj_ bPropObj bDesc = (CallResult.value y, r4) →
      (x = HermesValue.undefined →
        (less ops sm runtime a b).1 = CallResult.value false ∧
        (less ops.recording sm (runtime, record) a b).2.2.2.comparatorCalls =
          record.comparatorCalls) ∧
      (x ≠ HermesValue.undefined → y = HermesValue.undefined →
        (less ops sm runtime a b).1 = CallResult.value true ∧
        (less ops.recording sm (runtime, record) a b).2.2.2.comparatorCalls =
          record.comparatorCalls)) := by
  refine ⟨?_, ?_, ?_⟩
  · intro aDesc r1 ha
    simp [less, lessBody, JSOps.recording, ha]
  · intro aPropObj aDesc r1 bDesc r2 ha hb
    simp [less, lessBody, JSOps.recording, ha, hb]
  · intro aPropObj aDesc r1 bPropObj bDesc r2 x r3 y r4 ha hb hx hy
    constructor
    · intro hxu
      subst hxu
      simp [less, lessBody, JSOps.recording, ha, hb, hx, hy, HermesValue.isUndefined,
        OpsRecord.note]
    · intro hxu hyu
      subst hyu
      have hx1 : x.isUndefined = false := by
        cases x <;> simp [HermesValue.isUndefined] at hxu ⊢
      simp [less, lessBody, JSOps.recording, ha, hb, hx, hy, HermesValue.isUndefined,
        OpsRecord.note, hx1]

theorem less_holes_and_undefined_witness :
    (plainOps.getComputedPrimitiveDescriptor tenNineHeap (sampleSortModel none).obj_
        (HermesValue.encodeDoubleValue 2) = (none, { flags := 0, slot := doubleBits 2 },
          tenNineHeap) ∧
      (less plainOps (sampleSortModel none) tenNineHeap 2 0).1 = CallResult.value false) ∧
    (plainOps.getComputedPrimitiveDescriptor tenNineHeap (sampleSortModel none).obj_
        (HermesValue.encodeDoubleValue 0) = (some 7, { flags := 0, slot := doubleBits 0 },
          tenNineHeap) ∧
      (less plainOps (sampleSortModel none) tenNineHeap 0 2).1 = CallResult.value true ∧
      (less plainOps.recording (sampleSortModel none) (tenNineHeap, OpsRecord.empty)
        0 2).2.2.2.comparatorCalls = []) := by
  have h := less_holes_and_undefined plainOps (sampleSortModel none) tenNineHeap
    OpsRecord.empty
  exact ⟨⟨rfl, ((h 2 0).1 _ _ rfl).1⟩,
    rfl, ((h 0 2).2.1 _ _ _ _ _ rfl rfl).1, ((h 0 2).2.1 _ _ _ _ _ rfl rfl).2⟩

/-- C18: when a comparator is supplied and both `obj[a]` and `obj[b]` are present and
read as `x` and `y`, neither undefined, `StandardSortModel::less(a, b)` calls the
comparator exactly once, with `this` undefined and the arguments `(x, y)` in that
order; it fails when the call or the conversion of its result to a number fails, and
otherwise succeeds with the comparison of that number with zero: it succeeds with
true if and only if the call and the conversion succeed and the number is strictly
less than zero. -/
theorem less_with_comparator (ops : JSOps R) (sm : StandardSortModel) (runtime : R)
    (record : OpsRecord) (a b compareFn aPropObj bPropObj : Nat)
    (aDesc bDesc : ComputedPropertyDescriptor) (r1 r2 r3 r4 : R) (x y : HermesValue)
    (hfn : sm.compareFn_ = some compareFn)
    (ha : ops.getComputedPrimitiveDescriptor runtime sm.obj_
        (HermesValue.encodeDoubleValue a) = (some aPropObj, aDesc, r1))
    (hb : ops.getComputedPrimitiveDescriptor r1 sm.obj_
        (HermesValue.encodeDoubleValue b) = (some bPropObj, bDesc, r2))
    (hx : ops.getComputedPropertyValue r2 sm.obj_ aPropObj aDesc = (CallResult.value x, r3))
    (hy : ops.getComputedPropertyValue r3 sm.obj_ bPropObj bDesc = (CallResult.value y, r4))
    (hxu : x ≠ HermesValue.undefined) (hyu : y ≠ HermesValue.undefined) :
    (less ops.recording sm (runtime, record) a b).2.2.2.comparatorCalls =
      record.comparatorCalls ++ [(compareFn, HermesValue.undefined, x, y)] ∧
    (less ops sm runtime a b).1 =
      (match ops.executeCall2 r4 compareFn HermesValue.undefined x y with
       | (CallResult.EXCEPTION, _) => CallResult.EXCEPTION
       | (CallResult.value callRes, r5) =>
         match ops.toNumber_RJS (ops.makeHandle r5 callRes) callRes with
         | (CallResult.EXCEPTION, _) => CallResult.EXCEPTION
         | (CallResult.value intRes, _) => CallResult.value (doubleLtZero intRes)) ∧
    ((less ops sm runtime a b).1 = CallResult.value true ↔
      ∃ callRes r5 intRes r6,
        ops.executeCall2 r4 compareFn HermesValue.undefined x y =
          (CallResult.value callRes, r5) ∧
        ops.toNumber_RJS (ops.makeHandle r5 callRes) callRes =
          (CallResult.value intRes, r6) ∧
        doubleLtZero intRes = true) := by
  have hx1 : x.isUndefined = false := by
    cases x <;> simp [HermesValue.isUndefined] at hxu ⊢
  have hy1 : y.isUndefined = false := by
    cases y <;> simp [HermesValue.isUndefined] at hyu ⊢
  rcases hcall : ops.executeCall2 r4 compareFn HermesValue.undefined x y with ⟨callRes, r5⟩
  cases callRes with
  | EXCEPTION =>
    simp [less, lessBody, JSOps.recording, ha, hb, hx, hy, hx1, hy1, hfn, hcall,
      OpsRecord.note]
  | value c =>
    rcases hnum : ops.toNumber_RJS (ops.makeHandle r5 c) c with ⟨numRes, r6⟩
    cases numRes with
    | EXCEPTION =>
      simp [less, lessBody, JSOps.recording, ha, hb, hx, hy, hx1, hy1, hfn, hcall, hnum,
        OpsRecord.note]
    | value n =>
      simp only [less, lessBody, JSOps.recording, ha, hb, hx, hy, hx1, hy1, hfn, hcall, hnum,
        OpsRecord.note, Bool.false_eq_true, if_false, CallResult.value.injEq, true_and]
      constructor
      · intro h
        exact ⟨c, r5, n, r6, rfl, hnum, h⟩
      · rintro ⟨c1, r51, n1, r61, hc1, hn1, h⟩
        simp only [Prod.mk.injEq, CallResult.value.injEq] at hc1
        obtain ⟨rfl, rfl⟩ := hc1
        rw [hnum] at hn1
        simp only [Prod.mk.injEq, CallResult.value.injEq] at hn1
        rw [hn1.1]
        exact h

theorem less_with_comparator_witness :
    doubleLtZero 13830554455654793216 = true ∧ doubleLtZero 0 = false ∧
    doubleLtZero 9223372036854775808 = false ∧ doubleLtZero 4607182418800017408 = false ∧
    doubleLtZero 9221120237041090560 = false ∧ doubleLtZero 18444492273895866368 = false ∧
    (less plainOps.recording (sampleSortModel (some 1)) (tenNineHeap, OpsRecord.empty)
        1 0).2.2.2.comparatorCalls =
      [(1, HermesValue.undefined, HermesValue.number 4621256167635550208,
        HermesValue.number 4621819117588971520)] ∧
    (less plainOps (sampleSortModel (some 1)) tenNineHeap 1 0).1 = CallResult.value true ∧
    (less plainOps (sampleSortModel (some 1)) tenNineHeap 0 1).1 = CallResult.value false ∧
    (less plainOps (sampleSortModel (some 2)) tenNineHeap 0 1).1 = CallResult.EXCEPTION := by
  have h := less_with_comparator plainOps (sampleSortModel (some 1)) tenNineHeap
    OpsRecord.empty 1 0 1 7 7 { flags := 0, slot := doubleBits 1 }
    { flags := 0, slot := doubleBits 0 } tenNineHeap tenNineHeap tenNineHeap tenNineHeap
    (HermesValue.number 4621256167635550208) (HermesValue.number 4621819117588971520)
    rfl rfl rfl rfl rfl (by decide) (by decide)
  exact ⟨by decide, by decide, by decide, by decide, by decide, by decide, h.1,
    by decide, by decide, by decide⟩

/-- C19 as stated fails: on the object `[10, 9]` without a comparator,
`less(0, 1)` converts both numbers to strings and returns true (`"10" < "9"`),
whereas the less-than operator applied to the two element values gives false
(`10 < 9`). -/
theorem less_without_comparator_counterexample :
    tenNineHeap.element 0 = some (HermesValue.encodeDoubleValue 10) ∧
    tenNineHeap.element 1 = some (HermesValue.encodeDoubleValue 9) ∧
    (less plainOps (sampleSortModel none) tenNineHeap 0 1).1 = CallResult.value true ∧
    (plainOps.lessOp_RJS tenNineHeap (HermesValue.encodeDoubleValue 10)
      (HermesValue.encodeDoubleValue 9)).1 = false ∧
    (plainOps.toString_RJS tenNineHeap (HermesValue.encodeDoubleValue 10)).1 =
      CallResult.value (HermesValue.string 1) ∧
    (plainOps.toString_RJS tenNineHeap (HermesValue.encodeDoubleValue 9)).1 =
      CallResult.value (HermesValue.string 2) ∧
    sampleString 1 = [49, 48] ∧ sampleString 2 = [57] := by
  decide

/-- C19, amended: when no comparator is supplied and both `obj[a]` and `obj[b]` are
present and read as `x` and `y`, neither undefined, `StandardSortModel::less(a, b)`
converts `x` and then `y` to strings, fails if a conversion fails, and otherwise
returns the result of the less-than operator applied to the two strings; when both
conversions return the values themselves (as for two strings) this is the less-than
of the two element values. The comparison function is not called. -/
theorem less_without_comparator (ops : JSOps R) (sm : StandardSortModel) (runtime : R)
    (record : OpsRecord) (a b aPropObj bPropObj : Nat)
    (aDesc bDesc : ComputedPropertyDescriptor) (r1 r2 r3 r4 : R) (x y : HermesValue)
    (hfn : sm.compareFn_ = none)
    (ha : ops.getComputedPrimitiveDescriptor runtime sm.obj_
        (HermesValue.encodeDoubleValue a) = (some aPropObj, aDesc, r1))
    (hb : ops.getComputedPrimitiveDescriptor r1 sm.obj_
        (HermesValue.encodeDoubleValue b) = (some bPropObj, bDesc, r2))
    (hx : ops.getComputedPropertyValue r2 sm.obj_ aPropObj aDesc = (CallResult.value x, r3))
    (hy : ops.getComputedPropertyValue r3 sm.obj_ bPropObj bDesc = (CallResult.value y, r4))
    (hxu : x ≠ HermesValue.undefined) (hyu : y ≠ HermesValue.undefined) :
    (less ops sm runtime a b).1 =
      (match ops.toString_RJS r4 x with
       | (CallResult.EXCEPTION, _) => CallResult.EXCEPTION
       | (CallResult.value aStr, r5) =>
         match ops.toString_RJS r5 y with
         | (CallResult.EXCEPTION, _) => CallResult.EXCEPTION
         | (CallResult.value bStr, r6) => CallResult.value (ops.lessOp_RJS r6 aStr bStr).1) ∧
    (∀ r5 r6, ops.toString_RJS r4 x = (CallResult.value x, r5) →
      ops.toString_RJS r5 y = (CallResult.value y, r6) →
      (less ops sm runtime a b).1 = CallResult.value (ops.lessOp_RJS r6 x y).1) ∧
    (less ops.recording sm (runtime, record) a b).2.2.2.comparatorCalls =
      record.comparatorCalls := by
  have hx1 : x.isUndefined = false := by
    cases x <;> simp [HermesValue.isUndefined] at hxu ⊢
  have hy1 : y.isUndefined = false := by
    cases y <;> simp [HermesValue.isUndefined] at hyu ⊢
  refine ⟨?_, ?_, ?_⟩
  · rcases hsx : ops.toString_RJS r4 x with ⟨aRes, r5⟩
    cases aRes with
    | EXCEPTION => simp [less, lessBody, ha, hb, hx, hy, hx1, hy1, hfn, hsx]
    | value aStr =>
      rcases hsy : ops.toString_RJS r5 y with ⟨bRes, r6⟩
      cases bRes with
      | EXCEPTION => simp [less, lessBody, ha, hb, hx, hy, hx1, hy1, hfn, hsx, hsy]
      | value bStr => simp [less, lessBody, ha, hb, hx, hy, hx1, hy1, hfn, hsx, hsy]
  · intro r5 r6 hsx hsy
    simp [less, lessBody, ha, hb, hx, hy, hx1, hy1, hfn, hsx, hsy]
  · rcases hsx : ops.toString_RJS r4 x with ⟨aRes, r5⟩
    cases aRes with
    | EXCEPTION =>
      simp [less, lessBody, JSOps.recording, ha, hb, hx, hy, hx1, hy1, hfn, hsx,
        OpsRecord.note]
    | value aStr =>
      rcases hsy : ops.toString_RJS r5 y with ⟨bRes, r6⟩
      cases bRes with
      | EXCEPTION =>
        simp [less, lessBody, JSOps.recording, ha, hb, hx, hy, hx1, hy1, hfn, hsx, hsy,
          OpsRecord.note]
      | value bStr =>
        simp [less, lessBody, JSOps.recording, ha, hb, hx, hy, hx1, hy1, hfn, hsx, hsy,
          OpsRecord.note]

theorem less_without_comparator_witness :
    (less plainOps (sampleSortModel none) tenNineHeap 0 1).1 =
      CallResult.value
        (plainOps.lessOp_RJS tenNineHeap (HermesValue.string 1) (HermesValue.string 2)).1 ∧
    (less plainOps.recording (sampleSortModel none) (tenNineHeap, OpsRecord.empty)
        0 1).2.2.2.comparatorCalls = [] := by
  have h := less_without_comparator plainOps (sampleSortModel none) tenNineHeap
    OpsRecord.empty 0 1 7 7 { flags := 0, slot := doubleBits 0 }
    { flags := 0, slot := doubleBits 1 } tenNineHeap tenNineHeap tenNineHeap tenNineHeap
    (HermesValue.number 4621819117588971520) (HermesValue.number 4621256167635550208)
    rfl rfl rfl rfl rfl (by decide) (by decide)
  exact ⟨h.1, h.2.2⟩

theorem doubleBits_injective_uint32 (i j : Nat) (hi : i < UINT32) (hj : j < UINT32)
    (h : doubleBits i = doubleBits j) : i = j := by
  have h53 : UINT32 ≤ 2 ^ 53 := by
    rw [UINT32_eq]
    decide
  exact doubleBits_injective i j (by omega) (by omega) h

/-- What `swap` does over the plain object, in terms of the properties. -/
theorem swap_plain_eq (sm : StandardSortModel) (heap : PlainHeap) (a b : Nat) :
    (swap plainOps sm heap a b).1 = ExecutionStatus.RETURNED ∧
    (∀ k, (swap plainOps sm heap a b).2.2.properties k =
      if k = doubleBits b then heap.properties (doubleBits a)
      else if k = doubleBits a then heap.properties (doubleBits b)
      else heap.properties k) ∧
    (swap plainOps sm heap a b).2.1.compareFn_ = sm.compareFn_ := by
  rcases hpa : heap.properties (doubleBits a) with _ | va <;>
    rcases hpb : heap.properties (doubleBits b) with _ | vb <;>
    simp [swap, swapBody, plainOps, HermesValue.encodeDoubleValue, PlainHeap.setProperty,
      hpa, hpb]

/-- C20: for an object whose indexed elements are plain own data properties and all
indices `a`, `b` (including `a = b`), `StandardSortModel::swap(a, b)` succeeds and
leaves index `a` holding exactly what index `b` held before (absent if `b` was a
hole), index `b` holding exactly what index `a` held before (absent if `a` was a
hole), and every other index unchanged. -/
theorem swap_plain (sm : StandardSortModel) (heap : PlainHeap) (a b : Nat)
    (ha : a < UINT32) (hb : b < UINT32) :
    (swap plainOps sm heap a b).1 = ExecutionStatus.RETURNED ∧
    (swap plainOps sm heap a b).2.2.element a = heap.element b ∧
    (swap plainOps sm heap a b).2.2.element b = heap.element a ∧
    ∀ i, i < UINT32 → i ≠ a → i ≠ b →
      (swap plainOps sm heap a b).2.2.element i = heap.element i := by
  obtain ⟨hstatus, hprops, _⟩ := swap_plain_eq sm heap a b
  refine ⟨hstatus, ?_, ?_, ?_⟩
  · show (swap plainOps sm heap a b).2.2.properties (doubleBits a) = _
    rw [hprops]
    by_cases hab : doubleBits a = doubleBits b
    · rw [if_pos hab, hab]
      rfl
    · rw [if_neg hab, if_pos rfl]
      rfl
  · show (swap plainOps sm heap a b).2.2.properties (doubleBits b) = _
    rw [hprops, if_pos rfl]
    rfl
  · intro i hi hia hib
    show (swap plainOps sm heap a b).2.2.properties (doubleBits i) = _
    rw [hprops, if_neg (fun h => hib (doubleBits_injective_uint32 i b hi hb h)),
      if_neg (fun h => hia (doubleBits_injective_uint32 i a hi ha h))]
    rfl

theorem swap_plain_witness :
    ((0 : Nat) < UINT32 ∧ (2 : Nat) < UINT32) ∧
    (swap plainOps (sampleSortModel none) tenNineHeap 0 2).1 = ExecutionStatus.RETURNED ∧
    (List.range 4).map (swap plainOps (sampleSortModel none) tenNineHeap 0 2).2.2.element =
      [none, some (HermesValue.encodeDoubleValue 9), some (HermesValue.encodeDoubleValue 10),
       none] ∧
    (List.range 4).map (swap plainOps (sampleSortModel none) tenNineHeap 1 1).2.2.element =
      [some (HermesValue.encodeDoubleValue 10), some (HermesValue.encodeDoubleValue 9),
       none, none] := by
  have h := swap_plain (sampleSortModel none) tenNineHeap 0 2 (by decide) (by decide)
  exact ⟨⟨by decide, by decide⟩, h.1, by decide, by decide⟩

/-! ## The plain object under the sort -/

theorem numbersFirst_strictWeakOrder : StrictWeakOrder numbersFirst := by
  refine ⟨?_, ?_, ?_⟩
  · intro a
    simp [numbersFirst]
  · intro a b c
    simp only [numbersFirst, decide_eq_true_eq]
    omega
  · intro a b c
    simp only [numbersFirst, decide_eq_false_iff_not]
    omega

theorem less_plain (sm : StandardSortModel) (heap : PlainHeap) (i j : Nat)
    (hfn : sm.compareFn_ = some 1)
    (hi : heap.element i = none ∨ heap.element i = some HermesValue.undefined ∨
      ∃ bits, heap.element i = some (HermesValue.number bits))
    (hj : heap.element j = none ∨ heap.element j = some HermesValue.undefined ∨
      ∃ bits, heap.element j = some (HermesValue.number bits)) :
    (less plainOps sm heap i j).1 =
      CallResult.value (numbersFirst (heap.element i) (heap.element j)) ∧
    (less plainOps sm heap i j).2.1.compareFn_ = some 1 ∧
    (less plainOps sm heap i j).2.2.properties = heap.properties := by
  simp only [PlainHeap.element] at hi hj ⊢
  rcases hi with hi | hi | ⟨xb, hi⟩ <;> rcases hj with hj | hj | ⟨yb, hj⟩ <;>
    simp [less, lessBody, plainOps, HermesValue.encodeDoubleValue, hi, hj, hfn,
      HermesValue.isUndefined, numbersFirst, sortRank]
  have hneg : doubleLtZero 13830554455654793216 = true := by decide
  have hpos : doubleLtZero 4607182418800017408 = false := by decide
  have hzero : doubleLtZero 0 = false := by decide
  by_cases h1 : xb < yb
  · simp [h1, hneg]
  · by_cases h2 : yb < xb
    · simp [h1, h2, hpos]
    · simp [h1, h2, hzero]

theorem plainSort_lawful (n : Nat) (hn : n ≤ UINT32) :
    (toSortModel plainOps).Lawful plainSortInv plainSortView numbersFirst n := by
  constructor
  · intro state i j hinv hi hj
    obtain ⟨hfn, helems⟩ := hinv
    obtain ⟨h1, h2, h3⟩ := less_plain state.1 state.2 i j hfn
      (helems i (by omega)) (helems j (by omega))
    rcases hrun : less plainOps state.1 state.2 i j with ⟨result, sm1, heap1⟩
    rw [hrun] at h1 h2 h3
    simp only at h1 h2 h3
    have hview : plainSortView (sm1, heap1) = plainSortView state := by
      funext k
      simp only [plainSortView, PlainHeap.element, h3]
    refine ⟨(sm1, heap1), ?_, hview, h2, ?_⟩
    · have hvi : plainSortView state i = state.2.element i := by
        simp only [plainSortView, if_pos (show i < UINT32 by omega)]
      have hvj : plainSortView state j = state.2.element j := by
        simp only [plainSortView, if_pos (show j < UINT32 by omega)]
      simp only [toSortModel, hrun, h1, hvi, hvj]
    · intro k hk
      have := helems k hk
      simp only [PlainHeap.element, h3] at this ⊢
      exact this
  · intro state i j hinv hi hj
    obtain ⟨hfn, helems⟩ := hinv
    obtain ⟨hstatus, hprops, hkeep⟩ := swap_plain_eq state.1 state.2 i j
    rcases hrun : swap plainOps state.1 state.2 i j with ⟨status, sm1, heap1⟩
    rw [hrun] at hstatus hprops hkeep
    simp only at hstatus hprops hkeep
    subst hstatus
    have helem : ∀ k, k < UINT32 → heap1.element k = exchange state.2.element i j k := by
      intro k hk
      show heap1.properties (doubleBits k) = _
      rw [hprops]
      by_cases hki : k = i
      · subst hki
        rw [exchange_left]
        by_cases hkj : doubleBits k = doubleBits j
        · rw [if_pos hkj]
          show state.2.properties (doubleBits k) = state.2.properties (doubleBits j)
          rw [hkj]
        · rw [if_neg hkj, if_pos rfl]
          rfl
      · have hne : doubleBits k ≠ doubleBits i :=
          fun h => hki (doubleBits_injective_uint32 k i hk (by omega) h)
        by_cases hkj : k = j
        · subst hkj
          rw [if_pos rfl, exchange_right]
          rfl
        · have hne2 : doubleBits k ≠ doubleBits j :=
            fun h => hkj (doubleBits_injective_uint32 k j hk (by omega) h)
          rw [if_neg hne2, if_neg hne, exchange_other _ _ _ _ hki hkj]
          rfl
    refine ⟨(sm1, heap1), by simp only [toSortModel, hrun], ?_, ?_, ?_⟩
    · funext k
      by_cases hk : k < UINT32
      · simp only [plainSortView, if_pos hk]
        rw [helem k hk]
        by_cases hki : k = i
        · subst hki
          rw [exchange_left, exchange_left]
          simp only [plainSortView, if_pos (show j < UINT32 by omega)]
        · by_cases hkj : k = j
          · subst hkj
            rw [exchange_right, exchange_right]
            simp only [plainSortView, if_pos (show i < UINT32 by omega)]
          · rw [exchange_other _ _ _ _ hki hkj, exchange_other _ _ _ _ hki hkj]
            simp only [plainSortView, if_pos hk]
      · rw [exchange_other _ _ _ _ (by omega) (by omega)]
        simp only [plainSortView, if_neg hk]
    · show sm1.compareFn_ = some 1
      rw [hkeep]
      exact hfn
    · intro k hk
      show heap1.element k = none ∨ _
      rw [helem k hk]
      by_cases hki : k = i
      · subst hki
        rw [exchange_left]
        exact helems j (by omega)
      · by_cases hkj : k = j
        · subst hkj
          rw [exchange_right]
          exact helems i (by omega)
        · rw [exchange_other _ _ _ _ hki hkj]
          exact helems k hk

/-! ## Failures inside less and swap -/

/-- Every way out of `less` after a failed operation is the failure: with the
operations under observation, `less` on a record without failure ends with
`EXCEPTION` if and only if one of its operations failed, and starts no operation
after a failure. -/
theorem less_recorded (ops : JSOps R) (sm : StandardSortModel) (runtime : R)
    (record : OpsRecord) (a b : Nat) (hf : record.failed = false)
    (hc : record.callsAfterFailure = 0) :
    (less ops.recording sm (runtime, record) a b).2.2.2.callsAfterFailure = 0 ∧
    ((less ops.recording sm (runtime, record) a b).2.2.2.failed = true ↔
      (less ops.recording sm (runtime, record) a b).1 = CallResult.EXCEPTION) := by
  rcases h1 : ops.getComputedPrimitiveDescriptor runtime sm.obj_
    (HermesValue.encodeDoubleValue a) with ⟨aObj, aDesc, r1⟩
  cases aObj with
  | none => simp [less, lessBody, JSOps.recording, h1, hf, hc]
  | some aPropObj =>
  rcases h2 : ops.getComputedPrimitiveDescriptor r1 sm.obj_
    (HermesValue.encodeDoubleValue b) with ⟨bObj, bDesc, r2⟩
  cases bObj with
  | none => simp [less, lessBody, JSOps.recording, h1, h2, hf, hc]
  | some bPropObj =>
  rcases h3 : ops.getComputedPropertyValue r2 sm.obj_ aPropObj aDesc with ⟨aRes, r3⟩
  cases aRes with
  | EXCEPTION => simp [less, lessBody, JSOps.recording, h1, h2, h3, hf, hc, OpsRecord.note]
  | value x =>
  rcases h4 : ops.getComputedPropertyValue r3 sm.obj_ bPropObj bDesc with ⟨bRes, r4⟩
  cases bRes with
  | EXCEPTION =>
    simp [less, lessBody, JSOps.recording, h1, h2, h3, h4, hf, hc, OpsRecord.note]
  | value y =>
  cases hxu : x.isUndefined with
  | true =>
    simp [less, lessBody, JSOps.recording, h1, h2, h3, h4, hf, hc, OpsRecord.note, hxu]
  | false =>
  cases hyu : y.isUndefined with
  | true =>
    simp [less, lessBody, JSOps.recording, h1, h2, h3, h4, hf, hc, OpsRecord.note, hxu, hyu]
  | false =>
  cases hfn : sm.compareFn_ with
  | some compareFn =>
    rcases h5 : ops.executeCall2 r4 compareFn HermesValue.undefined x y with ⟨cRes, r5⟩
    cases cRes with
    | EXCEPTION =>
      simp [less, lessBody, JSOps.recording, h1, h2, h3, h4, h5, hf, hc, OpsRecord.note, hxu,
        hyu, hfn]
    | value c =>
      rcases h6 : ops.toNumber_RJS (ops.makeHandle r5 c) c with ⟨nRes, r6⟩
      cases nRes <;>
        simp [less, lessBody, JSOps.recording, h1, h2, h3, h4, h5, h6, hf, hc, OpsRecord.note,
          hxu, hyu, hfn]
  | none =>
    rcases h5 : ops.toString_RJS r4 x with ⟨sRes, r5⟩
    cases sRes with
    | EXCEPTION =>
      simp [less, lessBody, JSOps.recording, h1, h2, h3, h4, h5, hf, hc, OpsRecord.note, hxu,
        hyu, hfn]
    | value aStr =>
      rcases h6 : ops.toString_RJS r5 y with ⟨tRes, r6⟩
      cases tRes <;>
        simp [less, lessBody, JSOps.recording, h1, h2, h3, h4, h5, h6, hf, hc, OpsRecord.note,
          hxu, hyu, hfn]

theorem swap_recorded (ops : JSOps R) (sm : StandardSortModel) (runtime : R)
    (record : OpsRecord) (a b : Nat) (hf : record.failed = false)
    (hc : record.callsAfterFailure = 0) :
    (swap ops.recording sm (runtime, record) a b).2.2.2.callsAfterFailure = 0 ∧
    ((swap ops.recording sm (runtime, record) a b).2.2.2.failed = true ↔
      (swap ops.recording sm (runtime, record) a b).1 = ExecutionStatus.EXCEPTION) := by
  rcases h1 : ops.getComputedPrimitiveDescriptor runtime sm.obj_
    (HermesValue.encodeDoubleValue a) with ⟨aObj, aDesc, r1⟩
  rcases h2 : ops.getComputedPrimitiveDescriptor r1 sm.obj_
    (HermesValue.encodeDoubleValue b) with ⟨bObj, bDesc, r2⟩
  cases aObj with
  | none =>
    cases bObj with
    | none =>
      rcases h5 : ops.deleteComputed r2 sm.obj_ (HermesValue.encodeDoubleValue a)
        with ⟨wRes, r5⟩
      cases wRes with
      | EXCEPTION =>
        simp [swap, swapBody, JSOps.recording, h1, h2, h5, hf, hc, OpsRecord.note]
      | value w =>
        rcases h6 : ops.deleteComputed r5 sm.obj_ (HermesValue.encodeDoubleValue b)
          with ⟨vRes, r6⟩
        cases vRes <;>
          simp [swap, swapBody, JSOps.recording, h1, h2, h5, h6, hf, hc, OpsRecord.note]
    | some bPropObj =>
      rcases h4 : ops.getComputedPropertyValue r2 sm.obj_ bPropObj bDesc with ⟨bRes, r4⟩
      cases bRes with
      | EXCEPTION =>
        simp [swap, swapBody, JSOps.recording, h1, h2, h4, hf, hc, OpsRecord.note]
      | value y =>
        rcases h5 : ops.putComputed_RJS r4 sm.obj_ (HermesValue.encodeDoubleValue a) y
          with ⟨wRes, r5⟩
        cases wRes with
        | EXCEPTION =>
          simp [swap, swapBody, JSOps.recording, h1, h2, h4, h5, hf, hc, OpsRecord.note]
        | value w =>
          rcases h6 : ops.deleteComputed r5 sm.obj_ (HermesValue.encodeDoubleValue b)
            with ⟨vRes, r6⟩
          cases vRes <;>
            simp [swap, swapBody, JSOps.recording, h1, h2, h4, h5, h6, hf, hc,
              OpsRecord.note]
  | some aPropObj =>
    rcases h3 : ops.getComputedPropertyValue r2 sm.obj_ aPropObj aDesc with ⟨aRes, r3⟩
    cases aRes with
    | EXCEPTION =>
      cases bObj <;>
        simp [swap, swapBody, JSOps.recording, h1, h2, h3, hf, hc, OpsRecord.note]
    | value x =>
      cases bObj with
      | none =>
        rcases h5 : ops.deleteComputed r3 sm.obj_ (HermesValue.encodeDoubleValue a)
          with ⟨wRes, r5⟩
        cases wRes with
        | EXCEPTION =>
          simp [swap, swapBody, JSOps.recording, h1, h2, h3, h5, hf, hc, OpsRecord.note]
        | value w =>
          rcases h6 : ops.putComputed_RJS r5 sm.obj_ (HermesValue.encodeDoubleValue b) x
            with ⟨vRes, r6⟩
          cases vRes <;>
            simp [swap, swapBody, JSOps.recording, h1, h2, h3, h5, h6, hf, hc,
              OpsRecord.note]
      | some bPropObj =>
        rcases h4 : ops.getComputedPropertyValue r3 sm.obj_ bPropObj bDesc with ⟨bRes, r4⟩
        cases bRes with
        | EXCEPTION =>
          simp [swap, swapBody, JSOps.recording, h1, h2, h3, h4, hf, hc, OpsRecord.note]
        | value y =>
          rcases h5 : ops.putComputed_RJS r4 sm.obj_ (HermesValue.encodeDoubleValue a) y
            with ⟨wRes, r5⟩
          cases wRes with
          | EXCEPTION =>
            simp [swap, swapBody, JSOps.recording, h1, h2, h3, h4, h5, hf, hc,
              OpsRecord.note]
          | value w =>
            rcases h6 : ops.putComputed_RJS r5 sm.obj_ (HermesValue.encodeDoubleValue b) x
              with ⟨vRes, r6⟩
            cases vRes <;>
              simp [swap, swapBody, JSOps.recording, h1, h2, h3, h4, h5, h6, hf, hc,
                OpsRecord.note]

end StandardSortModel

/-! ## Array.prototype.sort -/

theorem arrayPrototypeSort_eq {R : Type} (ops : JSOps R)
    (quickSort : QuickSortFn (StandardSortModel × R)) (runtime : R) (args : NativeArgs)
    (O : Nat) (r1 r3 r4 : R) (propRes : HermesValue) (len : Nat)
    (hfn : (args.getArg 0).isUndefined = true ∨
      (ops.dyn_vmcast_Callable runtime (args.getArg 0)).isSome = true)
    (hobj : ops.toObject runtime args.thisArg = (CallResult.value O, r1))
    (hlength : ops.getNamed_length (ops.makeHandle r1 (HermesValue.object O)) O =
      (CallResult.value propRes, r3))
    (hlen : ops.toLengthU64 (ops.makeHandle r3 propRes) propRes = (CallResult.value len, r4)) :
    arrayPrototypeSort ops quickSort runtime args =
      (match (quickSort (StandardSortModel.toSortModel ops)
          (StandardSortModel.construct ops r4 O
            (ops.dyn_vmcast_Callable runtime (args.getArg 0))) 0 (len % UINT32)).1 with
       | ExecutionStatus.EXCEPTION => CallResult.EXCEPTION
       | ExecutionStatus.RETURNED => CallResult.value (HermesValue.object O),
       ops.endGCScope
        (quickSort (StandardSortModel.toSortModel ops)
          (StandardSortModel.construct ops r4 O
            (ops.dyn_vmcast_Callable runtime (args.getArg 0))) 0 (len % UINT32)).2.2) := by
  have hguard : (!(args.getArg 0).isUndefined &&
      (ops.dyn_vmcast_Callable runtime (args.getArg 0)).isNone) = false := by
    rcases hfn with h | h
    · simp [h]
    · cases hc : ops.dyn_vmcast_Callable runtime (args.getArg 0) with
      | none => simp [hc] at h
      | some fn => simp
  rcases hrun : quickSort (StandardSortModel.toSortModel ops)
    (StandardSortModel.construct ops r4 O
      (ops.dyn_vmcast_Callable runtime (args.getArg 0))) 0 (len % UINT32) with ⟨status, state⟩
  simp only [arrayPrototypeSort, hguard, hobj, hlength, hlen, hrun]
  cases status <;> simp

theorem unsortedHeap_plainSortInv (heap : PlainHeap)
    (hp : heap.properties = unsortedHeap.properties) :
    plainSortInv (StandardSortModel.construct plainOps heap 7 (some 1)) := by
  refine ⟨rfl, fun i _ => ?_⟩
  show heap.properties (doubleBits i) = none ∨
    heap.properties (doubleBits i) = some HermesValue.undefined ∨
    ∃ bits, heap.properties (doubleBits i) = some (HermesValue.number bits)
  rw [hp]
  simp only [unsortedHeap, HermesValue.encodeDoubleValue]
  split_ifs <;> simp

/-- C15: for every collection of `n` elements and every `less` that is a strict weak
order and never fails, the sort of `[0, n)` through a model returns, and leaves the
elements of the collection in another order in which no element is less than one
before it. So does `arrayPrototypeSort`, which runs `quickSort` over a
`StandardSortModel` of the object: when the argument is acceptable, the object and
its length are obtained without failure, and `less` and `swap` of the model behave as
those of a collection of `n` elements under such an order (seen through `view`), it
returns the object, the elements of `[0, n)` are a permutation of the original ones,
for no `i < j < n` does `less(j, i)` return true, and the state of the end is one
that calls of `less` and `swap` lead to from the state of the start. -/
theorem arrayPrototypeSort_sorts {R α : Type} (ops : JSOps R) (threshold : Nat)
    (inv : StandardSortModel × R → Prop) (view : StandardSortModel × R → Nat → α)
    (lt : α → α → Bool) (n : Nat) (hswo : StrictWeakOrder lt)
    (hlaw : (StandardSortModel.toSortModel ops).Lawful inv view lt n)
    (runtime : R) (args : NativeArgs)
    (O : Nat) (r1 r3 r4 : R) (propRes : HermesValue) (len : Nat)
    (hfn : (args.getArg 0).isUndefined = true ∨
      (ops.dyn_vmcast_Callable runtime (args.getArg 0)).isSome = true)
    (hobj : ops.toObject runtime args.thisArg = (CallResult.value O, r1))
    (hlength : ops.getNamed_length (ops.makeHandle r1 (HermesValue.object O)) O =
      (CallResult.value propRes, r3))
    (hlen : ops.toLengthU64 (ops.makeHandle r3 propRes) propRes = (CallResult.value len, r4))
    (hn : len % UINT32 = n)
    (hinv : inv (StandardSortModel.construct ops r4 O
      (ops.dyn_vmcast_Callable runtime (args.getArg 0)))) :
    (∀ f : Nat → α, ∃ g,
      Sorting.quickSort threshold (collectionModel lt) f 0 n = (ExecutionStatus.RETURNED, g) ∧
      (∃ π : Equiv.Perm Nat, (∀ k, n ≤ k → π k = k) ∧ g = f ∘ π) ∧
      (∀ i j, i < j → j < n →
        ((collectionModel lt).less g j i).1 = CallResult.value false) ∧
      (collectionModel lt).Reaches f g) ∧
    ∃ s1,
      Sorting.quickSort threshold (StandardSortModel.toSortModel ops)
        (StandardSortModel.construct ops r4 O
          (ops.dyn_vmcast_Callable runtime (args.getArg 0))) 0 n =
        (ExecutionStatus.RETURNED, s1) ∧
      arrayPrototypeSort ops (Sorting.quickSort threshold) runtime args =
        (CallResult.value (HermesValue.object O), ops.endGCScope s1.2) ∧
      (∃ π : Equiv.Perm Nat, (∀ k, n ≤ k → π k = k) ∧
        view s1 = view (StandardSortModel.construct ops r4 O
          (ops.dyn_vmcast_Callable runtime (args.getArg 0))) ∘ π) ∧
      (∀ i j, i < j → j < n →
        ((StandardSortModel.toSortModel ops).less s1 j i).1 = CallResult.value false) ∧
      (StandardSortModel.toSortModel ops).Reaches
        (StandardSortModel.construct ops r4 O
          (ops.dyn_vmcast_Callable runtime (args.getArg 0))) s1 := by
  refine ⟨?_, ?_⟩
  · intro f
    obtain ⟨g, hrun, hsorted, ⟨π, hfix, hg⟩, _⟩ :=
      Sorting.quickSort_sorts_lawful hswo (Sorting.collectionModel_lawful lt n) threshold f
        trivial
    refine ⟨g, hrun, ⟨π, fun k hk => hfix k (Or.inr hk), hg⟩, ?_, ?_⟩
    · intro i j hij hj
      show CallResult.value (lt (g j) (g i)) = CallResult.value false
      rw [hsorted i j (Nat.zero_le _) hij hj]
    · have hreach := Sorting.quickSort_reaches threshold (collectionModel lt) f 0 n
      rw [hrun] at hreach
      exact hreach
  · obtain ⟨s1, hrun, hsorted, ⟨π, hfix, hg⟩, hinv1⟩ :=
      Sorting.quickSort_sorts_lawful hswo hlaw threshold _ hinv
    refine ⟨s1, hrun, ?_, ⟨π, fun k hk => hfix k (Or.inr hk), hg⟩, ?_, ?_⟩
    · rw [arrayPrototypeSort_eq ops (Sorting.quickSort threshold) runtime args O r1 r3 r4
        propRes len hfn hobj hlength hlen, hn, hrun]
    · intro i j hij hj
      obtain ⟨s2, hless, _, _⟩ := hlaw.less s1 j i hinv1 hj (by omega)
      rw [hless, hsorted i j (Nat.zero_le _) hij hj]
    · have hreach := Sorting.quickSort_reaches threshold (StandardSortModel.toSortModel ops)
        (StandardSortModel.construct ops r4 O
          (ops.dyn_vmcast_Callable runtime (args.getArg 0))) 0 n
      rw [hrun] at hreach
      exact hreach

theorem arrayPrototypeSort_sorts_witness :
    (arrayPrototypeSort plainOps (Sorting.quickSort 2) unsortedHeap (sortCall 1)).1 =
      CallResult.value (HermesValue.object 7) ∧
    (List.range 6).map
        (arrayPrototypeSort plainOps (Sorting.quickSort 2) unsortedHeap (sortCall 1)).2.element =
      [some (HermesValue.encodeDoubleValue 1), some (HermesValue.encodeDoubleValue 2),
       some (HermesValue.encodeDoubleValue 3), some HermesValue.undefined, none, none] ∧
    (∀ i j, i < j → j < 5 →
      ((StandardSortModel.toSortModel plainOps).less
        (Sorting.quickSort 2 (StandardSortModel.toSortModel plainOps)
          (StandardSortModel.construct plainOps
            { unsortedHeap with
              handles := [HermesValue.object 7, HermesValue.encodeDoubleValue 5] }
            7 (some 1)) 0 5).2 j i).1 =
        CallResult.value false) := by
  obtain ⟨_, s1, hrun, hsort, _, hless, _⟩ :=
    arrayPrototypeSort_sorts plainOps 2 plainSortInv plainSortView numbersFirst 5
      StandardSortModel.numbersFirst_strictWeakOrder
      (StandardSortModel.plainSort_lawful 5 (by decide))
      unsortedHeap (sortCall 1) 7 unsortedHeap
      { unsortedHeap with handles := [HermesValue.object 7] }
      { unsortedHeap with
        handles := [HermesValue.object 7, HermesValue.encodeDoubleValue 5] }
      (HermesValue.encodeDoubleValue 5) 5 (Or.inr rfl) rfl rfl rfl (by decide)
      (unsortedHeap_plainSortInv _ rfl)
  refine ⟨by rw [hsort], by decide, ?_⟩
  have hs1 : (Sorting.quickSort 2 (StandardSortModel.toSortModel plainOps)
      (StandardSortModel.construct plainOps
        { unsortedHeap with
          handles := [HermesValue.object 7, HermesValue.encodeDoubleValue 5] }
        7 (some 1)) 0 5).2 = s1 := by
    rw [show StandardSortModel.construct plainOps
        { unsortedHeap with
          handles := [HermesValue.object 7, HermesValue.encodeDoubleValue 5] } 7 (some 1) =
      StandardSortModel.construct plainOps
        { unsortedHeap with
          handles := [HermesValue.object 7, HermesValue.encodeDoubleValue 5] } 7
        (plainOps.dyn_vmcast_Callable unsortedHeap ((sortCall 1).getArg 0)) from rfl, hrun]
  rw [hs1]
  exact hless

/-- C16: a failure of `less` or `swap` ends the sort with that failure. For every
model, the modelled `quickSort` under observation of its calls makes no call of
`less` or `swap` after one that failed, ends with `EXCEPTION` if and only if a call
failed, and then in the state that the failed call left. `arrayPrototypeSort`, when
the argument is acceptable and the object and its length are obtained without
failure, returns `EXCEPTION` and not the object when `quickSort` over its
`StandardSortModel` does, in the runtime that the sort left with its scope ended.
Within `less` and `swap` of the `StandardSortModel`, with the fallible operations of
the virtual machine (element read, comparator call, conversion of its result, put,
delete) under observation, none is started after one that failed, and one has
failed if and only if `less` or `swap` returns `EXCEPTION`. -/
theorem arrayPrototypeSort_failure {R : Type} (ops : JSOps R) (threshold : Nat)
    (runtime : R) (args : NativeArgs)
    (O : Nat) (r1 r3 r4 : R) (propRes : HermesValue) (len : Nat)
    (hfn : (args.getArg 0).isUndefined = true ∨
      (ops.dyn_vmcast_Callable runtime (args.getArg 0)).isSome = true)
    (hobj : ops.toObject runtime args.thisArg = (CallResult.value O, r1))
    (hlength : ops.getNamed_length (ops.makeHandle r1 (HermesValue.object O)) O =
      (CallResult.value propRes, r3))
    (hlen : ops.toLengthU64 (ops.makeHandle r3 propRes) propRes =
      (CallResult.value len, r4)) :
    (∀ (σ : Type) (sm : SortModel σ) (s : σ) (base limit : Nat),
      (Sorting.quickSort threshold sm.monitored (Monitor.start s) base limit).1 =
        (Sorting.quickSort threshold sm s base limit).1 ∧
      (Sorting.quickSort threshold sm.monitored (Monitor.start s) base limit).2.state =
        (Sorting.quickSort threshold sm s base limit).2 ∧
      (Sorting.quickSort threshold sm.monitored
        (Monitor.start s) base limit).2.callsAfterFailure = 0 ∧
      ((Sorting.quickSort threshold sm.monitored (Monitor.start s) base limit).2.failed = true ↔
        (Sorting.quickSort threshold sm s base limit).1 = ExecutionStatus.EXCEPTION) ∧
      ((Sorting.quickSort threshold sm.monitored (Monitor.start s) base limit).2.failed = true →
        (Sorting.quickSort threshold sm.monitored (Monitor.start s) base limit).2.atFailure =
          some (Sorting.quickSort threshold sm s base limit).2)) ∧
    ((Sorting.quickSort threshold (StandardSortModel.toSortModel ops)
        (StandardSortModel.construct ops r4 O
          (ops.dyn_vmcast_Callable runtime (args.getArg 0))) 0 (len % UINT32)).1 =
        ExecutionStatus.EXCEPTION →
      arrayPrototypeSort ops (Sorting.quickSort threshold) runtime args =
        (CallResult.EXCEPTION,
         ops.endGCScope
          (Sorting.quickSort threshold (StandardSortModel.toSortModel ops)
            (StandardSortModel.construct ops r4 O
              (ops.dyn_vmcast_Callable runtime (args.getArg 0))) 0 (len % UINT32)).2.2)) ∧
    (∀ (sm : StandardSortModel) (r : R) (a b : Nat),
      (StandardSortModel.less ops.recording sm
        (r, OpsRecord.empty) a b).2.2.2.callsAfterFailure = 0 ∧
      ((StandardSortModel.less ops.recording sm (r, OpsRecord.empty) a b).2.2.2.failed = true ↔
        (StandardSortModel.less ops.recording sm (r, OpsRecord.empty) a b).1 =
          CallResult.EXCEPTION) ∧
      (StandardSortModel.swap ops.recording sm
        (r, OpsRecord.empty) a b).2.2.2.callsAfterFailure = 0 ∧
      ((StandardSortModel.swap ops.recording sm (r, OpsRecord.empty) a b).2.2.2.failed = true ↔
        (StandardSortModel.swap ops.recording sm (r, OpsRecord.empty) a b).1 =
          ExecutionStatus.EXCEPTION)) := by
  refine ⟨?_, ?_, ?_⟩
  · intro σ sm s base limit
    obtain ⟨h1, h2, h3, h4, h5⟩ := Sorting.quickSort_observed threshold sm s base limit
    refine ⟨h1, h2, h3, ?_, ?_⟩
    · rw [← h1]
      exact h4
    · rw [← h2]
      exact h5
  · intro hfail
    rw [arrayPrototypeSort_eq ops (Sorting.quickSort threshold) runtime args O r1 r3 r4
      propRes len hfn hobj hlength hlen, hfail]
  · intro sm r a b
    obtain ⟨h1, h2⟩ := StandardSortModel.less_recorded ops sm r OpsRecord.empty a b rfl rfl
    obtain ⟨h3, h4⟩ := StandardSortModel.swap_recorded ops sm r OpsRecord.empty a b rfl rfl
    exact ⟨h1, h2, h3, h4⟩

theorem arrayPrototypeSort_failure_witness :
    ((arrayPrototypeSort plainOps (Sorting.quickSort 2) unsortedHeap (sortCall 2)).1 =
        CallResult.EXCEPTION ∧
      (arrayPrototypeSort plainOps (Sorting.quickSort 2) unsortedHeap (sortCall 2)).2.thrown =
        some "comparator") ∧
    (arrayPrototypeSort plainOps.recording (Sorting.quickSort 2)
        (unsortedHeap, OpsRecord.empty) (sortCall 2)).2.2 =
      { comparatorCalls :=
          [(2, HermesValue.undefined, HermesValue.encodeDoubleValue 3,
            HermesValue.encodeDoubleValue 2)],
        failed := true, callsAfterFailure := 0 } ∧
    (Sorting.quickSort 2 (StandardSortModel.toSortModel plainOps).monitored
      (Monitor.start (StandardSortModel.construct plainOps
        { unsortedHeap with
          handles := [HermesValue.object 7, HermesValue.encodeDoubleValue 5] }
        7 (some 2))) 0 5).2.calls = 9 ∧
    (Sorting.quickSort 2 (StandardSortModel.toSortModel plainOps).monitored
      (Monitor.start (StandardSortModel.construct plainOps
        { unsortedHeap with
          handles := [HermesValue.object 7, HermesValue.encodeDoubleValue 5] }
        7 (some 2))) 0 5).2.callsAfterFailure = 0 := by
  obtain ⟨hsort, hcall, _⟩ :=
    arrayPrototypeSort_failure plainOps 2 unsortedHeap (sortCall 2) 7 unsortedHeap
      { unsortedHeap with handles := [HermesValue.object 7] }
      { unsortedHeap with
        handles := [HermesValue.object 7, HermesValue.encodeDoubleValue 5] }
      (HermesValue.encodeDoubleValue 5) 5 (Or.inr rfl) rfl rfl rfl
  refine ⟨?_, by decide, by decide, (hsort _ _ _ 0 5).2.2.1⟩
  rw [hcall (by decide)]
  exact ⟨rfl, by decide⟩

/-! ## The source map generator -/

namespace SourceMapGenerator

variable {Segment : Type}

theorem resizeStep_eq (lines : List (List Segment)) (offset : Nat)
    (h : offset + 1 < UINT32) :
    resizeStep lines offset = lines ++ List.replicate (offset + 1 - lines.length) [] := by
  have hmod : (offset + 1) % UINT32 = offset + 1 := Nat.mod_eq_of_lt h
  by_cases hle : lines.length ≤ offset
  · simp only [resizeStep, if_pos hle, vectorResize, hmod]
    rw [List.take_of_length_le (by omega)]
  · simp only [resizeStep, if_neg hle]
    have : offset + 1 - lines.length = 0 := by omega
    rw [this]
    simp

theorem resizeStep_length (lines : List (List Segment)) (offset : Nat)
    (h : offset + 1 < UINT32) :
    (resizeStep lines offset).length = max lines.length (offset + 1) := by
  rw [resizeStep_eq lines offset h, List.length_append, List.length_replicate]
  omega

theorem addMappingsLine_eq (self : SourceMapGenerator Segment) (line : List Segment)
    (offset : Nat) (h : offset + 1 < UINT32) :
    addMappingsLine self line offset =
      some { lines_ := (self.lines_ ++
        List.replicate (offset + 1 - self.lines_.length) []).set offset line } := by
  have hlen := resizeStep_length self.lines_ offset h
  have hlt : offset < (resizeStep self.lines_ offset).length := by
    rw [hlen]
    omega
  rw [resizeStep_eq self.lines_ offset h] at hlt
  simp only [addMappingsLine, resizeStep_eq self.lines_ offset h, if_pos hlt]

/-- C26: after `addMappingsLine(line, offset)` with `offset + 1` below `2^32`,
`getMappingsLines()` has length `max(previous length, offset + 1)`, its entry at
`offset` is `line`, every other entry that existed is unchanged, every entry newly
created below `offset` is an empty segment list, and a later `addMappingsLine` with
the same offset replaces that entry only. At the offset `2^32 - 1` the new length
`cjsModuleOffset + 1` wraps to 0: on a generator without lines the vector is resized
to no elements and the write at `2^32 - 1` is outside it. -/
theorem addMappingsLine_spec (self : SourceMapGenerator Segment) (line line2 : List Segment)
    (offset : Nat) (h : offset + 1 < UINT32) :
    (∃ next, addMappingsLine self line offset = some next ∧
      next.getMappingsLines.length = max self.getMappingsLines.length (offset + 1) ∧
      next.getMappingsLines[offset]? = some line ∧
      (∀ i, i < self.getMappingsLines.length → i ≠ offset →
        next.getMappingsLines[i]? = self.getMappingsLines[i]?) ∧
      (∀ i, self.getMappingsLines.length ≤ i → i < offset →
        next.getMappingsLines[i]? = some []) ∧
      ∃ last, addMappingsLine next line2 offset = some last ∧
        last.getMappingsLines.length = next.getMappingsLines.length ∧
        last.getMappingsLines[offset]? = some line2 ∧
        ∀ i, i ≠ offset → last.getMappingsLines[i]? = next.getMappingsLines[i]?) ∧
    resizeStep ([] : List (List Segment)) 4294967295 = [] ∧
    addMappingsLine ({ lines_ := [] } : SourceMapGenerator Segment) line 4294967295 =
      none := by
  refine ⟨?_, by simp [resizeStep, vectorResize, UINT32],
    by simp [addMappingsLine, resizeStep, vectorResize, UINT32]⟩
  have hlen : (self.lines_ ++
      List.replicate (offset + 1 - self.lines_.length) ([] : List Segment)).length =
      max self.lines_.length (offset + 1) := by
    rw [List.length_append, List.length_replicate]
    omega
  refine ⟨_, addMappingsLine_eq self line offset h, ?_, ?_, ?_, ?_, ?_⟩
  · simp only [getMappingsLines, List.length_set]
    exact hlen
  · simp only [getMappingsLines]
    rw [List.getElem?_set_self (by rw [hlen]; omega)]
  · intro i hi hne
    simp only [getMappingsLines] at hi ⊢
    rw [List.getElem?_set_ne (Ne.symm hne), List.getElem?_append_left hi]
  · intro i hge hlt
    simp only [getMappingsLines] at hge ⊢
    rw [List.getElem?_set_ne (by omega), List.getElem?_append_right hge]
    rw [List.getElem?_replicate, if_pos (by omega)]
  · refine ⟨_, addMappingsLine_eq _ line2 offset h, ?_, ?_, ?_⟩
    · simp only [getMappingsLines, List.length_set, List.length_append,
        List.length_replicate]
      omega
    · simp only [getMappingsLines]
      rw [List.getElem?_set_self (by
        simp only [List.length_set, List.length_append, List.length_replicate]
        omega)]
    · intro i hne
      simp only [getMappingsLines]
      rw [List.getElem?_set_ne (Ne.symm hne)]
      have hlen2 : offset + 1 -
          ((self.lines_ ++ List.replicate (offset + 1 - self.lines_.length)
            ([] : List Segment)).set offset line).length = 0 := by
        rw [List.length_set, hlen]
        omega
      rw [hlen2]
      simp

theorem addMappingsLine_spec_witness :
    (2 + 1 < UINT32) ∧
    addMappingsLine ({ lines_ := [[7]] } : SourceMapGenerator Nat) [8, 9] 2 =
      some { lines_ := [[7], [], [8, 9]] } ∧
    addMappingsLine ({ lines_ := [[7], [], [8, 9]] } : SourceMapGenerator Nat) [5] 2 =
      some { lines_ := [[7], [], [5]] } ∧
    ∃ next, addMappingsLine ({ lines_ := [[7]] } : SourceMapGenerator Nat) [8, 9] 2 =
        some next ∧
      next.getMappingsLines.length = max 1 (2 + 1) :=
  ⟨by decide, by decide, by decide,
   (addMappingsLine_spec ({ lines_ := [[7]] } : SourceMapGenerator Nat) [8, 9] [5] 2
      (by decide)).1.imp fun _ hnext => ⟨hnext.1, hnext.2.1⟩⟩

/-- C29: for a 32-bit `cjsModuleOffset`, the write of `addMappingsLine` is in bounds
(after the resize step the list of lines is longer than `cjsModuleOffset`) if and
only if `cjsModuleOffset + 1` does not wrap or the list was already longer. At
`2^32 - 1` on a generator of up to `2^32 - 1` lines the computed new length is 0, the
resize step empties the list, and the write is out of bounds. -/
theorem addMappingsLine_in_bounds_iff (lines : List (List Segment)) (offset : Nat)
    (h32 : offset < UINT32) :
    (offset < (resizeStep lines offset).length ↔
      (offset + 1 < UINT32 ∨ offset < lines.length)) ∧
    (4294967295 + 1) % UINT32 = 0 ∧
    (lines.length ≤ 4294967295 →
      resizeStep lines 4294967295 = [] ∧
      ∀ line, addMappingsLine { lines_ := lines } line 4294967295 = none) := by
  refine ⟨?_, by decide, ?_⟩
  · by_cases hw : offset + 1 < UINT32
    · rw [resizeStep_length lines offset hw]
      constructor
      · intro _
        exact Or.inl hw
      · intro _
        omega
    · have hoff : offset = 4294967295 := by
        simp only [UINT32] at hw h32
        omega
      subst hoff
      by_cases hle : lines.length ≤ 4294967295
      · simp only [resizeStep, if_pos hle, vectorResize]
        simp [UINT32]
        omega
      · simp only [resizeStep, if_neg hle]
        constructor
        · intro hlt
          exact Or.inr hlt
        · intro _
          omega
  · intro hle
    have hres : resizeStep lines 4294967295 = [] := by
      simp only [resizeStep, if_pos hle, vectorResize]
      simp [UINT32]
    refine ⟨hres, fun line => ?_⟩
    simp only [addMappingsLine, hres]
    simp

theorem addMappingsLine_in_bounds_iff_witness :
    (4294967295 < UINT32) ∧
    ¬ (4294967295 < (resizeStep ([[7], [8]] : List (List Nat)) 4294967295).length) ∧
    resizeStep ([[7], [8]] : List (List Nat)) 4294967295 = [] ∧
    addMappingsLine ({ lines_ := [[7], [8]] } : SourceMapGenerator Nat) [9] 4294967295 =
      none := by
  have h := addMappingsLine_in_bounds_iff ([[7], [8]] : List (List Nat)) 4294967295
    (by decide)
  refine ⟨by decide, ?_, (h.2.2 (by decide)).1, (h.2.2 (by decide)).2 [9]⟩
  rw [h.1]
  decide

end SourceMapGenerator

/-! ## Pushes within the capacity, and push followed by pop -/

namespace ArrayStorage

/-- C27: for every capacity `c ≤ maxElements()` and every sequence of `n ≤ c` values
pushed with `push_back` onto a cell freshly created with capacity `c`, no push
invokes the slow growth path (the outcome is the same for every slow path, and the
runtime, with its allocations, is untouched), every push succeeds on the same cell,
the final capacity is `c`, the final size is `n`, and slot `i` holds the `i`-th
pushed value for every `i < n`. -/
theorem push_back_within_capacity (L : Layout) (runtime0 : Runtime) (c : Nat)
    (values : List HermesValue) (hc : c ≤ maxElements L) (hn : values.length ≤ c) :
    ∃ fresh runtime cell,
      create L runtime0 c = (CallResult.value fresh, runtime) ∧
      (∀ slow, pushAll slow fresh runtime values =
        (ExecutionStatus.RETURNED, cell, runtime)) ∧
      (∀ slow (front back : List HermesValue), values = front ++ back →
        ∃ part, pushAll slow fresh runtime front =
          (ExecutionStatus.RETURNED, part, runtime) ∧
          part.capacity_ = c ∧ part.size_ = front.length) ∧
      cell.capacity_ = c ∧ cell.size_ = values.length ∧
      ∀ i (hi : i < values.length), cell.data i = values[i] := by
  have h32 : c < UINT32 := Nat.lt_of_le_of_lt hc (maxElements_lt L)
  obtain ⟨cell, hrun, hsize, hcap, _, hdata⟩ :=
    pushAll_fast values (construct (runtime0.rawMemory runtime0.allocations.length) c)
      { runtime0 with
        allocations := runtime0.allocations ++ [⟨false, allocationSize L c⟩] }
      h32 (by simpa [construct] using hn)
  refine ⟨_, _, cell, create_eq_of_le L runtime0 c hc, hrun, ?_, hcap, ?_, ?_⟩
  · intro slow front back hsplit
    obtain ⟨part, hpart, hpsize, hpcap, _, _⟩ :=
      pushAll_fast front (construct (runtime0.rawMemory runtime0.allocations.length) c)
        { runtime0 with
          allocations := runtime0.allocations ++ [⟨false, allocationSize L c⟩] }
        h32 (by
          have : front.length ≤ values.length := by
            rw [hsplit, List.length_append]
            omega
          simp only [construct]
          omega)
    exact ⟨part, hpart slow, hpcap, by simpa [construct] using hpsize⟩
  · simpa [construct] using hsize
  · intro i hi
    have := hdata i hi
    simpa [construct] using this

theorem push_back_within_capacity_witness :
    (4 ≤ maxElements Layout.malloc64 ∧
      [HermesValue.number 1, HermesValue.number 2, HermesValue.number 3].length ≤ 4) ∧
    (pushAll failingSlowPath (construct (Runtime.initial.rawMemory 0) 4)
        (create Layout.malloc64 Runtime.initial 4).2
        [HermesValue.number 1, HermesValue.number 2, HermesValue.number 3]).1 =
      ExecutionStatus.RETURNED ∧
    (List.range 3).map (pushAll failingSlowPath (construct (Runtime.initial.rawMemory 0) 4)
        (create Layout.malloc64 Runtime.initial 4).2
        [HermesValue.number 1, HermesValue.number 2, HermesValue.number 3]).2.1.data =
      [HermesValue.number 1, HermesValue.number 2, HermesValue.number 3] ∧
    ∃ fresh runtime cell,
      create Layout.malloc64 Runtime.initial 4 = (CallResult.value fresh, runtime) ∧
      pushAll failingSlowPath fresh runtime
          [HermesValue.number 1, HermesValue.number 2, HermesValue.number 3] =
        (ExecutionStatus.RETURNED, cell, runtime) ∧
      cell.capacity_ = 4 ∧ cell.size_ = 3 := by
  obtain ⟨fresh, runtime, cell, h1, h2, _, h4, h5, _⟩ :=
    push_back_within_capacity Layout.malloc64 Runtime.initial 4
      [HermesValue.number 1, HermesValue.number 2, HermesValue.number 3]
      (by decide) (by decide)
  exact ⟨⟨by decide, by decide⟩, by decide, by decide,
    fresh, runtime, cell, h1, h2 failingSlowPath, h4, h5⟩

/-- C28: `push_back` and `pop_back` are inverse on the fast path: for every cell with
`size < capacity` and every value `v`, `push_back(v)` succeeds without the slow path,
and `pop_back()` after it returns `v` and leaves size, capacity and every slot of
`[0, size)` as they were before the push. -/
theorem push_back_pop_back (slow : SlowPath) (self : ArrayStorage) (runtime : Runtime)
    (v : HermesValue) (h32 : self.capacity_ < UINT32) (h : self.size_ < self.capacity_) :
    ∃ pushed popped,
      push_back slow self runtime v = (ExecutionStatus.RETURNED, pushed, runtime) ∧
      pop_back pushed = some (v, popped) ∧
      popped.size_ = self.size_ ∧ popped.capacity_ = self.capacity_ ∧
      ∀ i, i < self.size_ → popped.data i = self.data i := by
  refine ⟨_, { self with data := store self.data self.size_ v },
    push_back_eq slow self runtime v h32 h, ?_, rfl, rfl, ?_⟩
  · rw [pop_back_eq _ (by show self.size_ + 1 < UINT32; omega)
      (by show self.size_ + 1 > 0; omega)]
    simp [store_same]
  · intro i hi
    exact store_other self.data self.size_ v i (by omega)

theorem push_back_pop_back_witness :
    (abcCellRoomy.capacity_ < UINT32 ∧ abcCellRoomy.size_ < abcCellRoomy.capacity_) ∧
    (pop_back (push_back failingSlowPath abcCellRoomy Runtime.initial
        (HermesValue.number 9)).2.1).map (fun result => result.1) =
      some (HermesValue.number 9) ∧
    ∃ pushed popped,
      push_back failingSlowPath abcCellRoomy Runtime.initial (HermesValue.number 9) =
        (ExecutionStatus.RETURNED, pushed, Runtime.initial) ∧
      pop_back pushed = some (HermesValue.number 9, popped) ∧
      popped.size_ = abcCellRoomy.size_ := by
  obtain ⟨pushed, popped, h1, h2, h3, _, _⟩ :=
    push_back_pop_back failingSlowPath abcCellRoomy Runtime.initial (HermesValue.number 9)
      (by decide) (by decide)
  exact ⟨⟨by decide, by decide⟩, by decide, pushed, popped, h1, h2, h3⟩

end ArrayStorage

/-! ## Root scopes under StandardSortModel -/

namespace GCScope

theorem newHandles_handles (values : List HermesValue) :
    ∀ scope : GCScope, (scope.newHandles values).handles = scope.handles ++ values := by
  induction values with
  | nil =>
    intro scope
    simp [newHandles]
  | cons value values ih =>
    intro scope
    simp [newHandles, ih, newHandle]

theorem flushToMarker_newHandles (scope : GCScope) (values : List HermesValue) :
    (scope.newHandles values).flushToMarker scope.createMarker = scope := by
  cases scope with
  | mk handles =>
    simp [flushToMarker, createMarker, newHandles_handles]

end GCScope

namespace StandardSortModel

variable {R : Type}

theorem take_of_prefix {α : Type} {l1 l2 : List α} (h : l1 <+: l2) (n : Nat)
    (hn : n ≤ l1.length) : l2.take n = l1.take n := by
  obtain ⟨t, rfl⟩ := h
  exact List.take_append_of_le_length hn

theorem lessBody_scope (ops : JSOps R) (scopeOf : R → GCScope)
    (hd : ops.ScopeDiscipline scopeOf) (sm : StandardSortModel) (runtime : R) (a b : Nat) :
    (scopeOf runtime).handles <+: (scopeOf (lessBody ops sm runtime a b).2.2).handles ∧
    (lessBody ops sm runtime a b).2.1.gcMarker_ = sm.gcMarker_ := by
  have p1 := hd.getComputedPrimitiveDescriptor runtime sm.obj_ (HermesValue.encodeDoubleValue a)
  rcases h1 : ops.getComputedPrimitiveDescriptor runtime sm.obj_
    (HermesValue.encodeDoubleValue a) with ⟨aObj, aDesc, r1⟩
  rw [h1] at p1
  cases aObj with
  | none => simpa [lessBody, h1] using p1
  | some aPropObj =>
  have p2 := hd.getComputedPrimitiveDescriptor r1 sm.obj_ (HermesValue.encodeDoubleValue b)
  rcases h2 : ops.getComputedPrimitiveDescriptor r1 sm.obj_
    (HermesValue.encodeDoubleValue b) with ⟨bObj, bDesc, r2⟩
  rw [h2] at p2
  replace p2 := p1.trans p2
  cases bObj with
  | none => simpa [lessBody, h1, h2] using p2
  | some bPropObj =>
  have p3 := hd.getComputedPropertyValue r2 sm.obj_ aPropObj aDesc
  rcases h3 : ops.getComputedPropertyValue r2 sm.obj_ aPropObj aDesc with ⟨aRes, r3⟩
  rw [h3] at p3
  replace p3 := p2.trans p3
  cases aRes with
  | EXCEPTION => simpa [lessBody, h1, h2, h3] using p3
  | value x =>
  have p4 := hd.getComputedPropertyValue r3 sm.obj_ bPropObj bDesc
  rcases h4 : ops.getComputedPropertyValue r3 sm.obj_ bPropObj bDesc with ⟨bRes, r4⟩
  rw [h4] at p4
  replace p4 := p3.trans p4
  cases bRes with
  | EXCEPTION => simpa [lessBody, h1, h2, h3, h4] using p4
  | value y =>
  cases hxu : x.isUndefined with
  | true => simpa [lessBody, h1, h2, h3, h4, hxu] using p4
  | false =>
  cases hyu : y.isUndefined with
  | true => simpa [lessBody, h1, h2, h3, h4, hxu, hyu] using p4
  | false =>
  cases hfn : sm.compareFn_ with
  | some compareFn =>
    have p5 := hd.executeCall2 r4 compareFn HermesValue.undefined x y
    rcases h5 : ops.executeCall2 r4 compareFn HermesValue.undefined x y with ⟨cRes, r5⟩
    rw [h5] at p5
    replace p5 := p4.trans p5
    cases cRes with
    | EXCEPTION => simpa [lessBody, h1, h2, h3, h4, h5, hxu, hyu, hfn] using p5
    | value c =>
      have p6 : (scopeOf r5).handles <+: (scopeOf (ops.makeHandle r5 c)).handles := by
        rw [hd.makeHandle]
        exact List.prefix_append _ _
      have p7 := hd.toNumber_RJS (ops.makeHandle r5 c) c
      rcases h6 : ops.toNumber_RJS (ops.makeHandle r5 c) c with ⟨nRes, r6⟩
      rw [h6] at p7
      replace p7 := p5.trans (p6.trans p7)
      cases nRes <;> simpa [lessBody, h1, h2, h3, h4, h5, h6, hxu, hyu, hfn] using p7
  | none =>
    have p5 := hd.toString_RJS r4 x
    rcases h5 : ops.toString_RJS r4 x with ⟨sRes, r5⟩
    rw [h5] at p5
    replace p5 := p4.trans p5
    cases sRes with
    | EXCEPTION => simpa [lessBody, h1, h2, h3, h4, h5, hxu, hyu, hfn] using p5
    | value aStr =>
      have p6 := hd.toString_RJS r5 y
      rcases h6 : ops.toString_RJS r5 y with ⟨tRes, r6⟩
      rw [h6] at p6
      replace p6 := p5.trans p6
      cases tRes with
      | EXCEPTION => simpa [lessBody, h1, h2, h3, h4, h5, h6, hxu, hyu, hfn] using p6
      | value bStr =>
        have p7 := hd.lessOp_RJS r6 aStr bStr
        rcases h7 : ops.lessOp_RJS r6 aStr bStr with ⟨result, r7⟩
        rw [h7] at p7
        replace p7 := p6.trans p7
        simpa [lessBody, h1, h2, h3, h4, h5, h6, h7, hxu, hyu, hfn] using p7

theorem swapBody_scope (ops : JSOps R) (scopeOf : R → GCScope)
    (hd : ops.ScopeDiscipline scopeOf) (sm : StandardSortModel) (runtime : R) (a b : Nat) :
    (scopeOf runtime).handles <+: (scopeOf (swapBody ops sm runtime a b).2.2).handles ∧
    (swapBody ops sm runtime a b).2.1.gcMarker_ = sm.gcMarker_ := by
  have p1 := hd.getComputedPrimitiveDescriptor runtime sm.obj_ (HermesValue.encodeDoubleValue a)
  rcases h1 : ops.getComputedPrimitiveDescriptor runtime sm.obj_
    (HermesValue.encodeDoubleValue a) with ⟨aObj, aDesc, r1⟩
  rw [h1] at p1
  have p2 := hd.getComputedPrimitiveDescriptor r1 sm.obj_ (HermesValue.encodeDoubleValue b)
  rcases h2 : ops.getComputedPrimitiveDescriptor r1 sm.obj_
    (HermesValue.encodeDoubleValue b) with ⟨bObj, bDesc, r2⟩
  rw [h2] at p2
  replace p2 := p1.trans p2
  cases aObj with
  | none =>
    cases bObj with
    | none =>
      have p5 := hd.deleteComputed r2 sm.obj_ (HermesValue.encodeDoubleValue a)
      rcases h5 : ops.deleteComputed r2 sm.obj_ (HermesValue.encodeDoubleValue a)
        with ⟨wRes, r5⟩
      rw [h5] at p5
      replace p5 := p2.trans p5
      cases wRes with
      | EXCEPTION => simpa [swapBody, h1, h2, h5] using p5
      | value w =>
        have p6 := hd.deleteComputed r5 sm.obj_ (HermesValue.encodeDoubleValue b)
        rcases h6 : ops.deleteComputed r5 sm.obj_ (HermesValue.encodeDoubleValue b)
          with ⟨vRes, r6⟩
        rw [h6] at p6
        replace p6 := p5.trans p6
        cases vRes <;> simpa [swapBody, h1, h2, h5, h6] using p6
    | some bPropObj =>
      have p4 := hd.getComputedPropertyValue r2 sm.obj_ bPropObj bDesc
      rcases h4 : ops.getComputedPropertyValue r2 sm.obj_ bPropObj bDesc with ⟨bRes, r4⟩
      rw [h4] at p4
      replace p4 := p2.trans p4
      cases bRes with
      | EXCEPTION => simpa [swapBody, h1, h2, h4] using p4
      | value y =>
        have p5 := hd.putComputed_RJS r4 sm.obj_ (HermesValue.encodeDoubleValue a) y
        rcases h5 : ops.putComputed_RJS r4 sm.obj_ (HermesValue.encodeDoubleValue a) y
          with ⟨wRes, r5⟩
        rw [h5] at p5
        replace p5 := p4.trans p5
        cases wRes with
        | EXCEPTION => simpa [swapBody, h1, h2, h4, h5] using p5
        | value w =>
          have p6 := hd.deleteComputed r5 sm.obj_ (HermesValue.encodeDoubleValue b)
          rcases h6 : ops.deleteComputed r5 sm.obj_ (HermesValue.encodeDoubleValue b)
            with ⟨vRes, r6⟩
          rw [h6] at p6
          replace p6 := p5.trans p6
          cases vRes <;> simpa [swapBody, h1, h2, h4, h5, h6] using p6
  | some aPropObj =>
    have p3 := hd.getComputedPropertyValue r2 sm.obj_ aPropObj aDesc
    rcases h3 : ops.getComputedPropertyValue r2 sm.obj_ aPropObj aDesc with ⟨aRes, r3⟩
    rw [h3] at p3
    replace p3 := p2.trans p3
    cases aRes with
    | EXCEPTION =>
      cases bObj <;> simpa [swapBody, h1, h2, h3] using p3
    | value x =>
      cases bObj with
      | none =>
        have p5 := hd.deleteComputed r3 sm.obj_ (HermesValue.encodeDoubleValue a)
        rcases h5 : ops.deleteComputed r3 sm.obj_ (HermesValue.encodeDoubleValue a)
          with ⟨wRes, r5⟩
        rw [h5] at p5
        replace p5 := p3.trans p5
        cases wRes with
        | EXCEPTION => simpa [swapBody, h1, h2, h3, h5] using p5
        | value w =>
          have p6 := hd.putComputed_RJS r5 sm.obj_ (HermesValue.encodeDoubleValue b) x
          rcases h6 : ops.putComputed_RJS r5 sm.obj_ (HermesValue.encodeDoubleValue b) x
            with ⟨vRes, r6⟩
          rw [h6] at p6
          replace p6 := p5.trans p6
          cases vRes <;> simpa [swapBody, h1, h2, h3, h5, h6] using p6
      | some bPropObj =>
        have p4 := hd.getComputedPropertyValue r3 sm.obj_ bPropObj bDesc
        rcases h4 : ops.getComputedPropertyValue r3 sm.obj_ bPropObj bDesc with ⟨bRes, r4⟩
        rw [h4] at p4
        replace p4 := p3.trans p4
        cases bRes with
        | EXCEPTION => simpa [swapBody, h1, h2, h3, h4] using p4
        | value y =>
          have p5 := hd.putComputed_RJS r4 sm.obj_ (HermesValue.encodeDoubleValue a) y
          rcases h5 : ops.putComputed_RJS r4 sm.obj_ (HermesValue.encodeDoubleValue a) y
            with ⟨wRes, r5⟩
          rw [h5] at p5
          replace p5 := p4.trans p5
          cases wRes with
          | EXCEPTION => simpa [swapBody, h1, h2, h3, h4, h5] using p5
          | value w =>
            have p6 := hd.putComputed_RJS r5 sm.obj_ (HermesValue.encodeDoubleValue b) x
            rcases h6 : ops.putComputed_RJS r5 sm.obj_ (HermesValue.encodeDoubleValue b) x
              with ⟨vRes, r6⟩
            rw [h6] at p6
            replace p6 := p5.trans p6
            cases vRes <;> simpa [swapBody, h1, h2, h3, h4, h5, h6] using p6

theorem plainOps_scopeDiscipline : plainOps.ScopeDiscipline PlainHeap.scope := by
  constructor
  · intro r obj name
    cases name <;> exact List.prefix_refl _
  · intro r obj propObj desc
    exact List.prefix_refl _
  · intro r obj name value
    cases name <;> exact List.prefix_refl _
  · intro r obj name
    cases name <;> exact List.prefix_refl _
  · intro r fn thisArg x y
    simp only [plainOps]
    split <;> exact List.prefix_refl _
  · intro r v
    cases v <;> exact List.prefix_refl _
  · intro r v
    simp only [plainOps]
    split <;> exact List.prefix_refl _
  · intro r x y
    simp only [plainOps]
    split <;> exact List.prefix_refl _
  · intro r v
    rfl
  · intro r
    rfl
  · intro r marker
    rfl

end StandardSortModel

/-- C21: for every scope, the marker taken from it and every number of handles
created after the marker (root scopes as the specification describes them),
`flushTo(marker)` leaves the handle count at its value when the marker was taken and
every handle created before the marker registered with its value, and no handle
created after it. Consequently, when the scope functions of the virtual machine
follow that protocol and the marker of a `StandardSortModel` points into the topmost
scope, each call of `less` or `swap` returns with the scope holding exactly the
handles it held at the marker; the marker that the constructor takes is the end of
the scope it leaves. -/
theorem flushToMarker_restores {R : Type} (ops : JSOps R) (scopeOf : R → GCScope)
    (hd : ops.ScopeDiscipline scopeOf) (sm : StandardSortModel) (runtime : R) (a b : Nat)
    (hm : sm.gcMarker_ ≤ (scopeOf runtime).getHandleCount) :
    (∀ (scope : GCScope) (values : List HermesValue),
      ((scope.newHandles values).flushToMarker scope.createMarker).getHandleCount =
        scope.getHandleCount ∧
      (scope.newHandles values).getHandleCount = scope.getHandleCount + values.length ∧
      (∀ i, i < scope.getHandleCount →
        ((scope.newHandles values).flushToMarker scope.createMarker).handleAt i =
          scope.handleAt i ∧
        (scope.newHandles values).handleAt i = scope.handleAt i) ∧
      (∀ i, scope.getHandleCount ≤ i →
        ((scope.newHandles values).flushToMarker scope.createMarker).handleAt i = none)) ∧
    (scopeOf (StandardSortModel.less ops sm runtime a b).2.2).handles =
      (scopeOf runtime).handles.take sm.gcMarker_ ∧
    (scopeOf (StandardSortModel.swap ops sm runtime a b).2.2).handles =
      (scopeOf runtime).handles.take sm.gcMarker_ ∧
    (StandardSortModel.less ops sm runtime a b).2.1.gcMarker_ = sm.gcMarker_ ∧
    (StandardSortModel.swap ops sm runtime a b).2.1.gcMarker_ = sm.gcMarker_ ∧
    (∀ r obj compareFn,
      (StandardSortModel.construct ops r obj compareFn).1.gcMarker_ =
        (scopeOf (StandardSortModel.construct ops r obj compareFn).2).getHandleCount) := by
  refine ⟨?_, ?_, ?_, ?_, ?_, ?_⟩
  · intro scope values
    have hflush := GCScope.flushToMarker_newHandles scope values
    have hnew := GCScope.newHandles_handles values scope
    refine ⟨by rw [hflush], ?_, ?_, ?_⟩
    · simp [GCScope.getHandleCount, hnew]
    · intro i hi
      refine ⟨by rw [hflush], ?_⟩
      simp only [GCScope.handleAt, hnew, GCScope.getHandleCount] at hi ⊢
      simp [List.getElem?_append_left hi]
    · intro i hi
      rw [hflush]
      simp only [GCScope.handleAt, GCScope.getHandleCount] at hi ⊢
      simp [hi]
  · obtain ⟨hp, hmark⟩ := StandardSortModel.lessBody_scope ops scopeOf hd sm runtime a b
    rcases hb : StandardSortModel.lessBody ops sm runtime a b with ⟨result, sm1, r1⟩
    rw [hb] at hp hmark
    simp only at hp hmark
    simp only [StandardSortModel.less, hb, hd.flushToMarker, GCScope.flushToMarker, hmark]
    exact StandardSortModel.take_of_prefix hp _ hm
  · obtain ⟨hp, hmark⟩ := StandardSortModel.swapBody_scope ops scopeOf hd sm runtime a b
    rcases hb : StandardSortModel.swapBody ops sm runtime a b with ⟨result, sm1, r1⟩
    rw [hb] at hp hmark
    simp only at hp hmark
    simp only [StandardSortModel.swap, hb, hd.flushToMarker, GCScope.flushToMarker, hmark]
    exact StandardSortModel.take_of_prefix hp _ hm
  · have hmark := (StandardSortModel.lessBody_scope ops scopeOf hd sm runtime a b).2
    rcases hb : StandardSortModel.lessBody ops sm runtime a b with ⟨result, sm1, r1⟩
    rw [hb] at hmark
    simpa [StandardSortModel.less, hb] using hmark
  · have hmark := (StandardSortModel.swapBody_scope ops scopeOf hd sm runtime a b).2
    rcases hb : StandardSortModel.swapBody ops sm runtime a b with ⟨result, sm1, r1⟩
    rw [hb] at hmark
    simpa [StandardSortModel.swap, hb] using hmark
  · intro r obj compareFn
    simp only [StandardSortModel.construct, hd.createMarker, GCScope.createMarker,
      GCScope.getHandleCount]

theorem flushToMarker_restores_witness :
    ((StandardSortModel.construct plainOps unsortedHeap 7 (some 1)).1.gcMarker_ ≤
        (StandardSortModel.construct plainOps unsortedHeap 7 (some 1)).2.scope.getHandleCount ∧
      (StandardSortModel.construct plainOps unsortedHeap 7 (some 1)).1.gcMarker_ = 6) ∧
    (StandardSortModel.lessBody plainOps
        (StandardSortModel.construct plainOps unsortedHeap 7 (some 1)).1
        (StandardSortModel.construct plainOps unsortedHeap 7 (some 1)).2 0 1).2.2.handles.length
      = 7 ∧
    (StandardSortModel.less plainOps
        (StandardSortModel.construct plainOps unsortedHeap 7 (some 1)).1
        (StandardSortModel.construct plainOps unsortedHeap 7 (some 1)).2 0 1).2.2.scope.handles
      = (StandardSortModel.construct plainOps unsortedHeap 7 (some 1)).2.scope.handles.take 6 ∧
    (StandardSortModel.construct plainOps unsortedHeap 7 (some 1)).2.scope.handles.length = 6 :=
  ⟨⟨by decide, by decide⟩, by decide,
   (flushToMarker_restores plainOps PlainHeap.scope
      StandardSortModel.plainOps_scopeDiscipline
      (StandardSortModel.construct plainOps unsortedHeap 7 (some 1)).1
      (StandardSortModel.construct plainOps unsortedHeap 7 (some 1)).2 0 1
      (by decide)).2.1,
   by decide⟩

/-! ## The sample heap is a heap of plain array-like objects -/

theorem integerOfBits_doubleBits (n : Nat) (h : n < 2 ^ 53) :
    integerOfBits (doubleBits n) = IntegerOrInfinity.finite n := by
  by_cases h0 : n = 0
  · subst h0
    decide
  · obtain ⟨e, m, he, hlo, hhi, hm, hm52, hbits⟩ := doubleBits_parts n h0 h
    have hdiv : doubleBits n / 2 ^ 52 = 1023 + e := by
      rw [hbits, Nat.add_comm, Nat.add_mul_div_right _ _ (Nat.pow_pos (by decide)),
        Nat.div_eq_of_lt hm52]
      omega
    have hmod : doubleBits n % 2 ^ 52 = m := by
      rw [hbits, Nat.add_comm, Nat.add_mul_mod_self_right, Nat.mod_eq_of_lt hm52]
    have hexp : doubleBits n / 2 ^ 52 % 2048 = 1023 + e := by
      rw [hdiv]
      exact Nat.mod_eq_of_lt (by omega)
    have hsign : doubleBits n / 2 ^ 63 % 2 = 0 := by
      have hlt : doubleBits n < 2 ^ 63 := by
        rw [hbits]
        have : (1023 + e) * 2 ^ 52 ≤ 1075 * 2 ^ 52 :=
          Nat.mul_le_mul_right _ (by omega)
        have h63 : 1075 * 2 ^ 52 + 2 ^ 52 ≤ 2 ^ 63 := by decide
        omega
      rw [Nat.div_eq_of_lt hlt]
    have hsplit : (2:Nat) ^ 52 = 2 ^ e * 2 ^ (52 - e) := by
      rw [← pow_add]
      congr 1
      omega
    have hsig : 2 ^ 52 + m = n * 2 ^ (52 - e) := by
      rw [hm, hsplit, Nat.sub_mul]
      have : 2 ^ e * 2 ^ (52 - e) ≤ n * 2 ^ (52 - e) := Nat.mul_le_mul_right _ hlo
      omega
    simp only [integerOfBits, hexp, hmod, hsign]
    rw [if_neg (by omega), if_neg (by omega), if_neg (by decide)]
    by_cases h52 : e = 52
    · subst h52
      rw [if_pos (by omega)]
      simp only [hsig]
      simp
    · rw [if_neg (by omega)]
      have hpow : 1075 - (1023 + e) = 52 - e := by omega
      rw [hpow, hsig, Nat.mul_div_cancel _ (Nat.pow_pos (by decide))]

theorem lengthOfBits_doubleBits (n : Nat) (h : n < 2 ^ 53) :
    lengthOfBits (doubleBits n) = n := by
  simp only [lengthOfBits, integerOfBits_doubleBits n h, Int.toNat_ofNat]
  omega

theorem uint32OfBits_doubleBits (n : Nat) (h : n < 2 ^ 53) :
    uint32OfBits (doubleBits n) = n % UINT32 := by
  simp only [uint32OfBits, integerOfBits_doubleBits n h]
  have : ((n : Int) % (UINT32 : Int)) = ((n % UINT32 : Nat) : Int) := by
    rw [Int.ofNat_mod_ofNat]
  rw [this, Int.toNat_ofNat]

namespace ObjectHeap

theorem view_modifyObject (heap : ObjectHeap) (address : Nat) (change : HeapObject → HeapObject)
    (o : HeapObject) (h : heap.objects.get? address = some o) :
    (heap.modifyObject address change).view =
      setObject heap.view address (arrayLike (change o)) := by
  funext a
  have hlt : address < heap.objects.length := by
    rw [List.get?_eq_some] at h
    exact h.1
  simp only [view, modifyObject, h, setObject]
  by_cases ha : a = address
  · subst ha
    rw [if_pos rfl, List.get?_eq_getElem?, List.getElem?_set_self hlt]
    rfl
  · rw [if_neg ha, List.get?_eq_getElem?, List.get?_eq_getElem?,
      List.getElem?_set_ne (Ne.symm ha)]

theorem arrayLike_setProperty (o : HeapObject) (i : Nat) (value : Option HermesValue)
    (h : i < 2 ^ 53) :
    arrayLike (o.setProperty (doubleBits i) value) = (arrayLike o).put i value := by
  simp only [arrayLike, HeapObject.setProperty, ArrayLike.put]
  congr 1
  funext k
  by_cases hk : k < 2 ^ 53
  · simp only [if_pos hk]
    by_cases hki : k = i
    · subst hki
      simp
    · have : doubleBits k ≠ doubleBits i := fun heq => hki (doubleBits_injective k i hk h heq)
      simp [this, hki]
  · simp only [if_neg hk]
    have : k ≠ i := by omega
    simp [this]

theorem view_some (heap : ObjectHeap) (address : Nat) (o : ArrayLike)
    (h : heap.view address = some o) :
    ∃ ho, heap.objects.get? address = some ho ∧ arrayLike ho = o := by
  simp only [view] at h
  cases hget : heap.objects.get? address with
  | none =>
    rw [hget] at h
    simp at h
  | some ho =>
    rw [hget] at h
    simp only [Option.map_some', Option.some.injEq] at h
    exact ⟨ho, rfl, h⟩

end ObjectHeap

theorem heapOps_plain : heapOps.Plain ObjectHeap.view := by
  constructor
  · intro r v
    rfl
  · intro r marker
    rfl
  · intro r
    rfl
  · intro r
    rfl
  · intro r obj
    exact ⟨rfl, rfl⟩
  · intro r obj o h
    obtain ⟨ho, hget, rfl⟩ := ObjectHeap.view_some r obj o h
    simp only [heapOps, hget]
    constructor <;> first | rfl | trivial
  · intro r n hn
    simp [heapOps, HermesValue.encodeDoubleValue, lengthOfBits_doubleBits n hn]
  · intro r n hn
    simp [heapOps, HermesValue.encodeDoubleValue, uint32OfBits_doubleBits n hn]
  · intro r v
    cases v <;> rfl
  · intro r obj o i h hi
    obtain ⟨ho, hget, rfl⟩ := ObjectHeap.view_some r obj o h
    refine ⟨by simp only [heapOps, HermesValue.encodeDoubleValue, hget], ?_, ?_⟩
    · simp only [heapOps, HermesValue.encodeDoubleValue, hget, ObjectHeap.arrayLike, if_pos hi]
      cases ho.properties (doubleBits i) <;> simp
    · intro propObj hp r1 o1 value h1 hv
      obtain ⟨ho1, hget1, rfl⟩ := ObjectHeap.view_some r1 obj o1 h1
      simp only [heapOps, HermesValue.encodeDoubleValue, hget] at hp ⊢
      have hobj : propObj = obj := by
        cases hprop : (ho.properties (doubleBits i)).isSome with
        | true => simpa [hprop] using hp.symm
        | false => simp [hprop] at hp
      subst hobj
      simp only [ObjectHeap.arrayLike, if_pos hi] at hv
      simp only [hget1, hv]
      constructor <;> first | rfl | trivial
  · intro r obj name
    simp only [heapOps]
    split <;> rfl
  · intro r obj o i value h _ hi
    obtain ⟨ho, hget, rfl⟩ := ObjectHeap.view_some r obj o h
    refine ⟨⟨true, rfl⟩, ?_⟩
    simp only [heapOps, HermesValue.encodeDoubleValue]
    rw [ObjectHeap.view_modifyObject r obj _ ho hget, ObjectHeap.arrayLike_setProperty _ _ _ hi]
  · intro r obj o i h _ hi
    obtain ⟨ho, hget, rfl⟩ := ObjectHeap.view_some r obj o h
    refine ⟨⟨true, rfl⟩, ?_⟩
    simp only [heapOps, HermesValue.encodeDoubleValue]
    rw [ObjectHeap.view_modifyObject r obj _ ho hget, ObjectHeap.arrayLike_setProperty _ _ _ hi]
  · intro r obj o n h _ hn
    obtain ⟨ho, hget, rfl⟩ := ObjectHeap.view_some r obj o h
    refine ⟨⟨true, rfl⟩, ?_⟩
    simp only [heapOps, HermesValue.encodeDoubleValue]
    rw [ObjectHeap.view_modifyObject r obj _ ho hget, lengthOfBits_doubleBits n hn]
    rfl
  · intro r capacity length
    refine ⟨r.objects.length, rfl, by simp [ObjectHeap.view], ?_⟩
    funext a
    simp only [heapOps, ObjectHeap.view, setObject, List.get?_eq_getElem?]
    by_cases ha : a = r.objects.length
    · subst ha
      simp [ObjectHeap.arrayLike, ArrayLike.emptyArray]
    · rw [if_neg ha]
      by_cases hlt : a < r.objects.length
      · rw [List.getElem?_append_left hlt]
      · rw [List.getElem?_eq_none (by simp; omega), List.getElem?_eq_none (by omega)]
  · intro r array o index value h _ _ hi
    obtain ⟨ho, hget, rfl⟩ := ObjectHeap.view_some r array o h
    simp only [heapOps]
    rw [ObjectHeap.view_modifyObject r array _ ho hget,
      ObjectHeap.arrayLike_setProperty _ _ _ hi]
  · intro r array o h _
    obtain ⟨ho, hget, rfl⟩ := ObjectHeap.view_some r array o h
    refine ⟨⟨true, rfl⟩, ?_⟩
    simp only [heapOps]
    rw [ObjectHeap.view_modifyObject r array _ ho hget]
    funext a
    simp only [setObject]
    by_cases ha : a = array
    · subst ha
      rw [if_pos rfl]
      simp only [ObjectHeap.view, hget]
      rfl
    · rw [if_neg ha]

/-! ## The builtins on plain array-like objects: common steps -/

namespace ArrayBuiltins

variable {R : Type}

theorem setObject_same (objects : Nat → Option ArrayLike) (address : Nat) (o : ArrayLike) :
    setObject objects address o address = some o := by
  simp [setObject]

theorem setObject_other (objects : Nat → Option ArrayLike) (address other : Nat)
    (o : ArrayLike) (h : other ≠ address) :
    setObject objects address o other = objects other := by
  simp [setObject, h]

theorem setObject_setObject (objects : Nat → Option ArrayLike) (address : Nat)
    (o1 o2 : ArrayLike) :
    setObject (setObject objects address o1) address o2 = setObject objects address o2 := by
  funext a
  by_cases h : a = address <;> simp [setObject, h]

theorem setObject_self (objects : Nat → Option ArrayLike) (address : Nat) (o : ArrayLike)
    (h : objects address = some o) : setObject objects address o = objects := by
  funext a
  by_cases ha : a = address
  · subst ha
    simp [setObject, h]
  · simp [setObject, ha]

theorem encodeNumberValue_natCast (n : Nat) :
    HermesValue.encodeNumberValue (n : Int) = HermesValue.encodeDoubleValue n := by
  simp [HermesValue.encodeNumberValue]

theorem makeHandles_view (ops : ArrayOps R) (view : R → Nat → Option ArrayLike)
    (hp : ops.Plain view) (values : List HermesValue) :
    ∀ r, view (makeHandles ops r values) = view r := by
  induction values with
  | nil =>
    intro r
    rfl
  | cons value values ih =>
    intro r
    simp only [makeHandles]
    rw [ih, hp.makeHandle]

/-- The first statements of a builtin on an array-like object: they give the object
and its length, and leave the objects alone. -/
theorem objectAndLength_plain (ops : ArrayOps R) (view : R → Nat → Option ArrayLike)
    (hp : ops.Plain view) (r : R) (args : NativeArgs) (O : Nat) (o : ArrayLike)
    (hthis : args.thisArg = HermesValue.object O) (ho : view r O = some o)
    (hlen : o.length < 2 ^ 53) :
    (∃ r4, objectAndLength ops ops.toLengthU64 r args = (CallResult.value (O, o.length), r4) ∧
      view r4 = view r) ∧
    (∃ r4, objectAndLength ops ops.toUInt32_RJS r args =
        (CallResult.value (O, o.length % UINT32), r4) ∧
      view r4 = view r) := by
  obtain ⟨h1, v1⟩ := hp.toObject r O
  rcases hobj : ops.toObject r (HermesValue.object O) with ⟨res1, r1⟩
  rw [hobj] at h1 v1
  simp only at h1 v1
  subst h1
  have v2 : view (ops.makeHandle r1 (HermesValue.object O)) = view r := by
    rw [hp.makeHandle, v1]
  obtain ⟨h3, v3⟩ := hp.getNamed_length (ops.makeHandle r1 (HermesValue.object O)) O o
    (by rw [v2]; exact ho)
  rcases hget : ops.getNamed_length (ops.makeHandle r1 (HermesValue.object O)) O
    with ⟨res3, r3⟩
  rw [hget] at h3 v3
  simp only at h3 v3
  subst h3
  have v4 : view (ops.makeHandle r3 (HermesValue.encodeDoubleValue o.length)) = view r := by
    rw [hp.makeHandle, v3, v2]
  constructor
  · obtain ⟨h5, v5⟩ := hp.toLengthU64
      (ops.makeHandle r3 (HermesValue.encodeDoubleValue o.length)) o.length hlen
    rcases hconv : ops.toLengthU64
      (ops.makeHandle r3 (HermesValue.encodeDoubleValue o.length))
      (HermesValue.encodeDoubleValue o.length) with ⟨res5, r5⟩
    rw [hconv] at h5 v5
    simp only at h5 v5
    subst h5
    refine ⟨r5, ?_, by rw [v5, v4]⟩
    simp only [objectAndLength, hthis, hobj, hget, hconv]
  · obtain ⟨h5, v5⟩ := hp.toUInt32_RJS
      (ops.makeHandle r3 (HermesValue.encodeDoubleValue o.length)) o.length hlen
    rcases hconv : ops.toUInt32_RJS
      (ops.makeHandle r3 (HermesValue.encodeDoubleValue o.length))
      (HermesValue.encodeDoubleValue o.length) with ⟨res5, r5⟩
    rw [hconv] at h5 v5
    simp only at h5 v5
    subst h5
    refine ⟨r5, ?_, by rw [v5, v4]⟩
    simp only [objectAndLength, hthis, hobj, hget, hconv]

/-- A lookup on a plain array-like object followed by the read of what it found. -/
theorem lookup_read (ops : ArrayOps R) (view : R → Nat → Option ArrayLike)
    (hp : ops.Plain view) (r : R) (O : Nat) (o : ArrayLike) (i : Nat)
    (ho : view r O = some o) (hi : i < 2 ^ 53) :
    ∃ desc r1, view r1 = view r ∧
      ((o.elems i = none ∧
        ops.getComputedPrimitiveDescriptor r O (HermesValue.encodeDoubleValue i) =
          (none, desc, r1)) ∨
       (∃ propObj value, o.elems i = some value ∧
        ops.getComputedPrimitiveDescriptor r O (HermesValue.encodeDoubleValue i) =
          (some propObj, desc, r1) ∧
        ∀ r2 o2 value2, view r2 O = some o2 → o2.elems i = some value2 →
          ∃ r3, ops.getComputedPropertyValue r2 O propObj desc =
            (CallResult.value value2, r3) ∧ view r3 = view r2)) := by
  obtain ⟨hv, hsome, hread⟩ := hp.lookup r O o i ho hi
  rcases hl : ops.getComputedPrimitiveDescriptor r O (HermesValue.encodeDoubleValue i)
    with ⟨found, desc, r1⟩
  rw [hl] at hv hsome hread
  simp only at hv hsome hread
  refine ⟨desc, r1, hv, ?_⟩
  cases found with
  | none =>
    left
    refine ⟨?_, rfl⟩
    cases he : o.elems i with
    | none => rfl
    | some value => simp [he] at hsome
  | some propObj =>
    right
    cases he : o.elems i with
    | none => simp [he] at hsome
    | some value =>
      refine ⟨propObj, value, rfl, rfl, ?_⟩
      intro r2 o2 value2 ho2 he2
      obtain ⟨hres, hview⟩ := hread propObj rfl r2 o2 value2 ho2 he2
      rcases hg : ops.getComputedPropertyValue r2 O propObj desc with ⟨res, r3⟩
      rw [hg] at hres hview
      simp only at hres hview
      subst hres
      exact ⟨r3, rfl, hview⟩

theorem put_plain (ops : ArrayOps R) (view : R → Nat → Option ArrayLike)
    (hp : ops.Plain view) (r : R) (O : Nat) (o : ArrayLike) (i : Nat) (value : HermesValue)
    (ho : view r O = some o) (ha : o.isArray = false) (hi : i < 2 ^ 53) :
    ∃ done r1, ops.putComputed_RJS r O (HermesValue.encodeDoubleValue i) value =
        (CallResult.value done, r1) ∧
      view r1 = setObject (view r) O (o.put i (some value)) := by
  obtain ⟨⟨done, hres⟩, hview⟩ := hp.put r O o i value ho ha hi
  rcases hput : ops.putComputed_RJS r O (HermesValue.encodeDoubleValue i) value with ⟨res, r1⟩
  rw [hput] at hres hview
  simp only at hres hview
  subst hres
  exact ⟨done, r1, rfl, hview⟩

theorem delete_plain (ops : ArrayOps R) (view : R → Nat → Option ArrayLike)
    (hp : ops.Plain view) (r : R) (O : Nat) (o : ArrayLike) (i : Nat)
    (ho : view r O = some o) (ha : o.isArray = false) (hi : i < 2 ^ 53) :
    ∃ done r1, ops.deleteComputed r O (HermesValue.encodeDoubleValue i) =
        (CallResult.value done, r1) ∧
      view r1 = setObject (view r) O (o.put i none) := by
  obtain ⟨⟨done, hres⟩, hview⟩ := hp.delete r O o i ho ha hi
  rcases hdel : ops.deleteComputed r O (HermesValue.encodeDoubleValue i) with ⟨res, r1⟩
  rw [hdel] at hres hview
  simp only at hres hview
  subst hres
  exact ⟨done, r1, rfl, hview⟩

theorem putNamed_length_plain (ops : ArrayOps R) (view : R → Nat → Option ArrayLike)
    (hp : ops.Plain view) (r : R) (O : Nat) (o : ArrayLike) (n : Nat)
    (ho : view r O = some o) (ha : o.isArray = false ∨ n = o.length) (hn : n < 2 ^ 53) :
    ∃ done r1, ops.putNamed_length r O (HermesValue.encodeDoubleValue n) =
        (CallResult.value done, r1) ∧
      view r1 = setObject (view r) O (o.setLength n) := by
  obtain ⟨⟨done, hres⟩, hview⟩ := hp.putNamed_length r O o n ho ha hn
  rcases hput : ops.putNamed_length r O (HermesValue.encodeDoubleValue n) with ⟨res, r1⟩
  rw [hput] at hres hview
  simp only at hres hview
  subst hres
  exact ⟨done, r1, rfl, hview⟩

/-- The block that moves one element: on a plain array-like object it succeeds, and
index `j` ends up as index `i` was, in presence and value. -/
theorem moveElement_plain (ops : ArrayOps R) (view : R → Nat → Option ArrayLike)
    (hp : ops.Plain view) (r : R) (O : Nat) (o : ArrayLike) (i j : Nat)
    (ho : view r O = some o) (ha : o.isArray = false) (hi : i < 2 ^ 53) (hj : j < 2 ^ 53) :
    ∃ r1, moveElement ops O (HermesValue.encodeDoubleValue i)
        (HermesValue.encodeDoubleValue j) r = (ExecutionStatus.RETURNED, r1) ∧
      view r1 = setObject (view r) O (o.put j (o.elems i)) := by
  obtain ⟨desc, r1, hv1, hcase⟩ := lookup_read ops view hp r O o i ho hi
  rcases hcase with ⟨hnone, hl⟩ | ⟨propObj, value, hsome, hl, hread⟩
  · obtain ⟨done, r2, hdel, hv2⟩ := delete_plain ops view hp r1 O o j (by rw [hv1]; exact ho) ha hj
    refine ⟨r2, by simp only [moveElement, hl, hdel], ?_⟩
    rw [hv2, hv1, hnone]
  · obtain ⟨r2, hget, hv2⟩ := hread r1 o value (by rw [hv1]; exact ho) hsome
    obtain ⟨done, r3, hput, hv3⟩ := put_plain ops view hp r2 O o j value
      (by rw [hv2, hv1]; exact ho) ha hj
    refine ⟨r3, by simp only [moveElement, hl, hget, hput], ?_⟩
    rw [hv3, hv2, hv1, hsome]

/-! ## Array.prototype.unshift -/

theorem unshiftMoveLoop_plain (ops : ArrayOps R) (view : R → Nat → Option ArrayLike)
    (hp : ops.Plain view) (O argCount marker length : Nat) :
    ∀ (k : Nat) (r : R), k + argCount ≤ 2 ^ 53 →
      (∃ o, view r O = some o ∧ o.isArray = false ∧ o.length = length) →
      ∃ r1, unshiftMoveLoop ops O argCount marker k r = (ExecutionStatus.RETURNED, r1) ∧
        ∃ o1, view r1 O = some o1 ∧ o1.isArray = false ∧ o1.length = length := by
  intro k
  induction k with
  | zero =>
    intro r _ hinv
    exact ⟨r, rfl, hinv⟩
  | succ k ih =>
    intro r hk hinv
    obtain ⟨o, ho, ha, hl⟩ := hinv
    obtain ⟨r2, hmove, hv2⟩ := moveElement_plain ops view hp (ops.flushToMarker r marker) O o
      (k + 1 - 1) (k + 1 + argCount - 1) (by rw [hp.flushToMarker]; exact ho) ha
      (by omega) (by omega)
    obtain ⟨r3, hrest, hinv3⟩ := ih r2 (by omega)
      ⟨o.put (k + 1 + argCount - 1) (o.elems (k + 1 - 1)),
        by rw [hv2]; exact setObject_same _ _ _, ha, hl⟩
    exact ⟨r3, by simp only [unshiftMoveLoop, hmove, hrest], hinv3⟩

theorem unshiftPutLoop_plain (ops : ArrayOps R) (view : R → Nat → Option ArrayLike)
    (hp : ops.Plain view) (O marker length : Nat) (items : List HermesValue) :
    ∀ (j : Nat) (r : R), j + items.length ≤ 2 ^ 53 →
      (∃ o, view r O = some o ∧ o.isArray = false ∧ o.length = length) →
      ∃ r1, unshiftPutLoop ops O marker j items r = (ExecutionStatus.RETURNED, r1) ∧
        ∃ o1, view r1 O = some o1 ∧ o1.isArray = false ∧ o1.length = length := by
  induction items with
  | nil =>
    intro j r _ hinv
    exact ⟨r, rfl, hinv⟩
  | cons item items ih =>
    intro j r hj hinv
    obtain ⟨o, ho, ha, hl⟩ := hinv
    simp only [List.length_cons] at hj
    obtain ⟨done, r1, hput, hv1⟩ := put_plain ops view hp r O o j item ho ha (by omega)
    obtain ⟨r2, hrest, hinv2⟩ := ih (j + 1) (ops.flushToMarker r1 marker) (by omega)
      ⟨o.put j (some item), by rw [hp.flushToMarker, hv1]; exact setObject_same _ _ _, ha, hl⟩
    exact ⟨r2, by simp only [unshiftPutLoop, hput, hrest], hinv2⟩

/-- C22: what `Array.prototype.unshift` does with the length of a plain array-like
object of length `len ≤ 2^53 - 1` and `argCount > 0` arguments: it raises the
"result out of space" TypeError if and only if `len + argCount ≥ 2^53 - 1`, and
otherwise proceeds, returns `len + argCount` and leaves that as the length. The
comment in the code and the claim have `>` where the code has `>=`: with
`len + argCount = 2^53 - 1` the code raises the TypeError. -/
theorem unshift_out_of_space (ops : ArrayOps R) (view : R → Nat → Option ArrayLike)
    (hp : ops.Plain view) (runtime : R) (args : NativeArgs) (O : Nat) (o : ArrayLike)
    (hthis : args.thisArg = HermesValue.object O) (ho : view runtime O = some o)
    (ha : o.isArray = false) (hlen : o.length < 2 ^ 53) (hargs : 0 < args.args.length)
    (hcount : args.args.length < UINT32) :
    (2 ^ 53 - 1 ≤ o.length + args.args.length →
      ∃ r, arrayPrototypeUnshift ops runtime args =
        (CallResult.EXCEPTION,
         ops.endGCScope
          (ops.raiseTypeError r "Array.prototype.unshift result out of space"))) ∧
    (o.length + args.args.length < 2 ^ 53 - 1 →
      ∃ r, arrayPrototypeUnshift ops runtime args =
          (CallResult.value (HermesValue.encodeDoubleValue (o.length + args.args.length)), r) ∧
        ∃ o1, view r O = some o1 ∧ o1.length = o.length + args.args.length) := by
  obtain ⟨r4, hpre, hv4⟩ := (objectAndLength_plain ops view hp (ops.newGCScope runtime) args O o
    hthis (by rw [hp.newGCScope]; exact ho) hlen).1
  have hmod : (o.length + args.args.length) % UINT64 = o.length + args.args.length := by
    apply Nat.mod_eq_of_lt
    simp only [UINT64, UINT32] at hcount ⊢
    omega
  constructor
  · intro hbig
    refine ⟨r4, ?_⟩
    simp only [arrayPrototypeUnshift, hpre, hmod, if_pos hargs, ge_iff_le, if_pos hbig]
  · intro hsmall
    have hnot : ¬ 2 ^ 53 - 1 ≤ o.length + args.args.length := by omega
    have hv5 : ∀ values, view (makeHandles ops r4 values) = view runtime := by
      intro values
      rw [makeHandles_view ops view hp, hv4, hp.newGCScope]
    obtain ⟨r6, hmove, hinv6⟩ := unshiftMoveLoop_plain ops view hp O args.args.length
      (ops.createMarker (makeHandles ops r4
        [HermesValue.encodeDoubleValue o.length, HermesValue.encodeDoubleValue 0,
         HermesValue.undefined, HermesValue.undefined, HermesValue.object 0,
         HermesValue.undefined])) o.length o.length
      (makeHandles ops r4
        [HermesValue.encodeDoubleValue o.length, HermesValue.encodeDoubleValue 0,
         HermesValue.undefined, HermesValue.undefined, HermesValue.object 0,
         HermesValue.undefined]) (by omega) ⟨o, by rw [hv5]; exact ho, ha, rfl⟩
    obtain ⟨r7, hputs, o7, ho7, ha7, hl7⟩ := unshiftPutLoop_plain ops view hp O
      (ops.createMarker (makeHandles ops r4
        [HermesValue.encodeDoubleValue o.length, HermesValue.encodeDoubleValue 0,
         HermesValue.undefined, HermesValue.undefined, HermesValue.object 0,
         HermesValue.undefined])) o.length args.args 0 r6 (by omega) hinv6
    obtain ⟨done, r8, hnamed, hv8⟩ := putNamed_length_plain ops view hp
      (ops.makeHandle r7 (HermesValue.encodeDoubleValue (o.length + args.args.length))) O o7
      (o.length + args.args.length) (by rw [hp.makeHandle]; exact ho7) (Or.inl ha7) (by omega)
    refine ⟨ops.endGCScope r8, ?_, o7.setLength (o.length + args.args.length), ?_, rfl⟩
    · simp only [arrayPrototypeUnshift, hpre, hmod, if_pos hargs, ge_iff_le, if_neg hnot, hmove,
        hputs, hnamed]
    · rw [hp.endGCScope, hv8]
      exact setObject_same _ _ _

theorem unshift_out_of_space_witness :
    ((sampleHeap [] 9007199254740990).view 0).isSome = true ∧
    2 ^ 53 - 1 ≤ 9007199254740990 + (callOnObject [HermesValue.undefined]).args.length ∧
    ¬ (9007199254740990 + (callOnObject [HermesValue.undefined]).args.length > 2 ^ 53 - 1) ∧
    (arrayPrototypeUnshift heapOps (sampleHeap [] 9007199254740990)
      (callOnObject [HermesValue.undefined])).1 = CallResult.EXCEPTION ∧
    (arrayPrototypeUnshift heapOps (sampleHeap [] 9007199254740990)
      (callOnObject [HermesValue.undefined])).2.thrown =
        some "Array.prototype.unshift result out of space" ∧
    (arrayPrototypeUnshift heapOps
      (sampleHeap [some (HermesValue.string 1), none, some (HermesValue.string 2)] 3)
      (callOnObject [HermesValue.string 8, HermesValue.string 9])).1 =
        CallResult.value (HermesValue.encodeDoubleValue 5) ∧
    (arrayPrototypeUnshift heapOps
      (sampleHeap [some (HermesValue.string 1), none, some (HermesValue.string 2)] 3)
      (callOnObject [HermesValue.string 8, HermesValue.string 9])).2.elements 0 6 =
        [some (HermesValue.string 8), some (HermesValue.string 9),
         some (HermesValue.string 1), none, some (HermesValue.string 2), none] ∧
    ∃ r, arrayPrototypeUnshift heapOps (sampleHeap [] 9007199254740990)
        (callOnObject [HermesValue.undefined]) =
      (CallResult.EXCEPTION,
       heapOps.endGCScope
        (heapOps.raiseTypeError r "Array.prototype.unshift result out of space")) :=
  ⟨by decide, by decide, by decide, by decide, by decide, by decide, by decide,
   (unshift_out_of_space heapOps ObjectHeap.view heapOps_plain
      (sampleHeap [] 9007199254740990) (callOnObject [HermesValue.undefined]) 0
      (ObjectHeap.arrayLike (sampleObject [] 9007199254740990))
      rfl rfl rfl (by decide) (by decide) (by decide)).1 (by decide)⟩

/-! ## Array.prototype.copyWithin -/

theorem relativeToAbsolute_le (len : Nat) (relative : IntegerOrInfinity) :
    relativeToAbsolute len relative ≤ len := by
  cases relative with
  | negInfinity => simp [relativeToAbsolute]
  | posInfinity => simp [relativeToAbsolute]
  | finite k =>
    simp only [relativeToAbsolute]
    split <;> omega

/-- One round of the loop of `copyWithin` on a plain array-like object. -/
theorem copyWithinLoop_step (ops : ArrayOps R) (view : R → Nat → Option ArrayLike)
    (hp : ops.Plain view) (r : R) (O : Nat) (o : ArrayLike) (i j : Nat) (direction : Int)
    (marker n : Nat) (ho : view r O = some o) (ha : o.isArray = false)
    (hi : i < 2 ^ 53) (hj : j < 2 ^ 53) :
    ∃ r1, view r1 = setObject (view r) O (o.put j (o.elems i)) ∧
      copyWithinLoop ops O direction marker (n + 1) (i : Int) (j : Int) r =
        copyWithinLoop ops O direction marker n ((i : Int) + direction)
          ((j : Int) + direction) r1 := by
  obtain ⟨desc, r1, hv1, hcase⟩ := lookup_read ops view hp r O o i ho hi
  have hdesc := hp.getComputedDescriptor r O (HermesValue.encodeDoubleValue i)
  rcases hcase with ⟨hnone, hl⟩ | ⟨propObj, value, hsome, hl, hread⟩
  · obtain ⟨done, r2, hdel, hv2⟩ := delete_plain ops view hp r1 O o j (by rw [hv1]; exact ho) ha hj
    rw [hl] at hdesc
    refine ⟨ops.flushToMarker r2 marker, ?_, ?_⟩
    · rw [hp.flushToMarker, hv2, hv1, hnone]
    · simp only [copyWithinLoop, encodeNumberValue_natCast, hdesc, hdel]
  · obtain ⟨r2, hget, hv2⟩ := hread r1 o value (by rw [hv1]; exact ho) hsome
    obtain ⟨done, r3, hput, hv3⟩ := put_plain ops view hp r2 O o j value
      (by rw [hv2, hv1]; exact ho) ha hj
    rw [hl] at hdesc
    refine ⟨ops.flushToMarker r3 marker, ?_, ?_⟩
    · rw [hp.flushToMarker, hv3, hv2, hv1, hsome]
    · simp only [copyWithinLoop, encodeNumberValue_natCast, hdesc, hget, hput]

/-- The loop of `copyWithin` going up, when the target range does not start inside the
source range. -/
theorem copyWithinLoop_forward (ops : ArrayOps R) (view : R → Nat → Option ArrayLike)
    (hp : ops.Plain view) (O marker : Nat) :
    ∀ (n source target : Nat) (r : R) (o : ArrayLike), view r O = some o →
      o.isArray = false → source + n < 2 ^ 53 → target + n < 2 ^ 53 →
      (target ≤ source ∨ source + n ≤ target) →
      ∃ r1 o1, copyWithinLoop ops O 1 marker n (source : Int) (target : Int) r =
          (ExecutionStatus.RETURNED, r1) ∧
        view r1 = setObject (view r) O o1 ∧ o1.isArray = false ∧ o1.length = o.length ∧
        ∀ k, o1.elems k =
          if target ≤ k ∧ k < target + n then o.elems (source + (k - target)) else o.elems k := by
  intro n
  induction n with
  | zero =>
    intro source target r o ho ha _ _ _
    refine ⟨r, o, rfl, (setObject_self _ _ _ ho).symm, ha, rfl, ?_⟩
    intro k
    rw [if_neg (by omega)]
  | succ n ih =>
    intro source target r o ho ha hs ht hcond
    obtain ⟨r1, hv1, hstep⟩ := copyWithinLoop_step ops view hp r O o source target 1 marker n ho ha
      (by omega) (by omega)
    obtain ⟨r2, o2, hrest, hv2, ha2, hl2, helems⟩ := ih (source + 1) (target + 1) r1
      (o.put target (o.elems source)) (by rw [hv1]; exact setObject_same _ _ _) ha
      (by omega) (by omega) (by omega)
    refine ⟨r2, o2, ?_, ?_, ha2, hl2, ?_⟩
    · rw [hstep]
      exact hrest
    · rw [hv2, hv1, setObject_setObject]
    · intro k
      rw [helems k]
      simp only [ArrayLike.put]
      split_ifs <;> first | rfl | (congr 1; omega)

/-- The loop of `copyWithin` going down, when the source range starts before the
target range. -/
theorem copyWithinLoop_backward (ops : ArrayOps R) (view : R → Nat → Option ArrayLike)
    (hp : ops.Plain view) (O marker source target : Nat) (hlt : source < target) :
    ∀ (n : Nat) (r : R) (o : ArrayLike), view r O = some o →
      o.isArray = false → target + n < 2 ^ 53 →
      ∃ r1 o1, copyWithinLoop ops O (-1) marker n ((source : Int) + n - 1)
          ((target : Int) + n - 1) r = (ExecutionStatus.RETURNED, r1) ∧
        view r1 = setObject (view r) O o1 ∧ o1.isArray = false ∧ o1.length = o.length ∧
        ∀ k, o1.elems k =
          if target ≤ k ∧ k < target + n then o.elems (source + (k - target)) else o.elems k := by
  intro n
  induction n with
  | zero =>
    intro r o ho ha _
    refine ⟨r, o, rfl, (setObject_self _ _ _ ho).symm, ha, rfl, ?_⟩
    intro k
    rw [if_neg (by omega)]
  | succ n ih =>
    intro r o ho ha ht
    obtain ⟨r1, hv1, hstep⟩ := copyWithinLoop_step ops view hp r O o (source + n) (target + n)
      (-1) marker n ho ha (by omega) (by omega)
    obtain ⟨r2, o2, hrest, hv2, ha2, hl2, helems⟩ := ih r1
      (o.put (target + n) (o.elems (source + n))) (by rw [hv1]; exact setObject_same _ _ _) ha
      (by omega)
    have e1 : ((source : Int) + ((n + 1 : Nat) : Int) - 1) = ((source + n : Nat) : Int) := by
      push_cast
      omega
    have e2 : ((target : Int) + ((n + 1 : Nat) : Int) - 1) = ((target + n : Nat) : Int) := by
      push_cast
      omega
    have e3 : (((source + n : Nat) : Int) + -1) = (source : Int) + n - 1 := by
      push_cast
      omega
    have e4 : (((target + n : Nat) : Int) + -1) = (target : Int) + n - 1 := by
      push_cast
      omega
    refine ⟨r2, o2, ?_, ?_, ha2, hl2, ?_⟩
    · rw [e1, e2, hstep, e3, e4]
      exact hrest
    · rw [hv2, hv1, setObject_setObject]
    · intro k
      rw [helems k]
      simp only [ArrayLike.put]
      split_ifs <;> first | rfl | (congr 1; omega)

/-- C23: `Array.prototype.copyWithin` on a plain array-like object with elements
`e[0..len)` (each present or a hole) whose arguments convert to the integers (or
infinities) `relativeTarget`, `relativeStart` and `relativeEnd` (the length when the
third is undefined): with `to`, `from` and `final` each clamped into `[0, len]` as the
steps state and `count = min(final - from, len - to)`, it returns the object and
leaves, for every `i` in `[0, count)`, index `to + i` equal in presence and value to
the original `e[from + i]`, whether or not the ranges overlap, and every other index,
the length and every other object unchanged; when `count ≤ 0` nothing changes. -/
theorem copyWithin_spec (ops : ArrayOps R) (view : R → Nat → Option ArrayLike)
    (hp : ops.Plain view) (runtime : R) (args : NativeArgs) (O : Nat) (o : ArrayLike)
    (relativeTarget relativeStart relativeEnd : IntegerOrInfinity)
    (hthis : args.thisArg = HermesValue.object O) (ho : view runtime O = some o)
    (ha : o.isArray = false) (hlen : o.length < 2 ^ 53)
    (htarget : ∀ r, (ops.toInteger r (args.getArg 0)).1 = CallResult.value relativeTarget)
    (hstart : ∀ r, (ops.toInteger r (args.getArg 1)).1 = CallResult.value relativeStart)
    (hend : ∀ r, (copyWithinRelativeEnd ops o.length r args).1 = CallResult.value relativeEnd) :
    ∃ r o1,
      arrayPrototypeCopyWithin ops runtime args = (CallResult.value (HermesValue.object O), r) ∧
      view r = setObject (view runtime) O o1 ∧
      o1.length = o.length ∧ o1.isArray = false ∧
      (∀ i : Nat,
        (i : Int) < min ((relativeToAbsolute o.length relativeEnd : Int) -
            relativeToAbsolute o.length relativeStart)
          ((o.length : Int) - relativeToAbsolute o.length relativeTarget) →
        o1.elems (relativeToAbsolute o.length relativeTarget + i) =
          o.elems (relativeToAbsolute o.length relativeStart + i)) ∧
      (∀ k : Nat,
        (k < relativeToAbsolute o.length relativeTarget ∨
          (relativeToAbsolute o.length relativeTarget : Int) +
            min ((relativeToAbsolute o.length relativeEnd : Int) -
                relativeToAbsolute o.length relativeStart)
              ((o.length : Int) - relativeToAbsolute o.length relativeTarget) ≤ k) →
        o1.elems k = o.elems k) := by
  obtain ⟨r4, hpre, hv4⟩ := (objectAndLength_plain ops view hp (ops.newGCScope runtime) args O o
    hthis (by rw [hp.newGCScope]; exact ho) hlen).1
  -- the three conversions
  have h5 := htarget r4
  rcases hc5 : ops.toInteger r4 (args.getArg 0) with ⟨res5, r5⟩
  have hv5 : view r5 = view r4 := by
    have := hp.toInteger r4 (args.getArg 0)
    rw [hc5] at this
    exact this
  rw [hc5] at h5
  simp only at h5
  subst h5
  have h6 := hstart r5
  rcases hc6 : ops.toInteger r5 (args.getArg 1) with ⟨res6, r6⟩
  have hv6 : view r6 = view r5 := by
    have := hp.toInteger r5 (args.getArg 1)
    rw [hc6] at this
    exact this
  rw [hc6] at h6
  simp only at h6
  subst h6
  have h7 := hend r6
  rcases hc7 : copyWithinRelativeEnd ops o.length r6 args with ⟨res7, r7⟩
  have hv7 : view r7 = view r6 := by
    have hview : view (copyWithinRelativeEnd ops o.length r6 args).2 = view r6 := by
      simp only [copyWithinRelativeEnd]
      split
      · rfl
      · exact hp.toInteger r6 (args.getArg 2)
    rw [hc7] at hview
    exact hview
  rw [hc7] at h7
  simp only at h7
  subst h7
  have hto := relativeToAbsolute_le o.length relativeTarget
  have hfrom := relativeToAbsolute_le o.length relativeStart
  have hfin := relativeToAbsolute_le o.length relativeEnd
  generalize hteq : relativeToAbsolute o.length relativeTarget = target at hto ⊢
  generalize hseq : relativeToAbsolute o.length relativeStart = source at hfrom ⊢
  generalize hfeq : relativeToAbsolute o.length relativeEnd = fin at hfin ⊢
  have hview0 : ∀ values, view (makeHandles ops r7 values) = view runtime := by
    intro values
    rw [makeHandles_view ops view hp, hv7, hv6, hv5, hv4, hp.newGCScope]
  generalize hcount : min ((fin : Int) - source) ((o.length : Int) - target) = count
  -- the number of rounds
  have hn : (count.toNat : Int) = max count 0 := by omega
  by_cases hback : source < target ∧ (target : Int) < source + count
  · -- going down
    have hpos : 0 < count := by omega
    obtain ⟨r8, hr8⟩ : ∃ r8, makeHandles ops r7
        [HermesValue.encodeNumberValue ((source : Int) + count - 1),
         HermesValue.encodeNumberValue ((target : Int) + count - 1),
         HermesValue.object 0, HermesValue.undefined] = r8 := ⟨_, rfl⟩
    obtain ⟨r9, o9, hloop, hv9, ha9, hl9, helems⟩ := copyWithinLoop_backward ops view hp O
      (ops.createMarker r8) source target hback.1 count.toNat r8 o
      (by rw [← hr8, hview0]; exact ho) ha (by omega)
    have hcn : (count.toNat : Int) = count := by omega
    rw [hcn] at hloop
    refine ⟨ops.endGCScope (ops.flushToMarker r9 (ops.createMarker r8)), o9, ?_, ?_, hl9, ha9,
      ?_, ?_⟩
    · simp only [arrayPrototypeCopyWithin, hpre, hc5, hc6, hc7, hteq, hseq, hfeq, hcount,
        hback.1, hback.2, decide_True, Bool.and_self, if_true, hr8, hloop]
    · rw [hp.endGCScope, hp.flushToMarker, hv9, ← hr8, hview0]
    · intro i hi
      rw [helems, if_pos (by omega)]
      congr 1
      omega
    · intro k hk
      rw [helems, if_neg (by omega)]
  · -- going up
    obtain ⟨r8, hr8⟩ : ∃ r8, makeHandles ops r7
        [HermesValue.encodeNumberValue (source : Int),
         HermesValue.encodeNumberValue (target : Int),
         HermesValue.object 0, HermesValue.undefined] = r8 := ⟨_, rfl⟩
    obtain ⟨r9, o9, hloop, hv9, ha9, hl9, helems⟩ := copyWithinLoop_forward ops view hp O
      (ops.createMarker r8) count.toNat source target r8 o
      (by rw [← hr8, hview0]; exact ho) ha (by omega) (by omega) (by omega)
    have hdec : (decide (source < target) && decide ((target : Int) < source + count)) = false := by
      simp only [Bool.and_eq_false_iff, decide_eq_false_iff_not]
      by_cases h1 : source < target
      · exact Or.inr (fun h2 => hback ⟨h1, h2⟩)
      · exact Or.inl h1
    refine ⟨ops.endGCScope (ops.flushToMarker r9 (ops.createMarker r8)), o9, ?_, ?_, hl9, ha9,
      ?_, ?_⟩
    · simp only [arrayPrototypeCopyWithin, hpre, hc5, hc6, hc7, hteq, hseq, hfeq, hcount, hdec,
        Bool.false_eq_true, if_false, hr8, hloop]
    · rw [hp.endGCScope, hp.flushToMarker, hv9, ← hr8, hview0]
    · intro i hi
      rw [helems, if_pos (by omega)]
      congr 1
      omega
    · intro k hk
      rw [helems, if_neg (by omega)]

theorem copyWithin_spec_witness :
    (arrayPrototypeCopyWithin heapOps
      (sampleHeap [some (HermesValue.string 1), some (HermesValue.string 2), none,
        some (HermesValue.string 4), some (HermesValue.string 5)] 5)
      (callOnObject [HermesValue.encodeNumberValue 1, HermesValue.encodeNumberValue 0,
        HermesValue.encodeNumberValue 3])).2.elements 0 6 =
      [some (HermesValue.string 1), some (HermesValue.string 1), some (HermesValue.string 2),
       none, some (HermesValue.string 5), none] ∧
    (arrayPrototypeCopyWithin heapOps
      (sampleHeap [some (HermesValue.string 1), some (HermesValue.string 2), none,
        some (HermesValue.string 4), some (HermesValue.string 5)] 5)
      (callOnObject [HermesValue.encodeNumberValue 0, HermesValue.encodeNumberValue (-3)])).2.elements
        0 6 =
      [none, some (HermesValue.string 4), some (HermesValue.string 5),
       some (HermesValue.string 4), some (HermesValue.string 5), none] ∧
    ∃ r o1,
      arrayPrototypeCopyWithin heapOps
        (sampleHeap [some (HermesValue.string 1), some (HermesValue.string 2), none,
          some (HermesValue.string 4), some (HermesValue.string 5)] 5)
        (callOnObject [HermesValue.encodeNumberValue 1, HermesValue.encodeNumberValue 0,
          HermesValue.encodeNumberValue 3]) = (CallResult.value (HermesValue.object 0), r) ∧
      r.view 0 = some o1 ∧ o1.length = 5 := by
  obtain ⟨r, o1, hrun, hview, hlen, _⟩ := copyWithin_spec heapOps ObjectHeap.view heapOps_plain
    (sampleHeap [some (HermesValue.string 1), some (HermesValue.string 2), none,
      some (HermesValue.string 4), some (HermesValue.string 5)] 5)
    (callOnObject [HermesValue.encodeNumberValue 1, HermesValue.encodeNumberValue 0,
      HermesValue.encodeNumberValue 3]) 0
    (ObjectHeap.arrayLike (sampleObject [some (HermesValue.string 1),
      some (HermesValue.string 2), none, some (HermesValue.string 4),
      some (HermesValue.string 5)] 5))
    (IntegerOrInfinity.finite 1) (IntegerOrInfinity.finite 0) (IntegerOrInfinity.finite 3)
    rfl rfl rfl (by decide) (fun _ => rfl) (fun _ => rfl) (fun _ => rfl)
  refine ⟨by decide, by decide, r, o1, hrun, ?_, hlen⟩
  rw [hview]
  exact setObject_same _ _ _

/-! ## Array.prototype.reverse -/

/-- One round of the loop of `reverse` on a plain array-like object: the elements at
`lower` and at `upper = len - lower - 1` are exchanged, in presence and value. -/
theorem reverseLoop_step (ops : ArrayOps R) (view : R → Nat → Option ArrayLike)
    (hp : ops.Plain view) (r : R) (O len marker : Nat) (o : ArrayLike) (lower n : Nat)
    (ho : view r O = some o) (ha : o.isArray = false)
    (hl : lower < 2 ^ 53) (hu : len - lower - 1 < 2 ^ 53) :
    ∃ r1, view r1 = setObject (view r) O
        ((o.put lower (o.elems (len - lower - 1))).put (len - lower - 1) (o.elems lower)) ∧
      reverseLoop ops O len marker (n + 1) lower r =
        reverseLoop ops O len marker n (lower + 1) r1 := by
  have ho1 : view (ops.flushToMarker r marker) O = some o := by
    rw [hp.flushToMarker]
    exact ho
  obtain ⟨lowerDesc, r2, hv2, hlower⟩ := lookup_read ops view hp (ops.flushToMarker r marker) O o
    lower ho1 hl
  have ho2 : view r2 O = some o := by
    rw [hv2]
    exact ho1
  obtain ⟨upperDesc, r3, hv3, hupper⟩ := lookup_read ops view hp r2 O o (len - lower - 1) ho2 hu
  have ho3 : view r3 O = some o := by
    rw [hv3]
    exact ho2
  have hbase : view r3 = view r := by rw [hv3, hv2, hp.flushToMarker]
  rcases hlower with ⟨hln, hll⟩ | ⟨lowerObj, lowerValue, hls, hll, hlread⟩ <;>
    rcases hupper with ⟨hun, hul⟩ | ⟨upperObj, upperValue, hus, hul, huread⟩
  · -- neither is present
    refine ⟨r3, ?_, by simp only [reverseLoop, hll, hul, reverseExchange]⟩
    rw [hbase, hln, hun]
    symm
    apply setObject_self
    rw [ho]
    congr 1
    cases o with
    | mk elems length isArray =>
      simp only [ArrayLike.put, ArrayLike.mk.injEq, and_true]
      funext k
      simp only at hln hun
      split_ifs with h1 h2
      · rw [h1, hun]
      · rw [h2, hln]
      · rfl
  · -- only the upper one is present
    obtain ⟨r4, hget, hv4⟩ := huread r3 o upperValue ho3 hus
    obtain ⟨done5, r5, hput, hv5⟩ := put_plain ops view hp r4 O o lower upperValue
      (by rw [hv4]; exact ho3) ha hl
    obtain ⟨done6, r6, hdel, hv6⟩ := delete_plain ops view hp r5 O
      (o.put lower (some upperValue)) (len - lower - 1)
      (by rw [hv5]; exact setObject_same _ _ _) ha hu
    refine ⟨r6, ?_, by simp only [reverseLoop, hll, hul, reverseExchange, hget, hput, hdel]⟩
    rw [hv6, hv5, hv4, hbase, setObject_setObject, hus, hln]
  · -- only the lower one is present
    obtain ⟨r4, hget, hv4⟩ := hlread r3 o lowerValue ho3 hls
    obtain ⟨done5, r5, hdel, hv5⟩ := delete_plain ops view hp r4 O o lower
      (by rw [hv4]; exact ho3) ha hl
    obtain ⟨done6, r6, hput, hv6⟩ := put_plain ops view hp r5 O
      (o.put lower none) (len - lower - 1) lowerValue
      (by rw [hv5]; exact setObject_same _ _ _) ha hu
    refine ⟨r6, ?_, by simp only [reverseLoop, hll, hul, reverseExchange, hget, hdel, hput]⟩
    rw [hv6, hv5, hv4, hbase, setObject_setObject, hls, hun]
  · -- both are present
    obtain ⟨r4, hget4, hv4⟩ := hlread r3 o lowerValue ho3 hls
    obtain ⟨r5, hget5, hv5⟩ := huread r4 o upperValue (by rw [hv4]; exact ho3) hus
    obtain ⟨done6, r6, hput6, hv6⟩ := put_plain ops view hp r5 O o lower upperValue
      (by rw [hv5, hv4]; exact ho3) ha hl
    obtain ⟨done7, r7, hput7, hv7⟩ := put_plain ops view hp r6 O
      (o.put lower (some upperValue)) (len - lower - 1) lowerValue
      (by rw [hv6]; exact setObject_same _ _ _) ha hu
    refine ⟨r7, ?_,
      by simp only [reverseLoop, hll, hul, reverseExchange, hget4, hget5, hput6, hput7]⟩
    rw [hv7, hv6, hv5, hv4, hbase, setObject_setObject, hus, hls]

/-- The loop of `reverse` from `lower` on, with `remaining` rounds left: the elements
of `[lower, lower + remaining)` and of the range that mirrors it are exchanged. -/
theorem reverseLoop_plain (ops : ArrayOps R) (view : R → Nat → Option ArrayLike)
    (hp : ops.Plain view) (O len marker : Nat) (hlen : len < 2 ^ 53) :
    ∀ (remaining lower : Nat) (r : R) (o : ArrayLike), view r O = some o →
      o.isArray = false → lower + remaining ≤ len / 2 →
      ∃ r1 o1, reverseLoop ops O len marker remaining lower r =
          (ExecutionStatus.RETURNED, r1) ∧
        view r1 = setObject (view r) O o1 ∧ o1.isArray = false ∧ o1.length = o.length ∧
        ∀ k, o1.elems k =
          if (lower ≤ k ∧ k < lower + remaining) ∨
              (len - lower - remaining ≤ k ∧ k < len - lower) then
            o.elems (len - 1 - k)
          else o.elems k := by
  intro remaining
  induction remaining with
  | zero =>
    intro lower r o ho ha _
    refine ⟨r, o, rfl, (setObject_self _ _ _ ho).symm, ha, rfl, ?_⟩
    intro k
    rw [if_neg (by omega)]
  | succ n ih =>
    intro lower r o ho ha hbound
    obtain ⟨r1, hv1, hstep⟩ := reverseLoop_step ops view hp r O len marker o lower n ho ha
      (by omega) (by omega)
    obtain ⟨r2, o2, hrest, hv2, ha2, hl2, helems⟩ := ih (lower + 1) r1
      ((o.put lower (o.elems (len - lower - 1))).put (len - lower - 1) (o.elems lower))
      (by rw [hv1]; exact setObject_same _ _ _) ha (by omega)
    refine ⟨r2, o2, by rw [hstep]; exact hrest, by rw [hv2, hv1, setObject_setObject], ha2, hl2,
      ?_⟩
    intro k
    rw [helems k]
    simp only [ArrayLike.put]
    split_ifs <;> first | rfl | (congr 1; omega)

/-- What one call of `reverse` does to a plain array-like object. -/
theorem reverse_once (ops : ArrayOps R) (view : R → Nat → Option ArrayLike)
    (hp : ops.Plain view) (runtime : R) (args : NativeArgs) (O : Nat) (o : ArrayLike)
    (hthis : args.thisArg = HermesValue.object O) (ho : view runtime O = some o)
    (ha : o.isArray = false) (hlen : o.length < UINT32) :
    ∃ r o1,
      arrayPrototypeReverse ops runtime args = (CallResult.value (HermesValue.object O), r) ∧
      view r = setObject (view runtime) O o1 ∧ o1.length = o.length ∧ o1.isArray = false ∧
      (∀ i, i < o.length → o1.elems i = o.elems (o.length - 1 - i)) ∧
      (∀ k, o.length ≤ k → o1.elems k = o.elems k) := by
  have h53 : o.length < 2 ^ 53 := by
    simp only [UINT32] at hlen
    omega
  obtain ⟨r4, hpre, hv4⟩ := (objectAndLength_plain ops view hp (ops.newGCScope runtime) args O o
    hthis (by rw [hp.newGCScope]; exact ho) h53).2
  have hmod : o.length % UINT32 = o.length := Nat.mod_eq_of_lt hlen
  obtain ⟨r5, hr5⟩ : ∃ r5, makeHandles ops r4
      [HermesValue.encodeDoubleValue 0, HermesValue.undefined, HermesValue.object 0,
       HermesValue.undefined, HermesValue.object 0, HermesValue.undefined] = r5 := ⟨_, rfl⟩
  have hv5 : view r5 = view runtime := by
    rw [← hr5, makeHandles_view ops view hp, hv4, hp.newGCScope]
  obtain ⟨r6, o6, hloop, hv6, ha6, hl6, helems⟩ := reverseLoop_plain ops view hp O o.length
    (ops.createMarker r5) h53 (o.length / 2) 0 r5 o (by rw [hv5]; exact ho) ha (by omega)
  refine ⟨ops.endGCScope r6, o6, ?_, by rw [hp.endGCScope, hv6, hv5], hl6, ha6, ?_, ?_⟩
  · simp only [arrayPrototypeReverse, hpre, hmod, Nat.mod_mod, hr5, hloop]
  · intro i hi
    rw [helems i]
    by_cases hmid : i < o.length / 2 ∨ o.length - o.length / 2 ≤ i
    · rw [if_pos (by omega)]
    · rw [if_neg (by omega)]
      congr 1
      omega
  · intro k hk
    rw [helems k, if_neg (by omega)]

/-- C30: for every plain array-like object with elements `e[0..len)` (each present or
a hole, `len < 2^32`), `Array.prototype.reverse` returns the object and leaves every
index `i < len` equal in presence and value to the original `e[len - 1 - i]` (so the
middle element of an odd length stays), and the length, the indices from `len` on and
every other object unchanged; hence a second `reverse` restores the original
elements. -/
theorem reverse_spec (ops : ArrayOps R) (view : R → Nat → Option ArrayLike)
    (hp : ops.Plain view) (runtime : R) (args : NativeArgs) (O : Nat) (o : ArrayLike)
    (hthis : args.thisArg = HermesValue.object O) (ho : view runtime O = some o)
    (ha : o.isArray = false) (hlen : o.length < UINT32) :
    ∃ r o1,
      arrayPrototypeReverse ops runtime args = (CallResult.value (HermesValue.object O), r) ∧
      view r = setObject (view runtime) O o1 ∧ o1.length = o.length ∧ o1.isArray = false ∧
      (∀ i, i < o.length → o1.elems i = o.elems (o.length - 1 - i)) ∧
      (∀ k, o.length ≤ k → o1.elems k = o.elems k) ∧
      ∃ r2 o2,
        arrayPrototypeReverse ops r args = (CallResult.value (HermesValue.object O), r2) ∧
        view r2 = setObject (view runtime) O o2 ∧ o2.length = o.length ∧
        o2.isArray = false ∧ ∀ k, o2.elems k = o.elems k := by
  obtain ⟨r, o1, hrun, hv, hl, ha1, helems, hrest⟩ :=
    reverse_once ops view hp runtime args O o hthis ho ha hlen
  obtain ⟨r2, o2, hrun2, hv2, hl2, ha2, helems2, hrest2⟩ :=
    reverse_once ops view hp r args O o1 hthis (by rw [hv]; exact setObject_same _ _ _) ha1
      (by rw [hl]; exact hlen)
  refine ⟨r, o1, hrun, hv, hl, ha1, helems, hrest, r2, o2, hrun2, ?_, by rw [hl2, hl], ha2, ?_⟩
  · rw [hv2, hv, setObject_setObject]
  · intro k
    by_cases hk : k < o.length
    · rw [helems2 k (by omega), hl, helems _ (by omega)]
      congr 1
      omega
    · rw [hrest2 k (by omega), hrest k (by omega)]

theorem reverse_spec_witness :
    (arrayPrototypeReverse heapOps
      (sampleHeap [some (HermesValue.string 1), none, some (HermesValue.string 3),
        some (HermesValue.string 4), some (HermesValue.string 5)] 5)
      (callOnObject [])).2.elements 0 6 =
      [some (HermesValue.string 5), some (HermesValue.string 4), some (HermesValue.string 3),
       none, some (HermesValue.string 1), none] ∧
    (arrayPrototypeReverse heapOps
      (arrayPrototypeReverse heapOps
        (sampleHeap [some (HermesValue.string 1), none, some (HermesValue.string 3),
          some (HermesValue.string 4), some (HermesValue.string 5)] 5)
        (callOnObject [])).2
      (callOnObject [])).2.elements 0 6 =
      [some (HermesValue.string 1), none, some (HermesValue.string 3),
       some (HermesValue.string 4), some (HermesValue.string 5), none] ∧
    ∃ r o1,
      arrayPrototypeReverse heapOps
        (sampleHeap [some (HermesValue.string 1), none, some (HermesValue.string 3),
          some (HermesValue.string 4), some (HermesValue.string 5)] 5)
        (callOnObject []) = (CallResult.value (HermesValue.object 0), r) ∧
      r.view 0 = some o1 ∧ o1.length = 5 := by
  obtain ⟨r, o1, hrun, hview, hlen, _⟩ := reverse_spec heapOps ObjectHeap.view heapOps_plain
    (sampleHeap [some (HermesValue.string 1), none, some (HermesValue.string 3),
      some (HermesValue.string 4), some (HermesValue.string 5)] 5)
    (callOnObject []) 0
    (ObjectHeap.arrayLike (sampleObject [some (HermesValue.string 1), none,
      some (HermesValue.string 3), some (HermesValue.string 4),
      some (HermesValue.string 5)] 5))
    rfl rfl rfl (by decide)
  refine ⟨by decide, by decide, r, o1, hrun, ?_, hlen⟩
  rw [hview]
  exact setObject_same _ _ _

/-! ## Array.prototype.reduce and Array.prototype.reduceRight -/

/-- The loop of `reduceHelper` that looks for the first element present, on a plain
array-like object: it ends without one when all the indices left are holes, and else
with the first element present in the order of the iteration and the number of
indices after it. -/
theorem reduceInitLoop_plain (ops : ArrayOps R) (view : R → Nat → Option ArrayLike)
    (hp : ops.Plain view) (O marker len : Nat) (reverse : Bool) (o : ArrayLike)
    (hlen : len < 2 ^ 53) :
    ∀ (remaining : Nat) (r : R), view r O = some o → remaining ≤ len →
      (∃ r1, reduceInitLoop ops O marker len reverse remaining r = (CallResult.value none, r1) ∧
        view r1 = view r ∧
        ∀ j, j < remaining → o.elems (reduceIndex reverse len (j + 1)) = none) ∨
      (∃ r1 m value, m < remaining ∧
        reduceInitLoop ops O marker len reverse remaining r =
          (CallResult.value (some (value, m)), r1) ∧
        view r1 = view r ∧
        o.elems (reduceIndex reverse len (m + 1)) = some value ∧
        ∀ j, m < j → j < remaining → o.elems (reduceIndex reverse len (j + 1)) = none) := by
  intro remaining
  induction remaining with
  | zero =>
    intro r _ _
    left
    exact ⟨ops.flushToMarker r marker, rfl, hp.flushToMarker r marker,
      fun j hj => absurd hj (Nat.not_lt_zero _)⟩
  | succ n ih =>
    intro r ho hle
    have hidx : reduceIndex reverse len (n + 1) < 2 ^ 53 := by
      simp only [reduceIndex]
      split <;> omega
    have ho1 : view (ops.flushToMarker r marker) O = some o := by
      rw [hp.flushToMarker]
      exact ho
    obtain ⟨desc, r2, hv2, hcase⟩ := lookup_read ops view hp (ops.flushToMarker r marker) O o
      (reduceIndex reverse len (n + 1)) ho1 hidx
    have hbase : view r2 = view r := by rw [hv2, hp.flushToMarker]
    rcases hcase with ⟨hnone, hl⟩ | ⟨propObj, value, hsome, hl, hread⟩
    · rcases ih r2 (by rw [hbase]; exact ho) (by omega) with
        ⟨r3, hrun, hv3, hholes⟩ | ⟨r3, m, value, hm, hrun, hv3, hfound, hholes⟩
      · left
        refine ⟨r3, by simp only [reduceInitLoop, hl, hrun], by rw [hv3, hbase], ?_⟩
        intro j hj
        by_cases hjn : j = n
        · subst hjn
          exact hnone
        · exact hholes j (by omega)
      · right
        refine ⟨r3, m, value, by omega, by simp only [reduceInitLoop, hl, hrun],
          by rw [hv3, hbase], hfound, ?_⟩
        intro j hmj hj
        by_cases hjn : j = n
        · subst hjn
          exact hnone
        · exact hholes j hmj (by omega)
    · right
      obtain ⟨r3, hget, hv3⟩ := hread r2 o value (by rw [hbase]; exact ho) hsome
      refine ⟨r3, n, value, by omega, by simp only [reduceInitLoop, hl, hget],
        by rw [hv3, hbase], hsome, ?_⟩
      intro j hnj hj
      omega

/-- C25: for a callable callback and a plain array-like object, what `reduce`
(`reverse = false`) and `reduceRight` (`reverse = true`) do before the reduction.
When no initial value is passed and no index in `[0, len)` holds an element, they
raise the "requires an initial value" TypeError. In every other case they do not
take that way out: the result is the one of the reduction loop, started with the
initial value at the first index of the iteration when one is passed, and else with
the first element present in the order of the iteration as the accumulator, at the
index next to it. -/
theorem reduce_initial_value (ops : ArrayOps R) (view : R → Nat → Option ArrayLike)
    (hp : ops.Plain view) (runtime : R) (args : NativeArgs) (reverse : Bool) (O : Nat)
    (o : ArrayLike) (callbackFn : Nat)
    (hthis : args.thisArg = HermesValue.object O) (ho : view runtime O = some o)
    (hlen : o.length < 2 ^ 53)
    (hfn : ∀ r, ops.dyn_vmcast_Callable r (args.getArg 0) = some callbackFn) :
    (args.args.length < 2 ∧ (∀ i, i < o.length → o.elems i = none) →
      ∃ r, view r = view runtime ∧
        reduceHelper ops runtime args reverse =
          (CallResult.EXCEPTION,
           ops.endGCScope
            (ops.raiseTypeError r
              "Array.prototype.reduce() requires an intial value with empty array"))) ∧
    (2 ≤ args.args.length →
      ∃ r marker, view r = view runtime ∧
        reduceHelper ops runtime args reverse =
          ((reduceLoop ops O marker o.length callbackFn reverse o.length (args.getArg 1) r).1,
           ops.endGCScope
            (reduceLoop ops O marker o.length callbackFn reverse o.length
              (args.getArg 1) r).2)) ∧
    (args.args.length < 2 → ∀ first, first < o.length → (o.elems first).isSome = true →
      (∀ i, i < o.length → (if reverse then first < i else i < first) → o.elems i = none) →
      ∃ r marker accumulator, view r = view runtime ∧
        o.elems first = some accumulator ∧
        reduceHelper ops runtime args reverse =
          ((reduceLoop ops O marker o.length callbackFn reverse
              (if reverse then first else o.length - first - 1) accumulator r).1,
           ops.endGCScope
            (reduceLoop ops O marker o.length callbackFn reverse
              (if reverse then first else o.length - first - 1) accumulator r).2)) := by
  obtain ⟨r4, hpre, hv4⟩ := (objectAndLength_plain ops view hp (ops.newGCScope runtime) args O o
    hthis (by rw [hp.newGCScope]; exact ho) hlen).1
  have hv4' : view r4 = view runtime := by rw [hv4, hp.newGCScope]
  obtain ⟨r5, hr5⟩ : ∃ r5, makeHandles ops r4
      [HermesValue.encodeNumberValue (if reverse then (o.length : Int) - 1 else 0),
       HermesValue.object 0, HermesValue.undefined] = r5 := ⟨_, rfl⟩
  have hv5 : view r5 = view runtime := by
    rw [← hr5, makeHandles_view ops view hp, hv4']
  have hinit := reduceInitLoop_plain ops view hp O (ops.createMarker r5) o.length reverse o hlen
    o.length r5 (by rw [hv5]; exact ho) (Nat.le_refl _)
  refine ⟨?_, ?_, ?_⟩
  · rintro ⟨hargs, hholes⟩
    by_cases hzero : o.length = 0
    · refine ⟨r4, hv4', ?_⟩
      simp only [reduceHelper, hpre, hfn, hzero, hargs, and_self, if_true]
    · rcases hinit with ⟨r6, hrun, hv6, _⟩ | ⟨r6, m, value, hm, _, _, hfound, _⟩
      · refine ⟨r6, by rw [hv6, hv5], ?_⟩
        have hnot : ¬ (o.length = 0 ∧ args.args.length < 2) := fun h => hzero h.1
        have hge : ¬ args.args.length ≥ 2 := by omega
        simp only [reduceHelper, hpre, hfn, if_neg hnot, reduceFrom, hr5, if_neg hge, hrun]
      · exfalso
        have hidx : reduceIndex reverse o.length (m + 1) < o.length := by
          simp only [reduceIndex]
          split <;> omega
        rw [hholes _ hidx] at hfound
        exact absurd hfound (by simp)
  · intro hargs
    refine ⟨r5, ops.createMarker r5, hv5, ?_⟩
    have hnot : ¬ (o.length = 0 ∧ args.args.length < 2) := fun h => by omega
    simp only [reduceHelper, hpre, hfn, if_neg hnot, reduceFrom, hr5, ge_iff_le, if_pos hargs]
  · intro hargs first hfirst hpresent hbefore
    have hnot : ¬ (o.length = 0 ∧ args.args.length < 2) := fun h => by omega
    have hge : ¬ args.args.length ≥ 2 := by omega
    rcases hinit with ⟨r6, _, _, hholes⟩ | ⟨r6, m, value, hm, hrun, hv6, hfound, hholes⟩
    · exfalso
      have hj := hholes (if reverse then first else o.length - first - 1) (by split <;> omega)
      have hidx : reduceIndex reverse o.length
          ((if reverse then first else o.length - first - 1) + 1) = first := by
        simp only [reduceIndex]
        cases reverse <;> simp
        omega
      rw [hidx] at hj
      rw [hj] at hpresent
      exact absurd hpresent (by simp)
    · -- the element found is the one at `first`
      have hmfirst : m = if reverse then first else o.length - first - 1 := by
        by_contra hne
        cases reverse with
        | false =>
          simp only [Bool.false_eq_true, if_false] at hne hbefore
          simp only [reduceIndex, Bool.false_eq_true, if_false] at hfound hholes
          by_cases hlt : m < o.length - first - 1
          · -- `first` comes before the element found
            have := hholes (o.length - first - 1) hlt (by omega)
            have hidx : o.length - (o.length - first - 1 + 1) = first := by omega
            rw [hidx] at this
            rw [this] at hpresent
            exact absurd hpresent (by simp)
          · have := hbefore (o.length - (m + 1)) (by omega) (by omega)
            rw [this] at hfound
            exact absurd hfound (by simp)
        | true =>
          simp only [if_true] at hne hbefore
          simp only [reduceIndex, if_true] at hfound hholes
          by_cases hlt : m < first
          · have := hholes first hlt hfirst
            simp only [Nat.add_sub_cancel] at this
            rw [this] at hpresent
            exact absurd hpresent (by simp)
          · have := hbefore (m + 1 - 1) (by omega) (by omega)
            rw [this] at hfound
            exact absurd hfound (by simp)
      have hidx : reduceIndex reverse o.length (m + 1) = first := by
        rw [hmfirst]
        simp only [reduceIndex]
        cases reverse <;> simp
        omega
      rw [hidx] at hfound
      refine ⟨r6, ops.createMarker r5, value, by rw [hv6, hv5], hfound, ?_⟩
      simp only [reduceHelper, hpre, hfn, if_neg hnot, reduceFrom, hr5, if_neg hge, hrun, hmfirst]

theorem reduce_initial_value_witness :
    (reduceHelper heapOps (sampleHeap [none, none] 2)
      (callOnObject [HermesValue.object 101]) false).1 = CallResult.EXCEPTION ∧
    (reduceHelper heapOps (sampleHeap [none, none] 2)
      (callOnObject [HermesValue.object 101]) false).2.thrown =
        some "Array.prototype.reduce() requires an intial value with empty array" ∧
    (reduceHelper heapOps
      (sampleHeap [none, some (HermesValue.string 1), none, some (HermesValue.string 3)] 4)
      (callOnObject [HermesValue.object 101]) false).1 =
        CallResult.value (HermesValue.string 3) ∧
    (reduceHelper heapOps
      (sampleHeap [none, some (HermesValue.string 1), none, some (HermesValue.string 3)] 4)
      (callOnObject [HermesValue.object 101]) false).2.calls =
        [(HermesValue.string 1, HermesValue.string 3, HermesValue.encodeDoubleValue 3)] ∧
    (reduceHelper heapOps
      (sampleHeap [none, some (HermesValue.string 1), none, some (HermesValue.string 3)] 4)
      (callOnObject [HermesValue.object 101]) true).2.calls =
        [(HermesValue.string 3, HermesValue.string 1, HermesValue.encodeDoubleValue 1)] ∧
    ∃ r marker accumulator,
      (ObjectHeap.arrayLike (sampleObject
        [none, some (HermesValue.string 1), none, some (HermesValue.string 3)] 4)).elems 1 =
          some accumulator ∧
      reduceHelper heapOps
        (sampleHeap [none, some (HermesValue.string 1), none, some (HermesValue.string 3)] 4)
        (callOnObject [HermesValue.object 101]) false =
        ((reduceLoop heapOps 0 marker 4 101 false 2 accumulator r).1,
         heapOps.endGCScope (reduceLoop heapOps 0 marker 4 101 false 2 accumulator r).2) := by
  obtain ⟨r, marker, accumulator, _, hacc, hrun⟩ :=
    (reduce_initial_value heapOps ObjectHeap.view heapOps_plain
      (sampleHeap [none, some (HermesValue.string 1), none, some (HermesValue.string 3)] 4)
      (callOnObject [HermesValue.object 101]) false 0
      (ObjectHeap.arrayLike (sampleObject
        [none, some (HermesValue.string 1), none, some (HermesValue.string 3)] 4))
      101 rfl rfl (by decide) (fun _ => rfl)).2.2 (by decide) 1 (by decide) (by decide)
      (fun i _ h => by
        simp only [Bool.false_eq_true, if_false] at h
        have h0 : i = 0 := by omega
        subst h0
        decide)
  exact ⟨by decide, by decide, by decide, by decide, by decide, r, marker, accumulator, hacc,
    hrun⟩

/-! ## Array.prototype.splice -/

/-- The loop of `splice` that moves the tail down (fewer items than deleted). -/
theorem spliceShrinkLoop_plain (ops : ArrayOps R) (view : R → Nat → Option ArrayLike)
    (hp : ops.Plain view) (O deleteCount itemCount gcMarker : Nat)
    (hle : itemCount ≤ deleteCount) :
    ∀ (n j : Nat) (r : R) (o : ArrayLike), view r O = some o → o.isArray = false →
      j + n + deleteCount < 2 ^ 53 →
      ∃ r1 o1, spliceShrinkLoop ops O deleteCount itemCount gcMarker n j r =
          (ExecutionStatus.RETURNED, r1) ∧
        view r1 = setObject (view r) O o1 ∧ o1.isArray = false ∧ o1.length = o.length ∧
        ∀ i, o1.elems i =
          if j + itemCount ≤ i ∧ i < j + itemCount + n then o.elems (i - itemCount + deleteCount)
          else o.elems i := by
  intro n
  induction n with
  | zero =>
    intro j r o ho ha _
    refine ⟨r, o, rfl, (setObject_self _ _ _ ho).symm, ha, rfl, ?_⟩
    intro i
    rw [if_neg (by omega)]
  | succ n ih =>
    intro j r o ho ha hbound
    obtain ⟨r1, hmove, hv1⟩ := moveElement_plain ops view hp r O o (j + deleteCount)
      (j + itemCount) ho ha (by omega) (by omega)
    obtain ⟨r2, o2, hrest, hv2, ha2, hl2, helems⟩ := ih (j + 1) (ops.flushToMarker r1 gcMarker)
      (o.put (j + itemCount) (o.elems (j + deleteCount)))
      (by rw [hp.flushToMarker, hv1]; exact setObject_same _ _ _) ha (by omega)
    refine ⟨r2, o2, by simp only [spliceShrinkLoop, hmove, hrest],
      by rw [hv2, hp.flushToMarker, hv1, setObject_setObject], ha2, hl2, ?_⟩
    intro i
    rw [helems i]
    simp only [ArrayLike.put]
    split_ifs <;> first | rfl | (congr 1; omega)

/-- The loop of `splice` that moves the tail up (more items than deleted). -/
theorem spliceGrowLoop_plain (ops : ArrayOps R) (view : R → Nat → Option ArrayLike)
    (hp : ops.Plain view) (O actualStart deleteCount itemCount gcMarker : Nat)
    (hle : deleteCount ≤ itemCount) :
    ∀ (n : Nat) (r : R) (o : ArrayLike), view r O = some o → o.isArray = false →
      actualStart + n + itemCount < 2 ^ 53 + 1 →
      ∃ r1 o1, spliceGrowLoop ops O actualStart deleteCount itemCount gcMarker n r =
          (ExecutionStatus.RETURNED, r1) ∧
        view r1 = setObject (view r) O o1 ∧ o1.isArray = false ∧ o1.length = o.length ∧
        ∀ i, o1.elems i =
          if actualStart + itemCount ≤ i ∧ i < actualStart + itemCount + n then
            o.elems (i - itemCount + deleteCount)
          else o.elems i := by
  intro n
  induction n with
  | zero =>
    intro r o ho ha _
    refine ⟨r, o, rfl, (setObject_self _ _ _ ho).symm, ha, rfl, ?_⟩
    intro i
    rw [if_neg (by omega)]
  | succ n ih =>
    intro r o ho ha hbound
    obtain ⟨r1, hmove, hv1⟩ := moveElement_plain ops view hp r O o
      (actualStart + (n + 1) + deleteCount - 1) (actualStart + (n + 1) + itemCount - 1)
      ho ha (by omega) (by omega)
    obtain ⟨r2, o2, hrest, hv2, ha2, hl2, helems⟩ := ih (ops.flushToMarker r1 gcMarker)
      (o.put (actualStart + (n + 1) + itemCount - 1)
        (o.elems (actualStart + (n + 1) + deleteCount - 1)))
      (by rw [hp.flushToMarker, hv1]; exact setObject_same _ _ _) ha (by omega)
    refine ⟨r2, o2, by simp only [spliceGrowLoop, hmove, hrest],
      by rw [hv2, hp.flushToMarker, hv1, setObject_setObject], ha2, hl2, ?_⟩
    intro i
    rw [helems i]
    simp only [ArrayLike.put]
    split_ifs <;> first | rfl | (congr 1; omega)

/-- The loop of `splice` that deletes what is left on the right. -/
theorem spliceDeleteLoop_plain (ops : ArrayOps R) (view : R → Nat → Option ArrayLike)
    (hp : ops.Plain view) (O base gcMarker : Nat) :
    ∀ (n : Nat) (r : R) (o : ArrayLike), view r O = some o → o.isArray = false →
      base + n < 2 ^ 53 + 1 →
      ∃ r1 o1, spliceDeleteLoop ops O base gcMarker n r = (ExecutionStatus.RETURNED, r1) ∧
        view r1 = setObject (view r) O o1 ∧ o1.isArray = false ∧ o1.length = o.length ∧
        ∀ i, o1.elems i = if base ≤ i ∧ i < base + n then none else o.elems i := by
  intro n
  induction n with
  | zero =>
    intro r o ho ha _
    refine ⟨r, o, rfl, (setObject_self _ _ _ ho).symm, ha, rfl, ?_⟩
    intro i
    rw [if_neg (by omega)]
  | succ n ih =>
    intro r o ho ha hbound
    obtain ⟨done, r1, hdel, hv1⟩ := delete_plain ops view hp r O o (base + (n + 1) - 1) ho ha
      (by omega)
    obtain ⟨r2, o2, hrest, hv2, ha2, hl2, helems⟩ := ih (ops.flushToMarker r1 gcMarker)
      (o.put (base + (n + 1) - 1) none)
      (by rw [hp.flushToMarker, hv1]; exact setObject_same _ _ _) ha (by omega)
    refine ⟨r2, o2, by simp only [spliceDeleteLoop, hdel, hrest],
      by rw [hv2, hp.flushToMarker, hv1, setObject_setObject], ha2, hl2, ?_⟩
    intro i
    rw [helems i]
    simp only [ArrayLike.put]
    split_ifs <;> first | rfl | omega

/-- The loop of `splice` that puts the items into the object. -/
theorem spliceInsertLoop_plain (ops : ArrayOps R) (view : R → Nat → Option ArrayLike)
    (hp : ops.Plain view) (O gcMarker : Nat) (items : List HermesValue) :
    ∀ (k : Nat) (r : R) (o : ArrayLike), view r O = some o → o.isArray = false →
      k + items.length < 2 ^ 53 + 1 →
      ∃ r1 o1, spliceInsertLoop ops O gcMarker k items r = (ExecutionStatus.RETURNED, r1) ∧
        view r1 = setObject (view r) O o1 ∧ o1.isArray = false ∧ o1.length = o.length ∧
        ∀ i, o1.elems i = if k ≤ i ∧ i < k + items.length then items[i - k]? else o.elems i := by
  induction items with
  | nil =>
    intro k r o ho ha _
    refine ⟨r, o, rfl, (setObject_self _ _ _ ho).symm, ha, rfl, ?_⟩
    intro i
    rw [if_neg (by simp)]
  | cons item items ih =>
    intro k r o ho ha hbound
    simp only [List.length_cons] at hbound
    obtain ⟨done, r1, hput, hv1⟩ := put_plain ops view hp r O o k item ho ha (by omega)
    obtain ⟨r2, o2, hrest, hv2, ha2, hl2, helems⟩ := ih (k + 1) (ops.flushToMarker r1 gcMarker)
      (o.put k (some item))
      (by rw [hp.flushToMarker, hv1]; exact setObject_same _ _ _) ha (by omega)
    refine ⟨r2, o2, by simp only [spliceInsertLoop, hput, hrest],
      by rw [hv2, hp.flushToMarker, hv1, setObject_setObject], ha2, hl2, ?_⟩
    intro i
    rw [helems i]
    simp only [ArrayLike.put, List.length_cons]
    by_cases hik : i = k
    · subst hik
      rw [if_neg (by omega), if_pos rfl, if_pos (by omega)]
      simp
    · rw [if_neg hik]
      by_cases hin : k + 1 ≤ i ∧ i < k + 1 + items.length
      · rw [if_pos hin, if_pos (by omega)]
        have : i - k = (i - (k + 1)) + 1 := by omega
        rw [this, List.getElem?_cons_succ]
      · rw [if_neg hin, if_neg (by omega)]

/-- The loop of `splice` that copies the deleted elements into the new array. -/
theorem spliceCopyLoop_plain (ops : ArrayOps R) (view : R → Nat → Option ArrayLike)
    (hp : ops.Plain view) (O A actualStart gcMarker : Nat) (o : ArrayLike) (hne : A ≠ O) :
    ∀ (n j : Nat) (r : R) (a : ArrayLike), view r O = some o → view r A = some a →
      a.isArray = true → j + n ≤ a.length → actualStart + j + n < 2 ^ 53 + 1 →
      (∀ i, j ≤ i → a.elems i = none) →
      ∃ r1 a1, spliceCopyLoop ops O A actualStart gcMarker n j r =
          (ExecutionStatus.RETURNED, r1) ∧
        view r1 = setObject (view r) A a1 ∧ a1.isArray = true ∧ a1.length = a.length ∧
        ∀ i, a1.elems i =
          if j ≤ i ∧ i < j + n then o.elems (actualStart + i) else a.elems i := by
  intro n
  induction n with
  | zero =>
    intro j r a _ hA ha _ _ _
    refine ⟨r, a, rfl, (setObject_self _ _ _ hA).symm, ha, rfl, ?_⟩
    intro i
    rw [if_neg (by omega)]
  | succ n ih =>
    intro j r a ho hA ha hlen hbound hempty
    obtain ⟨desc, r1, hv1, hcase⟩ := lookup_read ops view hp r O o (actualStart + j) ho (by omega)
    rcases hcase with ⟨hnone, hl⟩ | ⟨propObj, value, hsome, hl, hread⟩
    · obtain ⟨r2, a2, hrest, hv2, ha2, hl2, helems⟩ := ih (j + 1) (ops.flushToMarker r1 gcMarker) a
        (by rw [hp.flushToMarker, hv1]; exact ho) (by rw [hp.flushToMarker, hv1]; exact hA)
        ha (by omega) (by omega) (fun i hi => hempty i (by omega))
      refine ⟨r2, a2, by simp only [spliceCopyLoop, hl, hrest],
        by rw [hv2, hp.flushToMarker, hv1], ha2, hl2, ?_⟩
      intro i
      rw [helems i]
      by_cases hij : i = j
      · subst hij
        rw [if_neg (by omega), if_pos (by omega), hnone]
        exact hempty i (le_refl i)
      · by_cases hin : j + 1 ≤ i ∧ i < j + 1 + n
        · rw [if_pos hin, if_pos (by omega)]
        · rw [if_neg hin, if_neg (by omega)]
    · obtain ⟨r2, hget, hv2⟩ := hread r1 o value (by rw [hv1]; exact ho) hsome
      have hv3 : view (ops.flushToMarker (ops.arraySetElementAt r2 A j value) gcMarker) =
          setObject (view r) A (a.put j (some value)) := by
        rw [hp.flushToMarker, hp.arraySetElementAt r2 A a j value (by rw [hv2, hv1]; exact hA) ha
          (by omega) (by omega), hv2, hv1]
      obtain ⟨r4, a4, hrest, hv4, ha4, hl4, helems⟩ := ih (j + 1)
        (ops.flushToMarker (ops.arraySetElementAt r2 A j value) gcMarker)
        (a.put j (some value))
        (by rw [hv3, setObject_other _ _ _ _ (Ne.symm hne)]; exact ho)
        (by rw [hv3]; exact setObject_same _ _ _) ha (by simpa [ArrayLike.put] using by omega)
        (by omega)
        (by
          intro i hi
          simp only [ArrayLike.put]
          rw [if_neg (by omega)]
          exact hempty i (by omega))
      refine ⟨r4, a4, by simp only [spliceCopyLoop, hl, hget, hrest],
        by rw [hv4, hv3, setObject_setObject], ha4, hl4, ?_⟩
      intro i
      rw [helems i]
      simp only [ArrayLike.put]
      by_cases hij : i = j
      · subst hij
        rw [if_neg (by omega), if_pos rfl, if_pos (by omega), hsome]
      · rw [if_neg hij]
        by_cases hin : j + 1 ≤ i ∧ i < j + 1 + n
        · rw [if_pos hin, if_pos (by omega)]
        · rw [if_neg hin, if_neg (by omega)]

/-- The part of `splice` that moves the elements of a plain array-like object: what
the object holds afterwards, index by index. -/
theorem spliceMove_plain (ops : ArrayOps R) (view : R → Nat → Option ArrayLike)
    (hp : ops.Plain view) (O len actualStart deleteCount gcMarker : Nat)
    (items : List HermesValue) (r : R) (o : ArrayLike)
    (ho : view r O = some o) (ha : o.isArray = false) (hlen : len < 2 ^ 53)
    (hd : actualStart + deleteCount ≤ len)
    (hspace : len - deleteCount + items.length < 2 ^ 53) :
    ∃ r1 o1, spliceMove ops O len actualStart deleteCount items.length gcMarker items r =
        (ExecutionStatus.RETURNED, r1) ∧
      view r1 = setObject (view r) O o1 ∧ o1.isArray = false ∧ o1.length = o.length ∧
      ∀ i, o1.elems i =
        if i < actualStart then o.elems i
        else if i < actualStart + items.length then items[i - actualStart]?
        else if i < len - deleteCount + items.length then
          o.elems (i - items.length + deleteCount)
        else if i < len then none
        else o.elems i := by
  by_cases hless : items.length < deleteCount
  · obtain ⟨r1, o1, hshrink, hv1, ha1, hl1, he1⟩ := spliceShrinkLoop_plain ops view hp O
      deleteCount items.length gcMarker (le_of_lt hless) (len - deleteCount - actualStart)
      actualStart r o ho ha (by omega)
    obtain ⟨r2, o2, hdel, hv2, ha2, hl2, he2⟩ := spliceDeleteLoop_plain ops view hp O
      (len - deleteCount + items.length) gcMarker (deleteCount - items.length) r1 o1
      (by rw [hv1]; exact setObject_same _ _ _) ha1 (by omega)
    obtain ⟨r3, o3, hins, hv3, ha3, hl3, he3⟩ := spliceInsertLoop_plain ops view hp O gcMarker
      items actualStart r2 o2 (by rw [hv2]; exact setObject_same _ _ _) ha2 (by omega)
    refine ⟨r3, o3, by simp only [spliceMove, if_pos hless, hshrink, hdel, hins],
      by rw [hv3, hv2, hv1, setObject_setObject, setObject_setObject], ha3,
      by rw [hl3, hl2, hl1], ?_⟩
    intro i
    rw [he3 i, he2 i, he1 i]
    split_ifs <;> first | rfl | (congr 1; omega)
  · by_cases hmore : items.length > deleteCount
    · obtain ⟨r1, o1, hgrow, hv1, ha1, hl1, he1⟩ := spliceGrowLoop_plain ops view hp O
        actualStart deleteCount items.length gcMarker (le_of_lt hmore)
        (len - deleteCount - actualStart) r o ho ha (by omega)
      obtain ⟨r3, o3, hins, hv3, ha3, hl3, he3⟩ := spliceInsertLoop_plain ops view hp O gcMarker
        items actualStart r1 o1 (by rw [hv1]; exact setObject_same _ _ _) ha1 (by omega)
      refine ⟨r3, o3, by simp only [spliceMove, if_neg hless, if_pos hmore, hgrow, hins],
        by rw [hv3, hv1, setObject_setObject], ha3, by rw [hl3, hl1], ?_⟩
      intro i
      rw [he3 i, he1 i]
      split_ifs <;> first | rfl | (congr 1; omega)
    · obtain ⟨r3, o3, hins, hv3, ha3, hl3, he3⟩ := spliceInsertLoop_plain ops view hp O gcMarker
        items actualStart r o ho ha (by omega)
      refine ⟨r3, o3, by simp only [spliceMove, if_neg hless, if_neg hmore, hins],
        hv3, ha3, hl3, ?_⟩
      intro i
      rw [he3 i]
      split_ifs <;> first | rfl | (congr 1; omega)

theorem spliceActualDeleteCount_le (len actualStart argCount : Nat)
    (deleteCount : IntegerOrInfinity) :
    spliceActualDeleteCount len actualStart argCount deleteCount ≤ len - actualStart := by
  unfold spliceActualDeleteCount
  split
  · exact Nat.zero_le _
  · exact le_refl _
  · cases deleteCount with
    | negInfinity => exact Nat.zero_le _
    | finite k => exact min_le_right _ _
    | posInfinity => exact le_refl _

/-- The `switch (argCount)` of `splice` when the conversion of the delete count gives
an integer: the counts, with the objects left alone. -/
theorem spliceCounts_plain (ops : ArrayOps R) (view : R → Nat → Option ArrayLike)
    (hp : ops.Plain view) (len actualStart argCount : Nat) (r : R) (args : NativeArgs)
    (deleteCount : IntegerOrInfinity)
    (hdelete : 2 ≤ argCount →
      ∀ r, (ops.toInteger r (args.getArg 1)).1 = CallResult.value deleteCount) :
    ∃ r1, spliceCounts ops len actualStart argCount r args =
        (CallResult.value (argCount - 2,
          spliceActualDeleteCount len actualStart argCount deleteCount), r1) ∧
      view r1 = view r := by
  match argCount, hdelete with
  | 0, _ => exact ⟨r, rfl, rfl⟩
  | 1, _ => exact ⟨r, rfl, rfl⟩
  | n + 2, hdelete =>
    have h := hdelete (by omega) r
    have hv := hp.toInteger r (args.getArg 1)
    rcases hc : ops.toInteger r (args.getArg 1) with ⟨res, r1⟩
    rw [hc] at h hv
    simp only at h hv
    subst h
    exact ⟨r1, by simp only [spliceCounts, spliceActualDeleteCount, hc], hv⟩

/-- The part of `splice` from `JSArray::create` on, on a plain array-like object: a
new array takes the deleted elements, and the object is rearranged. -/
theorem spliceFrom_plain (ops : ArrayOps R) (view : R → Nat → Option ArrayLike)
    (hp : ops.Plain view) (O actualStart deleteCount : Nat) (r6 : R) (args : NativeArgs)
    (o : ArrayLike) (ho : view r6 O = some o) (ha : o.isArray = false)
    (hlen : o.length < 2 ^ 53) (hd : actualStart + deleteCount ≤ o.length)
    (hspace : o.length - deleteCount + (args.args.length - 2) < 2 ^ 53) :
    ∃ r A a1 o1,
      spliceFrom ops O o.length actualStart deleteCount args.args.length r6 args =
        (CallResult.value (HermesValue.object A), r) ∧
      view r6 A = none ∧
      view r = setObject (setObject (view r6) A a1) O o1 ∧
      a1.isArray = true ∧ a1.length = deleteCount ∧
      (∀ j, a1.elems j = if j < deleteCount then o.elems (actualStart + j) else none) ∧
      o1.isArray = false ∧ o1.length = o.length - deleteCount + (args.args.length - 2) ∧
      ∀ i, o1.elems i =
        if i < actualStart then o.elems i
        else if i < actualStart + (args.args.length - 2) then
          (args.args.drop 2)[i - actualStart]?
        else if i < o.length - deleteCount + (args.args.length - 2) then
          o.elems (i - (args.args.length - 2) + deleteCount)
        else if i < o.length then none
        else o.elems i := by
  obtain ⟨A, hA, hnew, hvA⟩ := hp.arrayCreate r6 deleteCount deleteCount
  rcases hc : ops.arrayCreate r6 deleteCount deleteCount with ⟨res, r7⟩
  rw [hc] at hA hvA
  simp only at hA hvA
  subst hA
  have hne : A ≠ O := by
    intro h
    rw [h, ho] at hnew
    cases hnew
  obtain ⟨r8, hr8⟩ : ∃ r8, makeHandles ops (ops.makeHandle r7 (HermesValue.object A))
      [HermesValue.undefined, HermesValue.undefined, HermesValue.object 0,
       HermesValue.undefined, HermesValue.undefined, HermesValue.undefined] = r8 := ⟨_, rfl⟩
  have hv8 : view r8 = setObject (view r6) A (ArrayLike.emptyArray deleteCount) := by
    rw [← hr8, makeHandles_view ops view hp, hp.makeHandle, hvA]
  -- the deleted elements go to the new array
  obtain ⟨r9, a9, hcopy, hv9, ha9, hl9, he9⟩ := spliceCopyLoop_plain ops view hp O A actualStart
    (ops.createMarker r8) o hne deleteCount 0 r8 (ArrayLike.emptyArray deleteCount)
    (by rw [hv8, setObject_other _ _ _ _ (Ne.symm hne)]; exact ho)
    (by rw [hv8]; exact setObject_same _ _ _) rfl
    (by simp [ArrayLike.emptyArray]) (by omega) (fun _ _ => rfl)
  have hl9 : a9.length = deleteCount := hl9
  have hv9 : view r9 = setObject (view r6) A a9 := by
    rw [hv9, hv8, setObject_setObject]
  have hA9 : view r9 A = some a9 := by
    rw [hv9]
    exact setObject_same _ _ _
  obtain ⟨⟨done10, hres10⟩, hv10⟩ := hp.arraySetLengthProperty r9 A a9 hA9 ha9
  rw [hl9] at hres10 hv10
  rcases hset : ops.arraySetLengthProperty r9 A deleteCount with ⟨res10, r10⟩
  rw [hset] at hres10 hv10
  simp only at hres10 hv10
  subst hres10
  obtain ⟨done11, r11, hput11, hv11⟩ := putNamed_length_plain ops view hp
    (ops.makeHandle r10 (HermesValue.encodeDoubleValue deleteCount)) A a9 deleteCount
    (by rw [hp.makeHandle, hv10]; exact hA9) (Or.inr hl9.symm) (by omega)
  have hsame : a9.setLength deleteCount = a9 := by
    cases a9
    simp only [ArrayLike.setLength] at hl9 ⊢
    rw [hl9]
  have hv11 : view r11 = setObject (view r6) A a9 := by
    rw [hv11, hp.makeHandle, hv10, hv9, setObject_setObject, hsame]
  -- the object is rearranged
  have hitems : ((args.args.take args.args.length).drop 2).length = args.args.length - 2 := by
    simp
  have hcount : (if args.args.length > 2 then args.args.length - 2 else 0) =
      ((args.args.take args.args.length).drop 2).length := by
    rw [hitems]
    split_ifs <;> omega
  obtain ⟨r12, o12, hmove, hv12, ha12, hl12, he12⟩ := spliceMove_plain ops view hp O o.length
    actualStart deleteCount (ops.createMarker r8) ((args.args.take args.args.length).drop 2)
    r11 o (by rw [hv11, setObject_other _ _ _ _ (Ne.symm hne)]; exact ho) ha hlen hd
    (by rw [hitems]; exact hspace)
  obtain ⟨done13, r13, hput13, hv13⟩ := putNamed_length_plain ops view hp
    (ops.makeHandle r12 (HermesValue.encodeDoubleValue
      (o.length - deleteCount + ((args.args.take args.args.length).drop 2).length)))
    O o12 (o.length - deleteCount + ((args.args.take args.args.length).drop 2).length)
    (by rw [hp.makeHandle, hv12]; exact setObject_same _ _ _) (Or.inl ha12)
    (by rw [hitems]; exact hspace)
  refine ⟨r13, A, a9, o12.setLength (o.length - deleteCount + (args.args.length - 2)), ?_, hnew,
    ?_, ha9, hl9, ?_, ha12, rfl, ?_⟩
  · simp only [spliceFrom, hc, hr8, hcopy, hset, encodeNumberValue_natCast, hput11, hcount,
      hmove, hput13]
  · rw [hv13, hp.makeHandle, hv12, hv11, setObject_setObject, hitems]
  · intro j
    rw [he9 j]
    simp only [Nat.zero_le, true_and, Nat.zero_add, ArrayLike.emptyArray]
  · intro i
    have := he12 i
    rw [hitems] at this
    simpa [ArrayLike.setLength] using this

/-- The space test of `splice` passes when the new length is within `2^53 - 1`, but
for one boundary case: the sum `len + k` is above `2^53` and is rounded up. -/
theorem spliceOutOfSpace_false (len k d : Nat) (hd : d ≤ len) (hlen : len < 2 ^ 53)
    (hnew : len - d + k ≤ 2 ^ 53 - 1)
    (hround : ¬ (2 ^ 53 < len + k ∧ (len + k) % 4 = 3 ∧ len - d + k = 2 ^ 53 - 1)) :
    spliceOutOfSpace len k d = false := by
  simp only [spliceOutOfSpace, roundToDouble, Bool.or_eq_false_iff, decide_eq_false_iff_not]
  split_ifs <;> constructor <;> omega

/-- The space test of `splice` fires when the new length is above `2^53 - 1`, but for
one boundary case: the sum `len + k` is above `2^53` and is rounded down. -/
theorem spliceOutOfSpace_true (len k d : Nat) (hd : d ≤ len)
    (hnew : 2 ^ 53 - 1 < len - d + k)
    (hround : ¬ (2 ^ 53 < len + k ∧ (len + k) % 4 = 1 ∧ len - d + k = 2 ^ 53)) :
    spliceOutOfSpace len k d = true := by
  simp only [spliceOutOfSpace, roundToDouble, Bool.or_eq_true, decide_eq_true_eq]
  split_ifs <;> omega

/-- The rounding of the sum `len + k` in the space test of `splice`, at the two
boundary cases: with `len = 2^53 - 1`, `k = 4` and `d = 4` the new length is
`2^53 - 1` and the test fires; with `len = 2^53 - 1`, `k = 2` and `d = 1` the new
length is `2^53` and the test passes, as in the call with `-1, 1` and two items, which
returns the new array. -/
theorem spliceOutOfSpace_rounding :
    spliceOutOfSpace 9007199254740991 4 4 = true ∧
    spliceOutOfSpace 9007199254740991 2 1 = false ∧
    (arrayPrototypeSplice Layout.malloc64 heapOps
      (sampleHeap [] 9007199254740991)
      (callOnObject [HermesValue.encodeNumberValue (-1), HermesValue.encodeNumberValue 1,
        HermesValue.string 1, HermesValue.string 2])).1 =
      CallResult.value (HermesValue.object 1) := by
  refine ⟨by decide, by decide, by decide⟩

/-- C24, the claim as stated fails, at three inputs. On an array-like of length
`2^32`, `splice` with the one argument `0` is to delete `d = 2^32` elements, and
raises the range error "Out of memory for array elements." instead of returning an
array of length `d`. On an array-like of length `2^53 - 1`, with `0, 0` and one item,
it raises the type error "Array.prototype.splice result out of space" instead of
leaving the object with length `2^53`. On the same array-like, with `0, 4` and four
items (`d = 4`, `k = 4`, new length `2^53 - 1`), it raises the same type error: the
sum `len + k = 2^53 + 3` is formed as a double and rounded to `2^53 + 4`. -/
theorem splice_guards_counterexample :
    ((arrayPrototypeSplice Layout.malloc64 heapOps (sampleHeap [] 4294967296)
        (callOnObject [HermesValue.encodeNumberValue 0])).1 = CallResult.EXCEPTION ∧
      (arrayPrototypeSplice Layout.malloc64 heapOps (sampleHeap [] 4294967296)
        (callOnObject [HermesValue.encodeNumberValue 0])).2.thrown =
        some "Out of memory for array elements." ∧
      spliceActualDeleteCount 4294967296
        (relativeToAbsolute 4294967296 (IntegerOrInfinity.finite 0))
        1 (IntegerOrInfinity.finite 0) = 4294967296) ∧
    ((arrayPrototypeSplice Layout.malloc64 heapOps (sampleHeap [] 9007199254740991)
        (callOnObject [HermesValue.encodeNumberValue 0, HermesValue.encodeNumberValue 0,
          HermesValue.string 7])).1 = CallResult.EXCEPTION ∧
      (arrayPrototypeSplice Layout.malloc64 heapOps (sampleHeap [] 9007199254740991)
        (callOnObject [HermesValue.encodeNumberValue 0, HermesValue.encodeNumberValue 0,
          HermesValue.string 7])).2.thrown =
        some "Array.prototype.splice result out of space") ∧
    ((arrayPrototypeSplice Layout.malloc64 heapOps (sampleHeap [] 9007199254740991)
        (callOnObject [HermesValue.encodeNumberValue 0, HermesValue.encodeNumberValue 4,
          HermesValue.string 1, HermesValue.string 2, HermesValue.string 3,
          HermesValue.string 4])).1 = CallResult.EXCEPTION ∧
      (arrayPrototypeSplice Layout.malloc64 heapOps (sampleHeap [] 9007199254740991)
        (callOnObject [HermesValue.encodeNumberValue 0, HermesValue.encodeNumberValue 4,
          HermesValue.string 1, HermesValue.string 2, HermesValue.string 3,
          HermesValue.string 4])).2.thrown =
        some "Array.prototype.splice result out of space" ∧
      spliceActualDeleteCount 9007199254740991
        (relativeToAbsolute 9007199254740991 (IntegerOrInfinity.finite 0))
        6 (IntegerOrInfinity.finite 4) = 4 ∧
      4 ≤ maxElements Layout.malloc64 ∧
      9007199254740991 - 4 + (6 - 2) ≤ 2 ^ 53 - 1 ∧
      roundToDouble (9007199254740991 + (6 - 2)) = 2 ^ 53 + 4) := by
  refine ⟨⟨by decide, by decide, by decide⟩, ⟨by decide, by decide⟩,
    ⟨by decide, by decide, by decide, by decide, by decide, by decide⟩⟩

/-- C24, amended: for a plain array-like object with elements `e[0..len)` (each present
or a hole), `len < 2^53`, an integer start, and either no further argument or a
delete count followed by `k` items; with `actualStart` the clamped start and `d` the
actual delete count (0 with no arguments, `len - actualStart` with one,
`min(max(deleteCount, 0), len - actualStart)` otherwise):

* when `d <= maxElements()` and `len - d + k <= 2^53 - 1`, `arrayPrototypeSplice`
  returns a new array of length `d` that holds `e[actualStart .. actualStart + d)` in
  order with the holes preserved, and leaves the object with length `len - d + k` and
  contents `e[0..actualStart)`, then the `k` items, then `e[actualStart + d .. len)`;
  from the new length on, every index below `len` is without an element and every
  index from `len` on is as it was;
* when `len - d + k > 2^53 - 1`, it raises the type error
  "Array.prototype.splice result out of space" with the objects as they were;
* when `len - d + k <= 2^53 - 1` and `d > maxElements()`, it raises the range error
  "Out of memory for array elements." with the objects as they were.

Two boundary cases are left out, in which `len + k` is an odd number above `2^53`
that the double sum of the code rounds: `len - d + k = 2^53 - 1` with
`(len + k) mod 4 = 3`, and `len - d + k = 2^53` with `(len + k) mod 4 = 1`. -/
theorem splice_spec (L : Layout) (ops : ArrayOps R) (view : R → Nat → Option ArrayLike)
    (hp : ops.Plain view) (runtime : R) (args : NativeArgs) (O : Nat) (o : ArrayLike)
    (relativeStart deleteCount : IntegerOrInfinity) (actualStart d k : Nat)
    (hthis : args.thisArg = HermesValue.object O) (ho : view runtime O = some o)
    (ha : o.isArray = false) (hlen : o.length < 2 ^ 53)
    (hargs : args.args.length < UINT32)
    (hstart : ∀ r, (ops.toInteger r (args.getArg 0)).1 = CallResult.value relativeStart)
    (hdelete : 2 ≤ args.args.length →
      ∀ r, (ops.toInteger r (args.getArg 1)).1 = CallResult.value deleteCount)
    (hactual : actualStart = relativeToAbsolute o.length relativeStart)
    (hd : d = spliceActualDeleteCount o.length actualStart args.args.length deleteCount)
    (hk : k = args.args.length - 2) :
    (d ≤ maxElements L → o.length - d + k ≤ 2 ^ 53 - 1 →
      ¬ (2 ^ 53 < o.length + k ∧ (o.length + k) % 4 = 3 ∧ o.length - d + k = 2 ^ 53 - 1) →
      ∃ r A a1 o1,
        arrayPrototypeSplice L ops runtime args =
          (CallResult.value (HermesValue.object A), r) ∧
        view runtime A = none ∧
        view r = setObject (setObject (view runtime) A a1) O o1 ∧
        a1.isArray = true ∧ a1.length = d ∧
        (∀ j, j < d → a1.elems j = o.elems (actualStart + j)) ∧
        (∀ j, d ≤ j → a1.elems j = none) ∧
        o1.isArray = false ∧ o1.length = o.length - d + k ∧
        (∀ i, i < actualStart → o1.elems i = o.elems i) ∧
        (∀ i, i < k → o1.elems (actualStart + i) = (args.args.drop 2)[i]? ∧
          (o1.elems (actualStart + i)).isSome = true) ∧
        (∀ j, actualStart + d + j < o.length →
          o1.elems (actualStart + k + j) = o.elems (actualStart + d + j)) ∧
        (∀ i, o.length - d + k ≤ i →
          o1.elems i = if i < o.length then none else o.elems i) ∧
        ((∀ i, o.length ≤ i → o.elems i = none) →
          ∀ i, o.length - d + k ≤ i → o1.elems i = none)) ∧
    (2 ^ 53 - 1 < o.length - d + k →
      ¬ (2 ^ 53 < o.length + k ∧ (o.length + k) % 4 = 1 ∧ o.length - d + k = 2 ^ 53) →
      ∃ r, view r = view runtime ∧
        arrayPrototypeSplice L ops runtime args =
          (CallResult.EXCEPTION,
           ops.endGCScope
            (ops.raiseTypeError r "Array.prototype.splice result out of space"))) ∧
    (o.length - d + k ≤ 2 ^ 53 - 1 →
      ¬ (2 ^ 53 < o.length + k ∧ (o.length + k) % 4 = 3 ∧ o.length - d + k = 2 ^ 53 - 1) →
      maxElements L < d →
      ∃ r, view r = view runtime ∧
        arrayPrototypeSplice L ops runtime args =
          (CallResult.EXCEPTION,
           ops.endGCScope (ops.raiseRangeError r "Out of memory for array elements."))) := by
  obtain ⟨r4, hpre, hv4⟩ := (objectAndLength_plain ops view hp (ops.newGCScope runtime) args O o
    hthis (by rw [hp.newGCScope]; exact ho) hlen).1
  have h5 := hstart r4
  have hv5 := hp.toInteger r4 (args.getArg 0)
  rcases hc5 : ops.toInteger r4 (args.getArg 0) with ⟨res5, r5⟩
  rw [hc5] at h5 hv5
  simp only at h5 hv5
  subst h5
  have hle := relativeToAbsolute_le o.length relativeStart
  rw [← hactual] at hle
  obtain ⟨r6, hcounts, hv6⟩ := spliceCounts_plain ops view hp o.length actualStart
    args.args.length r5 args deleteCount hdelete
  rw [← hd, ← hk] at hcounts
  have hdle := spliceActualDeleteCount_le o.length actualStart args.args.length deleteCount
  rw [← hd] at hdle
  have hview6 : view r6 = view runtime := by
    rw [hv6, hv5, hv4, hp.newGCScope]
  refine ⟨?_, ?_, ?_⟩
  · intro hmax hspace hround
    have hguard := spliceOutOfSpace_false o.length k d (by omega) hlen hspace hround
    obtain ⟨r, A, a1, o1, hfrom, hnew, hv, ha1, hl1, he1, ho1, hlo1, heo1⟩ := spliceFrom_plain
      ops view hp O actualStart d r6 args o (by rw [hview6]; exact ho) ha hlen
      (by omega) (by omega)
    rw [← hk] at hlo1 heo1
    refine ⟨ops.endGCScope r, A, a1, o1, ?_, by rw [← hview6]; exact hnew,
      by rw [hp.endGCScope, hv, hview6], ha1, hl1, ?_, ?_, ho1, hlo1, ?_, ?_, ?_, ?_, ?_⟩
    · simp only [arrayPrototypeSplice, hpre, hc5, ← hactual, Nat.mod_eq_of_lt hargs, hcounts,
        hguard, Bool.false_eq_true, if_false, if_neg (not_lt.mpr hmax), hfrom]
    · intro j hj
      rw [he1 j, if_pos hj]
    · intro j hj
      rw [he1 j, if_neg (by omega)]
    · intro i hi
      rw [heo1 i, if_pos hi]
    · intro i hi
      have hget : o1.elems (actualStart + i) = (args.args.drop 2)[i]? := by
        rw [heo1 (actualStart + i), if_neg (by omega), if_pos (by omega)]
        congr 1
        omega
      refine ⟨hget, ?_⟩
      rw [hget, List.getElem?_eq_getElem (by simp; omega)]
      rfl
    · intro j hj
      rw [heo1 (actualStart + k + j), if_neg (by omega), if_neg (by omega), if_pos (by omega)]
      congr 1
      omega
    · intro i hi
      rw [heo1 i, if_neg (by omega), if_neg (by omega), if_neg (by omega)]
    · intro hnone i hi
      rw [heo1 i, if_neg (by omega), if_neg (by omega), if_neg (by omega)]
      split
      · rfl
      · exact hnone i (by omega)
  · intro hspace hround
    have hguard := spliceOutOfSpace_true o.length k d (by omega) hspace hround
    refine ⟨r6, hview6, ?_⟩
    simp only [arrayPrototypeSplice, hpre, hc5, ← hactual, Nat.mod_eq_of_lt hargs, hcounts,
      hguard, if_true]
  · intro hspace hround hmax
    have hguard := spliceOutOfSpace_false o.length k d (by omega) hlen hspace hround
    refine ⟨r6, hview6, ?_⟩
    simp only [arrayPrototypeSplice, hpre, hc5, ← hactual, Nat.mod_eq_of_lt hargs, hcounts,
      hguard, Bool.false_eq_true, if_false, gt_iff_lt, if_pos hmax]

theorem splice_spec_witness :
    (arrayPrototypeSplice Layout.malloc64 heapOps
      (sampleHeap [some (HermesValue.string 1), some (HermesValue.string 2), none,
        some (HermesValue.string 4), some (HermesValue.string 5)] 5)
      (callOnObject [HermesValue.encodeNumberValue 1, HermesValue.encodeNumberValue 2,
        HermesValue.string 9])).1 = CallResult.value (HermesValue.object 1) ∧
    (arrayPrototypeSplice Layout.malloc64 heapOps
      (sampleHeap [some (HermesValue.string 1), some (HermesValue.string 2), none,
        some (HermesValue.string 4), some (HermesValue.string 5)] 5)
      (callOnObject [HermesValue.encodeNumberValue 1, HermesValue.encodeNumberValue 2,
        HermesValue.string 9])).2.elements 1 3 =
      [some (HermesValue.string 2), none, none] ∧
    (arrayPrototypeSplice Layout.malloc64 heapOps
      (sampleHeap [some (HermesValue.string 1), some (HermesValue.string 2), none,
        some (HermesValue.string 4), some (HermesValue.string 5)] 5)
      (callOnObject [HermesValue.encodeNumberValue 1, HermesValue.encodeNumberValue 2,
        HermesValue.string 9])).2.lengthAt 1 = some 2 ∧
    (arrayPrototypeSplice Layout.malloc64 heapOps
      (sampleHeap [some (HermesValue.string 1), some (HermesValue.string 2), none,
        some (HermesValue.string 4), some (HermesValue.string 5)] 5)
      (callOnObject [HermesValue.encodeNumberValue 1, HermesValue.encodeNumberValue 2,
        HermesValue.string 9])).2.elements 0 6 =
      [some (HermesValue.string 1), some (HermesValue.string 9), some (HermesValue.string 4),
       some (HermesValue.string 5), none, none] ∧
    (arrayPrototypeSplice Layout.malloc64 heapOps
      (sampleHeap [some (HermesValue.string 1), some (HermesValue.string 2), none,
        some (HermesValue.string 4), some (HermesValue.string 5)] 5)
      (callOnObject [HermesValue.encodeNumberValue 1, HermesValue.encodeNumberValue 2,
        HermesValue.string 9])).2.lengthAt 0 = some 4 ∧
    (∃ r A a1 o1,
      arrayPrototypeSplice Layout.malloc64 heapOps
        (sampleHeap [some (HermesValue.string 1), some (HermesValue.string 2), none,
          some (HermesValue.string 4), some (HermesValue.string 5)] 5)
        (callOnObject [HermesValue.encodeNumberValue 1, HermesValue.encodeNumberValue 2,
          HermesValue.string 9]) = (CallResult.value (HermesValue.object A), r) ∧
      r.view A = some a1 ∧ a1.length = 2 ∧ a1.elems 0 = some (HermesValue.string 2) ∧
      a1.elems 1 = none ∧
      r.view 0 = some o1 ∧ o1.length = 4 ∧ o1.elems 1 = some (HermesValue.string 9) ∧
      o1.elems 2 = some (HermesValue.string 4) ∧ o1.elems 4 = none) ∧
    (∃ r, r.view = (sampleHeap [] 9007199254740991).view ∧
      arrayPrototypeSplice Layout.malloc64 heapOps (sampleHeap [] 9007199254740991)
        (callOnObject [HermesValue.encodeNumberValue 0, HermesValue.encodeNumberValue 0,
          HermesValue.string 7]) =
      (CallResult.EXCEPTION,
       heapOps.endGCScope
        (heapOps.raiseTypeError r "Array.prototype.splice result out of space"))) ∧
    (∃ r, r.view = (sampleHeap [] 4294967296).view ∧
      arrayPrototypeSplice Layout.malloc64 heapOps (sampleHeap [] 4294967296)
        (callOnObject [HermesValue.encodeNumberValue 0]) =
      (CallResult.EXCEPTION,
       heapOps.endGCScope (heapOps.raiseRangeError r "Out of memory for array elements."))) := by
  obtain ⟨r, A, a1, o1, hrun, hnew, hview, _, hl1, he1, _, _, hlo1, _, hitems, hrest, hend,
      _⟩ :=
    (splice_spec Layout.malloc64 heapOps ObjectHeap.view heapOps_plain
      (sampleHeap [some (HermesValue.string 1), some (HermesValue.string 2), none,
        some (HermesValue.string 4), some (HermesValue.string 5)] 5)
      (callOnObject [HermesValue.encodeNumberValue 1, HermesValue.encodeNumberValue 2,
        HermesValue.string 9]) 0
      (ObjectHeap.arrayLike (sampleObject [some (HermesValue.string 1),
        some (HermesValue.string 2), none, some (HermesValue.string 4),
        some (HermesValue.string 5)] 5))
      (IntegerOrInfinity.finite 1) (IntegerOrInfinity.finite 2) 1 2 1
      rfl rfl rfl (by decide) (by decide) (fun _ => rfl) (fun _ _ => rfl) (by decide)
      (by decide) rfl).1 (by decide) (by decide) (by decide)
  have hA : A ≠ 0 := by
    intro h
    rw [h] at hnew
    cases hnew
  refine ⟨by decide, by decide, by decide, by decide, by decide,
    ⟨r, A, a1, o1, hrun, ?_, hl1, ?_, ?_, ?_, hlo1, ?_, ?_, ?_⟩, ?_, ?_⟩
  · rw [hview, setObject_other _ _ _ _ hA]
    exact setObject_same _ _ _
  · rw [he1 0 (by decide)]
    decide
  · rw [he1 1 (by decide)]
    decide
  · rw [hview]
    exact setObject_same _ _ _
  · exact (hitems 0 (by decide)).1
  · rw [hrest 0 (by decide)]
    decide
  · rw [hend 4 (by decide)]
    decide
  · exact (splice_spec Layout.malloc64 heapOps ObjectHeap.view heapOps_plain
      (sampleHeap [] 9007199254740991)
      (callOnObject [HermesValue.encodeNumberValue 0, HermesValue.encodeNumberValue 0,
        HermesValue.string 7]) 0
      (ObjectHeap.arrayLike (sampleObject [] 9007199254740991))
      (IntegerOrInfinity.finite 0) (IntegerOrInfinity.finite 0) 0 0 1
      rfl rfl rfl (by decide) (by decide) (fun _ => rfl) (fun _ _ => rfl) (by decide)
      (by decide) rfl).2.1 (by decide) (by decide)
  · exact (splice_spec Layout.malloc64 heapOps ObjectHeap.view heapOps_plain
      (sampleHeap [] 4294967296) (callOnObject [HermesValue.encodeNumberValue 0]) 0
      (ObjectHeap.arrayLike (sampleObject [] 4294967296))
      (IntegerOrInfinity.finite 0) (IntegerOrInfinity.finite 0) 0 4294967296 0
      rfl rfl rfl (by decide) (by decide) (fun _ => rfl) (fun _ _ => rfl) (by decide)
      (by decide) rfl).2.2 (by decide) (by decide) (by decide)

end ArrayBuiltins

end Hermes
